import Mathlib

/-! # ddrescue: the rescue engine

A shallow embedding of `rescuebook.cc` and `io.cc`.

* Machine integers (`int`, `long long`) are embedded as `Int`.  Every position
  the engine computes is bounded by the end of the Sblock vector, so no
  arithmetic of the embedded code wraps; `LLONG_MAX` appears where the
  source names it.  The one `int` that the code doubles (`Fillbook::read_buffer`)
  has no result where the doubling would overflow.
* System calls are answered by an oracle: the `k`-th call made by the program
  receives `oracle k`.  Every call is recorded in a trace, together with two
  ghost events (entry of `copy_block`, start of a pass) that let theorems speak
  about which work was performed.
* Loops that the source does not bound (`while( sz < size )`, `while( pos >= 0 )`,
  `while( true )`) take a fuel argument and return `none` when it runs out.
* The engine is embedded as it runs with the status display off (`verbosity < 0`):
  the display code (`show_status`, `printf`, `first_post`, `read_logger`), which the
  source runs only when `verbosity >= 0`, is left out.  `show_status` is not part of
  the sources at hand; the section on the engine with its status display adds the
  calls of `show_status`, with `show_status` as a parameter.
* `block.h`, `ddrescue.h` and `logbook.cc` are not part of the sources at hand;
  what the engine uses from them is modelled from the specification and marked
  as such.
-/

namespace Ddrescue

/-! ## Data model -/

/-- Modelled from the spec: `LLONG_MAX` of `<climits>`, the largest 64-bit signed integer. -/
def LLONG_MAX : Int := 9223372036854775807

/-- Modelled from the spec: `EINTR` of `<cerrno>` (its Linux value). -/
def EINTR : Int := 4

/-- Modelled from the spec: `EINVAL` of `<cerrno>` (its Linux value). -/
def EINVAL : Int := 22

/-- Modelled from the spec: `Sblock::Status`, the recovery status of a region (spec section 3). -/
inductive Status where
  | non_tried
  | non_trimmed
  | non_split
  | bad_sector
  | finished
  deriving DecidableEq, Repr

/-- Modelled from the spec: `Logbook::Status`, the status part of the cursor (spec section 3). -/
inductive LStatus where
  | copying
  | trimming
  | splitting
  | retrying
  | generating
  | finished
  deriving DecidableEq, Repr

/-- Modelled from the spec: `Block`, the half-open interval `[pos, pos+size)` (spec section 3). -/
structure Block where
  pos : Int
  size : Int
  deriving DecidableEq, Repr

/-- Modelled from the spec: `Block::end`, the exclusive end `pos + size`. -/
def Block.end_ (b : Block) : Int := b.pos + b.size

/-- Modelled from the spec: `Block::includes( const Block & )`, containment `a ⊇ b` (spec 4.A). -/
def Block.includes (a b : Block) : Bool :=
  decide (a.pos ≤ b.pos) && decide (b.end_ ≤ a.end_)

/-- Modelled from the spec: `Block::includes( long long )`, membership of a position. -/
def Block.includes_pos (a : Block) (p : Int) : Bool :=
  decide (a.pos ≤ p) && decide (p < a.end_)

/-- Modelled from the spec: `Block::fix_size`, which clamps the size so that
`pos + size ≤ INT64_MAX` (spec 4.A). -/
def Block.fix_size (b : Block) : Block :=
  if b.size < 0 ∨ b.size > LLONG_MAX - b.pos then ⟨b.pos, LLONG_MAX - b.pos⟩ else b

/-- Modelled from the spec: `Sblock`, a Block tagged with a status (spec section 3). -/
structure Sblock where
  pos : Int
  size : Int
  status : Status
  deriving DecidableEq, Repr

/-- The Block part of an Sblock. -/
def Sblock.block (sb : Sblock) : Block := ⟨sb.pos, sb.size⟩

/-- Modelled from the spec: `Sblock::end`. -/
def Sblock.end_ (sb : Sblock) : Int := sb.pos + sb.size

/-- Modelled from the spec: `Domain`, an ordered set of extents restricting the interval
space the engine may touch (spec sections 2.C and 3). -/
structure Domain where
  blocks : List Block
  deriving DecidableEq, Repr

/-- Modelled from the spec: `Domain::includes( const Block & )`: some extent of the domain
contains the block. -/
def Domain.includes (d : Domain) (b : Block) : Bool :=
  d.blocks.any (fun x => x.includes b)

/-- Modelled from the spec: `Domain::includes( long long )`: some extent of the domain
contains the position. -/
def Domain.includes_pos (d : Domain) (p : Int) : Bool :=
  d.blocks.any (fun x => x.includes_pos p)

/-- Modelled from the spec: `Domain::end`, the end of the last extent (0 for an empty domain). -/
def Domain.end_ (d : Domain) : Int :=
  match d.blocks.getLast? with
  | some x => x.end_
  | none => 0

/-- Modelled from the spec: `domain() < sb`, the strict ordering `a < b ⇔ a.end ≤ b.pos`
(spec 4.A) applied to the extent of the domain. -/
def Domain.lt (d : Domain) (b : Block) : Bool := decide (d.end_ ≤ b.pos)

/-! ## Sblock vector (spec 4.D) -/

/-- Status of the byte at position `p`: the status of the first Sblock that contains it. -/
def statusAt : List Sblock → Int → Option Status
  | [], _ => none
  | sb :: r, p => if sb.pos ≤ p ∧ p < sb.end_ then some sb.status else statusAt r p

/-- Modelled from the spec: `find_index(pos)`, the index of the Sblock containing `pos`,
`-1` if outside (spec 4.D). -/
def find_index : List Sblock → Int → Int
  | [], _ => -1
  | sb :: r, p =>
    if sb.pos ≤ p ∧ p < sb.end_ then 0
    else
      let i := find_index r p
      if i < 0 then -1 else i + 1

/-- Modelled from the spec: `sblock( index )`, the entry at an index of the vector. -/
def sblock (v : List Sblock) (index : Int) : Option Sblock :=
  if index < 0 then none else v[index.toNat]?

/-- Modelled from the spec: `find_chunk(b, status)` (spec 4.D): shrink `b` to the first
sub-interval at or after `b.pos` that lies in the first Sblock with that status which is
included in the domain; size 0 if there is none.  The result is never larger than `b`. -/
def find_chunk (v : List Sblock) (dom : Domain) (b : Block) (st : Status) : Block :=
  match v.find? (fun sb => decide (sb.status = st) && dom.includes sb.block &&
      decide (b.pos < sb.end_)) with
  | none => ⟨b.pos, 0⟩
  | some sb =>
    let p := max b.pos sb.pos
    ⟨p, min b.size (sb.end_ - p)⟩

/-- Modelled from the spec: `rfind_chunk(b, status)` (spec 4.D), the symmetric backward scan:
the last Sblock with that status at or before `b.end`. -/
def rfind_chunk (v : List Sblock) (dom : Domain) (b : Block) (st : Status) : Block :=
  match v.reverse.find? (fun sb => decide (sb.status = st) && dom.includes sb.block &&
      decide (sb.pos < b.end_)) with
  | none => ⟨b.pos, 0⟩
  | some sb =>
    let e := min b.end_ sb.end_
    let p := max (e - b.size) sb.pos
    ⟨p, e - p⟩

/-- The pieces an Sblock is split into when the status of chunk `b` becomes `st`: the part
before the chunk, the part inside it (with the new status) and the part after it. -/
def Sblock.change (b : Block) (st : Status) (sb : Sblock) : List Sblock :=
  let i0 := max sb.pos b.pos
  let i1 := min sb.end_ b.end_
  if i0 < i1 then
    (if sb.pos < i0 then [⟨sb.pos, i0 - sb.pos, sb.status⟩] else []) ++
    (⟨i0, i1 - i0, st⟩ :: (if i1 < sb.end_ then [⟨i1, sb.end_ - i1, sb.status⟩] else []))
  else [sb]

/-- Splitting of every Sblock of the vector at the borders of chunk `b`. -/
def change_pieces (b : Block) (st : Status) : List Sblock → List Sblock
  | [] => []
  | sb :: r => sb.change b st ++ change_pieces b st r

/-- Merging of like-status neighbours that meet at a position inside the closed range of the
changed chunk `b`. -/
def merge_from (b : Block) (x : Sblock) : List Sblock → List Sblock
  | [] => [x]
  | y :: r =>
    if x.status = y.status ∧ x.end_ = y.pos ∧ b.pos ≤ y.pos ∧ y.pos ≤ b.end_ then
      merge_from b ⟨x.pos, x.size + y.size, x.status⟩ r
    else x :: merge_from b y r

/-- Modelled from the spec: `change_chunk_status(block, new_status)` (spec 4.D): replace the
status of `block`, splitting existing Sblocks at `block.pos` and `block.end` as needed, then
merging with any like-status neighbours.  An empty block changes nothing. -/
def change_chunk_status (v : List Sblock) (b : Block) (st : Status) : List Sblock :=
  if b.size ≤ 0 then v
  else
    match change_pieces b st v with
    | [] => []
    | x :: r => merge_from b x r

/-- Modelled from the spec: `truncate_vector(end)` (spec 4.D): drop all content at or past
`end`. -/
def truncate_vector : List Sblock → Int → List Sblock
  | [], _ => []
  | sb :: r, e =>
    if e ≤ sb.pos then truncate_vector r e
    else if e < sb.end_ then ⟨sb.pos, e - sb.pos, sb.status⟩ :: truncate_vector r e
    else sb :: truncate_vector r e

/-- Merging of every pair of like-status neighbours. -/
def compact_from (x : Sblock) : List Sblock → List Sblock
  | [] => [x]
  | y :: r =>
    if x.status = y.status ∧ x.end_ = y.pos then compact_from ⟨x.pos, x.size + y.size, x.status⟩ r
    else x :: compact_from y r

/-- Modelled from the spec: `compact_sblock_vector()` (spec 4.D): collapse redundant splits. -/
def compact_sblock_vector : List Sblock → List Sblock
  | [] => []
  | x :: r => compact_from x r

/-- Modelled from the spec: `change_sblock_status( index, st )`: set the status of the Sblock
at an index. -/
def change_sblock_status : List Sblock → Nat → Status → List Sblock
  | [], _, _ => []
  | sb :: r, 0, st => ⟨sb.pos, sb.size, st⟩ :: r
  | sb :: r, i + 1, st => sb :: change_sblock_status r i st

/-! ## The environment: system calls answered by an oracle -/

/-- Answer of the environment to one system call: the value returned, the `errno` it sets
when the call fails, and (for `read`) the bytes delivered. -/
structure SysResult where
  ret : Int
  err : Int
  data : List Nat

/-- Calls recorded in the trace.  `copy_block` and `pass` are ghost events marking the entry
of `Rescuebook::copy_block` and the start of a pass. -/
inductive Event where
  | lseek (fd pos : Int)
  | lseek_end (fd : Int)
  | read (fd count : Int)
  | write (fd count : Int)
  | fsync (fd : Int)
  | access
  | logfile
  | copy_block (b : Block)
  | pass (p : LStatus)
  deriving DecidableEq, Repr

/-- State of the environment: the oracle, the number of system calls made so far, `errno`,
the signal flag `signum_` of `io.cc`, and the trace (newest event first). -/
structure World where
  oracle : Nat → SysResult
  clock : Nat
  errno : Int
  signum_ : Int
  trace : List Event

/-- One system call: take the next answer of the oracle and record the call. -/
def World.sys (w : World) (e : Event) : SysResult × World :=
  (w.oracle w.clock, { w with clock := w.clock + 1, trace := e :: w.trace })

/-- A ghost event: recorded in the trace, no system call. -/
def World.note (w : World) (e : Event) : World :=
  { w with trace := e :: w.trace }

/-- The call `lseek( fd, pos, SEEK_SET )`: a negative answer is a failure and sets `errno`. -/
def sys_lseek (w : World) (fd pos : Int) : Int × World :=
  let (r, w1) := w.sys (.lseek fd pos)
  if r.ret < 0 then (-1, { w1 with errno := r.err }) else (r.ret, w1)

/-- The call `read( fd, buf, count )`: a negative answer is a failure and sets `errno`;
otherwise at most `count` bytes are delivered. -/
def sys_read (w : World) (fd count : Int) : Int × List Nat × World :=
  let (r, w1) := w.sys (.read fd count)
  if r.ret < 0 then (-1, [], { w1 with errno := r.err }) else (min r.ret count, r.data, w1)

/-- The call `write( fd, buf, count )`: a negative answer is a failure and sets `errno`;
otherwise at most `count` bytes are accepted. -/
def sys_write (w : World) (fd count : Int) : Int × World :=
  let (r, w1) := w.sys (.write fd count)
  if r.ret < 0 then (-1, { w1 with errno := r.err }) else (min r.ret count, w1)

/-- The call `fsync( fd )`. -/
def sys_fsync (w : World) (fd : Int) : Int × World :=
  let (r, w1) := w.sys (.fsync fd)
  if r.ret < 0 then (-1, { w1 with errno := r.err }) else (0, w1)

/-- The call `access( iname_, F_OK )`. -/
def sys_access (w : World) : Int × World :=
  let (r, w1) := w.sys .access
  if r.ret < 0 then (-1, { w1 with errno := r.err }) else (0, w1)

/-- The function `interrupted` of `io.cc`: `signum_ > 0`. -/
def interrupted (w : World) : Bool := decide (w.signum_ > 0)

/-- The function `set_signals` of `io.cc`, as far as the flag goes: `signum_ = 0`. -/
def set_signals (w : World) : World := { w with signum_ := 0 }

/-! ## I/O primitives (`io.cc`) -/

/-- Store of `n` bytes delivered by a read into the buffer at offset `off`. -/
def buf_store (buf : List Nat) (off n : Nat) (data : List Nat) : List Nat :=
  buf.take off ++ (List.range n).map (fun i => data.getD i 0) ++ buf.drop (off + n)

/-- The function `block_is_zero` of `io.cc`: the first `size` bytes of the buffer are zero. -/
def block_is_zero (buf : List Nat) (size : Int) : Bool :=
  (buf.take size.toNat).all (fun x => decide (x = 0))

/-- The loop `while( sz < size )` of `readblock`. -/
def readblock_loop : Nat → World → Int → List Nat → Int → Int → Option (Int × List Nat × World)
  | 0, _, _, _, _, _ => none
  | fuel + 1, w, fd, buf, size, sz =>
    if sz < size then
      let w0 := { w with errno := 0 }
      match sys_read w0 fd (size - sz) with
      | (n, data, w1) =>
        if n > 0 then readblock_loop fuel w1 fd (buf_store buf sz.toNat n.toNat data) size (sz + n)
        else if n = 0 then some (sz, buf, w1)
        else if w1.errno ≠ EINTR then some (sz, buf, w1)
        else readblock_loop fuel w1 fd buf size sz
    else some (sz, buf, w)

/-- The function `readblock` of `io.cc`: the number of bytes really read, the buffer and the
environment (whose `errno` tells EOF from error). -/
def readblock (fuel : Nat) (w : World) (fd : Int) (buf : List Nat) (size pos : Int) :
    Option (Int × List Nat × World) :=
  let w0 := { w with errno := 0 }
  match sys_lseek w0 fd pos with
  | (r, w1) => if r ≥ 0 then readblock_loop fuel w1 fd buf size 0 else some (0, buf, w1)

/-- The loop `while( sz < size )` of `writeblock`. -/
def writeblock_loop : Nat → World → Int → Int → Int → Option (Int × World)
  | 0, _, _, _, _ => none
  | fuel + 1, w, fd, size, sz =>
    if sz < size then
      let w0 := { w with errno := 0 }
      match sys_write w0 fd (size - sz) with
      | (n, w1) =>
        if n > 0 then writeblock_loop fuel w1 fd size (sz + n)
        else if n < 0 ∧ w1.errno ≠ EINTR then some (sz, w1)
        else writeblock_loop fuel w1 fd size sz
    else some (sz, w)

/-- The function `writeblock` of `io.cc`: the number of bytes really written. -/
def writeblock (fuel : Nat) (w : World) (fd : Int) (size pos : Int) : Option (Int × World) :=
  let w0 := { w with errno := 0 }
  match sys_lseek w0 fd pos with
  | (r, w1) => if r ≥ 0 then writeblock_loop fuel w1 fd size 0 else some (0, w1)

/-! ## The rescue engine state -/

/-- State of a `Rescuebook`: the members of `Logbook` and `Rescuebook` the engine uses, and
the environment. -/
structure Rescuebook where
  sblock_vector : List Sblock
  domain : Domain
  current_status : LStatus
  current_pos : Int
  hardbs : Int
  softbs : Int
  offset : Int
  iobuf : List Nat
  final_msg : Option String
  final_errno : Int
  recsize : Int
  errsize : Int
  errors : Int
  ides_ : Int
  odes_ : Int
  sparse_size : Int
  iname_ : Bool
  max_errors_ : Int
  max_retries_ : Int
  skipbs_ : Int
  nosplit_ : Bool
  sparse_ : Bool
  synchronous_ : Bool
  iobuf_ipos : Int
  min_outfile_size : Int
  test_domain : Option Domain
  world : World

/-- Modelled from the spec: `too_many_errors` (spec 4.G): `max_errors ≥ 0 ∧ errors > max_errors`. -/
def too_many_errors (rb : Rescuebook) : Bool :=
  decide (rb.max_errors_ ≥ 0) && decide (rb.errors > rb.max_errors_)

/-- Modelled from the spec: `update_logfile`, the durable snapshot of vector and cursor; the
environment decides whether it succeeds. -/
def update_logfile (rb : Rescuebook) : Bool × Rescuebook :=
  match rb.world.sys .logfile with
  | (r, w) => (decide (0 ≤ r.ret), { rb with world := w })

/-- The loop body of `Rescuebook::count_errors`, run over the rest of the vector with the
current values of `good` and `errors`. -/
def count_errors_loop (dom : Domain) : List Sblock → Bool → Int → Int
  | [], _, errors => errors
  | sb :: r, good, errors =>
    if !dom.includes sb.block then
      if dom.lt sb.block then errors else count_errors_loop dom r good errors
    else
      match sb.status with
      | .non_tried => count_errors_loop dom r true errors
      | .finished => count_errors_loop dom r true errors
      | _ => if good then count_errors_loop dom r false (errors + 1)
             else count_errors_loop dom r good errors

/-- The function `Rescuebook::count_errors` of `rescuebook.cc`. -/
def count_errors (rb : Rescuebook) : Rescuebook :=
  { rb with errors := count_errors_loop rb.domain rb.sblock_vector true 0 }

/-- Lines 198-203 of `Rescuebook::copy_block`: the read of the block, or its exclusion by the
test domain.  Result: `copied_size`, `error_size`, new state. -/
def copy_block_read (fuel : Nat) (rb : Rescuebook) (b : Block) : Option (Int × Int × Rescuebook) :=
  if rb.test_domain.all (fun td => td.includes b) then
    match readblock fuel rb.world rb.ides_ rb.iobuf b.size b.pos with
    | none => none
    | some (copied_size, buf, w) =>
      some (copied_size, if w.errno ≠ 0 then b.size - copied_size else 0,
            { rb with iobuf := buf, world := w })
  else some (0, b.size, rb)

/-- Lines 205-224 of `Rescuebook::copy_block`: the write of the copied bytes, honouring the
test `sparse_size >= 0`.  Result: return value, `copied_size`, `error_size`, new state. -/
def copy_block_write (fuel : Nat) (rb : Rescuebook) (b : Block) (copied_size error_size : Int) :
    Option (Int × Int × Int × Rescuebook) :=
  if copied_size > 0 then
    let rb1 : Rescuebook := { rb with iobuf_ipos := b.pos }
    let pos : Int := b.pos + rb1.offset
    if rb1.sparse_size ≥ 0 ∧ block_is_zero rb1.iobuf copied_size = true then
      let end_ : Int := pos + copied_size
      some (0, copied_size, error_size,
            { rb1 with sparse_size := if end_ > rb1.sparse_size then end_ else rb1.sparse_size })
    else
      match writeblock fuel rb1.world rb1.odes_ copied_size pos with
      | none => none
      | some (wsz, w1) =>
        if wsz ≠ copied_size then
          some (1, 0, 0, { rb1 with world := w1, final_msg := some "Write error",
                                    final_errno := w1.errno })
        else if rb1.synchronous_ = true then
          match sys_fsync w1 rb1.odes_ with
          | (r, w2) =>
            if r < 0 ∧ w2.errno ≠ EINVAL then
              some (1, 0, 0, { rb1 with world := w2, final_msg := some "Write error",
                                        final_errno := w2.errno })
            else some (0, copied_size, error_size, { rb1 with world := w2 })
        else some (0, copied_size, error_size, { rb1 with world := w1 })
  else some (0, copied_size, error_size, { rb with iobuf_ipos := -1 })

/-- The function `Rescuebook::copy_block` of `io.cc`.  Result: return value (1 write error,
0 OK), `copied_size`, `error_size`, new state.  A block of size `≤ 0` is an internal error,
which aborts the program: no result. -/
def copy_block (fuel : Nat) (rb : Rescuebook) (b : Block) : Option (Int × Int × Int × Rescuebook) :=
  if b.size ≤ 0 then none
  else
    match copy_block_read fuel { rb with world := rb.world.note (.copy_block b) } b with
    | none => none
    | some (copied_size, error_size, rb1) => copy_block_write fuel rb1 b copied_size error_size

/-- The function `Rescuebook::copy_and_update` of `rescuebook.cc`.  Result: return value,
`copied_size`, `error_size`, new state. -/
def copy_and_update (fuel : Nat) (rb : Rescuebook) (b : Block) (st : Status) :
    Option (Int × Int × Int × Rescuebook) :=
  match copy_block fuel rb b with
  | none => none
  | some (retval, copied_size, error_size, rb1) =>
    if retval = 0 then
      let v2 :=
        if copied_size + error_size < b.size then
          truncate_vector rb1.sblock_vector (b.pos + copied_size + error_size)
        else rb1.sblock_vector
      let v3 :=
        if copied_size > 0 then change_chunk_status v2 ⟨b.pos, copied_size⟩ .finished else v2
      let rb3 : Rescuebook :=
        { rb1 with sblock_vector := v3,
                   recsize := if copied_size > 0 then rb1.recsize + copied_size
                              else rb1.recsize }
      if error_size > 0 then
        let v4 :=
          if error_size ≥ rb3.hardbs ∧ st ≠ .bad_sector then
            let b1 : Block := ⟨b.pos + copied_size, rb3.hardbs⟩
            let b2 : Block := ⟨b1.end_, error_size - b1.size⟩
            change_chunk_status (change_chunk_status v3 b1 .bad_sector) b2 st
          else change_chunk_status v3 ⟨b.pos + copied_size, error_size⟩ st
        let rb4 : Rescuebook := { rb3 with sblock_vector := v4 }
        let rb5 : Rescuebook :=
          { rb4 with errors := if rb4.max_errors_ ≥ 0 then (count_errors rb4).errors
                               else rb4.errors }
        if rb5.iname_ = true then
          match sys_access rb5.world with
          | (r, w) =>
            if r ≠ 0 then
              some (1, copied_size, error_size,
                    { rb5 with world := w, final_msg := some "input file disappeared",
                               final_errno := w.errno })
            else some (0, copied_size, error_size, { rb5 with world := w })
        else some (0, copied_size, error_size, rb5)
      else some (0, copied_size, error_size, rb3)
    else some (retval, copied_size, error_size, rb1)

/-! ## The four passes (`rescuebook.cc`) -/

/-- One work unit of `Rescuebook::copy_non_tried` (lines 144-161): the copy of chunk `b` and
the stamping of the skipped region.  `pos` is `b.end()`.  Result: return value of
`copy_and_update`, new state, new `pos`, new `skip_size`. -/
def copy_non_tried_unit (fuel : Nat) (rb : Rescuebook) (b : Block) (pos skip_size : Int) :
    Option (Int × Rescuebook × Int × Int) :=
  let rb0 := { rb with current_status := .copying }
  match copy_and_update fuel rb0 b (if skip_size ≠ 0 then .bad_sector else .non_trimmed) with
  | none => none
  | some (retval, copied_size, error_size, rb1) =>
    if error_size > 0 then
      let rb2 := { rb1 with errsize := rb1.errsize + error_size }
      let skip1 :=
        if skip_size < rb2.skipbs_ then rb2.skipbs_
        else if skip_size < LLONG_MAX / 4 then skip_size * 2 else skip_size
      let b1 := find_chunk rb2.sblock_vector rb2.domain (Block.fix_size ⟨pos, skip1⟩) .non_tried
      if pos = b1.pos ∧ b1.size > 0 then
        some (retval,
              { rb2 with sblock_vector := change_chunk_status rb2.sblock_vector b1 .non_trimmed,
                         errsize := rb2.errsize + b1.size },
              b1.end_, skip1)
      else some (retval, rb2, pos, skip1)
    else if skip_size > 0 ∧ copied_size > 0 then
      some (retval, rb1, pos, if skip_size - copied_size < 0 then 0 else skip_size - copied_size)
    else some (retval, rb1, pos, skip_size)

/-- The loop `while( pos >= 0 )` of `Rescuebook::copy_non_tried`. -/
def copy_non_tried_loop : Nat → Rescuebook → Int → Int → Option (Int × Rescuebook)
  | 0, _, _, _ => none
  | fuel + 1, rb, pos, skip_size =>
    if pos ≥ 0 then
      let b := find_chunk rb.sblock_vector rb.domain
                 ⟨pos, if skip_size ≠ 0 then rb.hardbs else rb.softbs⟩ .non_tried
      let skip0 := if pos ≠ b.pos then 0 else skip_size
      if b.end_ < 0 ∨ b.size ≤ 0 then some (0, rb)
      else
        match copy_non_tried_unit fuel rb b b.end_ skip0 with
        | none => none
        | some (retval, rb1, pos1, skip1) =>
          if retval ≠ 0 ∨ too_many_errors rb1 = true then some (retval, rb1)
          else
            match update_logfile rb1 with
            | (false, rb2) => some (-2, rb2)
            | (true, rb2) => copy_non_tried_loop fuel rb2 pos1 skip1
    else some (0, rb)

/-- The function `Rescuebook::copy_non_tried` of `rescuebook.cc`. -/
def copy_non_tried (fuel : Nat) (rb : Rescuebook) : Option (Int × Rescuebook) :=
  copy_non_tried_loop fuel { rb with world := rb.world.note (.pass .copying) } 0 rb.hardbs

/-- One work unit of `Rescuebook::trim_errors` (lines 183-195): the copy of chunk `b` and the
promotion of the preceding Sblock.  Result: return value of `copy_and_update`, new state. -/
def trim_errors_unit (fuel : Nat) (rb : Rescuebook) (b : Block) : Option (Int × Rescuebook) :=
  let rb0 := { rb with current_status := .trimming }
  match copy_and_update fuel rb0 b .bad_sector with
  | none => none
  | some (retval, copied_size, error_size, rb1) =>
    let rb2 : Rescuebook :=
      { rb1 with errsize := if copied_size > 0 then rb1.errsize - copied_size
                            else rb1.errsize }
    if error_size > 0 ∧ b.pos > 0 then
      let index := find_index rb2.sblock_vector (b.pos - 1)
      match sblock rb2.sblock_vector index with
      | none => some (retval, rb2)
      | some sb =>
        if index ≥ 0 ∧ rb2.domain.includes sb.block = true ∧ sb.status = .non_trimmed then
          some (retval, { rb2 with sblock_vector :=
                            change_chunk_status rb2.sblock_vector sb.block .non_split })
        else some (retval, rb2)
    else some (retval, rb2)

/-- The loop `while( pos >= 0 )` of `Rescuebook::trim_errors`. -/
def trim_errors_loop : Nat → Rescuebook → Int → Option (Int × Rescuebook)
  | 0, _, _ => none
  | fuel + 1, rb, pos =>
    if pos ≥ 0 then
      let b := rfind_chunk rb.sblock_vector rb.domain ⟨pos, rb.hardbs⟩ .non_trimmed
      if b.size ≤ 0 then some (0, rb)
      else
        match trim_errors_unit fuel rb b with
        | none => none
        | some (retval, rb1) =>
          if retval ≠ 0 ∨ too_many_errors rb1 = true then some (retval, rb1)
          else
            match update_logfile rb1 with
            | (false, rb2) => some (-2, rb2)
            | (true, rb2) => trim_errors_loop fuel rb2 (b.pos - rb.hardbs)
    else some (0, rb)

/-- The function `Rescuebook::trim_errors` of `rescuebook.cc`. -/
def trim_errors (fuel : Nat) (rb : Rescuebook) : Option (Int × Rescuebook) :=
  trim_errors_loop fuel { rb with world := rb.world.note (.pass .trimming) }
    (LLONG_MAX - rb.hardbs)

/-- One work unit of `Rescuebook::split_errors` (lines 225-242): the copy of chunk `b` and the
adaptive jump.  `pos` is `b.end()`.  Result: return value of `copy_and_update`, new state,
new `pos`, new `error_counter`. -/
def split_errors_unit (fuel : Nat) (rb : Rescuebook) (b : Block) (pos error_counter : Int) :
    Option (Int × Rescuebook × Int × Int) :=
  let rb0 := { rb with current_status := .splitting }
  match copy_and_update fuel rb0 b .bad_sector with
  | none => none
  | some (retval, copied_size, error_size, rb1) =>
    let rb2 : Rescuebook :=
      { rb1 with errsize := if copied_size > 0 then rb1.errsize - copied_size
                            else rb1.errsize }
    if error_size ≤ 0 then some (retval, rb2, pos, 0)
    else if error_counter + 1 ≥ 2 ∧ (error_counter + 1) * rb2.hardbs ≥ 2 * rb2.skipbs_ then
      let index := find_index rb2.sblock_vector pos
      match sblock rb2.sblock_vector index with
      | none => some (retval, rb2, pos, 0)
      | some sb =>
        if index ≥ 0 ∧ sb.status = .non_split then
          if sb.size ≥ 2 * rb2.skipbs_ ∧ sb.size ≥ 4 * rb2.hardbs then
            some (retval, rb2, pos + (Int.tdiv sb.size (2 * rb2.hardbs)) * rb2.hardbs, 0)
          else some (retval, rb2, pos, 0)
        else some (retval, rb2, pos, 0)
    else some (retval, rb2, pos, error_counter + 1)

/-- The inner loop `while( pos >= 0 )` of `Rescuebook::split_errors`, one forward sweep.
Result: `some r` if the function returns `r` from inside the loop, `none` if the loop ends;
the value of `block_found`; the new state. -/
def split_errors_sweep : Nat → Rescuebook → Int → Int → Bool →
    Option (Option Int × Bool × Rescuebook)
  | 0, _, _, _, _ => none
  | fuel + 1, rb, pos, error_counter, block_found =>
    if pos ≥ 0 then
      let b := find_chunk rb.sblock_vector rb.domain ⟨pos, rb.hardbs⟩ .non_split
      if b.size ≤ 0 then some (none, block_found, rb)
      else
        match split_errors_unit fuel rb b b.end_ error_counter with
        | none => none
        | some (retval, rb1, pos1, ec1) =>
          if retval ≠ 0 ∨ too_many_errors rb1 = true then some (some retval, true, rb1)
          else
            match update_logfile rb1 with
            | (false, rb2) => some (some (-2), true, rb2)
            | (true, rb2) => split_errors_sweep fuel rb2 pos1 ec1 true
    else some (none, block_found, rb)

/-- The outer loop `while( true )` of `Rescuebook::split_errors`. -/
def split_errors_outer : Nat → Rescuebook → Bool → Option (Int × Rescuebook)
  | 0, _, _ => none
  | fuel + 1, rb, resume =>
    match split_errors_sweep fuel rb (if resume = true then rb.current_pos else 0) 0 false with
    | none => none
    | some (some r, _, rb1) => some (r, rb1)
    | some (none, block_found, rb1) =>
      if block_found = false then some (0, rb1) else split_errors_outer fuel rb1 false

/-- The function `Rescuebook::split_errors` of `rescuebook.cc`. -/
def split_errors (fuel : Nat) (rb : Rescuebook) : Option (Int × Rescuebook) :=
  split_errors_outer fuel { rb with world := rb.world.note (.pass .splitting) }
    (decide (rb.current_status = .splitting) && rb.domain.includes_pos rb.current_pos)

/-- One work unit of `Rescuebook::copy_errors` (lines 276-280).  Result: return value of
`copy_and_update`, new state. -/
def copy_errors_unit (fuel : Nat) (rb : Rescuebook) (b : Block) : Option (Int × Rescuebook) :=
  let rb0 := { rb with current_status := .retrying }
  match copy_and_update fuel rb0 b .bad_sector with
  | none => none
  | some (retval, copied_size, _, rb1) =>
    some (retval, { rb1 with errsize := if copied_size > 0 then rb1.errsize - copied_size
                                        else rb1.errsize })

/-- The inner loop `while( pos >= 0 )` of `Rescuebook::copy_errors`, one forward sweep.
Result as for `split_errors_sweep`. -/
def copy_errors_sweep : Nat → Rescuebook → Int → Bool → Option (Option Int × Bool × Rescuebook)
  | 0, _, _, _ => none
  | fuel + 1, rb, pos, block_found =>
    if pos ≥ 0 then
      let b := find_chunk rb.sblock_vector rb.domain ⟨pos, rb.hardbs⟩ .bad_sector
      if b.size ≤ 0 then some (none, block_found, rb)
      else
        match copy_errors_unit fuel rb b with
        | none => none
        | some (retval, rb1) =>
          if retval ≠ 0 ∨ too_many_errors rb1 = true then some (some retval, true, rb1)
          else
            match update_logfile rb1 with
            | (false, rb2) => some (some (-2), true, rb2)
            | (true, rb2) => copy_errors_sweep fuel rb2 b.end_ true
    else some (none, block_found, rb)

/-- The loop `for( retry = 1; max_retries_ < 0 || retry <= max_retries_; ++retry )` of
`Rescuebook::copy_errors`. -/
def copy_errors_retries : Nat → Rescuebook → Int → Bool → Option (Int × Rescuebook)
  | 0, _, _, _ => none
  | fuel + 1, rb, retry, resume =>
    if rb.max_retries_ < 0 ∨ retry ≤ rb.max_retries_ then
      match copy_errors_sweep fuel rb (if resume = true then rb.current_pos else 0) false with
      | none => none
      | some (some r, _, rb1) => some (r, rb1)
      | some (none, block_found, rb1) =>
        if block_found = false then some (0, rb1)
        else copy_errors_retries fuel rb1 (retry + 1) false
    else some (0, rb)

/-- The function `Rescuebook::copy_errors` of `rescuebook.cc`. -/
def copy_errors (fuel : Nat) (rb : Rescuebook) : Option (Int × Rescuebook) :=
  copy_errors_retries fuel { rb with world := rb.world.note (.pass .retrying) } 1
    (decide (rb.current_status = .retrying) && rb.domain.includes_pos rb.current_pos)

/-! ## `do_rescue` and the constructor -/

/-- The function `Rescuebook::extend_outfile_size` of `io.cc`. -/
def extend_outfile_size (fuel : Nat) (rb : Rescuebook) : Option (Bool × Rescuebook) :=
  if rb.min_outfile_size > 0 ∨ rb.sparse_size > 0 then
    let min_size := max rb.min_outfile_size rb.sparse_size
    match rb.world.sys (.lseek_end rb.odes_) with
    | (r, w1) =>
      if r.ret < 0 then some (false, { rb with world := { w1 with errno := r.err } })
      else if min_size > r.ret then
        match writeblock fuel w1 rb.odes_ 1 (min_size - 1) with
        | none => none
        | some (wsz, w2) =>
          if wsz ≠ 1 then some (false, { rb with world := w2 })
          else some (true, { rb with world := (sys_fsync w2 rb.odes_).2 })
      else some (true, { rb with world := w1 })
  else some (true, rb)

/-- Modelled from the spec: `sync_sparse_file` (spec 4.F): at end-of-run a single one-byte
write extends the output to at least the greatest offset elided as zero, as
`extend_outfile_size` does. -/
def sync_sparse_file (fuel : Nat) (rb : Rescuebook) : Option (Bool × Rescuebook) :=
  extend_outfile_size fuel rb

/-- The loop of lines 392-405 of `Rescuebook::do_rescue`: which passes are pending, and the
counters `recsize` and `errsize`. -/
def rescue_scan (dom : Domain) : List Sblock → Bool → Bool → Bool → Int → Int →
    Bool × Bool × Bool × Int × Int
  | [], cp, tp, sp, recsize, errsize => (cp, tp, sp, recsize, errsize)
  | sb :: r, cp, tp, sp, recsize, errsize =>
    if !dom.includes sb.block then
      if dom.lt sb.block then (cp, tp, sp, recsize, errsize)
      else rescue_scan dom r cp tp sp recsize errsize
    else
      match sb.status with
      | .non_tried => rescue_scan dom r true true true recsize errsize
      | .non_trimmed => rescue_scan dom r cp true true recsize (errsize + sb.size)
      | .non_split => rescue_scan dom r cp tp true recsize (errsize + sb.size)
      | .bad_sector => rescue_scan dom r cp tp sp recsize (errsize + sb.size)
      | .finished => rescue_scan dom r cp tp sp (recsize + sb.size) errsize

/-- Lines 421-422 of `do_rescue`: the guarded call of `copy_non_tried`. -/
def run_copy_non_tried (fuel : Nat) (copy_pending : Bool) (x : Int × Rescuebook) :
    Option (Int × Rescuebook) :=
  if copy_pending = true ∧ too_many_errors x.2 = false then copy_non_tried fuel x.2 else some x

/-- Lines 423-424 of `do_rescue`: the guarded call of `trim_errors`. -/
def run_trim_errors (fuel : Nat) (trim_pending : Bool) (x : Int × Rescuebook) :
    Option (Int × Rescuebook) :=
  if x.1 = 0 ∧ trim_pending = true ∧ too_many_errors x.2 = false then trim_errors fuel x.2
  else some x

/-- Lines 425-426 of `do_rescue`: the guarded call of `split_errors`. -/
def run_split_errors (fuel : Nat) (split_pending : Bool) (x : Int × Rescuebook) :
    Option (Int × Rescuebook) :=
  if x.1 = 0 ∧ split_pending = true ∧ x.2.nosplit_ = false ∧ too_many_errors x.2 = false then
    split_errors fuel x.2
  else some x

/-- Lines 427-428 of `do_rescue`: the guarded call of `copy_errors`. -/
def run_copy_errors (fuel : Nat) (x : Int × Rescuebook) : Option (Int × Rescuebook) :=
  if x.1 = 0 ∧ x.2.max_retries_ ≠ 0 ∧ too_many_errors x.2 = false then copy_errors fuel x.2
  else some x

/-- Lines 420-428 of `do_rescue`: the sequence of the four passes. -/
def rescue_passes (fuel : Nat) (rb : Rescuebook) (copy_pending trim_pending split_pending : Bool) :
    Option (Int × Rescuebook) :=
  (((run_copy_non_tried fuel copy_pending (0, rb)).bind (run_trim_errors fuel trim_pending)).bind
    (run_split_errors fuel split_pending)).bind (run_copy_errors fuel)

/-- Lines 437-451 of `do_rescue`: the mapping of the result of the passes to the exit value,
the sync of the sparse file and the final snapshot. -/
def rescue_finish (fuel : Nat) (retval : Int) (rb : Rescuebook) : Option (Int × Rescuebook) :=
  if retval = -2 then some (1, rb)
  else
    let rb1 : Rescuebook :=
      { rb with current_status := if retval = 0 then .finished else rb.current_status }
    let retval1 := if retval = 0 then retval else if retval < 0 then 0 else retval
    match sync_sparse_file fuel rb1 with
    | none => none
    | some (synced, rb2) =>
      let retval2 := if synced = false ∧ retval1 = 0 then 1 else retval1
      let rb3 := { rb2 with sblock_vector := compact_sblock_vector rb2.sblock_vector }
      match update_logfile rb3 with
      | (ok, rb4) => some (if ok = false ∧ retval2 = 0 then 1 else retval2, rb4)

/-- The function `Rescuebook::do_rescue` of `rescuebook.cc`. -/
def do_rescue (fuel : Nat) (rb : Rescuebook) (ides odes : Int) : Option (Int × Rescuebook) :=
  match rescue_scan rb.domain rb.sblock_vector false false false 0 0 with
  | (copy_pending, trim_pending, split_pending, recsize, errsize) =>
    let rb1 := count_errors { rb with recsize := recsize, errsize := errsize,
                                      ides_ := ides, odes_ := odes }
    let rb2 := { rb1 with world := set_signals rb1.world }
    match rescue_passes fuel rb2 copy_pending trim_pending split_pending with
    | none => none
    | some (retval, rb3) => rescue_finish fuel retval rb3

/-- The loop of lines 307-315 of the constructor: `retrim`. -/
def retrim_loop (dom : Domain) : Nat → Nat → List Sblock → List Sblock
  | 0, _, v => v
  | n + 1, index, v =>
    match v[index]? with
    | none => v
    | some sb =>
      if !dom.includes sb.block then
        if dom.lt sb.block then v else retrim_loop dom n (index + 1) v
      else if sb.status = .non_split ∨ sb.status = .bad_sector then
        retrim_loop dom n (index + 1) (change_sblock_status v index .non_trimmed)
      else retrim_loop dom n (index + 1) v

/-- The loop of lines 317-325 of the constructor: `try_again`. -/
def try_again_loop (dom : Domain) : Nat → Nat → List Sblock → List Sblock
  | 0, _, v => v
  | n + 1, index, v =>
    match v[index]? with
    | none => v
    | some sb =>
      if !dom.includes sb.block then
        if dom.lt sb.block then v else try_again_loop dom n (index + 1) v
      else if sb.status = .non_split ∨ sb.status = .non_trimmed then
        try_again_loop dom n (index + 1) (change_sblock_status v index .non_tried)
      else try_again_loop dom n (index + 1) v

/-- The constructor `Rescuebook::Rescuebook` of `rescuebook.cc`.  The members that the
constructor of `Logbook` sets up (`lb`: vector, domain, cursor, block sizes, buffer) and the
members that only `io.cc` knows (`min_outfile_size`, `test_domain`) are taken from `lb`. -/
def Rescuebook.create (lb : Rescuebook) (iname_ok : Bool) (hardbs max_errors max_retries : Int)
    (nosplit retrim sparse synchronous try_again : Bool) : Rescuebook :=
  let v1 := if retrim = true then
      retrim_loop lb.domain lb.sblock_vector.length 0 lb.sblock_vector else lb.sblock_vector
  let v2 := if try_again = true then try_again_loop lb.domain v1.length 0 v1 else v1
  { lb with hardbs := hardbs, sparse_size := 0, iname_ := iname_ok,
            max_errors_ := max_errors, max_retries_ := max_retries,
            skipbs_ := max 65536 hardbs, nosplit_ := nosplit, sparse_ := sparse,
            synchronous_ := synchronous, sblock_vector := v2 }

/-! ## Predicates used in the statements -/

/-- Every Sblock of the vector has a non-negative size. -/
def sizes_nonneg (v : List Sblock) : Prop := ∀ sb ∈ v, 0 ≤ sb.size

/-- The two states agree on every member but those that `copy_block` writes: the buffer, the
sparse size, the final message and the environment. -/
def io_frame (rb rb1 : Rescuebook) : Prop :=
  rb1 = { rb with iobuf := rb1.iobuf, iobuf_ipos := rb1.iobuf_ipos,
                  sparse_size := rb1.sparse_size, final_msg := rb1.final_msg,
                  final_errno := rb1.final_errno, world := rb1.world }

/-- The two states have the same configuration: they agree on every member that the engine
never writes (domain, block sizes, offset, limits, flags, descriptors, cursor position). -/
def same_config (rb rb1 : Rescuebook) : Prop :=
  rb1 = { rb with sblock_vector := rb1.sblock_vector, current_status := rb1.current_status,
                  iobuf := rb1.iobuf, final_msg := rb1.final_msg,
                  final_errno := rb1.final_errno, recsize := rb1.recsize,
                  errsize := rb1.errsize, errors := rb1.errors,
                  sparse_size := rb1.sparse_size, iobuf_ipos := rb1.iobuf_ipos,
                  world := rb1.world }

/-- The vector left by `copy_and_update` (lines 98-115) when `copy_block` returned 0 with the
given `copied_size` and `error_size`. -/
def marked_vector (v : List Sblock) (b : Block) (st : Status) (hardbs c e : Int) : List Sblock :=
  let v2 := if c + e < b.size then truncate_vector v (b.pos + c + e) else v
  let v3 := if c > 0 then change_chunk_status v2 ⟨b.pos, c⟩ .finished else v2
  if e > 0 then
    if e ≥ hardbs ∧ st ≠ .bad_sector then
      change_chunk_status (change_chunk_status v3 ⟨b.pos + c, hardbs⟩ .bad_sector)
        ⟨b.pos + c + hardbs, e - hardbs⟩ st
    else change_chunk_status v3 ⟨b.pos + c, e⟩ st
  else v3

/-- Status of the byte at `p` after `copy_and_update` marked chunk `b`, as a function of its
status before. -/
def marked_status (old : Option Status) (b : Block) (st : Status) (hardbs c e p : Int) :
    Option Status :=
  if c + e < b.size ∧ b.pos + c + e ≤ p then none
  else if b.pos ≤ p ∧ p < b.pos + c then old.map (fun _ => Status.finished)
  else if b.pos + c ≤ p ∧ p < b.pos + c + e then
    old.map (fun _ => if e ≥ hardbs ∧ st ≠ .bad_sector ∧ p < b.pos + c + hardbs
                      then Status.bad_sector else st)
  else old

/-- An environment that answers the system calls from a finite script (and with 0, no error, no
data, once the script is exhausted), with the given value of the signal flag. -/
def script_world (l : List SysResult) (signum : Int) : World :=
  ⟨fun k => l.getD k ⟨0, 0, []⟩, 0, 0, signum, []⟩

/-- A small engine state for worked examples: hard blocks of 2 bytes, soft blocks of 4 bytes, a
buffer of non-zero bytes, no limits, descriptors 3 (input) and 4 (output). -/
def sample_book (v : List Sblock) (dom : Domain) (w : World) : Rescuebook :=
  { sblock_vector := v, domain := dom, current_status := .copying, current_pos := 0,
    hardbs := 2, softbs := 4, offset := 0, iobuf := [1, 1, 1, 1], final_msg := none,
    final_errno := 0, recsize := 0, errsize := 0, errors := 0, ides_ := 3, odes_ := 4,
    sparse_size := -1, iname_ := false, max_errors_ := -1, max_retries_ := 0, skipbs_ := 65536,
    nosplit_ := false, sparse_ := false, synchronous_ := false, iobuf_ipos := -1,
    min_outfile_size := 0, test_domain := none, world := w }

/-- The state component of a result of `copy_block` or `copy_and_update` (`d` if there is no
result). -/
def state_of (x : Option (Int × Int × Int × Rescuebook)) (d : Rescuebook) : Rescuebook :=
  match x with
  | some y => y.2.2.2
  | none => d

instance sizes_nonneg_decidable (v : List Sblock) : Decidable (sizes_nonneg v) := by
  unfold sizes_nonneg
  infer_instance

/-- A read of `[0,4)` that delivers 1 byte and then fails with `EIO`, followed by a successful
write of that byte. -/
def short_read_script : List SysResult :=
  [⟨0, 0, []⟩, ⟨1, 0, [7]⟩, ⟨-1, 5, []⟩, ⟨0, 0, []⟩, ⟨1, 0, []⟩]

/-- A state whose vector is one non-tried Sblock `[0,8)`, before the read of
`short_read_script`. -/
def short_read_book : Rescuebook :=
  sample_book [⟨0, 8, .non_tried⟩] ⟨[⟨0, 8⟩]⟩ (script_world short_read_script 0)

/-- A state like `short_read_book` with a test domain `[4,8)`, which excludes the block
`[0,4)`. -/
def test_domain_book : Rescuebook :=
  { short_read_book with test_domain := some ⟨[⟨4, 4⟩]⟩ }

/-- The state `short_read_book` with the signal flag set to `SIGINT`. -/
def interrupted_book : Rescuebook :=
  sample_book [⟨0, 8, .non_tried⟩] ⟨[⟨0, 8⟩]⟩ (script_world short_read_script 2)

/-- A read of `[0,4)` that delivers 1 byte and then fails with `EIO`, followed by a failing
seek on the output. -/
def write_error_script : List SysResult :=
  [⟨0, 0, []⟩, ⟨1, 0, [7]⟩, ⟨-1, 5, []⟩, ⟨-1, 28, []⟩]

/-- A state whose vector is one non-tried Sblock `[0,8)`, before the calls of
`write_error_script`. -/
def write_error_book : Rescuebook :=
  sample_book [⟨0, 8, .non_tried⟩] ⟨[⟨0, 8⟩]⟩ (script_world write_error_script 0)

/-- The state component of a result of `copy_block_read` (`d` if there is no result). -/
def read_state_of (x : Option (Int × Int × Rescuebook)) (d : Rescuebook) : Rescuebook :=
  match x with
  | some y => y.2.2
  | none => d

/-- The environment component of a result of `writeblock` (`d` if there is no result). -/
def world_of (x : Option (Int × World)) (d : World) : World :=
  match x with
  | some y => y.2
  | none => d

/-- A read of `[0,4)` that delivers 4 zero bytes. -/
def zero_read_script : List SysResult :=
  [⟨0, 0, []⟩, ⟨4, 0, [0, 0, 0, 0]⟩]

/-- A loaded Logbook whose vector is one non-tried Sblock `[0,8)`, before the read of
`zero_read_script`. -/
def zero_read_book : Rescuebook :=
  sample_book [⟨0, 8, .non_tried⟩] ⟨[⟨0, 8⟩]⟩ (script_world zero_read_script 0)

/-- The three bad statuses: `non_trimmed`, `non_split` and `bad_sector`. -/
def bad_status (s : Status) : Bool :=
  match s with
  | .non_trimmed => true
  | .non_split => true
  | .bad_sector => true
  | _ => false

/-- The positions of the domain, as a finite set. -/
def Domain.positions (d : Domain) : Finset Int :=
  d.blocks.foldr (fun x acc => Finset.Ico x.pos x.end_ ∪ acc) ∅

/-- The byte at `p` lies in the domain and has a bad status. -/
def bad_byte (v : List Sblock) (dom : Domain) (p : Int) : Bool :=
  dom.includes_pos p &&
    match statusAt v p with
    | some s => bad_status s
    | none => false

/-- Following the words of the spec: the number of maximal contiguous runs of bad-status bytes
within the domain, counted by the positions where such a run starts (a bad byte of the domain
whose predecessor is not a bad byte of the domain). -/
def spec_error_runs (v : List Sblock) (dom : Domain) : Nat :=
  (dom.positions.filter (fun p => bad_byte v dom p = true ∧ bad_byte v dom (p - 1) = false)).card

/-- The Sblocks that the loop of `count_errors` looks at: those included in the domain, up to
the first Sblock that is not included and lies after the domain. -/
def scanned (dom : Domain) : List Sblock → List Sblock
  | [] => []
  | sb :: r =>
    if dom.includes sb.block = true then sb :: scanned dom r
    else if dom.lt sb.block = true then [] else scanned dom r

/-- Number of maximal runs of `true` in a list, counted by the places where a run ends. -/
def run_ends : List Bool → Nat
  | [] => 0
  | [a] => if a = true then 1 else 0
  | a :: b :: r => (if a = true ∧ b = false then 1 else 0) + run_ends (b :: r)

/-- A domain of two extents `[0,1)` and `[2,3)` and a vector with a bad sector in each, the
byte between them finished. -/
def gap_book : Rescuebook :=
  sample_book [⟨0, 1, .bad_sector⟩, ⟨1, 1, .finished⟩, ⟨2, 1, .bad_sector⟩] ⟨[⟨0, 1⟩, ⟨2, 1⟩]⟩
    (script_world [] 0)

/-- The state component of a result of a work unit of `copy_non_tried` or `split_errors` (`d`
if there is no result). -/
def unit_state_of (x : Option (Int × Rescuebook × Int × Int)) (d : Rescuebook) : Rescuebook :=
  match x with
  | some y => y.2.1
  | none => d

/-- A state with `max_errors = 0` whose vector is one non-tried Sblock `[0,8)`, before a read
of `[0,2)` that fails at once with `EIO`. -/
def first_error_book : Rescuebook :=
  { sample_book [⟨0, 8, .non_tried⟩] ⟨[⟨0, 8⟩]⟩ (script_world [⟨0, 0, []⟩, ⟨-1, 5, []⟩] 0) with
    max_errors_ := 0 }

/-- The vector is gap-free from position `q` on: the first Sblock starts at `q`, every Sblock
has a positive size and ends where the next one starts. -/
def wf_from : Int → List Sblock → Bool
  | _, [] => true
  | q, sb :: r => decide (sb.pos = q) && decide (0 < sb.size) && wf_from sb.end_ r

/-- The invariants of the Sblock vector (spec section 3, properties 1 and 2, and the positive
sizes of spec section 8): a gap-free, non-overlapping sequence of non-empty Sblocks. -/
def vector_wf (v : List Sblock) : Bool :=
  match v with
  | [] => true
  | sb :: _ => wf_from sb.pos v

/-- End of the last Sblock of a vector that starts at `q` (`q` itself if it is empty). -/
def vend : Int → List Sblock → Int
  | q, [] => q
  | _, sb :: r => vend sb.end_ r

/-- Chunk `b` lies inside an Sblock of the vector that has status `st` and is included in the
domain. -/
def chunk_in (v : List Sblock) (dom : Domain) (st : Status) (b : Block) : Prop :=
  ∃ sb ∈ v, sb.status = st ∧ dom.includes sb.block = true ∧ sb.pos ≤ b.pos ∧ b.end_ ≤ sb.end_

/-- No finished byte of `v` has a non-finished status in `w`: it is finished in `w`, or `w`
does not cover it any more; and `w` covers no byte that `v` does not cover. -/
def finished_kept (v w : List Sblock) : Prop :=
  ∀ p, (statusAt v p = some .finished →
      statusAt w p = some .finished ∨ statusAt w p = none) ∧
    (statusAt v p = none → statusAt w p = none)

/-- The blocks handed to `copy_block` so far, newest first: the work units performed. -/
def copy_block_calls (t : List Event) : List Block :=
  t.filterMap (fun e => match e with
    | .copy_block b => some b
    | _ => none)

/-- Every Sblock of the vector ends at or before `t`. -/
def ends_le (t : Int) (v : List Sblock) : Prop := ∀ sb ∈ v, sb.end_ ≤ t

/-- A state before pass 1 whose read of `[0,2)` delivers 1 byte and then meets EOF. -/
def eof_copy_book : Rescuebook :=
  sample_book [⟨0, 8, .non_tried⟩] ⟨[⟨0, 8⟩]⟩
    (script_world [⟨0, 0, []⟩, ⟨1, 0, [7]⟩, ⟨0, 0, []⟩, ⟨0, 0, []⟩, ⟨1, 0, []⟩] 0)

/-- A state before pass 2 with two non-trimmed Sblocks: the read of `[4,6)` delivers 1 byte and
then meets EOF, the read of `[0,2)` succeeds. -/
def eof_trim_book : Rescuebook :=
  sample_book [⟨0, 2, .non_trimmed⟩, ⟨2, 2, .finished⟩, ⟨4, 2, .non_trimmed⟩] ⟨[⟨0, 6⟩]⟩
    (script_world [⟨0, 0, []⟩, ⟨1, 0, [7]⟩, ⟨0, 0, []⟩, ⟨0, 0, []⟩, ⟨1, 0, []⟩, ⟨0, 0, []⟩,
      ⟨0, 0, []⟩, ⟨2, 0, [7, 7]⟩, ⟨0, 0, []⟩, ⟨2, 0, []⟩] 0)

/-- A state before pass 3, resumed at position 4, with two non-split Sblocks: the read of
`[4,6)` delivers 1 byte and then meets EOF, the read of `[0,2)` succeeds. -/
def eof_split_book : Rescuebook :=
  { sample_book [⟨0, 2, .non_split⟩, ⟨2, 2, .finished⟩, ⟨4, 2, .non_split⟩] ⟨[⟨0, 6⟩]⟩
      (script_world [⟨0, 0, []⟩, ⟨1, 0, [7]⟩, ⟨0, 0, []⟩, ⟨0, 0, []⟩, ⟨1, 0, []⟩, ⟨0, 0, []⟩,
        ⟨0, 0, []⟩, ⟨2, 0, [7, 7]⟩, ⟨0, 0, []⟩, ⟨2, 0, []⟩] 0) with
    current_status := .splitting, current_pos := 4 }

/-- A state before pass 4 with two retries allowed and one bad-sector Sblock `[0,4)`: every
read of `[0,2)` fails with `EIO`, the read of `[2,4)` meets EOF at once. -/
def eof_retry_book : Rescuebook :=
  { sample_book [⟨0, 4, .bad_sector⟩] ⟨[⟨0, 4⟩]⟩
      (script_world [⟨0, 0, []⟩, ⟨-1, 5, []⟩, ⟨0, 0, []⟩, ⟨0, 0, []⟩, ⟨0, 0, []⟩, ⟨0, 0, []⟩,
        ⟨0, 0, []⟩, ⟨-1, 5, []⟩] 0) with
    max_retries_ := 2 }

/-- The return value and the sizes of a result of `copy_block`. -/
def sizes_of (x : Option (Int × Int × Int × Rescuebook)) : Option (Int × Int × Int) :=
  x.map (fun y => (y.1, y.2.1, y.2.2.1))

/-- The return value, the vector and the work units performed, of a result of a pass. -/
def outcome_of (x : Option (Int × Rescuebook)) :
    Option (Int × List Sblock × List Block) :=
  x.map (fun y => (y.1, y.2.sblock_vector, (copy_block_calls y.2.world.trace).reverse))

/-- Number of bytes of the domain that have status `s` in the vector. -/
def bytes_with (dom : Domain) (v : List Sblock) (s : Status) : Nat :=
  (dom.positions.filter (fun p => statusAt v p = some s)).card

/-- Number of bytes of the domain that the vector covers. -/
def covered_bytes (dom : Domain) (v : List Sblock) : Nat :=
  (dom.positions.filter (fun p => (statusAt v p).isSome = true)).card

/-- The conservation invariant (spec sections 3 and 8): within the domain,
`recsize + errsize + Σ(non_tried sizes) == domain total bytes`. -/
def conserved (rb : Rescuebook) : Prop :=
  rb.recsize + rb.errsize + (bytes_with rb.domain rb.sblock_vector .non_tried : Int) =
    (covered_bytes rb.domain rb.sblock_vector : Int)

instance conserved_decidable (rb : Rescuebook) : Decidable (conserved rb) := by
  unfold conserved
  infer_instance

/-- Vector `w` differs from `v` only inside chunk `b`: the same bytes are covered, the bytes
outside `b` have the status they had, and no byte of `b` is non-tried in `w`. -/
def retagged (v w : List Sblock) (b : Block) : Prop :=
  (∀ p, (statusAt w p).isSome = (statusAt v p).isSome) ∧
  (∀ p, ¬ (b.pos ≤ p ∧ p < b.end_) → statusAt w p = statusAt v p) ∧
  (∀ p, b.pos ≤ p → p < b.end_ → statusAt w p ≠ some .non_tried)

/-- The work unit on chunk `b` hits EOF: `copy_block` returns 0 with
`copied_size + error_size < b.size`. -/
def hits_eof (fuel : Nat) (rb : Rescuebook) (b : Block) : Prop :=
  ∃ c e rb1, copy_block fuel rb b = some (0, c, e, rb1) ∧ c + e < b.size

/-- The state component of a result of a work unit of `trim_errors` or `copy_errors`, or of a
pass (`d` if there is no result). -/
def pair_state_of (x : Option (Int × Rescuebook)) (d : Rescuebook) : Rescuebook :=
  match x with
  | some y => y.2
  | none => d

/-- The state `eof_trim_book` with the counters that `do_rescue` computes from its vector:
`recsize = 2`, `errsize = 4`. -/
def eof_trim_counted : Rescuebook :=
  { eof_trim_book with recsize := 2, errsize := 4 }

/-- The state `short_read_book` with the counters that `do_rescue` computes from its
vector. -/
def short_read_counted : Rescuebook :=
  { short_read_book with recsize := 0, errsize := 0 }

/-- A state before pass 2: a finished Sblock `[0,2)` followed by a non-trimmed Sblock `[2,4)`
whose read fails at once with `EIO`. -/
def trim_fail_book : Rescuebook :=
  sample_book [⟨0, 2, .finished⟩, ⟨2, 2, .non_trimmed⟩] ⟨[⟨0, 4⟩]⟩
    (script_world [⟨0, 0, []⟩, ⟨-1, 5, []⟩] 0)

/-- The first block handed to `copy_block` after the point of a run where the trace was `t0`,
in a run that ends with trace `t1` (`none` if no block was handed to it in between). -/
def first_call (t0 t1 : List Event) : Option Block :=
  (copy_block_calls t1).reverse[(copy_block_calls t0).length]?

/-- Lines 209-210 and 214 of `split_errors`, lines 259-260 and 265 of `copy_errors`: the
position at which the first sweep of a pass with cursor status `st` starts. -/
def resume_pos (rb : Rescuebook) (st : LStatus) : Int :=
  if (decide (rb.current_status = st) && rb.domain.includes_pos rb.current_pos) = true then
    rb.current_pos
  else 0

/-- An environment in which every call succeeds: a seek or a logfile update never fails, a read
delivers and a write accepts up to 4 bytes at a time. -/
def ready_world : World := ⟨fun _ => ⟨4, 0, [7, 7, 7, 7]⟩, 0, 0, 0, []⟩

/-- A state before pass 1 whose vector is one non-tried Sblock `[0,8)` and whose loaded cursor
is `(copying, 4)`. -/
def cursor_copy_book : Rescuebook :=
  { sample_book [⟨0, 8, .non_tried⟩] ⟨[⟨0, 8⟩]⟩ ready_world with
    current_status := .copying, current_pos := 4 }

/-- A state before pass 2 whose vector is one non-trimmed Sblock `[0,8)` and whose loaded
cursor is `(trimming, 2)`. -/
def cursor_trim_book : Rescuebook :=
  { sample_book [⟨0, 8, .non_trimmed⟩] ⟨[⟨0, 8⟩]⟩ ready_world with
    current_status := .trimming, current_pos := 2 }

/-- A state before pass 3 whose vector is one non-split Sblock `[0,8)` and whose loaded cursor
is `(splitting, 4)`. -/
def cursor_split_book : Rescuebook :=
  { sample_book [⟨0, 8, .non_split⟩] ⟨[⟨0, 8⟩]⟩ ready_world with
    current_status := .splitting, current_pos := 4 }

/-- Lines 388-407 of `Rescuebook::do_rescue`: the scan of the vector for the pending passes, the
reset of the counters and of the signal flag.  Result: `copy_pending`, `trim_pending`,
`split_pending`, and the state in which the passes start. -/
def rescue_start (rb : Rescuebook) (ides odes : Int) : Bool × Bool × Bool × Rescuebook :=
  match rescue_scan rb.domain rb.sblock_vector false false false 0 0 with
  | (copy_pending, trim_pending, split_pending, recsize, errsize) =>
    let rb1 := count_errors { rb with recsize := recsize, errsize := errsize,
                                      ides_ := ides, odes_ := odes }
    (copy_pending, trim_pending, split_pending, { rb1 with world := set_signals rb1.world })

/-- A state before pass 1 whose vector is one non-tried Sblock `[0,8)`: the first hard block is
read and written, then the update of the logfile fails. -/
def logfile_error_book : Rescuebook :=
  sample_book [⟨0, 8, .non_tried⟩] ⟨[⟨0, 8⟩]⟩
    (script_world [⟨0, 0, []⟩, ⟨2, 0, [7, 7]⟩, ⟨0, 0, []⟩, ⟨2, 0, []⟩, ⟨-1, 28, []⟩] 0)

/-- Following the words of the spec: the rewrite of every Sblock that is included in the domain
and whose status is one of `olds`, to status `st1`; positions and sizes are kept. -/
def spec_rewrite (dom : Domain) (olds : List Status) (st1 : Status) (v : List Sblock) :
    List Sblock :=
  v.map (fun sb => if dom.includes sb.block = true ∧ sb.status ∈ olds then
    ⟨sb.pos, sb.size, st1⟩ else sb)

/-- The effect of the loop of `retrim` (lines 307-315) or of `try_again` (lines 317-325) on the
part of the vector from the current index on: the statuses in `olds` become `st1`, up to the
first Sblock that is not included in the domain and lies after it. -/
def rewrite_list (dom : Domain) (olds : List Status) (st1 : Status) : List Sblock → List Sblock
  | [] => []
  | sb :: r =>
    if dom.includes sb.block = true then
      (if sb.status ∈ olds then ⟨sb.pos, sb.size, st1⟩ else sb) :: rewrite_list dom olds st1 r
    else if dom.lt sb.block = true then sb :: r
    else sb :: rewrite_list dom olds st1 r

/-- A loaded Logbook whose vector has one Sblock of each status inside the domain `[0,10)` and
a bad sector after it. -/
def demote_book : Rescuebook :=
  sample_book [⟨0, 2, .finished⟩, ⟨2, 2, .non_tried⟩, ⟨4, 2, .non_trimmed⟩, ⟨6, 2, .non_split⟩,
    ⟨8, 2, .bad_sector⟩, ⟨10, 2, .bad_sector⟩] ⟨[⟨0, 10⟩]⟩ (script_world [] 0)

/-- The environment of scenario S2 for a run with `max_retries = 0`: every call succeeds and
transfers 512 bytes, except the read that reaches byte 1024, the call with index 7 (the second
`read` of the block `[512,4096)`), which fails with `EIO`. -/
def s2_world : World :=
  ⟨fun k => if k = 7 then ⟨-1, 5, []⟩ else ⟨512, 0, List.replicate 512 7⟩, 0, 0, 0, []⟩

/-- The loaded Logbook of scenario S2: a 4096-byte input not tried yet, `softbs = 4096`,
`offset = 0`. -/
def s2_logbook : Rescuebook :=
  { sblock_vector := [⟨0, 4096, .non_tried⟩], domain := ⟨[⟨0, 4096⟩]⟩, current_status := .copying,
    current_pos := 0, hardbs := 512, softbs := 4096, offset := 0,
    iobuf := List.replicate 4096 0, final_msg := none, final_errno := 0, recsize := 0,
    errsize := 0, errors := 0, ides_ := 3, odes_ := 4, sparse_size := 0, iname_ := false,
    max_errors_ := -1, max_retries_ := 0, skipbs_ := 65536, nosplit_ := false,
    sparse_ := false, synchronous_ := false, iobuf_ipos := -1, min_outfile_size := 0,
    test_domain := none, world := s2_world }

/-- The Rescuebook of scenario S2, constructed with `hardbs = 512`, the given `max_errors`,
`max_retries = 0` and no option set. -/
def s2_book (max_errors : Int) : Rescuebook :=
  Rescuebook.create s2_logbook false 512 max_errors 0 false false false false false

/-- The vector, the counters and the return value of a result of `do_rescue` or of a pass. -/
def summary_of (x : Option (Int × Rescuebook)) : Option (Int × List Sblock × Int × Int × Int) :=
  x.map (fun y => (y.1, y.2.sblock_vector, y.2.recsize, y.2.errsize, y.2.errors))

/-- Following the words of the spec: the total of the positive results among the `n` answers
of the environment with index `a`, `a + 1`, ... -/
def positive_total (o : Nat → SysResult) (a : Nat) : Nat → Int
  | 0 => 0
  | n + 1 => max 0 (o a).ret + positive_total o (a + 1) n

/-- The environment component of a result of `readblock` (`d` if there is no result). -/
def world_of3 (x : Option (Int × List Nat × World)) (d : World) : World :=
  match x with
  | some y => y.2.2
  | none => d

/-- The calls of a read of 4 bytes: the seek succeeds, a read delivers 1 byte, a read fails
with `EINTR`, a read delivers 2 bytes, a read fails with `EIO`. -/
def eintr_script : List SysResult :=
  [⟨0, 0, []⟩, ⟨1, 0, [7]⟩, ⟨-1, 4, []⟩, ⟨2, 0, [8, 9]⟩, ⟨-1, 5, []⟩]

/-- The result of a call of `readblock`: the number of bytes read, the buffer, and the values
of `errno` and of the count of system calls on return. -/
def read_outcome (x : Option (Int × List Nat × World)) : Option (Int × List Nat × Int × Nat) :=
  x.map (fun y => (y.1, y.2.1, y.2.2.errno, y.2.2.clock))

/-- One iteration of the loop `while( pos >= 0 )` of `Rescuebook::copy_non_tried` (lines
139-163).  Result: the value that the function returns from this iteration (`Sum.inl`), or the
state, `pos` and `skip_size` with which the next iteration starts (`Sum.inr`). -/
def copy_non_tried_step (fuel : Nat) (rb : Rescuebook) (pos skip_size : Int) :
    Option ((Int × Rescuebook) ⊕ (Rescuebook × Int × Int)) :=
  if pos ≥ 0 then
    let b := find_chunk rb.sblock_vector rb.domain
               ⟨pos, if skip_size ≠ 0 then rb.hardbs else rb.softbs⟩ .non_tried
    let skip0 := if pos ≠ b.pos then 0 else skip_size
    if b.end_ < 0 ∨ b.size ≤ 0 then some (.inl (0, rb))
    else
      match copy_non_tried_unit fuel rb b b.end_ skip0 with
      | none => none
      | some (retval, rb1, pos1, skip1) =>
        if retval ≠ 0 ∨ too_many_errors rb1 = true then some (.inl (retval, rb1))
        else
          match update_logfile rb1 with
          | (false, rb2) => some (.inl (-2, rb2))
          | (true, rb2) => some (.inr (rb2, pos1, skip1))
  else some (.inl (0, rb))

/-- The state, `pos` and `skip_size` at the head of iteration number `n` (counted from 0) of the
loop of `copy_non_tried` that starts with the given state, `pos` and `skip_size`; `none` if the
loop ends before that iteration. -/
def copy_non_tried_head : Nat → Nat → Rescuebook → Int → Int → Option (Rescuebook × Int × Int)
  | _, 0, rb, pos, skip_size => some (rb, pos, skip_size)
  | 0, _ + 1, _, _, _ => none
  | fuel + 1, n + 1, rb, pos, skip_size =>
    match copy_non_tried_step fuel rb pos skip_size with
    | some (.inr (rb2, pos1, skip1)) => copy_non_tried_head fuel n rb2 pos1 skip1
    | _ => none

/-- A Rescuebook constructed with `hardbs = 512` for an input of unknown size, the vector one
non-tried Sblock `[0, LLONG_MAX)`, on which every read fails with `EIO` (the calls of a work
unit are a seek, a read and the update of the logfile). -/
def skip_book : Rescuebook :=
  Rescuebook.create
    { sample_book [⟨0, LLONG_MAX, .non_tried⟩] ⟨[⟨0, LLONG_MAX⟩]⟩
        ⟨fun k => if k % 3 = 1 then ⟨-1, 5, []⟩ else ⟨0, 0, []⟩, 0, 0, 0, []⟩ with
      softbs := 65536 }
    false 512 (-1) 0 false false false false false

/-- The value of `skip_size` in a result of `copy_non_tried_head`. -/
def skip_of (x : Option (Rescuebook × Int × Int)) : Option Int := x.map (fun y => y.2.2)

/-- The state in a result of `copy_non_tried_head` (`d` if there is no result). -/
def head_state_of (x : Option (Rescuebook × Int × Int)) (d : Rescuebook) : Rescuebook :=
  match x with
  | some y => y.1
  | none => d

/-- The value of `pos` in a result of `copy_non_tried_head` (0 if there is no result). -/
def head_pos_of (x : Option (Rescuebook × Int × Int)) : Int :=
  match x with
  | some y => y.2.1
  | none => 0

/-- Following the words of the spec: the Sblock that a step of `trim_errors` promotes to
`non_split`: when the block at `p` failed (`error_size > 0`), the preceding Sblock, the one at
`find_index(p-1)`, if it is still `non_trimmed` and within the domain. -/
def spec_promoted (v : List Sblock) (dom : Domain) (p error_size : Int) : Option Sblock :=
  if error_size > 0 then
    match sblock v (find_index v (p - 1)) with
    | some sb =>
      if sb.status = .non_trimmed ∧ dom.includes sb.block = true then some sb else none
    | none => none
  else none

/-- A state before pass 2 whose vector is one non-trimmed Sblock `[0,4)`: the read of `[2,4)`
fails at once with `EIO`. -/
def promote_book : Rescuebook :=
  sample_book [⟨0, 4, .non_trimmed⟩] ⟨[⟨0, 4⟩]⟩ (script_world [⟨0, 0, []⟩, ⟨-1, 5, []⟩] 0)

/-- A state in pass 3 with `skipbs = 2`, after a first failed work unit on `[0,2)`: the vector
is a bad sector `[0,2)` and a non-split Sblock `[2,16)`, and every read fails at once with
`EIO`. -/
def jump_book : Rescuebook :=
  { sample_book [⟨0, 2, .bad_sector⟩, ⟨2, 14, .non_split⟩] ⟨[⟨0, 16⟩]⟩
      ⟨fun k => if k % 3 = 1 then ⟨-1, 5, []⟩ else ⟨0, 0, []⟩, 0, 0, 0, []⟩ with
    skipbs_ := 2 }

/-- The new `pos` and the new `error_counter` in a result of a work unit of `split_errors`. -/
def jump_of (x : Option (Int × Rescuebook × Int × Int)) : Option (Int × Int) :=
  x.map (fun y => (y.2.2.1, y.2.2.2))

/-- Every work unit of at most `size` bytes completes its I/O within `F` steps in an
environment that answers as `o` does: with `F` units of fuel or more, `copy_block` returns for
every block of positive size up to `size`, in every state whose environment has oracle `o`. -/
def io_completes (o : Nat → SysResult) (F : Nat) (size : Int) : Prop :=
  ∀ (f : Nat) (rb : Rescuebook) (b : Block), F ≤ f → rb.world.oracle = o → 0 < b.size →
    b.size ≤ size → (copy_block f rb b).isSome = true

/-- An environment that never answers 0 and never fails with `EINTR`: every call transfers at
least one byte or fails for good. -/
def responsive (o : Nat → SysResult) : Prop :=
  ∀ k, (o k).ret ≠ 0 ∧ ((o k).ret < 0 → (o k).err ≠ EINTR)

/-- A state before pass 3 with a non-split Sblock `[0,2)` and a finished Sblock `[2,4)`, whose
loaded cursor is `(splitting, 2)`. -/
def split_resumed_book : Rescuebook :=
  { sample_book [⟨0, 2, .non_split⟩, ⟨2, 2, .finished⟩] ⟨[⟨0, 4⟩]⟩ ready_world with
    current_status := .splitting, current_pos := 2 }

/-- An environment in which every read fails with `EIO` and every other call transfers one
byte. -/
def failing_reads : World :=
  ⟨fun k => if k % 3 = 1 then ⟨-1, 5, []⟩ else ⟨1, 0, [7]⟩, 0, 0, 0, []⟩

/-- A state before pass 3 with one non-split Sblock `[0,4)`, `max_errors = 0`, and every read
failing. -/
def split_limit_book : Rescuebook :=
  { sample_book [⟨0, 4, .non_split⟩] ⟨[⟨0, 4⟩]⟩ failing_reads with max_errors_ := 0 }

/-- A state before pass 3 with one non-split Sblock `[0,4)`, no error limit, and every read
failing. -/
def split_demo_book : Rescuebook :=
  sample_book [⟨0, 4, .non_split⟩] ⟨[⟨0, 4⟩]⟩ failing_reads

/-- Return value, vector, work units and `too_many_errors` in a result of a pass. -/
def pass_summary (x : Option (Int × Rescuebook)) :
    Option (Int × List Sblock × List Block × Bool) :=
  x.map (fun y => (y.1, y.2.sblock_vector, (copy_block_calls y.2.world.trace).reverse,
    too_many_errors y.2))

/-- A state before `do_rescue` with `max_errors = 1`: a non-tried Sblock `[0,8)` and a non-split
Sblock `[8,12)`, skips of 2 bytes, and every read failing. -/
def early_stop_book : Rescuebook :=
  { sample_book [⟨0, 8, .non_tried⟩, ⟨8, 4, .non_split⟩] ⟨[⟨0, 12⟩]⟩ failing_reads with
    max_errors_ := 1, skipbs_ := 2 }

/-- Exit value, cursor status, vector and `too_many_errors` in a result of `do_rescue`. -/
def finish_summary (x : Option (Int × Rescuebook)) :
    Option (Int × LStatus × List Sblock × Bool) :=
  x.map (fun y => (y.1, y.2.current_status, y.2.sblock_vector, too_many_errors y.2))

/-- Modelled from the spec: `INT_MAX` of `<climits>`, the largest value of a 32-bit `int`. -/
def INT_MAX : Int := 2147483647

/-- The value of an `int` expression whose exact result is `x`: no result when `x` does not fit
in an `int` (C++ leaves the overflow of a signed integer undefined). -/
def int_result (x : Int) : Option Int :=
  if -INT_MAX - 1 ≤ x ∧ x ≤ INT_MAX then some x else none

/-- The call `std::memcpy( buf + i, buf, size )` within one buffer: the first `size` bytes are
copied to offset `i`.  No result when the size is negative (it is converted to a huge unsigned
size), when the copy leaves the buffer, or when source and destination overlap. -/
def memcpy_self (buf : List Nat) (i size : Int) : Option (List Nat) :=
  if size < 0 ∨ i < size ∨ (buf.length : Int) < i + size then none
  else some (buf_store buf i.toNat size.toNat buf)

/-- The loop `for( int i = rd; i < softbs(); i *= 2 )` of `Fillbook::read_buffer`. -/
def read_buffer_loop : Nat → List Nat → Int → Int → Option (List Nat)
  | 0, _, _, _ => none
  | fuel + 1, buf, softbs, i =>
    if i < softbs then
      match int_result (softbs - i) with
      | none => none
      | some d =>
        match memcpy_self buf i (min i d) with
        | none => none
        | some buf1 =>
          match int_result (i * 2) with
          | none => none
          | some i2 => read_buffer_loop fuel buf1 softbs i2
    else some buf

/-- The function `Fillbook::read_buffer` of `io.cc`, on the members of `Fillbook` it uses: the
buffer `iobuf()` and `softbs()`.  Result: return value, buffer, environment. -/
def read_buffer (fuel : Nat) (w : World) (ides : Int) (iobuf : List Nat) (softbs : Int) :
    Option (Bool × List Nat × World) :=
  match readblock fuel w ides iobuf softbs 0 with
  | none => none
  | some (rd, buf, w1) =>
    if rd ≤ 0 then some (false, buf, w1)
    else
      match read_buffer_loop fuel buf softbs rd with
      | none => none
      | some buf1 => some (true, buf1, w1)

/-- An environment whose first read delivers the three bytes 5, 6, 7 and then reaches the end
of the file. -/
def pattern_script : List SysResult :=
  [⟨0, 0, []⟩, ⟨3, 0, [5, 6, 7]⟩, ⟨0, 0, []⟩]

/-- Return value and buffer in a result of `read_buffer`. -/
def buffer_of (x : Option (Bool × List Nat × World)) : Option (Bool × List Nat) :=
  x.map (fun y => (y.1, y.2.1))

/-- A state before pass 2 with hard blocks of 2 bytes whose vector is one non-trimmed Sblock
`[0,3)`, in an environment where every read and write succeeds. -/
def trim_head_book : Rescuebook :=
  sample_book [⟨0, 3, .non_trimmed⟩] ⟨[⟨0, 3⟩]⟩ ready_world

/-- The same state with the non-trimmed Sblock `[0,4)`, a multiple of the hard block size. -/
def trim_aligned_book : Rescuebook :=
  sample_book [⟨0, 4, .non_trimmed⟩] ⟨[⟨0, 4⟩]⟩ ready_world

/-- An environment in which every call succeeds and every read delivers up to 512 bytes. -/
def sector_world : World := ⟨fun _ => ⟨512, 0, List.replicate 512 7⟩, 0, 0, 0, []⟩

/-- The loaded Logbook of a 700-byte input whose whole extent is non-trimmed. -/
def trim_sector_logbook : Rescuebook :=
  { s2_logbook with
    sblock_vector := [⟨0, 700, .non_trimmed⟩]
    domain := ⟨[⟨0, 700⟩]⟩
    world := sector_world }

/-- The Rescuebook constructed from `trim_sector_logbook` with `hardbs = 512` and no option
set. -/
def trim_sector_book : Rescuebook :=
  Rescuebook.create trim_sector_logbook false 512 (-1) 0 false false false false false

/-- An environment that never signals the end of the input: no call is answered with 0, and
every failing call sets a non-zero `errno`. -/
def eof_free (o : Nat → SysResult) : Prop :=
  ∀ k, (o k).ret ≠ 0 ∧ ((o k).ret < 0 → (o k).err ≠ 0)

/-- The state satisfies the conservation invariant together with the conditions under which
every work unit keeps it: the vector is gap-free from position `q`, `hardbs` is positive and
the environment never signals the end of the input. -/
def conserving (q : Int) (rb : Rescuebook) : Prop :=
  conserved rb ∧ wf_from q rb.sblock_vector = true ∧ 0 < rb.hardbs ∧
    eof_free rb.world.oracle

/-- Every Sblock of the vector lies wholly inside one extent of the domain or wholly outside
the domain: the Sblocks are split at the borders of the domain. -/
def domain_split (dom : Domain) (v : List Sblock) : Prop :=
  ∀ sb ∈ v, dom.includes sb.block = true ∨
    ∀ p, sb.pos ≤ p → p < sb.end_ → p ∉ dom.positions

/-- A state before `do_rescue`: one non-tried Sblock `[0,8)`, every read failing with `EIO`. -/
def all_fail_book : Rescuebook :=
  sample_book [⟨0, 8, .non_tried⟩] ⟨[⟨0, 8⟩]⟩ failing_reads

/-! ## The engine with its status display -/

/-- The status display of the engine: the global `verbosity` and the member function
`show_status( ipos, msg, force )`.  Neither is part of the sources at hand (the spec leaves
the terminal status rendering out of scope), so both are parameters: `show_status` is an
arbitrary function of the state and of its three arguments. -/
structure Display where
  verbosity : Int
  show_status : Rescuebook → Int → Option String → Bool → Rescuebook

/-- The function `Rescuebook::copy_and_update` of `rescuebook.cc` with its first statement,
`if( verbosity >= 0 ) { show_status( b.pos(), msg, first_post ); first_post = false; }`.
Result: return value, `copied_size`, `error_size`, new state, new `first_post`. -/
def copy_and_update_shown (d : Display) (fuel : Nat) (rb : Rescuebook) (b : Block) (st : Status)
    (msg : String) (first_post : Bool) : Option (Int × Int × Int × Rescuebook × Bool) :=
  let rb0 : Rescuebook :=
    if d.verbosity ≥ 0 then d.show_status rb b.pos (some msg) first_post else rb
  let fp : Bool := if d.verbosity ≥ 0 then false else first_post
  match copy_and_update fuel rb0 b st with
  | none => none
  | some (retval, copied_size, error_size, rb1) =>
    some (retval, copied_size, error_size, rb1, fp)

/-- One work unit of `Rescuebook::copy_non_tried` (lines 144-161) with the status display. -/
def copy_non_tried_unit_shown (d : Display) (fuel : Nat) (rb : Rescuebook) (b : Block)
    (pos skip_size : Int) (first_post : Bool) : Option (Int × Rescuebook × Int × Int × Bool) :=
  let rb0 := { rb with current_status := .copying }
  match copy_and_update_shown d fuel rb0 b
      (if skip_size ≠ 0 then .bad_sector else .non_trimmed)
      "Copying non-tried blocks..." first_post with
  | none => none
  | some (retval, copied_size, error_size, rb1, fp) =>
    if error_size > 0 then
      let rb2 := { rb1 with errsize := rb1.errsize + error_size }
      let skip1 :=
        if skip_size < rb2.skipbs_ then rb2.skipbs_
        else if skip_size < LLONG_MAX / 4 then skip_size * 2 else skip_size
      let b1 := find_chunk rb2.sblock_vector rb2.domain (Block.fix_size ⟨pos, skip1⟩) .non_tried
      if pos = b1.pos ∧ b1.size > 0 then
        some (retval,
              { rb2 with sblock_vector := change_chunk_status rb2.sblock_vector b1 .non_trimmed,
                         errsize := rb2.errsize + b1.size },
              b1.end_, skip1, fp)
      else some (retval, rb2, pos, skip1, fp)
    else if skip_size > 0 ∧ copied_size > 0 then
      some (retval, rb1, pos,
        if skip_size - copied_size < 0 then 0 else skip_size - copied_size, fp)
    else some (retval, rb1, pos, skip_size, fp)

/-- The loop `while( pos >= 0 )` of `Rescuebook::copy_non_tried` with the status display. -/
def copy_non_tried_loop_shown (d : Display) :
    Nat → Rescuebook → Int → Int → Bool → Option (Int × Rescuebook)
  | 0, _, _, _, _ => none
  | fuel + 1, rb, pos, skip_size, first_post =>
    if pos ≥ 0 then
      let b := find_chunk rb.sblock_vector rb.domain
                 ⟨pos, if skip_size ≠ 0 then rb.hardbs else rb.softbs⟩ .non_tried
      let skip0 := if pos ≠ b.pos then 0 else skip_size
      if b.end_ < 0 ∨ b.size ≤ 0 then some (0, rb)
      else
        match copy_non_tried_unit_shown d fuel rb b b.end_ skip0 first_post with
        | none => none
        | some (retval, rb1, pos1, skip1, fp) =>
          if retval ≠ 0 ∨ too_many_errors rb1 = true then some (retval, rb1)
          else
            match update_logfile rb1 with
            | (false, rb2) => some (-2, rb2)
            | (true, rb2) => copy_non_tried_loop_shown d fuel rb2 pos1 skip1 fp
    else some (0, rb)

/-- The function `Rescuebook::copy_non_tried` of `rescuebook.cc` with the status display. -/
def copy_non_tried_shown (d : Display) (fuel : Nat) (rb : Rescuebook) :
    Option (Int × Rescuebook) :=
  copy_non_tried_loop_shown d fuel { rb with world := rb.world.note (.pass .copying) } 0
    rb.hardbs true

/-- One work unit of `Rescuebook::trim_errors` (lines 183-195) with the status display. -/
def trim_errors_unit_shown (d : Display) (fuel : Nat) (rb : Rescuebook) (b : Block)
    (first_post : Bool) : Option (Int × Rescuebook × Bool) :=
  let rb0 := { rb with current_status := .trimming }
  match copy_and_update_shown d fuel rb0 b .bad_sector "Trimming failed blocks..."
      first_post with
  | none => none
  | some (retval, copied_size, error_size, rb1, fp) =>
    let rb2 : Rescuebook :=
      { rb1 with errsize := if copied_size > 0 then rb1.errsize - copied_size
                            else rb1.errsize }
    if error_size > 0 ∧ b.pos > 0 then
      let index := find_index rb2.sblock_vector (b.pos - 1)
      match sblock rb2.sblock_vector index with
      | none => some (retval, rb2, fp)
      | some sb =>
        if index ≥ 0 ∧ rb2.domain.includes sb.block = true ∧ sb.status = .non_trimmed then
          some (retval, { rb2 with sblock_vector :=
                            change_chunk_status rb2.sblock_vector sb.block .non_split }, fp)
        else some (retval, rb2, fp)
    else some (retval, rb2, fp)

/-- The loop `while( pos >= 0 )` of `Rescuebook::trim_errors` with the status display. -/
def trim_errors_loop_shown (d : Display) :
    Nat → Rescuebook → Int → Bool → Option (Int × Rescuebook)
  | 0, _, _, _ => none
  | fuel + 1, rb, pos, first_post =>
    if pos ≥ 0 then
      let b := rfind_chunk rb.sblock_vector rb.domain ⟨pos, rb.hardbs⟩ .non_trimmed
      if b.size ≤ 0 then some (0, rb)
      else
        match trim_errors_unit_shown d fuel rb b first_post with
        | none => none
        | some (retval, rb1, fp) =>
          if retval ≠ 0 ∨ too_many_errors rb1 = true then some (retval, rb1)
          else
            match update_logfile rb1 with
            | (false, rb2) => some (-2, rb2)
            | (true, rb2) => trim_errors_loop_shown d fuel rb2 (b.pos - rb.hardbs) fp
    else some (0, rb)

/-- The function `Rescuebook::trim_errors` of `rescuebook.cc` with the status display. -/
def trim_errors_shown (d : Display) (fuel : Nat) (rb : Rescuebook) :
    Option (Int × Rescuebook) :=
  trim_errors_loop_shown d fuel { rb with world := rb.world.note (.pass .trimming) }
    (LLONG_MAX - rb.hardbs) true

/-- One work unit of `Rescuebook::split_errors` (lines 225-242) with the status display. -/
def split_errors_unit_shown (d : Display) (fuel : Nat) (rb : Rescuebook) (b : Block)
    (pos error_counter : Int) (first_post : Bool) :
    Option (Int × Rescuebook × Int × Int × Bool) :=
  let rb0 := { rb with current_status := .splitting }
  match copy_and_update_shown d fuel rb0 b .bad_sector "Splitting failed blocks..."
      first_post with
  | none => none
  | some (retval, copied_size, error_size, rb1, fp) =>
    let rb2 : Rescuebook :=
      { rb1 with errsize := if copied_size > 0 then rb1.errsize - copied_size
                            else rb1.errsize }
    if error_size ≤ 0 then some (retval, rb2, pos, 0, fp)
    else if error_counter + 1 ≥ 2 ∧ (error_counter + 1) * rb2.hardbs ≥ 2 * rb2.skipbs_ then
      let index := find_index rb2.sblock_vector pos
      match sblock rb2.sblock_vector index with
      | none => some (retval, rb2, pos, 0, fp)
      | some sb =>
        if index ≥ 0 ∧ sb.status = .non_split then
          if sb.size ≥ 2 * rb2.skipbs_ ∧ sb.size ≥ 4 * rb2.hardbs then
            some (retval, rb2, pos + (Int.tdiv sb.size (2 * rb2.hardbs)) * rb2.hardbs, 0, fp)
          else some (retval, rb2, pos, 0, fp)
        else some (retval, rb2, pos, 0, fp)
    else some (retval, rb2, pos, error_counter + 1, fp)

/-- The inner loop `while( pos >= 0 )` of `Rescuebook::split_errors` with the status display.
Result as for `split_errors_sweep`, and the value of `first_post`. -/
def split_errors_sweep_shown (d : Display) : Nat → Rescuebook → Int → Int → Bool → Bool →
    Option (Option Int × Bool × Rescuebook × Bool)
  | 0, _, _, _, _, _ => none
  | fuel + 1, rb, pos, error_counter, block_found, first_post =>
    if pos ≥ 0 then
      let b := find_chunk rb.sblock_vector rb.domain ⟨pos, rb.hardbs⟩ .non_split
      if b.size ≤ 0 then some (none, block_found, rb, first_post)
      else
        match split_errors_unit_shown d fuel rb b b.end_ error_counter first_post with
        | none => none
        | some (retval, rb1, pos1, ec1, fp) =>
          if retval ≠ 0 ∨ too_many_errors rb1 = true then some (some retval, true, rb1, fp)
          else
            match update_logfile rb1 with
            | (false, rb2) => some (some (-2), true, rb2, fp)
            | (true, rb2) => split_errors_sweep_shown d fuel rb2 pos1 ec1 true fp
    else some (none, block_found, rb, first_post)

/-- The outer loop `while( true )` of `Rescuebook::split_errors` with the status display. -/
def split_errors_outer_shown (d : Display) :
    Nat → Rescuebook → Bool → Bool → Option (Int × Rescuebook)
  | 0, _, _, _ => none
  | fuel + 1, rb, resume, first_post =>
    match split_errors_sweep_shown d fuel rb (if resume = true then rb.current_pos else 0) 0
        false first_post with
    | none => none
    | some (some r, _, rb1, _) => some (r, rb1)
    | some (none, block_found, rb1, fp) =>
      if block_found = false then some (0, rb1)
      else split_errors_outer_shown d fuel rb1 false fp

/-- The function `Rescuebook::split_errors` of `rescuebook.cc` with the status display. -/
def split_errors_shown (d : Display) (fuel : Nat) (rb : Rescuebook) :
    Option (Int × Rescuebook) :=
  split_errors_outer_shown d fuel { rb with world := rb.world.note (.pass .splitting) }
    (decide (rb.current_status = .splitting) && rb.domain.includes_pos rb.current_pos) true

/-- One work unit of `Rescuebook::copy_errors` (lines 276-280) with the status display; the
message carries the number of the retry. -/
def copy_errors_unit_shown (d : Display) (fuel : Nat) (rb : Rescuebook) (b : Block)
    (retry : Int) (first_post : Bool) : Option (Int × Rescuebook × Bool) :=
  let rb0 := { rb with current_status := .retrying }
  match copy_and_update_shown d fuel rb0 b .bad_sector
      ("Retrying bad sectors... Retry " ++ toString retry) first_post with
  | none => none
  | some (retval, copied_size, _, rb1, fp) =>
    some (retval, { rb1 with errsize := if copied_size > 0 then rb1.errsize - copied_size
                                        else rb1.errsize }, fp)

/-- The inner loop `while( pos >= 0 )` of `Rescuebook::copy_errors` with the status
display. -/
def copy_errors_sweep_shown (d : Display) : Nat → Rescuebook → Int → Int → Bool → Bool →
    Option (Option Int × Bool × Rescuebook)
  | 0, _, _, _, _, _ => none
  | fuel + 1, rb, retry, pos, block_found, first_post =>
    if pos ≥ 0 then
      let b := find_chunk rb.sblock_vector rb.domain ⟨pos, rb.hardbs⟩ .bad_sector
      if b.size ≤ 0 then some (none, block_found, rb)
      else
        match copy_errors_unit_shown d fuel rb b retry first_post with
        | none => none
        | some (retval, rb1, fp) =>
          if retval ≠ 0 ∨ too_many_errors rb1 = true then some (some retval, true, rb1)
          else
            match update_logfile rb1 with
            | (false, rb2) => some (some (-2), true, rb2)
            | (true, rb2) => copy_errors_sweep_shown d fuel rb2 retry b.end_ true fp
    else some (none, block_found, rb)

/-- The loop over the retries of `Rescuebook::copy_errors` with the status display. -/
def copy_errors_retries_shown (d : Display) :
    Nat → Rescuebook → Int → Bool → Option (Int × Rescuebook)
  | 0, _, _, _ => none
  | fuel + 1, rb, retry, resume =>
    if rb.max_retries_ < 0 ∨ retry ≤ rb.max_retries_ then
      match copy_errors_sweep_shown d fuel rb retry
          (if resume = true then rb.current_pos else 0) false true with
      | none => none
      | some (some r, _, rb1) => some (r, rb1)
      | some (none, block_found, rb1) =>
        if block_found = false then some (0, rb1)
        else copy_errors_retries_shown d fuel rb1 (retry + 1) false
    else some (0, rb)

/-- The function `Rescuebook::copy_errors` of `rescuebook.cc` with the status display. -/
def copy_errors_shown (d : Display) (fuel : Nat) (rb : Rescuebook) :
    Option (Int × Rescuebook) :=
  copy_errors_retries_shown d fuel { rb with world := rb.world.note (.pass .retrying) } 1
    (decide (rb.current_status = .retrying) && rb.domain.includes_pos rb.current_pos)

/-- Lines 420-428 of `do_rescue` with the status display: the sequence of the four passes. -/
def rescue_passes_shown (d : Display) (fuel : Nat) (rb : Rescuebook)
    (copy_pending trim_pending split_pending : Bool) : Option (Int × Rescuebook) :=
  ((((if copy_pending = true ∧ too_many_errors rb = false then copy_non_tried_shown d fuel rb
      else some (0, rb)).bind
    (fun x => if x.1 = 0 ∧ trim_pending = true ∧ too_many_errors x.2 = false
      then trim_errors_shown d fuel x.2 else some x)).bind
    (fun x => if x.1 = 0 ∧ split_pending = true ∧ x.2.nosplit_ = false ∧
        too_many_errors x.2 = false
      then split_errors_shown d fuel x.2 else some x)).bind
    (fun x => if x.1 = 0 ∧ x.2.max_retries_ ≠ 0 ∧ too_many_errors x.2 = false
      then copy_errors_shown d fuel x.2 else some x))

/-- The function `Rescuebook::do_rescue` of `rescuebook.cc` with the status display: after the
passes, `if( verbosity >= 0 ) show_status( -1, (retval ? 0 : "Finished"), true )` (lines
429-431).  The `printf` calls print and change nothing. -/
def do_rescue_shown (d : Display) (fuel : Nat) (rb : Rescuebook) (ides odes : Int) :
    Option (Int × Rescuebook) :=
  match rescue_passes_shown d fuel (rescue_start rb ides odes).2.2.2
      (rescue_start rb ides odes).1 (rescue_start rb ides odes).2.1
      (rescue_start rb ides odes).2.2.1 with
  | none => none
  | some (retval, rb3) =>
    let rb4 : Rescuebook :=
      if d.verbosity ≥ 0 then
        d.show_status rb3 (-1) (if retval ≠ 0 then none else some "Finished") true
      else rb3
    rescue_finish fuel retval rb4

/-- A display that is switched off (`verbosity = -1`). -/
def quiet_display : Display := ⟨-1, fun rb _ _ _ => rb⟩

/-- A display at the default `verbosity = 0` whose `show_status` recounts the errors the way
`count_errors` does. -/
def recounting_display : Display := ⟨0, fun rb _ _ _ => count_errors rb⟩

/-- A display at the default `verbosity = 0` whose `show_status` changes nothing in the
state. -/
def printing_display : Display := ⟨0, fun rb _ _ _ => rb⟩

/-- State `rb1` is reached from state `rb0` by engine steps none of which hits EOF: work
units of the four passes, each on a non-empty chunk lying in an Sblock that has the status the
pass searches for and is included in the domain, snapshots of the logfile and the ghost events
that mark the start of a pass. -/
inductive reached_without_eof (rb0 : Rescuebook) : Rescuebook → Prop where
  | start : reached_without_eof rb0 rb0
  | copy_unit (fuel : Nat) (rb : Rescuebook) (b : Block) (pos skip r pos1 skip1 : Int)
      (rb1 : Rescuebook) : reached_without_eof rb0 rb →
      chunk_in rb.sblock_vector rb.domain .non_tried b → 0 < b.size →
      ¬ hits_eof fuel { rb with current_status := .copying } b →
      copy_non_tried_unit fuel rb b pos skip = some (r, rb1, pos1, skip1) →
      reached_without_eof rb0 rb1
  | trim_unit (fuel : Nat) (rb : Rescuebook) (b : Block) (r : Int) (rb1 : Rescuebook) :
      reached_without_eof rb0 rb →
      chunk_in rb.sblock_vector rb.domain .non_trimmed b → 0 < b.size →
      ¬ hits_eof fuel { rb with current_status := .trimming } b →
      trim_errors_unit fuel rb b = some (r, rb1) → reached_without_eof rb0 rb1
  | split_unit (fuel : Nat) (rb : Rescuebook) (b : Block) (pos ec r pos1 ec1 : Int)
      (rb1 : Rescuebook) : reached_without_eof rb0 rb →
      chunk_in rb.sblock_vector rb.domain .non_split b → 0 < b.size →
      ¬ hits_eof fuel { rb with current_status := .splitting } b →
      split_errors_unit fuel rb b pos ec = some (r, rb1, pos1, ec1) →
      reached_without_eof rb0 rb1
  | retry_unit (fuel : Nat) (rb : Rescuebook) (b : Block) (r : Int) (rb1 : Rescuebook) :
      reached_without_eof rb0 rb →
      chunk_in rb.sblock_vector rb.domain .bad_sector b → 0 < b.size →
      ¬ hits_eof fuel { rb with current_status := .retrying } b →
      copy_errors_unit fuel rb b = some (r, rb1) → reached_without_eof rb0 rb1
  | logfile (rb : Rescuebook) : reached_without_eof rb0 rb →
      reached_without_eof rb0 (update_logfile rb).2
  | pass_start (rb : Rescuebook) (p : LStatus) : reached_without_eof rb0 rb →
      reached_without_eof rb0 { rb with world := rb.world.note (.pass p) }

/-- The invariant that carries the reachability through a pass: the state is reached from
`rb0` by steps that do not hit EOF, and its environment never signals EOF. -/
def reached_eof_free (rb0 rb : Rescuebook) : Prop :=
  reached_without_eof rb0 rb ∧ eof_free rb.world.oracle

/-! ## Properties of the Sblock vector operations -/

theorem statusAt_append (l1 l2 : List Sblock) (p : Int) :
    statusAt (l1 ++ l2) p = (statusAt l1 p).orElse (fun _ => statusAt l2 p) := by
  induction l1 with
  | nil => simp [statusAt]
  | cons x r ih =>
    simp only [List.cons_append, statusAt]
    split_ifs <;> simp [ih]

theorem statusAt_change (b : Block) (st : Status) (sb : Sblock) (p : Int) :
    statusAt (sb.change b st) p =
      if sb.pos ≤ p ∧ p < sb.end_ then
        (if b.pos ≤ p ∧ p < b.end_ then some st else some sb.status)
      else none := by
  unfold Sblock.change
  simp only [Sblock.end_, Block.end_]
  split_ifs <;> simp [statusAt, Sblock.end_] <;> (try split_ifs) <;> (try simp) <;> omega

theorem statusAt_change_pieces (b : Block) (st : Status) (v : List Sblock) (p : Int) :
    statusAt (change_pieces b st v) p =
      if b.pos ≤ p ∧ p < b.end_ then (statusAt v p).map (fun _ => st) else statusAt v p := by
  induction v with
  | nil => simp [change_pieces, statusAt]
  | cons x r ih =>
    simp only [change_pieces, statusAt_append, statusAt_change, ih, statusAt]
    split_ifs <;> simp

theorem sizes_nonneg_cons (x : Sblock) (r : List Sblock) :
    sizes_nonneg (x :: r) ↔ 0 ≤ x.size ∧ sizes_nonneg r := by
  simp [sizes_nonneg]

theorem sizes_nonneg_append (l1 l2 : List Sblock) :
    sizes_nonneg (l1 ++ l2) ↔ sizes_nonneg l1 ∧ sizes_nonneg l2 := by
  simp only [sizes_nonneg, List.mem_append]
  constructor
  · intro h; exact ⟨fun sb hs => h sb (Or.inl hs), fun sb hs => h sb (Or.inr hs)⟩
  · rintro ⟨h1, h2⟩ sb (hs | hs)
    · exact h1 sb hs
    · exact h2 sb hs

theorem sizes_nonneg_change (b : Block) (st : Status) (sb : Sblock) (h : 0 ≤ sb.size) :
    sizes_nonneg (sb.change b st) := by
  intro y hy
  unfold Sblock.change at hy
  simp only [Sblock.end_, Block.end_] at hy
  split_ifs at hy <;> simp only [List.nil_append, List.cons_append, List.mem_cons,
    List.mem_singleton, List.not_mem_nil, or_false] at hy <;>
    (rcases hy with rfl | rfl | rfl <;> (try dsimp only) <;> omega)

theorem sizes_nonneg_change_pieces (b : Block) (st : Status) (v : List Sblock)
    (h : sizes_nonneg v) : sizes_nonneg (change_pieces b st v) := by
  induction v with
  | nil => simpa [change_pieces] using h
  | cons x r ih =>
    rw [sizes_nonneg_cons] at h
    simp only [change_pieces, sizes_nonneg_append]
    exact ⟨sizes_nonneg_change b st x h.1, ih h.2⟩

theorem statusAt_merge_from (b : Block) (r : List Sblock) :
    ∀ (x : Sblock) (p : Int), 0 ≤ x.size → sizes_nonneg r →
      statusAt (merge_from b x r) p = statusAt (x :: r) p := by
  induction r with
  | nil => intro x p _ _; simp [merge_from]
  | cons y r ih =>
    intro x p hx hr
    rw [sizes_nonneg_cons] at hr
    simp only [merge_from]
    split_ifs with hc
    · rw [ih _ p (by simp; omega) hr.2]
      simp only [statusAt, Sblock.end_]
      simp only [Sblock.end_] at hc
      split_ifs <;> simp_all <;> omega
    · simp only [statusAt]
      rw [ih y p hr.1 hr.2]
      simp only [statusAt]

theorem sizes_nonneg_merge_from (b : Block) (r : List Sblock) :
    ∀ (x : Sblock), 0 ≤ x.size → sizes_nonneg r → sizes_nonneg (merge_from b x r) := by
  induction r with
  | nil => intro x hx _; simpa [merge_from, sizes_nonneg] using hx
  | cons y r ih =>
    intro x hx hr
    rw [sizes_nonneg_cons] at hr
    simp only [merge_from]
    split_ifs with hc
    · exact ih _ (by simp; omega) hr.2
    · rw [sizes_nonneg_cons]; exact ⟨hx, ih y hr.1 hr.2⟩

theorem statusAt_change_chunk_status (v : List Sblock) (b : Block) (st : Status) (p : Int)
    (h : sizes_nonneg v) :
    statusAt (change_chunk_status v b st) p =
      if b.pos ≤ p ∧ p < b.end_ then (statusAt v p).map (fun _ => st) else statusAt v p := by
  unfold change_chunk_status
  split_ifs with hb hp hp
  · exfalso; simp only [Block.end_] at hp; omega
  · rfl
  · have h2 := sizes_nonneg_change_pieces b st v h
    have h3 := statusAt_change_pieces b st v p
    rw [if_pos hp] at h3
    rw [← h3]
    cases hcp : change_pieces b st v with
    | nil => rfl
    | cons x r =>
      rw [hcp, sizes_nonneg_cons] at h2
      exact statusAt_merge_from b r x p h2.1 h2.2
  · have h2 := sizes_nonneg_change_pieces b st v h
    have h3 := statusAt_change_pieces b st v p
    rw [if_neg hp] at h3
    rw [← h3]
    cases hcp : change_pieces b st v with
    | nil => rfl
    | cons x r =>
      rw [hcp, sizes_nonneg_cons] at h2
      exact statusAt_merge_from b r x p h2.1 h2.2

theorem sizes_nonneg_change_chunk_status (v : List Sblock) (b : Block) (st : Status)
    (h : sizes_nonneg v) : sizes_nonneg (change_chunk_status v b st) := by
  unfold change_chunk_status
  split_ifs with hb
  · exact h
  · have h2 := sizes_nonneg_change_pieces b st v h
    cases hcp : change_pieces b st v with
    | nil => simp [sizes_nonneg]
    | cons x r =>
      rw [hcp, sizes_nonneg_cons] at h2
      exact sizes_nonneg_merge_from b r x h2.1 h2.2

theorem statusAt_truncate_vector (v : List Sblock) (e p : Int) :
    statusAt (truncate_vector v e) p = if p < e then statusAt v p else none := by
  induction v with
  | nil => simp [truncate_vector, statusAt]
  | cons x r ih =>
    simp only [truncate_vector]
    split_ifs with h1 h2 h3 <;> simp only [statusAt, ih, Sblock.end_] <;>
      (try simp only [Sblock.end_] at h3) <;> split_ifs <;> first | rfl | omega

theorem sizes_nonneg_truncate_vector (v : List Sblock) (e : Int) (h : sizes_nonneg v) :
    sizes_nonneg (truncate_vector v e) := by
  induction v with
  | nil => simpa [truncate_vector] using h
  | cons x r ih =>
    rw [sizes_nonneg_cons] at h
    simp only [truncate_vector]
    split_ifs with h1 h2
    · exact ih h.2
    · rw [sizes_nonneg_cons]; exact ⟨by simp; omega, ih h.2⟩
    · rw [sizes_nonneg_cons]; exact ⟨h.1, ih h.2⟩

theorem io_frame_refl (rb : Rescuebook) : io_frame rb rb := rfl

theorem io_frame_trans {a b c : Rescuebook} (h1 : io_frame a b) (h2 : io_frame b c) :
    io_frame a c := by
  unfold io_frame at *
  rw [h2, h1]

theorem sys_read_le (w : World) (fd count : Int) :
    (sys_read w fd count).1 ≤ count ∨ (sys_read w fd count).1 < 0 := by
  unfold sys_read World.sys
  dsimp only
  split_ifs
  · right; simp
  · left; simp

theorem readblock_loop_bounds (fuel : Nat) :
    ∀ (w : World) (fd : Int) (buf : List Nat) (size sz r : Int) (buf1 : List Nat) (w1 : World),
      readblock_loop fuel w fd buf size sz = some (r, buf1, w1) → sz ≤ size ∨ 0 ≤ sz →
        sz ≤ r ∧ (r ≤ size ∨ r = sz) := by
  induction fuel with
  | zero => intro w fd buf size sz r buf1 w1 h; simp [readblock_loop] at h
  | succ n ih =>
    intro w fd buf size sz r buf1 w1 h hs
    simp only [readblock_loop] at h
    have hle := sys_read_le { w with errno := 0 } fd (size - sz)
    generalize sys_read { w with errno := 0 } fd (size - sz) = x at h hle
    obtain ⟨k, data, w2⟩ := x
    dsimp only at h hle
    split_ifs at h with h1 h2 h3 h4
    · have := ih _ _ _ _ _ _ _ _ h (Or.inl (by omega))
      omega
    · simp only [Option.some.injEq, Prod.mk.injEq] at h; omega
    · simp only [Option.some.injEq, Prod.mk.injEq] at h; omega
    · have := ih _ _ _ _ _ _ _ _ h hs
      omega
    · simp only [Option.some.injEq, Prod.mk.injEq] at h; omega

theorem readblock_bounds (fuel : Nat) (w : World) (fd : Int) (buf : List Nat) (size pos r : Int)
    (buf1 : List Nat) (w1 : World) (h : readblock fuel w fd buf size pos = some (r, buf1, w1))
    (hs : 0 ≤ size) : 0 ≤ r ∧ r ≤ size := by
  unfold readblock at h
  generalize sys_lseek { w with errno := 0 } fd pos = x at h
  obtain ⟨k, w2⟩ := x
  dsimp only at h
  split_ifs at h
  · have := readblock_loop_bounds fuel _ _ _ _ _ _ _ _ h (Or.inl hs)
    omega
  · simp only [Option.some.injEq, Prod.mk.injEq] at h; omega

theorem copy_block_read_result (fuel : Nat) (rb : Rescuebook) (b : Block) (c e : Int)
    (rb1 : Rescuebook) (h : copy_block_read fuel rb b = some (c, e, rb1)) (hb : 0 < b.size) :
    io_frame rb rb1 ∧ 0 ≤ c ∧ 0 ≤ e ∧ c + e ≤ b.size ∧ (e = 0 ∨ c + e = b.size) ∧
      rb1.sparse_size = rb.sparse_size ∧ rb1.final_msg = rb.final_msg := by
  unfold copy_block_read at h
  split_ifs at h with htd
  · cases hr : readblock fuel rb.world rb.ides_ rb.iobuf b.size b.pos with
    | none => rw [hr] at h; simp at h
    | some x =>
      obtain ⟨r, buf, w⟩ := x
      rw [hr] at h
      simp only [Option.some.injEq, Prod.mk.injEq] at h
      obtain ⟨rfl, rfl, rfl⟩ := h
      have := readblock_bounds _ _ _ _ _ _ _ _ _ hr (le_of_lt hb)
      refine ⟨rfl, this.1, ?_, ?_, ?_, rfl, rfl⟩ <;> split_ifs <;> omega
  · simp only [Option.some.injEq, Prod.mk.injEq] at h
    obtain ⟨rfl, rfl, rfl⟩ := h
    exact ⟨rfl, le_refl _, le_of_lt hb, by omega, Or.inr (by omega), rfl, rfl⟩

theorem copy_block_write_result (fuel : Nat) (rb : Rescuebook) (b : Block) (c e r c1 e1 : Int)
    (rb1 : Rescuebook) (h : copy_block_write fuel rb b c e = some (r, c1, e1, rb1)) :
    io_frame rb rb1 ∧
      ((r = 0 ∧ c1 = c ∧ e1 = e) ∨
       (r = 1 ∧ c1 = 0 ∧ e1 = 0 ∧ rb1.final_msg = some "Write error")) := by
  unfold copy_block_write at h
  dsimp only at h
  have fin : ∀ (x : Rescuebook), io_frame rb x → some (0, c, e, x) = some (r, c1, e1, rb1) →
      io_frame rb rb1 ∧ ((r = 0 ∧ c1 = c ∧ e1 = e) ∨
       (r = 1 ∧ c1 = 0 ∧ e1 = 0 ∧ rb1.final_msg = some "Write error")) := by
    intro x hx hh
    simp only [Option.some.injEq, Prod.mk.injEq] at hh
    obtain ⟨rfl, rfl, rfl, rfl⟩ := hh
    exact ⟨hx, Or.inl ⟨rfl, rfl, rfl⟩⟩
  have bad : ∀ (x : Rescuebook), io_frame rb x → x.final_msg = some "Write error" →
      some (1, 0, 0, x) = some (r, c1, e1, rb1) →
      io_frame rb rb1 ∧ ((r = 0 ∧ c1 = c ∧ e1 = e) ∨
       (r = 1 ∧ c1 = 0 ∧ e1 = 0 ∧ rb1.final_msg = some "Write error")) := by
    intro x hx hm hh
    simp only [Option.some.injEq, Prod.mk.injEq] at hh
    obtain ⟨rfl, rfl, rfl, rfl⟩ := hh
    exact ⟨hx, Or.inr ⟨rfl, rfl, rfl, hm⟩⟩
  split at h
  · split at h
    · split at h
      · exact fin _ (by rfl) h
      · exact fin _ (by rfl) h
    · split at h
      · cases h
      · split at h
        · exact bad _ (by rfl) (by rfl) h
        · split at h
          · split at h
            · exact bad _ (by rfl) (by rfl) h
            · exact fin _ (by rfl) h
          · exact fin _ (by rfl) h
  · exact fin _ (by rfl) h

theorem copy_block_result (fuel : Nat) (rb : Rescuebook) (b : Block) (r c e : Int)
    (rb1 : Rescuebook) (h : copy_block fuel rb b = some (r, c, e, rb1)) :
    0 < b.size ∧ io_frame rb rb1 ∧
      ((r = 0 ∧ 0 ≤ c ∧ 0 ≤ e ∧ c + e ≤ b.size ∧ (e = 0 ∨ c + e = b.size)) ∨
       (r = 1 ∧ c = 0 ∧ e = 0 ∧ rb1.final_msg = some "Write error")) := by
  unfold copy_block at h
  split_ifs at h with hb
  cases hr : copy_block_read fuel { rb with world := rb.world.note (.copy_block b) } b with
  | none => rw [hr] at h; simp at h
  | some x =>
    obtain ⟨c0, e0, rb0⟩ := x
    rw [hr] at h
    dsimp only at h
    have h1 := copy_block_read_result _ _ _ _ _ _ hr (by omega)
    have h2 := copy_block_write_result _ _ _ _ _ _ _ _ _ h
    refine ⟨by omega, ?_, ?_⟩
    · have h3 : io_frame rb { rb with world := rb.world.note (.copy_block b) } := rfl
      exact io_frame_trans (io_frame_trans h3 h1.1) h2.1
    · rcases h2.2 with ⟨rfl, rfl, rfl⟩ | h4
      · left; exact ⟨rfl, h1.2.1, h1.2.2.1, h1.2.2.2.1, h1.2.2.2.2.1⟩
      · right; exact h4

theorem same_config_refl (rb : Rescuebook) : same_config rb rb := rfl

theorem same_config_trans {a b c : Rescuebook} (h1 : same_config a b) (h2 : same_config b c) :
    same_config a c := by
  unfold same_config at *
  rw [h2, h1]

theorem io_frame_same_config {rb rb1 : Rescuebook} (h : io_frame rb rb1) : same_config rb rb1 := by
  unfold io_frame at h
  unfold same_config
  rw [h]

theorem io_frame_fields {rb rb1 : Rescuebook} (h : io_frame rb rb1) :
    rb1.sblock_vector = rb.sblock_vector ∧ rb1.recsize = rb.recsize ∧
      rb1.errsize = rb.errsize ∧ rb1.errors = rb.errors ∧
      rb1.current_status = rb.current_status := by
  unfold io_frame at h
  rw [h]
  exact ⟨rfl, rfl, rfl, rfl, rfl⟩

theorem same_config_fields {rb rb1 : Rescuebook} (h : same_config rb rb1) :
    rb1.domain = rb.domain ∧ rb1.hardbs = rb.hardbs ∧ rb1.softbs = rb.softbs ∧
      rb1.skipbs_ = rb.skipbs_ ∧ rb1.max_errors_ = rb.max_errors_ ∧
      rb1.max_retries_ = rb.max_retries_ ∧ rb1.nosplit_ = rb.nosplit_ ∧
      rb1.current_pos = rb.current_pos ∧ rb1.iname_ = rb.iname_ := by
  unfold same_config at h
  rw [h]
  exact ⟨rfl, rfl, rfl, rfl, rfl, rfl, rfl, rfl, rfl⟩

theorem copy_and_update_result (fuel : Nat) (rb : Rescuebook) (b : Block) (st : Status)
    (r c e : Int) (rb2 : Rescuebook)
    (h : copy_and_update fuel rb b st = some (r, c, e, rb2)) :
    ∃ r0 rb1, copy_block fuel rb b = some (r0, c, e, rb1) ∧ same_config rb rb2 ∧
      rb2.errsize = rb.errsize ∧ rb2.current_status = rb.current_status ∧
      ((r0 = 0 ∧ (r = 0 ∨ r = 1) ∧
          rb2.sblock_vector = marked_vector rb.sblock_vector b st rb.hardbs c e ∧
          rb2.recsize = rb.recsize + (if c > 0 then c else 0)) ∨
       (r0 ≠ 0 ∧ r = r0 ∧ rb2 = rb1)) := by
  cases hcb : copy_block fuel rb b with
  | none => simp [copy_and_update, hcb] at h
  | some x =>
    obtain ⟨r0, c0, e0, rb1⟩ := x
    have hio := (copy_block_result _ _ _ _ _ _ _ hcb).2.1
    have hf := io_frame_fields hio
    have hsc := io_frame_same_config hio
    have hcf := same_config_fields hsc
    obtain ⟨hv, hrec, herr, herrs, hcs⟩ := hf
    have hh := hcf.2.1
    have key : ∀ (x : Rescuebook) (k : Int), some (k, c0, e0, x) = some (r, c, e, rb2) →
        same_config rb1 x → x.errsize = rb1.errsize → x.current_status = rb1.current_status →
        ((r0 = 0 ∧ (k = 0 ∨ k = 1) ∧
          x.sblock_vector = marked_vector rb.sblock_vector b st rb.hardbs c0 e0 ∧
          x.recsize = rb.recsize + (if c0 > 0 then c0 else 0)) ∨
         (r0 ≠ 0 ∧ k = r0 ∧ x = rb1)) →
        ∃ r9 rb9, some (r0, c0, e0, rb1) = some (r9, c, e, rb9) ∧ same_config rb rb2 ∧
          rb2.errsize = rb.errsize ∧ rb2.current_status = rb.current_status ∧
          ((r9 = 0 ∧ (r = 0 ∨ r = 1) ∧
              rb2.sblock_vector = marked_vector rb.sblock_vector b st rb.hardbs c e ∧
              rb2.recsize = rb.recsize + (if c > 0 then c else 0)) ∨
           (r9 ≠ 0 ∧ r = r9 ∧ rb2 = rb9)) := by
      intro x k hx h1 h2 h3 h4
      simp only [Option.some.injEq, Prod.mk.injEq] at hx
      obtain ⟨rfl, rfl, rfl, rfl⟩ := hx
      exact ⟨r0, rb1, rfl, same_config_trans hsc h1, by rw [h2, herr], by rw [h3, hcs], h4⟩
    have hrs : (if c0 > 0 then rb1.recsize + c0 else rb1.recsize) =
        rb.recsize + (if c0 > 0 then c0 else 0) := by
      rw [hrec]; split_ifs <;> omega
    by_cases hr0 : r0 = 0
    · by_cases he : e0 > 0
      · simp only [copy_and_update, hcb, hr0, he, if_true] at h
        have hmv : (if e0 ≥ rb1.hardbs ∧ st ≠ Status.bad_sector then
              change_chunk_status
                (change_chunk_status
                  (if c0 > 0 then
                    change_chunk_status
                      (if c0 + e0 < b.size then truncate_vector rb1.sblock_vector (b.pos + c0 + e0)
                       else rb1.sblock_vector) ⟨b.pos, c0⟩ Status.finished
                   else if c0 + e0 < b.size then truncate_vector rb1.sblock_vector (b.pos + c0 + e0)
                     else rb1.sblock_vector)
                  ⟨b.pos + c0, rb1.hardbs⟩ Status.bad_sector)
                ⟨Block.end_ ⟨b.pos + c0, rb1.hardbs⟩, e0 - rb1.hardbs⟩ st
            else
              change_chunk_status
                (if c0 > 0 then
                  change_chunk_status
                    (if c0 + e0 < b.size then truncate_vector rb1.sblock_vector (b.pos + c0 + e0)
                     else rb1.sblock_vector) ⟨b.pos, c0⟩ Status.finished
                 else if c0 + e0 < b.size then truncate_vector rb1.sblock_vector (b.pos + c0 + e0)
                   else rb1.sblock_vector)
                ⟨b.pos + c0, e0⟩ st) =
            marked_vector rb.sblock_vector b st rb.hardbs c0 e0 := by
          simp only [marked_vector, hv, hh, he, if_true, Block.end_]
        by_cases hin : rb1.iname_ = true
        · rw [if_pos hin] at h
          generalize sys_access rb1.world = a at h
          obtain ⟨k, w⟩ := a
          simp only [] at h
          by_cases hk : k ≠ 0
          · rw [if_pos hk] at h
            exact key _ _ h (by rfl) rfl rfl (Or.inl ⟨hr0, Or.inr rfl, hmv, hrs⟩)
          · rw [if_neg hk] at h
            exact key _ _ h (by rfl) rfl rfl (Or.inl ⟨hr0, Or.inl rfl, hmv, hrs⟩)
        · rw [if_neg hin] at h
          exact key _ _ h (by rfl) rfl rfl (Or.inl ⟨hr0, Or.inl rfl, hmv, hrs⟩)
      · simp only [copy_and_update, hcb, hr0, he, if_true, if_false] at h
        refine key _ _ h (by rfl) rfl rfl (Or.inl ⟨hr0, Or.inl rfl, ?_, hrs⟩)
        simp only [marked_vector, hv, hh, he, if_false, Block.end_]
    · simp only [copy_and_update, hcb, hr0, if_false] at h
      exact key _ _ h (by rfl) rfl rfl (Or.inr ⟨hr0, rfl, rfl⟩)

theorem sizes_nonneg_marked_vector (v : List Sblock) (b : Block) (st : Status) (hardbs c e : Int)
    (hv : sizes_nonneg v) : sizes_nonneg (marked_vector v b st hardbs c e) := by
  have t := sizes_nonneg_truncate_vector v (b.pos + c + e) hv
  unfold marked_vector
  dsimp only
  split_ifs <;>
    first
    | assumption
    | exact sizes_nonneg_change_chunk_status _ _ _ (by assumption)
    | exact sizes_nonneg_change_chunk_status _ _ _
        (sizes_nonneg_change_chunk_status _ _ _ (by assumption))
    | exact sizes_nonneg_change_chunk_status _ _ _ (sizes_nonneg_change_chunk_status _ _ _
        (sizes_nonneg_change_chunk_status _ _ _ (by assumption)))

theorem statusAt_truncate_guard (v : List Sblock) (c e : Int) (b : Block) (p : Int) :
    statusAt (if c + e < b.size then truncate_vector v (b.pos + c + e) else v) p =
      if c + e < b.size ∧ b.pos + c + e ≤ p then none else statusAt v p := by
  split_ifs with h1 h2 h2
  · rw [statusAt_truncate_vector, if_neg (by omega)]
  · rw [statusAt_truncate_vector, if_pos (by omega)]
  · exfalso; exact h1 h2.1
  · rfl

theorem statusAt_change_guard (u : List Sblock) (q c p : Int) (s : Status)
    (hu : sizes_nonneg u) :
    statusAt (if c > 0 then change_chunk_status u ⟨q, c⟩ s else u) p =
      if q ≤ p ∧ p < q + c then (statusAt u p).map (fun _ => s) else statusAt u p := by
  split_ifs with h1 h2 h2
  · rw [statusAt_change_chunk_status _ _ _ _ hu, if_pos (by simpa [Block.end_] using h2)]
  · rw [statusAt_change_chunk_status _ _ _ _ hu, if_neg (by simpa [Block.end_] using h2)]
  · exfalso; omega
  · rfl

theorem sizes_nonneg_guards (v : List Sblock) (b : Block) (c e : Int) (hv : sizes_nonneg v) :
    sizes_nonneg (if c > 0 then
        change_chunk_status (if c + e < b.size then truncate_vector v (b.pos + c + e) else v)
          ⟨b.pos, c⟩ Status.finished
      else if c + e < b.size then truncate_vector v (b.pos + c + e) else v) := by
  have t := sizes_nonneg_truncate_vector v (b.pos + c + e) hv
  split_ifs <;>
    first
    | assumption
    | exact sizes_nonneg_change_chunk_status _ _ _ (by assumption)

theorem statusAt_marked_vector (v : List Sblock) (b : Block) (st : Status) (hardbs c e p : Int)
    (hv : sizes_nonneg v) (hc : 0 ≤ c) (he : 0 ≤ e) (hh : 0 < hardbs) :
    statusAt (marked_vector v b st hardbs c e) p =
      marked_status (statusAt v p) b st hardbs c e p := by
  have g1 := sizes_nonneg_guards v b c e hv
  have g0 : sizes_nonneg (if c + e < b.size then truncate_vector v (b.pos + c + e) else v) := by
    split_ifs
    · exact sizes_nonneg_truncate_vector _ _ hv
    · exact hv
  unfold marked_vector marked_status
  dsimp only
  by_cases h1 : e > 0
  · rw [if_pos h1]
    by_cases h2 : e ≥ hardbs ∧ st ≠ Status.bad_sector
    · rw [if_pos h2,
        statusAt_change_chunk_status _ _ _ _ (sizes_nonneg_change_chunk_status _ _ _ g1),
        statusAt_change_chunk_status _ _ _ _ g1, statusAt_change_guard _ _ _ _ _ g0,
        statusAt_truncate_guard]
      simp only [Block.end_]
      obtain ⟨h2a, h2b⟩ := h2
      simp only [h2a, h2b, ne_eq, not_false_eq_true, true_and]
      cases statusAt v p with
      | none => split_ifs <;> rfl
      | some o =>
        simp only [Option.map_some', Option.map_none']
        split_ifs <;> first | rfl | (exfalso; omega)
    · rw [if_neg h2, statusAt_change_chunk_status _ _ _ _ g1,
        statusAt_change_guard _ _ _ _ _ g0, statusAt_truncate_guard]
      simp only [Block.end_]
      have h3 : ∀ q : Int, ¬ (e ≥ hardbs ∧ st ≠ Status.bad_sector ∧ q < b.pos + c + hardbs) :=
        fun q hq => h2 ⟨hq.1, hq.2.1⟩
      simp only [h3, if_false]
      cases statusAt v p with
      | none => split_ifs <;> rfl
      | some o =>
        simp only [Option.map_some', Option.map_none']
        split_ifs <;> first | rfl | (exfalso; omega)
  · rw [if_neg h1, statusAt_change_guard _ _ _ _ _ g0, statusAt_truncate_guard]
    cases statusAt v p with
    | none => split_ifs <;> rfl
    | some o =>
      simp only [Option.map_some', Option.map_none']
      split_ifs <;> first | rfl | (exfalso; omega)

theorem copy_and_update_returns (fuel : Nat) (rb : Rescuebook) (b : Block) (st : Status)
    (r0 c e : Int) (rb1 : Rescuebook) (hcb : copy_block fuel rb b = some (r0, c, e, rb1)) :
    ∃ r rb2, copy_and_update fuel rb b st = some (r, c, e, rb2) := by
  by_cases hr0 : r0 = 0
  · by_cases he : e > 0
    · simp only [copy_and_update, hcb, hr0, he, if_true]
      by_cases hin : rb1.iname_ = true
      · rw [if_pos hin]
        generalize sys_access rb1.world = a
        obtain ⟨k, w⟩ := a
        simp only []
        by_cases hk : k ≠ 0
        · rw [if_pos hk]; exact ⟨_, _, rfl⟩
        · rw [if_neg hk]; exact ⟨_, _, rfl⟩
      · rw [if_neg hin]; exact ⟨_, _, rfl⟩
    · simp only [copy_and_update, hcb, hr0, he, if_true, if_false]
      exact ⟨_, _, rfl⟩
  · simp only [copy_and_update, hcb, hr0, if_false]
    exact ⟨_, _, rfl⟩

/-- C1: for a block `b` (of positive size, as `copy_block` requires) that the vector covers,
when `copy_block` returns 0 with `copied_size = c` and `error_size = e`, `copy_and_update`
returns with the same sizes, marks `[b.pos, b.pos+c)` as finished and adds `c` to `recsize`
(if `c > 0`), and marks the failed tail `[b.pos+c, b.pos+c+e)` (if `e > 0`): when
`e ≥ hardbs` and `st ≠ bad_sector` its leading `hardbs` bytes become `bad_sector` and the
remaining bytes `st`, otherwise the whole tail becomes `st`.  No byte outside `b` changes
status: it keeps the status it had, or, when EOF was hit, it lies past `b` and is dropped from
the vector by the truncation. -/
theorem copy_and_update_marks (fuel : Nat) (rb : Rescuebook) (b : Block) (st : Status)
    (c e : Int) (rb1 : Rescuebook) (hh : 0 < rb.hardbs)
    (hv : sizes_nonneg rb.sblock_vector)
    (hcov : ∀ p, b.pos ≤ p → p < b.end_ → statusAt rb.sblock_vector p ≠ none)
    (hcb : copy_block fuel rb b = some (0, c, e, rb1)) :
    ∃ r rb2, copy_and_update fuel rb b st = some (r, c, e, rb2) ∧
      (0 < c → rb2.recsize = rb.recsize + c ∧
        ∀ p, b.pos ≤ p → p < b.pos + c → statusAt rb2.sblock_vector p = some .finished) ∧
      (c ≤ 0 → rb2.recsize = rb.recsize) ∧
      (0 < e →
        (e ≥ rb.hardbs ∧ st ≠ .bad_sector →
          (∀ p, b.pos + c ≤ p → p < b.pos + c + rb.hardbs →
            statusAt rb2.sblock_vector p = some .bad_sector) ∧
          (∀ p, b.pos + c + rb.hardbs ≤ p → p < b.pos + c + e →
            statusAt rb2.sblock_vector p = some st)) ∧
        (¬ (e ≥ rb.hardbs ∧ st ≠ .bad_sector) →
          ∀ p, b.pos + c ≤ p → p < b.pos + c + e →
            statusAt rb2.sblock_vector p = some st)) ∧
      (∀ p, p < b.pos ∨ b.end_ ≤ p →
        statusAt rb2.sblock_vector p = statusAt rb.sblock_vector p ∨
        (c + e < b.size ∧ b.end_ ≤ p ∧ statusAt rb2.sblock_vector p = none)) := by
  obtain ⟨r, rb2, hcu⟩ := copy_and_update_returns fuel rb b st 0 c e rb1 hcb
  obtain ⟨r0, rb1', hcb', -, -, -, hres⟩ := copy_and_update_result _ _ _ _ _ _ _ _ hcu
  rw [hcb] at hcb'
  simp only [Option.some.injEq, Prod.mk.injEq, true_and] at hcb'
  obtain ⟨rfl, -⟩ := hcb'
  have hbd := (copy_block_result _ _ _ _ _ _ _ hcb).2.2
  rcases hbd with ⟨-, hc0, he0, hce, -⟩ | ⟨h01, -⟩
  swap
  · exact absurd h01 (by decide)
  rcases hres with ⟨-, -, hvec, hrec⟩ | ⟨hne, -⟩
  swap
  · exact absurd rfl hne
  have hst : ∀ p, statusAt rb2.sblock_vector p =
      marked_status (statusAt rb.sblock_vector p) b st rb.hardbs c e p := by
    intro p
    rw [hvec]
    exact statusAt_marked_vector _ _ _ _ _ _ _ hv hc0 he0 hh
  have hsome : ∀ p, b.pos ≤ p → p < b.end_ → ∃ s, statusAt rb.sblock_vector p = some s := by
    intro p h1 h2
    cases hs : statusAt rb.sblock_vector p with
    | none => exact absurd hs (hcov p h1 h2)
    | some s => exact ⟨s, rfl⟩
  simp only [Block.end_] at hsome
  refine ⟨r, rb2, hcu, ?_, ?_, ?_, ?_⟩
  · intro hc
    refine ⟨by rw [hrec, if_pos hc], ?_⟩
    intro p h1 h2
    obtain ⟨s, hs⟩ := hsome p h1 (by omega)
    rw [hst, hs]
    unfold marked_status
    rw [if_neg (by omega), if_pos ⟨h1, h2⟩]
    rfl
  · intro hc
    rw [hrec, if_neg (by omega)]
    omega
  · intro he
    refine ⟨?_, ?_⟩
    · rintro ⟨h3, h4⟩
      refine ⟨?_, ?_⟩
      · intro p h1 h2
        obtain ⟨s, hs⟩ := hsome p (by omega) (by omega)
        rw [hst, hs]
        unfold marked_status
        rw [if_neg (by omega), if_neg (by omega), if_pos ⟨h1, by omega⟩]
        simp only [Option.map_some']
        rw [if_pos ⟨h3, h4, h2⟩]
      · intro p h1 h2
        obtain ⟨s, hs⟩ := hsome p (by omega) (by omega)
        rw [hst, hs]
        unfold marked_status
        rw [if_neg (by omega), if_neg (by omega), if_pos ⟨by omega, h2⟩]
        simp only [Option.map_some']
        rw [if_neg (by omega)]
    · intro h3 p h1 h2
      obtain ⟨s, hs⟩ := hsome p (by omega) (by omega)
      rw [hst, hs]
      unfold marked_status
      rw [if_neg (by omega), if_neg (by omega), if_pos ⟨h1, h2⟩]
      simp only [Option.map_some']
      rw [if_neg (fun h => h3 ⟨h.1, h.2.1⟩)]
  · intro p hp
    rw [hst]
    unfold marked_status
    simp only [Block.end_] at hp ⊢
    by_cases h5 : c + e < b.size ∧ b.pos + c + e ≤ p
    · right
      rw [if_pos h5]
      exact ⟨h5.1, by omega, rfl⟩
    · left
      rw [if_neg h5, if_neg (by omega), if_neg (by omega)]

theorem copy_and_update_marks_witness :
    ∃ r rb2, copy_and_update 5 short_read_book ⟨0, 4⟩ .non_trimmed = some (r, 1, 3, rb2) ∧
      (0 < (1 : Int) → rb2.recsize = short_read_book.recsize + 1 ∧
        ∀ p, (0 : Int) ≤ p → p < 0 + 1 → statusAt rb2.sblock_vector p = some .finished) ∧
      ((1 : Int) ≤ 0 → rb2.recsize = short_read_book.recsize) ∧
      (0 < (3 : Int) →
        (3 ≥ short_read_book.hardbs ∧ Status.non_trimmed ≠ .bad_sector →
          (∀ p, (0 : Int) + 1 ≤ p → p < 0 + 1 + short_read_book.hardbs →
            statusAt rb2.sblock_vector p = some .bad_sector) ∧
          (∀ p, 0 + 1 + short_read_book.hardbs ≤ p → p < 0 + 1 + 3 →
            statusAt rb2.sblock_vector p = some .non_trimmed)) ∧
        (¬ (3 ≥ short_read_book.hardbs ∧ Status.non_trimmed ≠ .bad_sector) →
          ∀ p, (0 : Int) + 1 ≤ p → p < 0 + 1 + 3 →
            statusAt rb2.sblock_vector p = some .non_trimmed)) ∧
      (∀ p, p < (0 : Int) ∨ Block.end_ ⟨0, 4⟩ ≤ p →
        statusAt rb2.sblock_vector p = statusAt short_read_book.sblock_vector p ∨
        ((1 : Int) + 3 < 4 ∧ Block.end_ ⟨0, 4⟩ ≤ p ∧ statusAt rb2.sblock_vector p = none)) :=
  copy_and_update_marks 5 short_read_book ⟨0, 4⟩ .non_trimmed 1 3
    (state_of (copy_block 5 short_read_book ⟨0, 4⟩) short_read_book)
    (by decide) (by decide)
    (by intro p h1 h2
        simp only [short_read_book, sample_book, statusAt, Sblock.end_, Block.end_] at h2 ⊢
        rw [if_pos ⟨h1, by omega⟩]
        simp)
    (by rfl)

/-- C2: for every block `b` with `size > 0`, when `copy_block` returns 0 its outputs satisfy
`copied_size ≥ 0`, `error_size ≥ 0` and `copied_size + error_size ≤ b.size`; when no test
domain excludes `b`, `copied_size` is the result of `readblock` and `error_size` is
`b.size - copied_size` if the read ended with `errno ≠ 0` and 0 otherwise; and when a test
domain is set that excludes `b`, `copy_block` returns 0 with `(copied_size, error_size) =
(0, b.size)` and makes no system call at all (the trace only gains the entry of
`copy_block`, the count of calls is unchanged). -/
theorem copy_block_sizes (fuel : Nat) (rb : Rescuebook) (b : Block) (hb : 0 < b.size) :
    (∀ c e rb1, copy_block fuel rb b = some (0, c, e, rb1) →
      0 ≤ c ∧ 0 ≤ e ∧ c + e ≤ b.size ∧
      (rb.test_domain.all (fun td => td.includes b) = true →
        ∃ buf w, readblock fuel (rb.world.note (.copy_block b)) rb.ides_ rb.iobuf b.size b.pos =
            some (c, buf, w) ∧
          e = if w.errno ≠ 0 then b.size - c else 0)) ∧
    (∀ td, rb.test_domain = some td → td.includes b = false →
      ∃ rb1, copy_block fuel rb b = some (0, 0, b.size, rb1) ∧
        rb1.world.trace = Event.copy_block b :: rb.world.trace ∧
        rb1.world.clock = rb.world.clock) := by
  refine ⟨?_, ?_⟩
  · intro c e rb1 h
    have hbd := (copy_block_result _ _ _ _ _ _ _ h).2.2
    rcases hbd with ⟨-, hc0, he0, hce, -⟩ | ⟨h01, -⟩
    swap
    · exact absurd h01 (by decide)
    refine ⟨hc0, he0, hce, ?_⟩
    intro htd
    unfold copy_block at h
    rw [if_neg (by omega)] at h
    unfold copy_block_read at h
    simp only [htd, if_true] at h
    cases hr : readblock fuel (rb.world.note (.copy_block b)) rb.ides_ rb.iobuf b.size b.pos with
    | none => simp [hr] at h
    | some x =>
      obtain ⟨c1, buf, w⟩ := x
      simp only [hr] at h
      have h2 := copy_block_write_result _ _ _ _ _ _ _ _ _ h
      rcases h2.2 with ⟨-, rfl, rfl⟩ | ⟨h01, -⟩
      · exact ⟨buf, w, rfl, rfl⟩
      · exact absurd h01 (by decide)
  · intro td htd hex
    refine ⟨{ rb with world := rb.world.note (.copy_block b), iobuf_ipos := -1 }, ?_, rfl, rfl⟩
    · unfold copy_block
      rw [if_neg (by omega)]
      unfold copy_block_read
      simp only [htd, Option.all_some, hex, Bool.false_eq_true, if_false]
      unfold copy_block_write
      rw [if_neg (by omega)]

theorem copy_block_sizes_witness :
    (∀ c e rb1, copy_block 5 test_domain_book ⟨0, 4⟩ = some (0, c, e, rb1) →
      0 ≤ c ∧ 0 ≤ e ∧ c + e ≤ (4 : Int) ∧
      (test_domain_book.test_domain.all (fun td => td.includes ⟨0, 4⟩) = true →
        ∃ buf w, readblock 5 (test_domain_book.world.note (.copy_block ⟨0, 4⟩))
            test_domain_book.ides_ test_domain_book.iobuf 4 0 = some (c, buf, w) ∧
          e = if w.errno ≠ 0 then 4 - c else 0)) ∧
    (∀ td, test_domain_book.test_domain = some td → td.includes ⟨0, 4⟩ = false →
      ∃ rb1, copy_block 5 test_domain_book ⟨0, 4⟩ = some (0, 0, 4, rb1) ∧
        rb1.world.trace = Event.copy_block ⟨0, 4⟩ :: test_domain_book.world.trace ∧
        rb1.world.clock = test_domain_book.world.clock) :=
  copy_block_sizes 5 test_domain_book ⟨0, 4⟩ (by decide)

/-- C3 (what the code does): whatever the value of the signal flag, in particular when
`interrupted()` is true, once `copy_block` has returned, `copy_and_update` returns with the
same sizes and its return value is 0 or 1, never -1: neither `copy_block` nor
`copy_and_update` reads the flag. -/
theorem copy_and_update_ignores_signal (fuel : Nat) (rb : Rescuebook) (b : Block) (st : Status)
    (r0 c e : Int) (rb1 : Rescuebook) (hi : interrupted rb.world = true)
    (hcb : copy_block fuel rb b = some (r0, c, e, rb1)) :
    ∃ r rb2, copy_and_update fuel rb b st = some (r, c, e, rb2) ∧ (r = 0 ∨ r = 1) := by
  obtain ⟨r, rb2, h⟩ := copy_and_update_returns fuel rb b st r0 c e rb1 hcb
  refine ⟨r, rb2, h, ?_⟩
  obtain ⟨r9, rb9, hcb9, -, -, -, hres⟩ := copy_and_update_result _ _ _ _ _ _ _ _ h
  rcases hres with ⟨-, h1, -⟩ | ⟨-, h1, -⟩
  · exact h1
  · rcases (copy_block_result _ _ _ _ _ _ _ hcb9).2.2 with ⟨h2, -⟩ | ⟨h2, -⟩
    · left; rw [h1, h2]
    · right; rw [h1, h2]

theorem copy_and_update_ignores_signal_witness :
    interrupted interrupted_book.world = true ∧
      (copy_and_update 5 interrupted_book ⟨0, 4⟩ .non_trimmed).map (fun x => x.1) = some 0 ∧
      ∃ r rb2, copy_and_update 5 interrupted_book ⟨0, 4⟩ .non_trimmed = some (r, 1, 3, rb2) ∧
        (r = 0 ∨ r = 1) :=
  ⟨by decide, by decide,
   copy_and_update_ignores_signal 5 interrupted_book ⟨0, 4⟩ .non_trimmed 0 1 3
     (state_of (copy_block 5 interrupted_book ⟨0, 4⟩) interrupted_book)
     (by decide) (by rfl)⟩

theorem copy_block_unfold (fuel : Nat) (rb : Rescuebook) (b : Block) (c0 e0 : Int)
    (rb0 : Rescuebook) (hb : 0 < b.size)
    (hread : copy_block_read fuel { rb with world := rb.world.note (.copy_block b) } b =
      some (c0, e0, rb0)) :
    copy_block fuel rb b = copy_block_write fuel rb0 b c0 e0 := by
  unfold copy_block
  rw [if_neg (by omega), hread]

/-- C9: when the bytes read are written (`copied_size > 0` and the write is not elided) and
the write is short, or the synchronous `fsync` fails with an `errno` other than `EINVAL`,
`copy_block` returns 1 with `copied_size = 0` and `error_size = 0` and records the final
message `Write error`; `copy_and_update` then returns 1 too, with the Sblock vector and the
counters `recsize`, `errsize` and `errors` unchanged. -/
theorem write_error_changes_nothing (fuel : Nat) (rb : Rescuebook) (b : Block) (st : Status)
    (c0 e0 wsz : Int) (rb0 : Rescuebook) (w1 : World) (hb : 0 < b.size)
    (hread : copy_block_read fuel { rb with world := rb.world.note (.copy_block b) } b =
      some (c0, e0, rb0))
    (hc : c0 > 0)
    (hsp : ¬ (rb0.sparse_size ≥ 0 ∧ block_is_zero rb0.iobuf c0 = true))
    (hw : writeblock fuel rb0.world rb0.odes_ c0 (b.pos + rb0.offset) = some (wsz, w1))
    (hfail : wsz ≠ c0 ∨ (rb0.synchronous_ = true ∧ (sys_fsync w1 rb0.odes_).1 < 0 ∧
      (sys_fsync w1 rb0.odes_).2.errno ≠ EINVAL)) :
    ∃ rb1, copy_block fuel rb b = some (1, 0, 0, rb1) ∧
      rb1.final_msg = some "Write error" ∧
      copy_and_update fuel rb b st = some (1, 0, 0, rb1) ∧
      rb1.sblock_vector = rb.sblock_vector ∧ rb1.recsize = rb.recsize ∧
      rb1.errsize = rb.errsize ∧ rb1.errors = rb.errors := by
  have hcb : ∃ rb1, copy_block fuel rb b = some (1, 0, 0, rb1) ∧
      rb1.final_msg = some "Write error" := by
    rw [copy_block_unfold fuel rb b c0 e0 rb0 hb hread]
    unfold copy_block_write
    simp only [hc, if_true, hsp, if_false, hw]
    by_cases h1 : wsz ≠ c0
    · rw [if_pos h1]; exact ⟨_, rfl, rfl⟩
    · rw [if_neg h1]
      rcases hfail with h2 | ⟨h2, h3⟩
      · exact absurd h2 h1
      · rw [if_pos h2, if_pos h3]; exact ⟨_, rfl, rfl⟩
  obtain ⟨rb1, h1, h2⟩ := hcb
  have hf := io_frame_fields (copy_block_result _ _ _ _ _ _ _ h1).2.1
  refine ⟨rb1, h1, h2, ?_, hf.1, hf.2.1, hf.2.2.1, hf.2.2.2.1⟩
  simp only [copy_and_update, h1]
  rw [if_neg (by decide)]

theorem write_error_changes_nothing_witness :
    ∃ rb1, copy_block 5 write_error_book ⟨0, 4⟩ = some (1, 0, 0, rb1) ∧
      rb1.final_msg = some "Write error" ∧
      copy_and_update 5 write_error_book ⟨0, 4⟩ .non_trimmed = some (1, 0, 0, rb1) ∧
      rb1.sblock_vector = write_error_book.sblock_vector ∧
      rb1.recsize = write_error_book.recsize ∧
      rb1.errsize = write_error_book.errsize ∧ rb1.errors = write_error_book.errors :=
  write_error_changes_nothing 5 write_error_book ⟨0, 4⟩ .non_trimmed 1 3 0
    (read_state_of (copy_block_read 5
      { write_error_book with
        world := write_error_book.world.note (.copy_block ⟨0, 4⟩) } ⟨0, 4⟩) write_error_book)
    (world_of (writeblock 5 (read_state_of (copy_block_read 5
      { write_error_book with
        world := write_error_book.world.note (.copy_block ⟨0, 4⟩) } ⟨0, 4⟩)
        write_error_book).world 4 1 0) write_error_book.world)
    (by decide) (by rfl) (by decide) (by decide) (by rfl) (Or.inl (by decide))

/-- C8 (what the code does): the constructor sets `sparse_size` to 0 whatever the value of
`sparse`, and `copy_block` tests `sparse_size >= 0` only.  So in a Rescuebook constructed
with `sparse = false`, a block whose copied bytes are all zero is not written: `copy_block`
returns 0 without any call after the read, and `sparse_size` becomes the maximum of 0 and
`b.pos + offset + copied_size`. -/
theorem zero_block_elided_without_sparse (lb : Rescuebook) (iname_ok : Bool)
    (hardbs max_errors max_retries : Int) (nosplit retrim synchronous try_again : Bool)
    (fuel : Nat) (b : Block) (c0 e0 : Int) (rb0 : Rescuebook) (hb : 0 < b.size)
    (hread : copy_block_read fuel
      { Rescuebook.create lb iname_ok hardbs max_errors max_retries nosplit retrim false
          synchronous try_again with
        world := (Rescuebook.create lb iname_ok hardbs max_errors max_retries nosplit retrim
          false synchronous try_again).world.note (.copy_block b) } b = some (c0, e0, rb0))
    (hc : c0 > 0) (hz : block_is_zero rb0.iobuf c0 = true) :
    (Rescuebook.create lb iname_ok hardbs max_errors max_retries nosplit retrim false
        synchronous try_again).sparse_ = false ∧
    ∃ rb1, copy_block fuel (Rescuebook.create lb iname_ok hardbs max_errors max_retries nosplit
        retrim false synchronous try_again) b = some (0, c0, e0, rb1) ∧
      rb1.world = rb0.world ∧
      rb1.sparse_size = max 0 (b.pos + lb.offset + c0) := by
  refine ⟨rfl, ?_⟩
  rw [copy_block_unfold fuel _ b c0 e0 rb0 hb hread]
  have hr := copy_block_read_result _ _ _ _ _ _ hread hb
  have hs : rb0.sparse_size = 0 := hr.2.2.2.2.2.1
  have ho : rb0.offset = lb.offset := by
    have := hr.1
    unfold io_frame at this
    rw [this]
    rfl
  unfold copy_block_write
  simp only [hc, if_true]
  rw [if_pos ⟨by omega, hz⟩]
  refine ⟨_, rfl, rfl, ?_⟩
  simp only [hs, ho]
  split_ifs with h1
  · exact (max_eq_right (by omega)).symm
  · exact (max_eq_left (by omega)).symm

theorem zero_block_elided_without_sparse_witness :
    (Rescuebook.create zero_read_book false 2 (-1) 0 false false false false false).sparse_ =
        false ∧
    ∃ rb1, copy_block 5 (Rescuebook.create zero_read_book false 2 (-1) 0 false false false
        false false) ⟨0, 4⟩ = some (0, 4, 0, rb1) ∧
      rb1.world = (read_state_of (copy_block_read 5
        { Rescuebook.create zero_read_book false 2 (-1) 0 false false false false false with
          world := (Rescuebook.create zero_read_book false 2 (-1) 0 false false false false
            false).world.note (.copy_block ⟨0, 4⟩) } ⟨0, 4⟩) zero_read_book).world ∧
      rb1.sparse_size = max 0 (0 + zero_read_book.offset + 4) :=
  zero_block_elided_without_sparse zero_read_book false 2 (-1) 0 false false false false 5
    ⟨0, 4⟩ 4 0 _ (by decide) (by rfl) (by decide) (by decide)

theorem run_ends_false (l : List Bool) : run_ends (false :: l) = run_ends l := by
  cases l <;> simp [run_ends]

theorem run_ends_true (l : List Bool) :
    run_ends (true :: l) + (if l.headD false = true then 1 else 0) = 1 + run_ends l := by
  cases l with
  | nil => simp [run_ends]
  | cons b r => cases b <;> simp [run_ends] <;> omega

theorem count_errors_loop_runs (dom : Domain) (v : List Sblock) :
    ∀ (good : Bool) (errors : Int),
      count_errors_loop dom v good errors +
          (if good = false ∧
              ((scanned dom v).map (fun sb => bad_status sb.status)).headD false = true
           then 1 else 0) =
        errors + run_ends ((scanned dom v).map (fun sb => bad_status sb.status)) := by
  induction v with
  | nil => intro good errors; simp [count_errors_loop, scanned, run_ends]
  | cons sb r ih =>
    intro good errors
    by_cases hin : dom.includes sb.block = true
    · have b1 : bad_status Status.non_tried = false := rfl
      have b2 : bad_status Status.non_trimmed = true := rfl
      have b3 : bad_status Status.non_split = true := rfl
      have b4 : bad_status Status.bad_sector = true := rfl
      have b5 : bad_status Status.finished = false := rfl
      cases hs : sb.status <;>
        simp only [count_errors_loop, scanned, hin, hs, Bool.not_true, Bool.false_eq_true,
          if_false, if_true, List.map_cons, b1, b2, b3, b4, b5, List.headD_cons, and_false,
          and_true]
      · have := ih true errors
        simp only [Bool.true_eq_false, false_and, if_false, add_zero] at this
        rw [run_ends_false]; simpa using this
      · have h1 := run_ends_true ((scanned dom r).map (fun sb => bad_status sb.status))
        cases good
        · have := ih false errors
          simp only [true_and] at this
          simp only [Bool.false_eq_true, if_false, if_true]
          push_cast at h1 ⊢
          split_ifs at this h1 ⊢ <;> omega
        · have := ih false (errors + 1)
          simp only [true_and] at this
          simp only [if_true, Bool.true_eq_false, if_false]
          split_ifs at this h1 ⊢ <;> omega
      · have h1 := run_ends_true ((scanned dom r).map (fun sb => bad_status sb.status))
        cases good
        · have := ih false errors
          simp only [true_and] at this
          simp only [Bool.false_eq_true, if_false, if_true]
          split_ifs at this h1 ⊢ <;> omega
        · have := ih false (errors + 1)
          simp only [true_and] at this
          simp only [if_true, Bool.true_eq_false, if_false]
          split_ifs at this h1 ⊢ <;> omega
      · have h1 := run_ends_true ((scanned dom r).map (fun sb => bad_status sb.status))
        cases good
        · have := ih false errors
          simp only [true_and] at this
          simp only [Bool.false_eq_true, if_false, if_true]
          split_ifs at this h1 ⊢ <;> omega
        · have := ih false (errors + 1)
          simp only [true_and] at this
          simp only [if_true, Bool.true_eq_false, if_false]
          split_ifs at this h1 ⊢ <;> omega
      · have := ih true errors
        simp only [Bool.true_eq_false, false_and, if_false, add_zero] at this
        rw [run_ends_false]; simpa using this
    · by_cases hlt : dom.lt sb.block = true
      · simp [count_errors_loop, scanned, hin, hlt, run_ends]
      · simp only [count_errors_loop, scanned, hin, hlt, Bool.not_false, if_true,
          Bool.false_eq_true, if_false]
        exact ih good errors

/-- C5 (the claim as stated fails): with a domain of two extents `[0,1)` and `[2,3)` and a bad
sector in each, the bad bytes of the domain form two maximal contiguous runs, but
`count_errors` sets `errors` to 1: the Sblock between them is not included in the domain and
is skipped without ending the run. -/
theorem count_errors_domain_gap :
    (count_errors gap_book).errors = 1 ∧
      spec_error_runs gap_book.sblock_vector gap_book.domain = 2 := by
  decide

/-- C5 (amended): `count_errors` sets `errors` to the number of maximal runs of consecutive
bad-status Sblocks in the sequence of the Sblocks that are included in the domain, taken up to
the first Sblock that is not included and lies after the domain. -/
theorem count_errors_counts_sblock_runs (rb : Rescuebook) :
    (count_errors rb).errors =
      run_ends ((scanned rb.domain rb.sblock_vector).map (fun sb => bad_status sb.status)) := by
  have := count_errors_loop_runs rb.domain rb.sblock_vector true 0
  simpa [count_errors] using this

theorem copy_non_tried_loop_stops (fuel : Nat) (rb : Rescuebook) (pos skip retval pos1 skip1 : Int)
    (rb1 : Rescuebook) (hpos : pos ≥ 0)
    (hb : ¬ ((find_chunk rb.sblock_vector rb.domain
          ⟨pos, if skip ≠ 0 then rb.hardbs else rb.softbs⟩ .non_tried).end_ < 0 ∨
        (find_chunk rb.sblock_vector rb.domain
          ⟨pos, if skip ≠ 0 then rb.hardbs else rb.softbs⟩ .non_tried).size ≤ 0))
    (hu : copy_non_tried_unit fuel rb
        (find_chunk rb.sblock_vector rb.domain
          ⟨pos, if skip ≠ 0 then rb.hardbs else rb.softbs⟩ .non_tried)
        (find_chunk rb.sblock_vector rb.domain
          ⟨pos, if skip ≠ 0 then rb.hardbs else rb.softbs⟩ .non_tried).end_
        (if pos ≠ (find_chunk rb.sblock_vector rb.domain
          ⟨pos, if skip ≠ 0 then rb.hardbs else rb.softbs⟩ .non_tried).pos then 0 else skip) =
      some (retval, rb1, pos1, skip1))
    (ht : retval ≠ 0 ∨ too_many_errors rb1 = true) :
    copy_non_tried_loop (fuel + 1) rb pos skip = some (retval, rb1) := by
  simp only [copy_non_tried_loop]
  rw [if_pos hpos, if_neg hb, hu]
  simp only []
  rw [if_pos ht]

theorem trim_errors_loop_stops (fuel : Nat) (rb : Rescuebook) (pos retval : Int)
    (rb1 : Rescuebook) (hpos : pos ≥ 0)
    (hb : ¬ (rfind_chunk rb.sblock_vector rb.domain ⟨pos, rb.hardbs⟩ .non_trimmed).size ≤ 0)
    (hu : trim_errors_unit fuel rb
        (rfind_chunk rb.sblock_vector rb.domain ⟨pos, rb.hardbs⟩ .non_trimmed) =
      some (retval, rb1))
    (ht : retval ≠ 0 ∨ too_many_errors rb1 = true) :
    trim_errors_loop (fuel + 1) rb pos = some (retval, rb1) := by
  simp only [trim_errors_loop]
  rw [if_pos hpos, if_neg hb, hu]
  simp only []
  rw [if_pos ht]

theorem split_errors_sweep_stops (fuel : Nat) (rb : Rescuebook) (pos ec retval pos1 ec1 : Int)
    (bf : Bool) (rb1 : Rescuebook) (hpos : pos ≥ 0)
    (hb : ¬ (find_chunk rb.sblock_vector rb.domain ⟨pos, rb.hardbs⟩ .non_split).size ≤ 0)
    (hu : split_errors_unit fuel rb
        (find_chunk rb.sblock_vector rb.domain ⟨pos, rb.hardbs⟩ .non_split)
        (find_chunk rb.sblock_vector rb.domain ⟨pos, rb.hardbs⟩ .non_split).end_ ec =
      some (retval, rb1, pos1, ec1))
    (ht : retval ≠ 0 ∨ too_many_errors rb1 = true) :
    split_errors_sweep (fuel + 1) rb pos ec bf = some (some retval, true, rb1) := by
  simp only [split_errors_sweep]
  rw [if_pos hpos, if_neg hb, hu]
  simp only []
  rw [if_pos ht]

theorem split_errors_outer_returns (fuel : Nat) (rb : Rescuebook) (resume bf : Bool) (r : Int)
    (rb1 : Rescuebook)
    (hs : split_errors_sweep fuel rb (if resume = true then rb.current_pos else 0) 0 false =
      some (some r, bf, rb1)) :
    split_errors_outer (fuel + 1) rb resume = some (r, rb1) := by
  simp only [split_errors_outer]
  rw [hs]

theorem copy_errors_sweep_stops (fuel : Nat) (rb : Rescuebook) (pos retval : Int)
    (bf : Bool) (rb1 : Rescuebook) (hpos : pos ≥ 0)
    (hb : ¬ (find_chunk rb.sblock_vector rb.domain ⟨pos, rb.hardbs⟩ .bad_sector).size ≤ 0)
    (hu : copy_errors_unit fuel rb
        (find_chunk rb.sblock_vector rb.domain ⟨pos, rb.hardbs⟩ .bad_sector) =
      some (retval, rb1))
    (ht : retval ≠ 0 ∨ too_many_errors rb1 = true) :
    copy_errors_sweep (fuel + 1) rb pos bf = some (some retval, true, rb1) := by
  simp only [copy_errors_sweep]
  rw [if_pos hpos, if_neg hb, hu]
  simp only []
  rw [if_pos ht]

theorem copy_errors_retries_returns (fuel : Nat) (rb : Rescuebook) (retry : Int)
    (resume bf : Bool) (r : Int) (rb1 : Rescuebook)
    (hr : rb.max_retries_ < 0 ∨ retry ≤ rb.max_retries_)
    (hs : copy_errors_sweep fuel rb (if resume = true then rb.current_pos else 0) false =
      some (some r, bf, rb1)) :
    copy_errors_retries (fuel + 1) rb retry resume = some (r, rb1) := by
  simp only [copy_errors_retries]
  rw [if_pos hr, hs]

theorem run_passes_skip (fuel : Nat) (cp tp sp : Bool) (x : Int × Rescuebook)
    (h : too_many_errors x.2 = true) :
    run_copy_non_tried fuel cp x = some x ∧ run_trim_errors fuel tp x = some x ∧
      run_split_errors fuel sp x = some x ∧ run_copy_errors fuel x = some x := by
  unfold run_copy_non_tried run_trim_errors run_split_errors run_copy_errors
  simp [h]

theorem rescue_passes_skip (fuel : Nat) (cp tp sp : Bool) (rb : Rescuebook)
    (h : too_many_errors rb = true) : rescue_passes fuel rb cp tp sp = some (0, rb) := by
  have h1 := run_passes_skip fuel cp tp sp (0, rb) h
  unfold rescue_passes
  rw [h1.1, Option.some_bind, h1.2.1, Option.some_bind, h1.2.2.1, Option.some_bind, h1.2.2.2]

/-- C10: once `too_many_errors()` is true, no further pass is started by `do_rescue`: each of
the four guarded calls of lines 421-428 leaves the state and the return value as they are, and
so does the whole sequence of passes.  And a running pass returns at the end of the work unit
after which `too_many_errors()` is true, with the state that the work unit left, so no other
work unit is started: this holds for the loops of `copy_non_tried` and `trim_errors`, and for
the sweeps of `split_errors` and `copy_errors`, whose result the enclosing loop returns at
once. -/
theorem too_many_errors_stops (fuel : Nat) :
    (∀ (cp tp sp : Bool) (x : Int × Rescuebook), too_many_errors x.2 = true →
      run_copy_non_tried fuel cp x = some x ∧ run_trim_errors fuel tp x = some x ∧
        run_split_errors fuel sp x = some x ∧ run_copy_errors fuel x = some x) ∧
    (∀ (cp tp sp : Bool) (rb : Rescuebook), too_many_errors rb = true →
      rescue_passes fuel rb cp tp sp = some (0, rb)) ∧
    (∀ (rb : Rescuebook) (pos skip retval pos1 skip1 : Int) (rb1 : Rescuebook), pos ≥ 0 →
      ¬ ((find_chunk rb.sblock_vector rb.domain
            ⟨pos, if skip ≠ 0 then rb.hardbs else rb.softbs⟩ .non_tried).end_ < 0 ∨
          (find_chunk rb.sblock_vector rb.domain
            ⟨pos, if skip ≠ 0 then rb.hardbs else rb.softbs⟩ .non_tried).size ≤ 0) →
      copy_non_tried_unit fuel rb
          (find_chunk rb.sblock_vector rb.domain
            ⟨pos, if skip ≠ 0 then rb.hardbs else rb.softbs⟩ .non_tried)
          (find_chunk rb.sblock_vector rb.domain
            ⟨pos, if skip ≠ 0 then rb.hardbs else rb.softbs⟩ .non_tried).end_
          (if pos ≠ (find_chunk rb.sblock_vector rb.domain
            ⟨pos, if skip ≠ 0 then rb.hardbs else rb.softbs⟩ .non_tried).pos then 0 else skip) =
        some (retval, rb1, pos1, skip1) →
      too_many_errors rb1 = true →
      copy_non_tried_loop (fuel + 1) rb pos skip = some (retval, rb1)) ∧
    (∀ (rb : Rescuebook) (pos retval : Int) (rb1 : Rescuebook), pos ≥ 0 →
      ¬ (rfind_chunk rb.sblock_vector rb.domain ⟨pos, rb.hardbs⟩ .non_trimmed).size ≤ 0 →
      trim_errors_unit fuel rb
          (rfind_chunk rb.sblock_vector rb.domain ⟨pos, rb.hardbs⟩ .non_trimmed) =
        some (retval, rb1) →
      too_many_errors rb1 = true →
      trim_errors_loop (fuel + 1) rb pos = some (retval, rb1)) ∧
    (∀ (rb : Rescuebook) (pos ec retval pos1 ec1 : Int) (bf : Bool) (rb1 : Rescuebook),
      pos ≥ 0 →
      ¬ (find_chunk rb.sblock_vector rb.domain ⟨pos, rb.hardbs⟩ .non_split).size ≤ 0 →
      split_errors_unit fuel rb
          (find_chunk rb.sblock_vector rb.domain ⟨pos, rb.hardbs⟩ .non_split)
          (find_chunk rb.sblock_vector rb.domain ⟨pos, rb.hardbs⟩ .non_split).end_ ec =
        some (retval, rb1, pos1, ec1) →
      too_many_errors rb1 = true →
      split_errors_sweep (fuel + 1) rb pos ec bf = some (some retval, true, rb1)) ∧
    (∀ (rb : Rescuebook) (resume bf : Bool) (r : Int) (rb1 : Rescuebook),
      split_errors_sweep fuel rb (if resume = true then rb.current_pos else 0) 0 false =
        some (some r, bf, rb1) →
      split_errors_outer (fuel + 1) rb resume = some (r, rb1)) ∧
    (∀ (rb : Rescuebook) (pos retval : Int) (bf : Bool) (rb1 : Rescuebook), pos ≥ 0 →
      ¬ (find_chunk rb.sblock_vector rb.domain ⟨pos, rb.hardbs⟩ .bad_sector).size ≤ 0 →
      copy_errors_unit fuel rb
          (find_chunk rb.sblock_vector rb.domain ⟨pos, rb.hardbs⟩ .bad_sector) =
        some (retval, rb1) →
      too_many_errors rb1 = true →
      copy_errors_sweep (fuel + 1) rb pos bf = some (some retval, true, rb1)) ∧
    (∀ (rb : Rescuebook) (retry : Int) (resume bf : Bool) (r : Int) (rb1 : Rescuebook),
      rb.max_retries_ < 0 ∨ retry ≤ rb.max_retries_ →
      copy_errors_sweep fuel rb (if resume = true then rb.current_pos else 0) false =
        some (some r, bf, rb1) →
      copy_errors_retries (fuel + 1) rb retry resume = some (r, rb1)) :=
  ⟨fun cp tp sp x h => run_passes_skip fuel cp tp sp x h,
   fun cp tp sp rb h => rescue_passes_skip fuel cp tp sp rb h,
   fun rb pos skip retval pos1 skip1 rb1 h1 h2 h3 h4 =>
     copy_non_tried_loop_stops fuel rb pos skip retval pos1 skip1 rb1 h1 h2 h3 (Or.inr h4),
   fun rb pos retval rb1 h1 h2 h3 h4 =>
     trim_errors_loop_stops fuel rb pos retval rb1 h1 h2 h3 (Or.inr h4),
   fun rb pos ec retval pos1 ec1 bf rb1 h1 h2 h3 h4 =>
     split_errors_sweep_stops fuel rb pos ec retval pos1 ec1 bf rb1 h1 h2 h3 (Or.inr h4),
   fun rb resume bf r rb1 h => split_errors_outer_returns fuel rb resume bf r rb1 h,
   fun rb pos retval bf rb1 h1 h2 h3 h4 =>
     copy_errors_sweep_stops fuel rb pos retval bf rb1 h1 h2 h3 (Or.inr h4),
   fun rb retry resume bf r rb1 h1 h2 =>
     copy_errors_retries_returns fuel rb retry resume bf r rb1 h1 h2⟩

theorem too_many_errors_stops_witness :
    too_many_errors first_error_book = false ∧
    too_many_errors (unit_state_of
      (copy_non_tried_unit 5 first_error_book ⟨0, 2⟩ 2 2) first_error_book) = true ∧
    copy_non_tried_loop (5 + 1) first_error_book 0 2 =
      some (0, unit_state_of
        (copy_non_tried_unit 5 first_error_book ⟨0, 2⟩ 2 2) first_error_book) ∧
    rescue_passes 5 (unit_state_of
        (copy_non_tried_unit 5 first_error_book ⟨0, 2⟩ 2 2) first_error_book) true true true =
      some (0, unit_state_of
        (copy_non_tried_unit 5 first_error_book ⟨0, 2⟩ 2 2) first_error_book) :=
  ⟨by decide, by decide,
   (too_many_errors_stops 5).2.2.1 first_error_book 0 2 0 8 65536 _ (by decide) (by decide)
     (by rfl) (by decide),
   (too_many_errors_stops 5).2.1 true true true _ (by decide)⟩

theorem wf_from_cons (q : Int) (x : Sblock) (r : List Sblock) :
    wf_from q (x :: r) = true ↔ x.pos = q ∧ 0 < x.size ∧ wf_from x.end_ r = true := by
  simp [wf_from, and_assoc]

theorem vector_wf_iff (v : List Sblock) : vector_wf v = true ↔ ∃ q, wf_from q v = true := by
  cases v with
  | nil => simp [vector_wf, wf_from]
  | cons x r =>
    simp only [vector_wf]
    constructor
    · intro h; exact ⟨_, h⟩
    · rintro ⟨q, h⟩
      have := (wf_from_cons q x r).1 h
      rw [this.1]; exact h

theorem wf_from_sizes_nonneg (v : List Sblock) : ∀ q, wf_from q v = true → sizes_nonneg v := by
  induction v with
  | nil => intro q _; simp [sizes_nonneg]
  | cons x r ih =>
    intro q h
    rw [wf_from_cons] at h
    rw [sizes_nonneg_cons]
    exact ⟨by omega, ih _ h.2.2⟩

theorem vector_wf_sizes_nonneg (v : List Sblock) (h : vector_wf v = true) : sizes_nonneg v := by
  obtain ⟨q, hq⟩ := (vector_wf_iff v).1 h
  exact wf_from_sizes_nonneg v q hq

theorem wf_from_pos_ge (v : List Sblock) :
    ∀ q, wf_from q v = true → ∀ sb ∈ v, q ≤ sb.pos ∧ sb.end_ ≤ vend q v := by
  induction v with
  | nil => intro q _ sb hsb; simp at hsb
  | cons x r ih =>
    intro q h sb hsb
    rw [wf_from_cons] at h
    simp only [vend]
    have hve : x.end_ ≤ vend x.end_ r := by
      cases r with
      | nil => simp [vend]
      | cons y r' =>
        have := ih _ h.2.2 y (List.mem_cons_self _ _)
        have hy := (wf_from_cons _ y r').1 h.2.2
        simp only [Sblock.end_] at *
        omega
    rcases List.mem_cons.1 hsb with rfl | hr
    · simp only [Sblock.end_] at *
      omega
    · have := ih _ h.2.2 sb hr
      simp only [Sblock.end_] at *
      omega

theorem statusAt_of_mem (v : List Sblock) :
    ∀ q, wf_from q v = true → ∀ sb ∈ v, ∀ p, sb.pos ≤ p → p < sb.end_ →
      statusAt v p = some sb.status := by
  induction v with
  | nil => intro q _ sb hsb; simp at hsb
  | cons x r ih =>
    intro q h sb hsb p h1 h2
    rw [wf_from_cons] at h
    simp only [statusAt]
    rcases List.mem_cons.1 hsb with rfl | hr
    · rw [if_pos ⟨h1, h2⟩]
    · have := (wf_from_pos_ge r _ h.2.2 sb hr).1
      rw [if_neg (by omega)]
      exact ih _ h.2.2 sb hr p h1 h2

theorem statusAt_none_of_lt (v : List Sblock) :
    ∀ q, wf_from q v = true → ∀ p, p < q ∨ vend q v ≤ p → statusAt v p = none := by
  induction v with
  | nil => intro q _ p _; rfl
  | cons x r ih =>
    intro q h p hp
    have hx := wf_from_pos_ge _ q h x (List.mem_cons_self _ _)
    rw [wf_from_cons] at h
    simp only [statusAt]
    simp only [vend] at hp hx
    rw [if_neg (by simp only [Sblock.end_] at *; omega)]
    apply ih _ h.2.2
    simp only [Sblock.end_] at *
    omega

theorem wf_from_append (l1 l2 : List Sblock) :
    ∀ q, wf_from q (l1 ++ l2) = true ↔ wf_from q l1 = true ∧ wf_from (vend q l1) l2 = true := by
  induction l1 with
  | nil => intro q; simp [wf_from, vend]
  | cons x r ih =>
    intro q
    simp only [List.cons_append, wf_from_cons, vend, ih]
    tauto

theorem vend_append (l1 l2 : List Sblock) : ∀ q, vend q (l1 ++ l2) = vend (vend q l1) l2 := by
  induction l1 with
  | nil => intro q; rfl
  | cons x r ih =>
    intro q
    show vend x.end_ (r ++ l2) = vend (vend x.end_ r) l2
    exact ih _

theorem wf_from_change (b : Block) (st : Status) (sb : Sblock) (h : 0 < sb.size) :
    wf_from sb.pos (sb.change b st) = true ∧ vend sb.pos (sb.change b st) = sb.end_ := by
  unfold Sblock.change
  simp only [Sblock.end_, Block.end_]
  have e1 : max sb.pos b.pos = if sb.pos ≤ b.pos then b.pos else sb.pos := by
    split_ifs with h <;> omega
  have e2 : min (sb.pos + sb.size) (b.pos + b.size) =
      if sb.pos + sb.size ≤ b.pos + b.size then sb.pos + sb.size else b.pos + b.size := by
    split_ifs with h <;> omega
  rw [e1, e2]
  split_ifs <;>
    simp only [List.nil_append, List.cons_append, List.singleton_append, wf_from, vend,
      Sblock.end_, Bool.and_eq_true, decide_eq_true_eq, and_true, true_and] <;>
    omega

theorem wf_from_change_pieces (b : Block) (st : Status) (v : List Sblock) :
    ∀ q, wf_from q v = true →
      wf_from q (change_pieces b st v) = true ∧ vend q (change_pieces b st v) = vend q v := by
  induction v with
  | nil => intro q _; simp [change_pieces, wf_from, vend]
  | cons x r ih =>
    intro q h
    rw [wf_from_cons] at h
    obtain ⟨h1, h2, h3⟩ := h
    have hc := wf_from_change b st x h2
    have hi := ih _ h3
    simp only [change_pieces, wf_from_append, vend_append, vend]
    rw [← h1, hc.2]
    exact ⟨⟨hc.1, hi.1⟩, hi.2⟩

theorem wf_from_merge_from (b : Block) (r : List Sblock) :
    ∀ x : Sblock, wf_from x.pos (x :: r) = true →
      wf_from x.pos (merge_from b x r) = true ∧
        vend x.pos (merge_from b x r) = vend x.pos (x :: r) := by
  induction r with
  | nil => intro x h; simpa [merge_from] using h
  | cons y r ih =>
    intro x h
    rw [wf_from_cons, wf_from_cons] at h
    obtain ⟨-, h2, h3, h4, h5⟩ := h
    simp only [merge_from]
    split_ifs with hc
    · have := ih ⟨x.pos, x.size + y.size, x.status⟩ (by
        rw [wf_from_cons]
        refine ⟨rfl, by simp only; omega, ?_⟩
        have : Sblock.end_ ⟨x.pos, x.size + y.size, x.status⟩ = y.end_ := by
          simp only [Sblock.end_] at *; omega
        rw [this]; exact h5)
      refine ⟨this.1, ?_⟩
      rw [this.2]
      simp only [vend]
      have : Sblock.end_ ⟨x.pos, x.size + y.size, x.status⟩ = y.end_ := by
        simp only [Sblock.end_] at *; omega
      rw [this]
    · have hy := ih y (by rw [wf_from_cons]; exact ⟨rfl, h4, h5⟩)
      rw [wf_from_cons]
      refine ⟨⟨rfl, h2, ?_⟩, ?_⟩
      · rw [← h3]; exact hy.1
      · simp only [vend]
        rw [← h3, hy.2]
        simp only [vend]

theorem wf_from_change_chunk_status (v : List Sblock) (b : Block) (st : Status) :
    ∀ q, wf_from q v = true →
      wf_from q (change_chunk_status v b st) = true ∧
        vend q (change_chunk_status v b st) = vend q v := by
  intro q h
  unfold change_chunk_status
  split_ifs with hb
  · exact ⟨h, rfl⟩
  · have hp := wf_from_change_pieces b st v q h
    cases hcp : change_pieces b st v with
    | nil =>
      rw [hcp] at hp
      exact hp
    | cons x r =>
      rw [hcp] at hp
      have hx := (wf_from_cons q x r).1 hp.1
      have := wf_from_merge_from b r x (by rw [hx.1]; exact hp.1)
      rw [hx.1] at this
      simp only []
      exact ⟨this.1, by rw [this.2]; exact hp.2⟩

theorem truncate_vector_nil_of_le (v : List Sblock) :
    ∀ q e, wf_from q v = true → e ≤ q → truncate_vector v e = [] := by
  induction v with
  | nil => intro q e _ _; rfl
  | cons x r ih =>
    intro q e h he
    rw [wf_from_cons] at h
    simp only [truncate_vector]
    rw [if_pos (by omega)]
    exact ih x.end_ e h.2.2 (by simp only [Sblock.end_]; omega)

theorem wf_from_truncate_vector (v : List Sblock) (e : Int) :
    ∀ q, wf_from q v = true → wf_from q (truncate_vector v e) = true := by
  induction v with
  | nil => intro q _; rfl
  | cons x r ih =>
    intro q h
    rw [wf_from_cons] at h
    simp only [truncate_vector]
    split_ifs with h1 h2
    · rw [truncate_vector_nil_of_le r x.end_ e h.2.2 (by simp only [Sblock.end_]; omega)]
      rfl
    · rw [truncate_vector_nil_of_le r x.end_ e h.2.2 (by omega)]
      simp only [wf_from, Bool.and_eq_true, decide_eq_true_eq, and_true]
      exact ⟨h.1, by omega⟩
    · rw [wf_from_cons]
      exact ⟨h.1, h.2.1, ih _ h.2.2⟩

theorem wf_from_marked_vector (v : List Sblock) (b : Block) (st : Status) (hardbs c e : Int)
    (q : Int) (h : wf_from q v = true) : wf_from q (marked_vector v b st hardbs c e) = true := by
  have t := wf_from_truncate_vector v (b.pos + c + e) q h
  unfold marked_vector
  dsimp only
  split_ifs <;>
    first
    | assumption
    | exact (wf_from_change_chunk_status _ _ _ q (by assumption)).1
    | exact (wf_from_change_chunk_status _ _ _ q
        (wf_from_change_chunk_status _ _ _ q (by assumption)).1).1
    | exact (wf_from_change_chunk_status _ _ _ q (wf_from_change_chunk_status _ _ _ q
        (wf_from_change_chunk_status _ _ _ q (by assumption)).1).1).1

theorem find_chunk_spec (v : List Sblock) (dom : Domain) (b : Block) (st : Status)
    (h : 0 < (find_chunk v dom b st).size) : chunk_in v dom st (find_chunk v dom b st) := by
  unfold find_chunk at h ⊢
  cases hf : v.find? (fun sb => decide (sb.status = st) && dom.includes sb.block &&
      decide (b.pos < sb.end_)) with
  | none => rw [hf] at h; simp at h
  | some sb =>
    rw [hf] at h
    simp only [] at h ⊢
    have hm := List.mem_of_find?_eq_some hf
    have hp := List.find?_some hf
    simp only [Bool.and_eq_true, decide_eq_true_eq] at hp
    refine ⟨sb, hm, hp.1.1, hp.1.2, ?_, ?_⟩
    · simp only; omega
    · simp only [Block.end_, Sblock.end_] at *; omega

theorem rfind_chunk_spec (v : List Sblock) (dom : Domain) (b : Block) (st : Status)
    (h : 0 < (rfind_chunk v dom b st).size) : chunk_in v dom st (rfind_chunk v dom b st) := by
  unfold rfind_chunk at h ⊢
  cases hf : v.reverse.find? (fun sb => decide (sb.status = st) && dom.includes sb.block &&
      decide (sb.pos < b.end_)) with
  | none => rw [hf] at h; simp at h
  | some sb =>
    rw [hf] at h
    simp only [] at h ⊢
    have hm := List.mem_reverse.1 (List.mem_of_find?_eq_some hf)
    have hp := List.find?_some hf
    simp only [Bool.and_eq_true, decide_eq_true_eq] at hp
    refine ⟨sb, hm, hp.1.1, hp.1.2, ?_, ?_⟩
    · simp only; omega
    · simp only [Block.end_, Sblock.end_] at *; omega

theorem sblock_mem (v : List Sblock) (i : Int) (sb : Sblock) (h : sblock v i = some sb) :
    sb ∈ v := by
  unfold sblock at h
  split_ifs at h
  exact List.getElem?_mem h

theorem finished_kept_refl (v : List Sblock) : finished_kept v v :=
  fun _ => ⟨fun h => Or.inl h, fun h => h⟩

theorem finished_kept_trans {u v w : List Sblock} (h1 : finished_kept u v)
    (h2 : finished_kept v w) : finished_kept u w := by
  intro p
  refine ⟨fun h => ?_, fun h => (h2 p).2 ((h1 p).2 h)⟩
  rcases (h1 p).1 h with h3 | h3
  · exact (h2 p).1 h3
  · exact Or.inr ((h2 p).2 h3)

theorem finished_kept_change (v : List Sblock) (q : Int) (hw : wf_from q v = true) (b : Block)
    (st : Status) (sb : Sblock) (hm : sb ∈ v) (hs : sb.status ≠ .finished)
    (h1 : sb.pos ≤ b.pos) (h2 : b.end_ ≤ sb.end_) :
    finished_kept v (change_chunk_status v b st) := by
  intro p
  rw [statusAt_change_chunk_status _ _ _ _ (wf_from_sizes_nonneg v q hw)]
  refine ⟨fun h => ?_, fun h => ?_⟩
  · left
    rw [if_neg]
    · exact h
    · intro hp
      have := statusAt_of_mem v q hw sb hm p (by omega) (by omega)
      rw [this] at h
      exact hs (Option.some.inj h)
  · rw [h]; split_ifs <;> rfl

theorem finished_kept_marked (v : List Sblock) (q : Int) (hw : wf_from q v = true) (b : Block)
    (st : Status) (hardbs c e : Int) (hc : 0 ≤ c) (he : 0 ≤ e) (hce : c + e ≤ b.size)
    (hh : 0 < hardbs) (sb : Sblock) (hm : sb ∈ v) (hs : sb.status ≠ .finished)
    (h1 : sb.pos ≤ b.pos) (h2 : b.end_ ≤ sb.end_) :
    finished_kept v (marked_vector v b st hardbs c e) := by
  intro p
  rw [statusAt_marked_vector _ _ _ _ _ _ _ (wf_from_sizes_nonneg v q hw) hc he hh]
  unfold marked_status
  refine ⟨fun h => ?_, fun h => ?_⟩
  · have hout : ¬ (b.pos ≤ p ∧ p < b.end_) := by
      intro hp
      have := statusAt_of_mem v q hw sb hm p (by omega) (by omega)
      rw [this] at h
      exact hs (Option.some.inj h)
    simp only [Block.end_] at hout
    by_cases h5 : c + e < b.size ∧ b.pos + c + e ≤ p
    · right; rw [if_pos h5]
    · left
      rw [if_neg h5, if_neg (by omega), if_neg (by omega)]
      exact h
  · rw [h]; split_ifs <;> rfl

theorem copy_and_update_keeps (fuel : Nat) (rb : Rescuebook) (b : Block) (st : Status)
    (r c e : Int) (rb2 : Rescuebook) (q : Int) (hw : wf_from q rb.sblock_vector = true)
    (hh : 0 < rb.hardbs) (sb : Sblock) (hm : sb ∈ rb.sblock_vector)
    (hs : sb.status ≠ .finished) (h1 : sb.pos ≤ b.pos) (h2 : b.end_ ≤ sb.end_)
    (h : copy_and_update fuel rb b st = some (r, c, e, rb2)) :
    finished_kept rb.sblock_vector rb2.sblock_vector ∧ wf_from q rb2.sblock_vector = true ∧
      same_config rb rb2 := by
  obtain ⟨r0, rb1, hcb, hsc, -, -, hres⟩ := copy_and_update_result _ _ _ _ _ _ _ _ h
  have hcr := copy_block_result _ _ _ _ _ _ _ hcb
  rcases hres with ⟨hr0, -, hvec, -⟩ | ⟨-, -, hrb⟩
  · rcases hcr.2.2 with ⟨-, hc0, he0, hce, -⟩ | ⟨h01, -⟩
    · rw [hvec]
      exact ⟨finished_kept_marked _ q hw b st _ c e hc0 he0 hce hh sb hm hs h1 h2,
        wf_from_marked_vector _ _ _ _ _ _ q hw, hsc⟩
    · rw [hr0] at h01; exact absurd h01 (by decide)
  · have hv := (io_frame_fields hcr.2.1).1
    subst hrb
    rw [hv]
    exact ⟨finished_kept_refl _, hw, hsc⟩

theorem copy_non_tried_unit_keeps (fuel : Nat) (rb : Rescuebook) (b : Block)
    (pos skip retval pos1 skip1 : Int) (rb1 : Rescuebook) (q : Int)
    (hw : wf_from q rb.sblock_vector = true) (hh : 0 < rb.hardbs)
    (hch : chunk_in rb.sblock_vector rb.domain .non_tried b)
    (hu : copy_non_tried_unit fuel rb b pos skip = some (retval, rb1, pos1, skip1)) :
    finished_kept rb.sblock_vector rb1.sblock_vector ∧ wf_from q rb1.sblock_vector = true := by
  obtain ⟨sb, hm, hs, -, h1, h2⟩ := hch
  simp only [copy_non_tried_unit] at hu
  cases hcu : copy_and_update fuel { rb with current_status := .copying } b
      (if skip ≠ 0 then .bad_sector else .non_trimmed) with
  | none => rw [hcu] at hu; simp at hu
  | some x =>
    obtain ⟨r, c, e, rb2⟩ := x
    have hk := copy_and_update_keeps fuel { rb with current_status := .copying } b _ r c e rb2 q
      hw hh sb hm (by rw [hs]; decide) h1 h2 hcu
    obtain ⟨hk1, hk2, -⟩ := hk
    simp only [hcu] at hu
    by_cases he : e > 0
    · rw [if_pos he] at hu
      generalize (if skip < rb2.skipbs_ then rb2.skipbs_
        else if skip < LLONG_MAX / 4 then skip * 2 else skip) = sk at hu
      by_cases hcond : pos = (find_chunk rb2.sblock_vector rb2.domain
          (Block.fix_size ⟨pos, sk⟩) Status.non_tried).pos ∧
          (find_chunk rb2.sblock_vector rb2.domain
            (Block.fix_size ⟨pos, sk⟩) Status.non_tried).size > 0
      · rw [if_pos hcond] at hu
        cases hu
        obtain ⟨sb2, hm2, hs2, -, h12, h22⟩ := find_chunk_spec _ _ _ _ hcond.2
        exact ⟨finished_kept_trans hk1
            (finished_kept_change _ q hk2 _ _ sb2 hm2 (by rw [hs2]; decide) h12 h22),
          (wf_from_change_chunk_status _ _ _ q hk2).1⟩
      · rw [if_neg hcond] at hu
        cases hu
        exact ⟨hk1, hk2⟩
    · rw [if_neg he] at hu
      split at hu <;> cases hu <;> exact ⟨hk1, hk2⟩

theorem trim_errors_unit_keeps (fuel : Nat) (rb : Rescuebook) (b : Block)
    (retval : Int) (rb1 : Rescuebook) (q : Int)
    (hw : wf_from q rb.sblock_vector = true) (hh : 0 < rb.hardbs)
    (hch : chunk_in rb.sblock_vector rb.domain .non_trimmed b)
    (hu : trim_errors_unit fuel rb b = some (retval, rb1)) :
    finished_kept rb.sblock_vector rb1.sblock_vector ∧ wf_from q rb1.sblock_vector = true := by
  obtain ⟨sb, hm, hs, -, h1, h2⟩ := hch
  simp only [trim_errors_unit] at hu
  cases hcu : copy_and_update fuel { rb with current_status := .trimming } b .bad_sector with
  | none => rw [hcu] at hu; simp at hu
  | some x =>
    obtain ⟨r, c, e, rb2⟩ := x
    have hk := copy_and_update_keeps fuel { rb with current_status := .trimming } b _ r c e rb2 q
      hw hh sb hm (by rw [hs]; decide) h1 h2 hcu
    obtain ⟨hk1, hk2, -⟩ := hk
    simp only [hcu] at hu
    by_cases he : e > 0 ∧ b.pos > 0
    · rw [if_pos he] at hu
      cases hsb : sblock rb2.sblock_vector (find_index rb2.sblock_vector (b.pos - 1)) with
      | none =>
        simp only [hsb] at hu
        cases hu
        exact ⟨hk1, hk2⟩
      | some sb2 =>
        simp only [hsb] at hu
        have hm2 := sblock_mem _ _ _ hsb
        by_cases h3 : find_index rb2.sblock_vector (b.pos - 1) ≥ 0 ∧
            rb2.domain.includes sb2.block = true ∧ sb2.status = Status.non_trimmed
        · rw [if_pos h3] at hu
          cases hu
          exact ⟨finished_kept_trans hk1
              (finished_kept_change _ q hk2 _ _ sb2 hm2 (by rw [h3.2.2]; decide)
                (le_refl _) (le_refl _)),
             (wf_from_change_chunk_status _ _ _ q hk2).1⟩
        · rw [if_neg h3] at hu
          cases hu
          exact ⟨hk1, hk2⟩
    · rw [if_neg he] at hu
      cases hu
      exact ⟨hk1, hk2⟩

theorem split_errors_unit_keeps (fuel : Nat) (rb : Rescuebook) (b : Block)
    (pos ec retval pos1 ec1 : Int) (rb1 : Rescuebook) (q : Int)
    (hw : wf_from q rb.sblock_vector = true) (hh : 0 < rb.hardbs)
    (hch : chunk_in rb.sblock_vector rb.domain .non_split b)
    (hu : split_errors_unit fuel rb b pos ec = some (retval, rb1, pos1, ec1)) :
    finished_kept rb.sblock_vector rb1.sblock_vector ∧ wf_from q rb1.sblock_vector = true := by
  obtain ⟨sb, hm, hs, -, h1, h2⟩ := hch
  simp only [split_errors_unit] at hu
  cases hcu : copy_and_update fuel { rb with current_status := .splitting } b .bad_sector with
  | none => rw [hcu] at hu; simp at hu
  | some x =>
    obtain ⟨r, c, e, rb2⟩ := x
    have hk := copy_and_update_keeps fuel { rb with current_status := .splitting } b _ r c e rb2
      q hw hh sb hm (by rw [hs]; decide) h1 h2 hcu
    obtain ⟨hk1, hk2, -⟩ := hk
    simp only [hcu] at hu
    by_cases he : e ≤ 0
    · rw [if_pos he] at hu
      cases hu
      exact ⟨hk1, hk2⟩
    · rw [if_neg he] at hu
      split at hu
      · split at hu
        · cases hu
          exact ⟨hk1, hk2⟩
        · split at hu
          · split at hu <;> cases hu <;> exact ⟨hk1, hk2⟩
          · cases hu
            exact ⟨hk1, hk2⟩
      · cases hu
        exact ⟨hk1, hk2⟩

theorem copy_errors_unit_keeps (fuel : Nat) (rb : Rescuebook) (b : Block)
    (retval : Int) (rb1 : Rescuebook) (q : Int)
    (hw : wf_from q rb.sblock_vector = true) (hh : 0 < rb.hardbs)
    (hch : chunk_in rb.sblock_vector rb.domain .bad_sector b)
    (hu : copy_errors_unit fuel rb b = some (retval, rb1)) :
    finished_kept rb.sblock_vector rb1.sblock_vector ∧ wf_from q rb1.sblock_vector = true := by
  obtain ⟨sb, hm, hs, -, h1, h2⟩ := hch
  simp only [copy_errors_unit] at hu
  cases hcu : copy_and_update fuel { rb with current_status := .retrying } b .bad_sector with
  | none => rw [hcu] at hu; simp at hu
  | some x =>
    obtain ⟨r, c, e, rb2⟩ := x
    have hk := copy_and_update_keeps fuel { rb with current_status := .retrying } b _ r c e rb2
      q hw hh sb hm (by rw [hs]; decide) h1 h2 hcu
    obtain ⟨hk1, hk2, -⟩ := hk
    simp only [hcu] at hu
    cases hu
    exact ⟨hk1, hk2⟩

theorem calls_sys (w : World) (e : Event) (h : ∀ b, e ≠ .copy_block b) :
    copy_block_calls (w.sys e).2.trace = copy_block_calls w.trace := by
  unfold World.sys copy_block_calls
  cases e <;> first | rfl | exact absurd rfl (h _)

theorem calls_sys_read (w : World) (fd count : Int) :
    copy_block_calls (sys_read w fd count).2.2.trace = copy_block_calls w.trace := by
  unfold sys_read
  have := calls_sys w (.read fd count) (fun b => by simp)
  dsimp only
  split_ifs <;> exact this

theorem calls_sys_write (w : World) (fd count : Int) :
    copy_block_calls (sys_write w fd count).2.trace = copy_block_calls w.trace := by
  unfold sys_write
  have := calls_sys w (.write fd count) (fun b => by simp)
  dsimp only
  split_ifs <;> exact this

theorem calls_sys_lseek (w : World) (fd pos : Int) :
    copy_block_calls (sys_lseek w fd pos).2.trace = copy_block_calls w.trace := by
  unfold sys_lseek
  have := calls_sys w (.lseek fd pos) (fun b => by simp)
  dsimp only
  split_ifs <;> exact this

theorem calls_sys_fsync (w : World) (fd : Int) :
    copy_block_calls (sys_fsync w fd).2.trace = copy_block_calls w.trace := by
  unfold sys_fsync
  have := calls_sys w (.fsync fd) (fun b => by simp)
  dsimp only
  split_ifs <;> exact this

theorem calls_sys_access (w : World) :
    copy_block_calls (sys_access w).2.trace = copy_block_calls w.trace := by
  unfold sys_access
  have := calls_sys w .access (fun b => by simp)
  dsimp only
  split_ifs <;> exact this

theorem calls_update_logfile (rb : Rescuebook) :
    copy_block_calls (update_logfile rb).2.world.trace = copy_block_calls rb.world.trace := by
  unfold update_logfile
  exact calls_sys rb.world .logfile (fun b => by simp)

theorem calls_readblock_loop (fuel : Nat) :
    ∀ (w : World) (fd : Int) (buf : List Nat) (size sz r : Int) (buf1 : List Nat) (w1 : World),
      readblock_loop fuel w fd buf size sz = some (r, buf1, w1) →
        copy_block_calls w1.trace = copy_block_calls w.trace := by
  induction fuel with
  | zero => intro w fd buf size sz r buf1 w1 h; simp [readblock_loop] at h
  | succ n ih =>
    intro w fd buf size sz r buf1 w1 h
    simp only [readblock_loop] at h
    have ht := calls_sys_read { w with errno := 0 } fd (size - sz)
    generalize sys_read { w with errno := 0 } fd (size - sz) = x at h ht
    obtain ⟨k, data, w2⟩ := x
    dsimp only at h ht
    split_ifs at h with h1 h2 h3 h4
    · rw [ih _ _ _ _ _ _ _ _ h, ht]
    · cases h; exact ht
    · cases h; exact ht
    · rw [ih _ _ _ _ _ _ _ _ h, ht]
    · cases h; rfl

theorem calls_readblock (fuel : Nat) (w : World) (fd : Int) (buf : List Nat) (size pos r : Int)
    (buf1 : List Nat) (w1 : World) (h : readblock fuel w fd buf size pos = some (r, buf1, w1)) :
    copy_block_calls w1.trace = copy_block_calls w.trace := by
  unfold readblock at h
  dsimp only at h
  have ht := calls_sys_lseek { w with errno := 0 } fd pos
  generalize sys_lseek { w with errno := 0 } fd pos = x at h ht
  obtain ⟨k, w2⟩ := x
  dsimp only at h ht
  split_ifs at h
  · rw [calls_readblock_loop fuel _ _ _ _ _ _ _ _ h, ht]
  · cases h; exact ht

theorem calls_writeblock_loop (fuel : Nat) :
    ∀ (w : World) (fd : Int) (size sz r : Int) (w1 : World),
      writeblock_loop fuel w fd size sz = some (r, w1) →
        copy_block_calls w1.trace = copy_block_calls w.trace := by
  induction fuel with
  | zero => intro w fd size sz r w1 h; simp [writeblock_loop] at h
  | succ n ih =>
    intro w fd size sz r w1 h
    simp only [writeblock_loop] at h
    have ht := calls_sys_write { w with errno := 0 } fd (size - sz)
    generalize sys_write { w with errno := 0 } fd (size - sz) = x at h ht
    obtain ⟨k, w2⟩ := x
    dsimp only at h ht
    split_ifs at h with h1 h2 h3
    · rw [ih _ _ _ _ _ _ h, ht]
    · cases h; exact ht
    · rw [ih _ _ _ _ _ _ h, ht]
    · cases h; rfl

theorem calls_writeblock (fuel : Nat) (w : World) (fd : Int) (size pos r : Int)
    (w1 : World) (h : writeblock fuel w fd size pos = some (r, w1)) :
    copy_block_calls w1.trace = copy_block_calls w.trace := by
  unfold writeblock at h
  dsimp only at h
  have ht := calls_sys_lseek { w with errno := 0 } fd pos
  generalize sys_lseek { w with errno := 0 } fd pos = x at h ht
  obtain ⟨k, w2⟩ := x
  dsimp only at h ht
  split_ifs at h
  · rw [calls_writeblock_loop fuel _ _ _ _ _ _ h, ht]
  · cases h; exact ht

theorem calls_copy_block_read (fuel : Nat) (rb : Rescuebook) (b : Block) (c e : Int)
    (rb1 : Rescuebook) (h : copy_block_read fuel rb b = some (c, e, rb1)) :
    copy_block_calls rb1.world.trace = copy_block_calls rb.world.trace := by
  unfold copy_block_read at h
  split_ifs at h
  · cases hr : readblock fuel rb.world rb.ides_ rb.iobuf b.size b.pos with
    | none => rw [hr] at h; simp at h
    | some x =>
      obtain ⟨r, buf, w⟩ := x
      rw [hr] at h
      cases h
      exact calls_readblock _ _ _ _ _ _ _ _ _ hr
  · cases h; rfl

theorem calls_copy_block_write (fuel : Nat) (rb : Rescuebook) (b : Block) (c e r c1 e1 : Int)
    (rb1 : Rescuebook) (h : copy_block_write fuel rb b c e = some (r, c1, e1, rb1)) :
    copy_block_calls rb1.world.trace = copy_block_calls rb.world.trace := by
  unfold copy_block_write at h
  dsimp only at h
  split at h
  · split at h
    · cases h; rfl
    · split at h
      · cases h
      · rename_i wsz w1 hw
        have h1 := calls_writeblock _ _ _ _ _ _ _ hw
        have h2 := calls_sys_fsync w1 rb.odes_
        split at h
        · cases h; exact h1
        · split at h
          · split at h <;> cases h <;> exact h2.trans h1
          · cases h; exact h1
  · cases h; rfl

theorem calls_copy_block (fuel : Nat) (rb : Rescuebook) (b : Block) (r c e : Int)
    (rb1 : Rescuebook) (h : copy_block fuel rb b = some (r, c, e, rb1)) :
    copy_block_calls rb1.world.trace = b :: copy_block_calls rb.world.trace := by
  unfold copy_block at h
  split_ifs at h with hb
  cases hr : copy_block_read fuel { rb with world := rb.world.note (.copy_block b) } b with
  | none => rw [hr] at h; simp at h
  | some x =>
    obtain ⟨c0, e0, rb0⟩ := x
    rw [hr] at h
    dsimp only at h
    rw [calls_copy_block_write _ _ _ _ _ _ _ _ _ h, calls_copy_block_read _ _ _ _ _ _ hr]
    rfl

theorem ends_le_truncate_vector (v : List Sblock) (e : Int) : ends_le e (truncate_vector v e) := by
  induction v with
  | nil => intro sb hsb; simp [truncate_vector] at hsb
  | cons x r ih =>
    intro sb hsb
    simp only [truncate_vector] at hsb
    split_ifs at hsb with h1 h2
    · exact ih sb hsb
    · rcases List.mem_cons.1 hsb with rfl | hr
      · simp only [Sblock.end_]; omega
      · exact ih sb hr
    · rcases List.mem_cons.1 hsb with rfl | hr
      · omega
      · exact ih sb hr

theorem ends_le_change (b : Block) (st : Status) (sb : Sblock) (t : Int) (h : sb.end_ ≤ t) :
    ends_le t (sb.change b st) := by
  intro y hy
  unfold Sblock.change at hy
  simp only [Sblock.end_, Block.end_] at hy h ⊢
  have e1 : max sb.pos b.pos = if sb.pos ≤ b.pos then b.pos else sb.pos := by
    split_ifs with h <;> omega
  have e2 : min (sb.pos + sb.size) (b.pos + b.size) =
      if sb.pos + sb.size ≤ b.pos + b.size then sb.pos + sb.size else b.pos + b.size := by
    split_ifs with h <;> omega
  rw [e1, e2] at hy
  split_ifs at hy <;> simp only [List.nil_append, List.cons_append, List.mem_cons,
    List.mem_singleton, List.not_mem_nil, or_false] at hy <;>
    (rcases hy with rfl | rfl | rfl <;> (try dsimp only) <;> omega)

theorem ends_le_change_pieces (b : Block) (st : Status) (v : List Sblock) (t : Int)
    (h : ends_le t v) : ends_le t (change_pieces b st v) := by
  induction v with
  | nil => simpa [change_pieces] using h
  | cons x r ih =>
    intro y hy
    simp only [change_pieces, List.mem_append] at hy
    rcases hy with hy | hy
    · exact ends_le_change b st x t (h x (List.mem_cons_self _ _)) y hy
    · exact ih (fun sb hsb => h sb (List.mem_cons_of_mem _ hsb)) y hy

theorem ends_le_merge_from (b : Block) (t : Int) (r : List Sblock) :
    ∀ x : Sblock, ends_le t (x :: r) → ends_le t (merge_from b x r) := by
  induction r with
  | nil => intro x h; simpa [merge_from] using h
  | cons y r ih =>
    intro x h
    simp only [merge_from]
    split_ifs with hc
    · apply ih
      intro sb hsb
      rcases List.mem_cons.1 hsb with rfl | hr
      · have := h y (List.mem_cons_of_mem _ (List.mem_cons_self _ _))
        simp only [Sblock.end_] at *
        omega
      · exact h sb (List.mem_cons_of_mem _ (List.mem_cons_of_mem _ hr))
    · intro sb hsb
      rcases List.mem_cons.1 hsb with rfl | hr
      · exact h _ (List.mem_cons_self _ _)
      · exact ih y (fun z hz => h z (List.mem_cons_of_mem _ hz)) sb hr

theorem ends_le_change_chunk_status (v : List Sblock) (b : Block) (st : Status) (t : Int)
    (h : ends_le t v) : ends_le t (change_chunk_status v b st) := by
  unfold change_chunk_status
  split_ifs
  · exact h
  · have hp := ends_le_change_pieces b st v t h
    cases hcp : change_pieces b st v with
    | nil => intro sb hsb; simp at hsb
    | cons x r =>
      rw [hcp] at hp
      exact ends_le_merge_from b t r x hp

theorem statusAt_none_of_ends_le (v : List Sblock) (t p : Int) (h : ends_le t v) (hp : t ≤ p) :
    statusAt v p = none := by
  induction v with
  | nil => rfl
  | cons x r ih =>
    simp only [statusAt]
    have := h x (List.mem_cons_self _ _)
    rw [if_neg (by omega)]
    exact ih (fun sb hsb => h sb (List.mem_cons_of_mem _ hsb))

theorem find_chunk_none (v : List Sblock) (dom : Domain) (b : Block) (st : Status)
    (h : ends_le b.pos v) : find_chunk v dom b st = ⟨b.pos, 0⟩ := by
  unfold find_chunk
  have : v.find? (fun sb => decide (sb.status = st) && dom.includes sb.block &&
      decide (b.pos < sb.end_)) = none := by
    rw [List.find?_eq_none]
    intro sb hsb
    have := h sb hsb
    simp only [Bool.and_eq_true, decide_eq_true_eq, not_and, not_lt]
    intro _
    exact this
  rw [this]

theorem copy_non_tried_loop_done (fuel : Nat) (rb : Rescuebook) (pos skip : Int)
    (h : ends_le pos rb.sblock_vector) :
    copy_non_tried_loop (fuel + 1) rb pos skip = some (0, rb) := by
  simp only [copy_non_tried_loop]
  by_cases h1 : pos ≥ 0
  · rw [if_pos h1]
    have hf := find_chunk_none rb.sblock_vector rb.domain
      ⟨pos, if skip ≠ 0 then rb.hardbs else rb.softbs⟩ .non_tried h
    rw [hf, if_pos (Or.inr (le_refl 0))]
  · rw [if_neg h1]

theorem copy_and_update_eof (fuel : Nat) (rb : Rescuebook) (b : Block) (st : Status)
    (c e : Int) (rb1 : Rescuebook) (hcb : copy_block fuel rb b = some (0, c, e, rb1))
    (heof : c + e < b.size) :
    e = 0 ∧ 0 ≤ c ∧
    copy_and_update fuel rb b st = some (0, c, e,
      { rb1 with
        sblock_vector :=
          if c > 0 then
            change_chunk_status (truncate_vector rb.sblock_vector (b.pos + c + e)) ⟨b.pos, c⟩
              .finished
          else truncate_vector rb.sblock_vector (b.pos + c + e),
        recsize := if c > 0 then rb1.recsize + c else rb1.recsize }) := by
  have hr := copy_block_result _ _ _ _ _ _ _ hcb
  have hv := (io_frame_fields hr.2.1).1
  rcases hr.2.2 with ⟨-, hc0, he0, -, hor⟩ | ⟨h01, -⟩
  swap
  · exact absurd h01 (by decide)
  have he : e = 0 := by omega
  refine ⟨he, hc0, ?_⟩
  have hne : ¬ e > 0 := by omega
  simp only [copy_and_update, hcb, if_true, hne, if_false, heof, hv]

theorem copy_non_tried_loop_eof (fuel : Nat) (rb : Rescuebook) (pos skip c e : Int)
    (rb1 : Rescuebook) (hpos : pos ≥ 0)
    (hb : ¬ ((find_chunk rb.sblock_vector rb.domain
          ⟨pos, if skip ≠ 0 then rb.hardbs else rb.softbs⟩ .non_tried).end_ < 0 ∨
        (find_chunk rb.sblock_vector rb.domain
          ⟨pos, if skip ≠ 0 then rb.hardbs else rb.softbs⟩ .non_tried).size ≤ 0))
    (hcb : copy_block (fuel + 1) { rb with current_status := .copying }
        (find_chunk rb.sblock_vector rb.domain
          ⟨pos, if skip ≠ 0 then rb.hardbs else rb.softbs⟩ .non_tried) = some (0, c, e, rb1))
    (heof : c + e < (find_chunk rb.sblock_vector rb.domain
          ⟨pos, if skip ≠ 0 then rb.hardbs else rb.softbs⟩ .non_tried).size) :
    ∃ r rb2, copy_non_tried_loop (fuel + 2) rb pos skip = some (r, rb2) ∧ (r = 0 ∨ r = -2) ∧
      rb2.sblock_vector =
        (if c > 0 then
          change_chunk_status
            (truncate_vector rb.sblock_vector
              ((find_chunk rb.sblock_vector rb.domain
                ⟨pos, if skip ≠ 0 then rb.hardbs else rb.softbs⟩ .non_tried).pos + c + e))
            ⟨(find_chunk rb.sblock_vector rb.domain
                ⟨pos, if skip ≠ 0 then rb.hardbs else rb.softbs⟩ .non_tried).pos, c⟩ .finished
         else
          truncate_vector rb.sblock_vector
            ((find_chunk rb.sblock_vector rb.domain
              ⟨pos, if skip ≠ 0 then rb.hardbs else rb.softbs⟩ .non_tried).pos + c + e)) ∧
      (∀ p, (find_chunk rb.sblock_vector rb.domain
            ⟨pos, if skip ≠ 0 then rb.hardbs else rb.softbs⟩ .non_tried).pos + c + e ≤ p →
        statusAt rb2.sblock_vector p = none) ∧
      copy_block_calls rb2.world.trace =
        (find_chunk rb.sblock_vector rb.domain
          ⟨pos, if skip ≠ 0 then rb.hardbs else rb.softbs⟩ .non_tried) ::
          copy_block_calls rb.world.trace := by
  generalize hB : find_chunk rb.sblock_vector rb.domain
    ⟨pos, if skip ≠ 0 then rb.hardbs else rb.softbs⟩ .non_tried = B at hb hcb heof ⊢
  obtain ⟨he, hc0, hcu⟩ := copy_and_update_eof (fuel + 1) { rb with current_status := .copying }
    B (if (if pos ≠ B.pos then 0 else skip) ≠ 0 then .bad_sector else .non_trimmed) c e rb1 hcb heof
  have htr := calls_copy_block _ _ _ _ _ _ _ hcb
  have hne : ¬ e > 0 := by omega
  generalize hV : (if c > 0 then
      change_chunk_status (truncate_vector rb.sblock_vector (B.pos + c + e)) ⟨B.pos, c⟩
        Status.finished
    else truncate_vector rb.sblock_vector (B.pos + c + e)) = V at hcu ⊢
  have hends : ends_le (B.pos + c + e) V := by
    rw [← hV]
    split_ifs
    · exact ends_le_change_chunk_status _ _ _ _ (ends_le_truncate_vector _ _)
    · exact ends_le_truncate_vector _ _
  have hends2 : ends_le B.end_ V := fun sb hsb => by
    have := hends sb hsb
    simp only [Block.end_]; omega
  generalize hR : ({ rb1 with
      sblock_vector := V,
      recsize := if c > 0 then rb1.recsize + c else rb1.recsize } : Rescuebook) = R at hcu
  have hRv : R.sblock_vector = V := by rw [← hR]
  have hRw : R.world = rb1.world := by rw [← hR]
  have hunit : ∃ sk, copy_non_tried_unit (fuel + 1) rb B B.end_
      (if pos ≠ B.pos then 0 else skip) = some (0, R, B.end_, sk) := by
    simp only [copy_non_tried_unit, hcu, hne, if_false]
    split_ifs <;> exact ⟨_, rfl⟩
  obtain ⟨sk, hunit⟩ := hunit
  have hst : ∀ (x : Rescuebook), x.sblock_vector = V → ∀ p, B.pos + c + e ≤ p →
      statusAt x.sblock_vector p = none := by
    intro x hx p hp
    rw [hx]
    exact statusAt_none_of_ends_le V _ p hends hp
  rw [copy_non_tried_loop]
  simp only []
  rw [if_pos hpos, hB, if_neg hb, hunit]
  simp only []
  by_cases htm : (0 : Int) ≠ 0 ∨ too_many_errors R = true
  · rw [if_pos htm]
    exact ⟨0, R, rfl, Or.inl rfl, hRv, hst R hRv, by rw [hRw]; exact htr⟩
  · rw [if_neg htm]
    have hlt := calls_update_logfile R
    have hlv : (update_logfile R).2.sblock_vector = R.sblock_vector := rfl
    generalize update_logfile R = ul at hlt hlv ⊢
    obtain ⟨ok, R2⟩ := ul
    simp only at hlt hlv
    cases ok
    · simp only []
      exact ⟨-2, R2, rfl, Or.inr rfl, by rw [hlv, hRv], hst R2 (by rw [hlv, hRv]),
        by rw [hlt, hRw]; exact htr⟩
    · simp only []
      rw [copy_non_tried_loop_done fuel R2 B.end_ sk (by rw [hlv, hRv]; exact hends2)]
      exact ⟨0, R2, rfl, Or.inl rfl, by rw [hlv, hRv], hst R2 (by rw [hlv, hRv]),
        by rw [hlt, hRw]; exact htr⟩

/-- C6 (the claim as stated fails): in `trim_errors`, `split_errors` and `copy_errors` a work
unit that hits EOF truncates the vector but does not end the pass.  In each of the three runs
the first (for `copy_errors` the second) call of `copy_block` returns 0 with
`copied_size + error_size < b.size`, and the pass then calls `copy_block` again on a chunk
below the truncation point. -/
theorem pass_goes_on_after_eof :
    (sizes_of (copy_block 7 { eof_trim_book with current_status := .trimming } ⟨4, 2⟩) =
        some (0, 1, 0) ∧
      outcome_of (trim_errors 8 eof_trim_book) =
        some (0, [⟨0, 5, .finished⟩], [⟨4, 2⟩, ⟨0, 2⟩])) ∧
    (sizes_of (copy_block 7 { eof_split_book with current_status := .splitting } ⟨4, 2⟩) =
        some (0, 1, 0) ∧
      outcome_of (split_errors 8 eof_split_book) =
        some (0, [⟨0, 5, .finished⟩], [⟨4, 2⟩, ⟨0, 2⟩])) ∧
    (sizes_of (copy_block 7
          { eof_retry_book with
            sblock_vector := [⟨0, 2, .bad_sector⟩, ⟨2, 2, .bad_sector⟩],
            world := { eof_retry_book.world with clock := 3 } } ⟨2, 2⟩) = some (0, 0, 0) ∧
      outcome_of (copy_errors 8 eof_retry_book) =
        some (0, [⟨0, 2, .bad_sector⟩], [⟨0, 2⟩, ⟨2, 2⟩, ⟨0, 2⟩])) := by
  decide

theorem mem_positions (dom : Domain) (p : Int) :
    p ∈ dom.positions ↔ ∃ x ∈ dom.blocks, x.pos ≤ p ∧ p < x.end_ := by
  unfold Domain.positions
  induction dom.blocks with
  | nil => simp
  | cons y r ih =>
    simp only [List.foldr_cons, Finset.mem_union, Finset.mem_Ico, ih, List.mem_cons,
      exists_eq_or_imp]

theorem Ico_subset_positions (dom : Domain) (sb : Sblock) (b : Block)
    (hd : dom.includes sb.block = true) (h1 : sb.pos ≤ b.pos) (h2 : b.end_ ≤ sb.end_) :
    Finset.Ico b.pos b.end_ ⊆ dom.positions := by
  intro p hp
  rw [Finset.mem_Ico] at hp
  rw [mem_positions]
  unfold Domain.includes at hd
  rw [List.any_eq_true] at hd
  obtain ⟨x, hx, hxi⟩ := hd
  unfold Block.includes at hxi
  simp only [Bool.and_eq_true, decide_eq_true_eq, Sblock.block, Block.end_] at hxi
  refine ⟨x, hx, ?_⟩
  simp only [Block.end_, Sblock.end_] at *
  omega

theorem card_filter_block (U : Finset Int) (P Q : Int → Prop) [DecidablePred P]
    [DecidablePred Q] (a n : Int) (hn : 0 ≤ n) (hI : Finset.Ico a (a + n) ⊆ U)
    (hin : ∀ p, a ≤ p → p < a + n → P p ∧ ¬ Q p)
    (hout : ∀ p, ¬ (a ≤ p ∧ p < a + n) → (Q p ↔ P p)) :
    ((U.filter Q).card : Int) + n = (U.filter P).card := by
  have hU : U.filter P = U.filter Q ∪ Finset.Ico a (a + n) := by
    ext p
    simp only [Finset.mem_filter, Finset.mem_union, Finset.mem_Ico]
    constructor
    · rintro ⟨hu, hp⟩
      by_cases hI2 : a ≤ p ∧ p < a + n
      · exact Or.inr hI2
      · exact Or.inl ⟨hu, (hout p hI2).2 hp⟩
    · rintro (⟨hu, hq⟩ | hI2)
      · have : ¬ (a ≤ p ∧ p < a + n) := fun h => (hin p h.1 h.2).2 hq
        exact ⟨hu, (hout p this).1 hq⟩
      · exact ⟨hI (Finset.mem_Ico.2 hI2), (hin p hI2.1 hI2.2).1⟩
  have hd : Disjoint (U.filter Q) (Finset.Ico a (a + n)) := by
    rw [Finset.disjoint_left]
    intro p hp hI2
    rw [Finset.mem_filter] at hp
    rw [Finset.mem_Ico] at hI2
    exact (hin p hI2.1 hI2.2).2 hp.2
  rw [hU, Finset.card_union_of_disjoint hd, Int.card_Ico]
  push_cast
  rw [Int.toNat_of_nonneg (by omega)]
  omega

theorem card_filter_same (U : Finset Int) (P Q : Int → Prop) [DecidablePred P]
    [DecidablePred Q] (h : ∀ p, Q p ↔ P p) : (U.filter Q).card = (U.filter P).card := by
  congr 1
  ext p
  simp only [Finset.mem_filter, h]

theorem retagged_change (v : List Sblock) (b : Block) (st : Status)
    (hv : sizes_nonneg v) (hst : st ≠ .non_tried) :
    retagged v (change_chunk_status v b st) b := by
  refine ⟨fun p => ?_, fun p hp => ?_, fun p h1 h2 => ?_⟩
  · rw [statusAt_change_chunk_status _ _ _ _ hv]
    split_ifs <;> cases statusAt v p <;> rfl
  · rw [statusAt_change_chunk_status _ _ _ _ hv, if_neg hp]
  · rw [statusAt_change_chunk_status _ _ _ _ hv, if_pos ⟨h1, h2⟩]
    cases statusAt v p with
    | none => simp
    | some s => simpa using hst

theorem retagged_marked (v : List Sblock) (b : Block) (st : Status) (hardbs c e : Int)
    (hv : sizes_nonneg v) (hc : 0 ≤ c) (he : 0 ≤ e) (hce : c + e = b.size) (hh : 0 < hardbs)
    (hst : st ≠ .non_tried) :
    retagged v (marked_vector v b st hardbs c e) b := by
  have key := fun p => statusAt_marked_vector v b st hardbs c e p hv hc he hh
  refine ⟨fun p => ?_, fun p hp => ?_, fun p h1 h2 => ?_⟩
  · rw [key]
    unfold marked_status
    rw [if_neg (by omega)]
    split_ifs <;> cases statusAt v p <;> rfl
  · rw [key]
    unfold marked_status
    simp only [Block.end_] at hp
    rw [if_neg (by omega), if_neg (by omega), if_neg (by omega)]
  · rw [key]
    unfold marked_status
    simp only [Block.end_] at h2
    rw [if_neg (by omega)]
    by_cases h3 : p < b.pos + c
    · rw [if_pos ⟨h1, h3⟩]
      cases statusAt v p <;> simp
    · rw [if_neg (by omega), if_pos ⟨by omega, by omega⟩]
      cases statusAt v p with
      | none => simp
      | some s =>
        simp only [Option.map_some', ne_eq, Option.some.injEq]
        split_ifs
        · decide
        · exact hst

theorem retagged_counts (dom : Domain) (v w : List Sblock) (b : Block) (q : Int)
    (hr : retagged v w b) (hw : wf_from q v = true) (sb : Sblock) (hm : sb ∈ v)
    (hd : dom.includes sb.block = true) (h1 : sb.pos ≤ b.pos) (h2 : b.end_ ≤ sb.end_)
    (hb : 0 ≤ b.size) :
    (bytes_with dom w .non_tried : Int) + (if sb.status = .non_tried then b.size else 0) =
        bytes_with dom v .non_tried ∧
      covered_bytes dom w = covered_bytes dom v := by
  obtain ⟨r1, r2, r3⟩ := hr
  refine ⟨?_, ?_⟩
  · unfold bytes_with
    split_ifs with hs
    · have hI := Ico_subset_positions dom sb b hd h1 h2
      simp only [Block.end_] at hI r2 r3 h2
      refine card_filter_block dom.positions (fun p => statusAt v p = some .non_tried)
        (fun p => statusAt w p = some .non_tried) b.pos b.size hb hI ?_ ?_
      · intro p ha hb2
        refine ⟨?_, r3 p ha hb2⟩
        show statusAt v p = some Status.non_tried
        rw [statusAt_of_mem v q hw sb hm p (by omega) (by omega), hs]
      · intro p hp
        show statusAt w p = some Status.non_tried ↔ statusAt v p = some Status.non_tried
        rw [r2 p hp]
    · rw [add_zero]
      congr 1
      apply card_filter_same
      intro p
      by_cases hp : b.pos ≤ p ∧ p < b.end_
      · have h3 := r3 p hp.1 hp.2
        have h4 : statusAt v p = some sb.status :=
          statusAt_of_mem v q hw sb hm p (by omega) (by omega)
        constructor
        · intro h; exact absurd h h3
        · intro h; rw [h4] at h; exact absurd (Option.some.inj h) hs
      · rw [r2 p hp]
  · unfold covered_bytes
    apply card_filter_same
    intro p
    rw [r1 p]

theorem copy_and_update_counts (fuel : Nat) (rb : Rescuebook) (b : Block) (st : Status)
    (r c e : Int) (rb2 : Rescuebook) (q : Int) (hw : wf_from q rb.sblock_vector = true)
    (hh : 0 < rb.hardbs) (sb : Sblock) (hm : sb ∈ rb.sblock_vector)
    (hd : rb.domain.includes sb.block = true) (h1 : sb.pos ≤ b.pos) (h2 : b.end_ ≤ sb.end_)
    (hst : st ≠ .non_tried) (hne : ¬ hits_eof fuel rb b)
    (h : copy_and_update fuel rb b st = some (r, c, e, rb2)) :
    wf_from q rb2.sblock_vector = true ∧ rb2.domain = rb.domain ∧ rb2.hardbs = rb.hardbs ∧
      rb2.errsize = rb.errsize ∧ rb2.recsize = rb.recsize + c ∧ 0 ≤ c ∧ 0 ≤ e ∧
      (bytes_with rb.domain rb2.sblock_vector .non_tried : Int) +
          (if sb.status = .non_tried then c + e else 0) =
        bytes_with rb.domain rb.sblock_vector .non_tried ∧
      covered_bytes rb.domain rb2.sblock_vector = covered_bytes rb.domain rb.sblock_vector := by
  obtain ⟨r0, rb1, hcb, hsc, herr, -, hres⟩ := copy_and_update_result _ _ _ _ _ _ _ _ h
  have hcr := copy_block_result _ _ _ _ _ _ _ hcb
  have hcf := same_config_fields hsc
  rcases hres with ⟨hr0, -, hvec, hrec⟩ | ⟨hr0, -, hrb⟩
  · rcases hcr.2.2 with ⟨-, hc0, he0, hce, -⟩ | ⟨h01, -⟩
    · have hce2 : c + e = b.size := by
        by_contra hlt
        exact hne ⟨c, e, rb1, by rw [← hr0]; exact hcb, by omega⟩
      have hrt := retagged_marked rb.sblock_vector b st rb.hardbs c e
        (wf_from_sizes_nonneg _ q hw) hc0 he0 hce2 hh hst
      have hcnt := retagged_counts rb.domain _ _ b q hrt hw sb hm hd h1 h2 (by omega)
      rw [hvec]
      refine ⟨wf_from_marked_vector _ _ _ _ _ _ q hw, hcf.1, hcf.2.1, herr, ?_, hc0, he0, ?_,
        hcnt.2⟩
      · rw [hrec]; split_ifs <;> omega
      · rw [hce2]; exact hcnt.1
    · rw [hr0] at h01; exact absurd h01 (by decide)
  · rcases hcr.2.2 with ⟨h00, -⟩ | ⟨-, hc0, he0, -⟩
    · exact absurd h00 hr0
    · have hf := io_frame_fields hcr.2.1
      subst hrb
      rw [hf.1, hf.2.1, hc0, he0]
      refine ⟨hw, hcf.1, hcf.2.1, herr, by omega, le_refl _, le_refl _, ?_, rfl⟩
      split_ifs <;> simp

theorem change_counts (dom : Domain) (v : List Sblock) (b : Block) (st : Status) (q : Int)
    (hw : wf_from q v = true) (hch : chunk_in v dom .non_tried b) (hb : 0 ≤ b.size)
    (hst : st ≠ .non_tried) :
    (bytes_with dom (change_chunk_status v b st) .non_tried : Int) + b.size =
        bytes_with dom v .non_tried ∧
      covered_bytes dom (change_chunk_status v b st) = covered_bytes dom v := by
  obtain ⟨sb, hm, hs, hd, h1, h2⟩ := hch
  have := retagged_counts dom v _ b q (retagged_change v b st (wf_from_sizes_nonneg _ q hw) hst)
    hw sb hm hd h1 h2 hb
  rw [if_pos hs] at this
  exact this

theorem change_counts_other (dom : Domain) (v : List Sblock) (b : Block) (st s0 : Status)
    (q : Int) (hw : wf_from q v = true) (hch : chunk_in v dom s0 b) (hb : 0 ≤ b.size)
    (hs0 : s0 ≠ .non_tried) (hst : st ≠ .non_tried) :
    bytes_with dom (change_chunk_status v b st) .non_tried = bytes_with dom v .non_tried ∧
      covered_bytes dom (change_chunk_status v b st) = covered_bytes dom v := by
  obtain ⟨sb, hm, hs, hd, h1, h2⟩ := hch
  have := retagged_counts dom v _ b q (retagged_change v b st (wf_from_sizes_nonneg _ q hw) hst)
    hw sb hm hd h1 h2 hb
  rw [if_neg (by rw [hs]; exact hs0), add_zero] at this
  exact ⟨by exact_mod_cast this.1, this.2⟩

theorem copy_non_tried_unit_conserves (fuel : Nat) (rb : Rescuebook) (b : Block)
    (pos skip retval pos1 skip1 : Int) (rb1 : Rescuebook) (q : Int)
    (hw : wf_from q rb.sblock_vector = true) (hh : 0 < rb.hardbs)
    (hch : chunk_in rb.sblock_vector rb.domain .non_tried b)
    (hne : ¬ hits_eof fuel { rb with current_status := .copying } b)
    (hcons : conserved rb)
    (hu : copy_non_tried_unit fuel rb b pos skip = some (retval, rb1, pos1, skip1)) :
    conserved rb1 ∧ wf_from q rb1.sblock_vector = true := by
  obtain ⟨sb, hm, hs, hd, h1, h2⟩ := hch
  simp only [copy_non_tried_unit] at hu
  cases hcu : copy_and_update fuel { rb with current_status := .copying } b
      (if skip ≠ 0 then .bad_sector else .non_trimmed) with
  | none => rw [hcu] at hu; simp at hu
  | some x =>
    obtain ⟨r, c, e, rb2⟩ := x
    have hk := copy_and_update_counts fuel { rb with current_status := .copying } b _ r c e rb2 q
      hw hh sb hm hd h1 h2 (by split_ifs <;> decide) hne hcu
    obtain ⟨k1, k2, -, k4, k5, k6, k7, k8, k9⟩ := hk
    simp only [] at k2 k4 k5 k8 k9
    rw [if_pos hs] at k8
    unfold conserved at hcons
    simp only [hcu] at hu
    by_cases he : e > 0
    · rw [if_pos he] at hu
      generalize (if skip < rb2.skipbs_ then rb2.skipbs_
        else if skip < LLONG_MAX / 4 then skip * 2 else skip) = sk at hu
      by_cases hcond : pos = (find_chunk rb2.sblock_vector rb2.domain
          (Block.fix_size ⟨pos, sk⟩) Status.non_tried).pos ∧
          (find_chunk rb2.sblock_vector rb2.domain
            (Block.fix_size ⟨pos, sk⟩) Status.non_tried).size > 0
      · rw [if_pos hcond] at hu
        cases hu
        have hc2 := find_chunk_spec _ _ _ _ hcond.2
        have hcc := change_counts rb2.domain rb2.sblock_vector _ .non_trimmed q k1 hc2
          (le_of_lt hcond.2) (by decide)
        rw [k2] at hcc
        refine ⟨?_, (wf_from_change_chunk_status _ _ _ q k1).1⟩
        unfold conserved
        simp only [k2, k4, k5]
        rw [hcc.2, k9]
        omega
      · rw [if_neg hcond] at hu
        cases hu
        refine ⟨?_, k1⟩
        unfold conserved
        simp only [k2, k4, k5]
        rw [k9]
        omega
    · rw [if_neg he] at hu
      have : conserved rb2 := by
        unfold conserved
        rw [k2, k4, k5, k9]
        omega
      split at hu <;> cases hu <;> exact ⟨this, k1⟩

theorem trim_errors_unit_conserves (fuel : Nat) (rb : Rescuebook) (b : Block)
    (retval : Int) (rb1 : Rescuebook) (q : Int)
    (hw : wf_from q rb.sblock_vector = true) (hh : 0 < rb.hardbs)
    (hch : chunk_in rb.sblock_vector rb.domain .non_trimmed b)
    (hne : ¬ hits_eof fuel { rb with current_status := .trimming } b)
    (hcons : conserved rb)
    (hu : trim_errors_unit fuel rb b = some (retval, rb1)) :
    conserved rb1 ∧ wf_from q rb1.sblock_vector = true := by
  obtain ⟨sb, hm, hs, hd, h1, h2⟩ := hch
  simp only [trim_errors_unit] at hu
  cases hcu : copy_and_update fuel { rb with current_status := .trimming } b .bad_sector with
  | none => rw [hcu] at hu; simp at hu
  | some x =>
    obtain ⟨r, c, e, rb2⟩ := x
    have hk := copy_and_update_counts fuel { rb with current_status := .trimming } b _ r c e rb2
      q hw hh sb hm hd h1 h2 (by decide) hne hcu
    obtain ⟨k1, k2, -, k4, k5, k6, k7, k8, k9⟩ := hk
    simp only [] at k2 k4 k5 k8 k9
    rw [if_neg (by rw [hs]; decide), add_zero] at k8
    unfold conserved at hcons
    simp only [hcu] at hu
    have hbase : rb2.recsize + (if c > 0 then rb2.errsize - c else rb2.errsize) +
        (bytes_with rb.domain rb2.sblock_vector .non_tried : Int) =
        covered_bytes rb.domain rb2.sblock_vector := by
      rw [k4, k5, k9]
      split_ifs <;> omega
    by_cases he : e > 0 ∧ b.pos > 0
    · rw [if_pos he] at hu
      cases hsb : sblock rb2.sblock_vector (find_index rb2.sblock_vector (b.pos - 1)) with
      | none =>
        simp only [hsb] at hu
        cases hu
        refine ⟨?_, k1⟩
        unfold conserved
        simp only [k2]
        exact hbase
      | some sb2 =>
        simp only [hsb] at hu
        have hm2 := sblock_mem _ _ _ hsb
        by_cases h3 : find_index rb2.sblock_vector (b.pos - 1) ≥ 0 ∧
            rb2.domain.includes sb2.block = true ∧ sb2.status = Status.non_trimmed
        · rw [if_pos h3] at hu
          cases hu
          have hsz : 0 ≤ sb2.size := wf_from_sizes_nonneg _ q k1 sb2 hm2
          have hcc := change_counts_other rb2.domain rb2.sblock_vector sb2.block .non_split
            .non_trimmed q k1 ⟨sb2, hm2, h3.2.2, h3.2.1, le_refl _, le_refl _⟩ hsz
            (by decide) (by decide)
          rw [k2] at hcc
          refine ⟨?_, (wf_from_change_chunk_status _ _ _ q k1).1⟩
          unfold conserved
          simp only [k2]
          rw [hcc.1, hcc.2]
          exact hbase
        · rw [if_neg h3] at hu
          cases hu
          refine ⟨?_, k1⟩
          unfold conserved
          simp only [k2]
          exact hbase
    · rw [if_neg he] at hu
      cases hu
      refine ⟨?_, k1⟩
      unfold conserved
      simp only [k2]
      exact hbase

theorem split_errors_unit_conserves (fuel : Nat) (rb : Rescuebook) (b : Block)
    (pos ec retval pos1 ec1 : Int) (rb1 : Rescuebook) (q : Int)
    (hw : wf_from q rb.sblock_vector = true) (hh : 0 < rb.hardbs)
    (hch : chunk_in rb.sblock_vector rb.domain .non_split b)
    (hne : ¬ hits_eof fuel { rb with current_status := .splitting } b)
    (hcons : conserved rb)
    (hu : split_errors_unit fuel rb b pos ec = some (retval, rb1, pos1, ec1)) :
    conserved rb1 ∧ wf_from q rb1.sblock_vector = true := by
  obtain ⟨sb, hm, hs, hd, h1, h2⟩ := hch
  simp only [split_errors_unit] at hu
  cases hcu : copy_and_update fuel { rb with current_status := .splitting } b .bad_sector with
  | none => rw [hcu] at hu; simp at hu
  | some x =>
    obtain ⟨r, c, e, rb2⟩ := x
    have hk := copy_and_update_counts fuel { rb with current_status := .splitting } b _ r c e
      rb2 q hw hh sb hm hd h1 h2 (by decide) hne hcu
    obtain ⟨k1, k2, -, k4, k5, k6, k7, k8, k9⟩ := hk
    simp only [] at k2 k4 k5 k8 k9
    rw [if_neg (by rw [hs]; decide), add_zero] at k8
    unfold conserved at hcons
    simp only [hcu] at hu
    have hbase : conserved { rb2 with errsize := if c > 0 then rb2.errsize - c
        else rb2.errsize } := by
      unfold conserved
      simp only [k2]
      rw [k4, k5, k9]
      split_ifs <;> omega
    by_cases he : e ≤ 0
    · rw [if_pos he] at hu
      cases hu
      exact ⟨hbase, k1⟩
    · rw [if_neg he] at hu
      split at hu
      · split at hu
        · cases hu
          exact ⟨hbase, k1⟩
        · split at hu
          · split at hu <;> cases hu <;> exact ⟨hbase, k1⟩
          · cases hu
            exact ⟨hbase, k1⟩
      · cases hu
        exact ⟨hbase, k1⟩

theorem copy_errors_unit_conserves (fuel : Nat) (rb : Rescuebook) (b : Block)
    (retval : Int) (rb1 : Rescuebook) (q : Int)
    (hw : wf_from q rb.sblock_vector = true) (hh : 0 < rb.hardbs)
    (hch : chunk_in rb.sblock_vector rb.domain .bad_sector b)
    (hne : ¬ hits_eof fuel { rb with current_status := .retrying } b)
    (hcons : conserved rb)
    (hu : copy_errors_unit fuel rb b = some (retval, rb1)) :
    conserved rb1 ∧ wf_from q rb1.sblock_vector = true := by
  obtain ⟨sb, hm, hs, hd, h1, h2⟩ := hch
  simp only [copy_errors_unit] at hu
  cases hcu : copy_and_update fuel { rb with current_status := .retrying } b .bad_sector with
  | none => rw [hcu] at hu; simp at hu
  | some x =>
    obtain ⟨r, c, e, rb2⟩ := x
    have hk := copy_and_update_counts fuel { rb with current_status := .retrying } b _ r c e
      rb2 q hw hh sb hm hd h1 h2 (by decide) hne hcu
    obtain ⟨k1, k2, -, k4, k5, k6, k7, k8, k9⟩ := hk
    simp only [] at k2 k4 k5 k8 k9
    rw [if_neg (by rw [hs]; decide), add_zero] at k8
    unfold conserved at hcons
    simp only [hcu] at hu
    cases hu
    refine ⟨?_, k1⟩
    unfold conserved
    simp only [k2]
    rw [k4, k5, k9]
    split_ifs <;> omega

/-- C4 (the claim as stated fails): a work unit of `trim_errors` that hits EOF breaks the
conservation.  Before the unit `recsize + errsize + non_tried = 2 + 4 + 0` equals the 6 domain
bytes covered; the read of `[4,6)` delivers 1 byte and meets EOF, the vector is truncated at
5, and afterwards `recsize + errsize + non_tried = 3 + 3 + 0` while only 5 domain bytes are
covered. -/
theorem conservation_fails_at_eof :
    vector_wf eof_trim_counted.sblock_vector = true ∧ conserved eof_trim_counted ∧
      rfind_chunk eof_trim_counted.sblock_vector eof_trim_counted.domain
        ⟨LLONG_MAX - eof_trim_counted.hardbs, eof_trim_counted.hardbs⟩ .non_trimmed = ⟨4, 2⟩ ∧
      sizes_of (copy_block 7 { eof_trim_counted with current_status := .trimming } ⟨4, 2⟩) =
        some (0, 1, 0) ∧
      ¬ conserved (pair_state_of (trim_errors_unit 7 eof_trim_counted ⟨4, 2⟩)
        eof_trim_counted) := by
  decide

/-- C7: no engine step changes a finished region to a non-finished status.  For each of the
four passes, a work unit started on a chunk that the chunk search of the pass found in a
vector satisfying the vector invariants (so with all the status changes issued by
`copy_and_update`, by the skip stamping of `copy_non_tried` and by the promotion of
`trim_errors`) leaves every byte that was finished either finished or, past an EOF, dropped
from the vector; it never gives it another status.  The vector invariants are preserved. -/
theorem finished_stays_finished (fuel : Nat) (rb : Rescuebook)
    (hw : vector_wf rb.sblock_vector = true) (hh : 0 < rb.hardbs) :
    (∀ (b0 : Block) (pos skip retval pos1 skip1 : Int) (rb1 : Rescuebook),
      0 < (find_chunk rb.sblock_vector rb.domain b0 .non_tried).size →
      copy_non_tried_unit fuel rb (find_chunk rb.sblock_vector rb.domain b0 .non_tried)
        pos skip = some (retval, rb1, pos1, skip1) →
      vector_wf rb1.sblock_vector = true ∧
      ∀ p, statusAt rb.sblock_vector p = some .finished →
        statusAt rb1.sblock_vector p = some .finished ∨ statusAt rb1.sblock_vector p = none) ∧
    (∀ (b0 : Block) (retval : Int) (rb1 : Rescuebook),
      0 < (rfind_chunk rb.sblock_vector rb.domain b0 .non_trimmed).size →
      trim_errors_unit fuel rb (rfind_chunk rb.sblock_vector rb.domain b0 .non_trimmed) =
        some (retval, rb1) →
      vector_wf rb1.sblock_vector = true ∧
      ∀ p, statusAt rb.sblock_vector p = some .finished →
        statusAt rb1.sblock_vector p = some .finished ∨ statusAt rb1.sblock_vector p = none) ∧
    (∀ (b0 : Block) (pos ec retval pos1 ec1 : Int) (rb1 : Rescuebook),
      0 < (find_chunk rb.sblock_vector rb.domain b0 .non_split).size →
      split_errors_unit fuel rb (find_chunk rb.sblock_vector rb.domain b0 .non_split)
        pos ec = some (retval, rb1, pos1, ec1) →
      vector_wf rb1.sblock_vector = true ∧
      ∀ p, statusAt rb.sblock_vector p = some .finished →
        statusAt rb1.sblock_vector p = some .finished ∨ statusAt rb1.sblock_vector p = none) ∧
    (∀ (b0 : Block) (retval : Int) (rb1 : Rescuebook),
      0 < (find_chunk rb.sblock_vector rb.domain b0 .bad_sector).size →
      copy_errors_unit fuel rb (find_chunk rb.sblock_vector rb.domain b0 .bad_sector) =
        some (retval, rb1) →
      vector_wf rb1.sblock_vector = true ∧
      ∀ p, statusAt rb.sblock_vector p = some .finished →
        statusAt rb1.sblock_vector p = some .finished ∨ statusAt rb1.sblock_vector p = none) := by
  obtain ⟨q, hq⟩ := (vector_wf_iff _).1 hw
  refine ⟨?_, ?_, ?_, ?_⟩
  · intro b0 pos skip retval pos1 skip1 rb1 hsz hu
    have := copy_non_tried_unit_keeps fuel rb _ pos skip retval pos1 skip1 rb1 q hq hh
      (find_chunk_spec _ _ _ _ hsz) hu
    exact ⟨(vector_wf_iff _).2 ⟨q, this.2⟩, fun p hp => (this.1 p).1 hp⟩
  · intro b0 retval rb1 hsz hu
    have := trim_errors_unit_keeps fuel rb _ retval rb1 q hq hh
      (rfind_chunk_spec _ _ _ _ hsz) hu
    exact ⟨(vector_wf_iff _).2 ⟨q, this.2⟩, fun p hp => (this.1 p).1 hp⟩
  · intro b0 pos ec retval pos1 ec1 rb1 hsz hu
    have := split_errors_unit_keeps fuel rb _ pos ec retval pos1 ec1 rb1 q hq hh
      (find_chunk_spec _ _ _ _ hsz) hu
    exact ⟨(vector_wf_iff _).2 ⟨q, this.2⟩, fun p hp => (this.1 p).1 hp⟩
  · intro b0 retval rb1 hsz hu
    have := copy_errors_unit_keeps fuel rb _ retval rb1 q hq hh
      (find_chunk_spec _ _ _ _ hsz) hu
    exact ⟨(vector_wf_iff _).2 ⟨q, this.2⟩, fun p hp => (this.1 p).1 hp⟩

theorem finished_stays_finished_witness :
    vector_wf (pair_state_of (trim_errors_unit 5 trim_fail_book ⟨2, 2⟩)
        trim_fail_book).sblock_vector = true ∧
      ∀ p, statusAt trim_fail_book.sblock_vector p = some .finished →
        statusAt (pair_state_of (trim_errors_unit 5 trim_fail_book ⟨2, 2⟩)
            trim_fail_book).sblock_vector p = some .finished ∨
          statusAt (pair_state_of (trim_errors_unit 5 trim_fail_book ⟨2, 2⟩)
            trim_fail_book).sblock_vector p = none :=
  (finished_stays_finished 5 trim_fail_book (by decide) (by decide)).2.1
    ⟨LLONG_MAX - 2, 2⟩ 0 _ (by decide) (by rfl)

/-- C6 (amended): when a work unit hits EOF (`copy_block` returns 0 with
`copied_size + error_size < b.size`), `copy_and_update` returns 0 and the vector is truncated
at `b.pos + copied_size + error_size` (the copied head is then marked finished), so that no
byte at or past that position is covered any more.  In `copy_non_tried` the pass then ends:
it returns 0 (or -2 if the logfile update fails) and the only call of `copy_block` it has
made is the one of that work unit. -/
theorem eof_truncates_and_ends_copy_non_tried (fuel : Nat) (rb : Rescuebook) :
    (∀ (b : Block) (st : Status) (c e : Int) (rb1 : Rescuebook),
      copy_block fuel rb b = some (0, c, e, rb1) → c + e < b.size →
      ∃ rb2, copy_and_update fuel rb b st = some (0, c, e, rb2) ∧
        rb2.sblock_vector =
          (if c > 0 then
            change_chunk_status (truncate_vector rb.sblock_vector (b.pos + c + e)) ⟨b.pos, c⟩
              .finished
           else truncate_vector rb.sblock_vector (b.pos + c + e)) ∧
        ∀ p, b.pos + c + e ≤ p → statusAt rb2.sblock_vector p = none) ∧
    (∀ (pos skip c e : Int) (rb1 : Rescuebook), pos ≥ 0 →
      ¬ ((find_chunk rb.sblock_vector rb.domain
            ⟨pos, if skip ≠ 0 then rb.hardbs else rb.softbs⟩ .non_tried).end_ < 0 ∨
          (find_chunk rb.sblock_vector rb.domain
            ⟨pos, if skip ≠ 0 then rb.hardbs else rb.softbs⟩ .non_tried).size ≤ 0) →
      copy_block (fuel + 1) { rb with current_status := .copying }
          (find_chunk rb.sblock_vector rb.domain
            ⟨pos, if skip ≠ 0 then rb.hardbs else rb.softbs⟩ .non_tried) =
        some (0, c, e, rb1) →
      c + e < (find_chunk rb.sblock_vector rb.domain
            ⟨pos, if skip ≠ 0 then rb.hardbs else rb.softbs⟩ .non_tried).size →
      ∃ r rb2, copy_non_tried_loop (fuel + 2) rb pos skip = some (r, rb2) ∧
        (r = 0 ∨ r = -2) ∧
        (∀ p, (find_chunk rb.sblock_vector rb.domain
              ⟨pos, if skip ≠ 0 then rb.hardbs else rb.softbs⟩ .non_tried).pos + c + e ≤ p →
          statusAt rb2.sblock_vector p = none) ∧
        copy_block_calls rb2.world.trace =
          (find_chunk rb.sblock_vector rb.domain
            ⟨pos, if skip ≠ 0 then rb.hardbs else rb.softbs⟩ .non_tried) ::
            copy_block_calls rb.world.trace) := by
  refine ⟨?_, ?_⟩
  · intro b st c e rb1 hcb heof
    obtain ⟨-, -, hcu⟩ := copy_and_update_eof fuel rb b st c e rb1 hcb heof
    refine ⟨_, hcu, rfl, ?_⟩
    intro p hp
    apply statusAt_none_of_ends_le _ (b.pos + c + e) p _ hp
    show ends_le (b.pos + c + e) (if c > 0 then _ else _)
    split_ifs
    · exact ends_le_change_chunk_status _ _ _ _ (ends_le_truncate_vector _ _)
    · exact ends_le_truncate_vector _ _
  · intro pos skip c e rb1 hpos hb hcb heof
    obtain ⟨r, rb2, h1, h2, -, h4, h5⟩ :=
      copy_non_tried_loop_eof fuel rb pos skip c e rb1 hpos hb hcb heof
    exact ⟨r, rb2, h1, h2, h4, h5⟩

theorem eof_truncates_and_ends_copy_non_tried_witness :
    ∃ r rb2, copy_non_tried_loop (4 + 2) eof_copy_book 0 2 = some (r, rb2) ∧
      (r = 0 ∨ r = -2) ∧
      (∀ p, (0 : Int) + 1 + 0 ≤ p → statusAt rb2.sblock_vector p = none) ∧
      copy_block_calls rb2.world.trace =
        (⟨0, 2⟩ : Block) :: copy_block_calls eof_copy_book.world.trace :=
  (eof_truncates_and_ends_copy_non_tried 4 eof_copy_book).2 0 2 1 0
    (state_of (copy_block (4 + 1) { eof_copy_book with current_status := .copying } ⟨0, 2⟩)
      eof_copy_book)
    (by decide) (by decide) (by rfl) (by decide)

theorem copy_and_update_world (fuel : Nat) (rb : Rescuebook) (b : Block) (st : Status)
    (r c e : Int) (rb2 : Rescuebook)
    (h : copy_and_update fuel rb b st = some (r, c, e, rb2)) :
    ∃ r0 rb1, copy_block fuel rb b = some (r0, c, e, rb1) ∧
      (rb2.world = rb1.world ∨ rb2.world = (sys_access rb1.world).2) := by
  cases hcb : copy_block fuel rb b with
  | none => simp [copy_and_update, hcb] at h
  | some x =>
    obtain ⟨r0, c0, e0, rb1⟩ := x
    have key : ∀ (x : Rescuebook) (k : Int), some (k, c0, e0, x) = some (r, c, e, rb2) →
        (x.world = rb1.world ∨ x.world = (sys_access rb1.world).2) →
        ∃ r9 rb9, some (r0, c0, e0, rb1) = some (r9, c, e, rb9) ∧
          (rb2.world = rb9.world ∨ rb2.world = (sys_access rb9.world).2) := by
      intro x k hx h1
      simp only [Option.some.injEq, Prod.mk.injEq] at hx
      obtain ⟨rfl, rfl, rfl, rfl⟩ := hx
      exact ⟨r0, rb1, rfl, h1⟩
    by_cases hr0 : r0 = 0
    · by_cases he : e0 > 0
      · simp only [copy_and_update, hcb, hr0, he, if_true] at h
        by_cases hin : rb1.iname_ = true
        · rw [if_pos hin] at h
          generalize hsa : sys_access rb1.world = a at h
          obtain ⟨k, w⟩ := a
          simp only [] at h
          by_cases hk : k ≠ 0
          · rw [if_pos hk] at h
            exact key _ _ h (Or.inr (by rw [hsa]))
          · rw [if_neg hk] at h
            exact key _ _ h (Or.inr (by rw [hsa]))
        · rw [if_neg hin] at h
          exact key _ _ h (Or.inl rfl)
      · simp only [copy_and_update, hcb, hr0, he, if_true, if_false] at h
        exact key _ _ h (Or.inl rfl)
    · simp only [copy_and_update, hcb, hr0, if_false] at h
      exact key _ _ h (Or.inl rfl)

theorem calls_copy_and_update (fuel : Nat) (rb : Rescuebook) (b : Block) (st : Status)
    (r c e : Int) (rb2 : Rescuebook)
    (h : copy_and_update fuel rb b st = some (r, c, e, rb2)) :
    copy_block_calls rb2.world.trace = b :: copy_block_calls rb.world.trace := by
  obtain ⟨r0, rb1, hcb, hw⟩ := copy_and_update_world _ _ _ _ _ _ _ _ h
  have h1 := calls_copy_block _ _ _ _ _ _ _ hcb
  rcases hw with hw | hw
  · rw [hw, h1]
  · rw [hw, calls_sys_access, h1]

theorem copy_non_tried_unit_result (fuel : Nat) (rb : Rescuebook) (b : Block)
    (pos skip r pos1 skip1 : Int) (rb1 : Rescuebook)
    (hu : copy_non_tried_unit fuel rb b pos skip = some (r, rb1, pos1, skip1)) :
    ∃ c e rb2, copy_and_update fuel { rb with current_status := .copying } b
        (if skip ≠ 0 then .bad_sector else .non_trimmed) = some (r, c, e, rb2) ∧
      rb1.world = rb2.world ∧ same_config rb2 rb1 ∧
      skip1 = (if e > 0 then
          (if skip < rb2.skipbs_ then rb2.skipbs_
           else if skip < LLONG_MAX / 4 then skip * 2 else skip)
        else if skip > 0 ∧ c > 0 then (if skip - c < 0 then 0 else skip - c) else skip) := by
  cases hcu : copy_and_update fuel { rb with current_status := .copying } b
      (if skip ≠ 0 then .bad_sector else .non_trimmed) with
  | none => simp only [copy_non_tried_unit, hcu] at hu; cases hu
  | some x =>
    obtain ⟨r0, c, e, rb2⟩ := x
    simp only [copy_non_tried_unit, hcu] at hu
    have fin : ∀ (x : Rescuebook) (p k : Int), some (r0, x, p, k) = some (r, rb1, pos1, skip1) →
        x.world = rb2.world → same_config rb2 x →
        k = (if e > 0 then
          (if skip < rb2.skipbs_ then rb2.skipbs_
           else if skip < LLONG_MAX / 4 then skip * 2 else skip)
          else if skip > 0 ∧ c > 0 then (if skip - c < 0 then 0 else skip - c) else skip) →
        ∃ c9 e9 rb9, some (r0, c, e, rb2) = some (r, c9, e9, rb9) ∧
          rb1.world = rb9.world ∧ same_config rb9 rb1 ∧
          skip1 = (if e9 > 0 then
              (if skip < rb9.skipbs_ then rb9.skipbs_
               else if skip < LLONG_MAX / 4 then skip * 2 else skip)
            else if skip > 0 ∧ c9 > 0 then (if skip - c9 < 0 then 0 else skip - c9)
            else skip) := by
      intro x p k hx h1 h2 h3
      simp only [Option.some.injEq, Prod.mk.injEq] at hx
      obtain ⟨rfl, rfl, rfl, rfl⟩ := hx
      exact ⟨c, e, rb2, rfl, h1, h2, h3⟩
    by_cases he : e > 0
    · rw [if_pos he] at hu
      by_cases hs : pos = (find_chunk rb2.sblock_vector rb2.domain
          (Block.fix_size ⟨pos, if skip < rb2.skipbs_ then rb2.skipbs_
            else if skip < LLONG_MAX / 4 then skip * 2 else skip⟩) .non_tried).pos ∧
          (find_chunk rb2.sblock_vector rb2.domain
          (Block.fix_size ⟨pos, if skip < rb2.skipbs_ then rb2.skipbs_
            else if skip < LLONG_MAX / 4 then skip * 2 else skip⟩) .non_tried).size > 0
      · rw [if_pos hs] at hu
        exact fin _ _ _ hu rfl (by rfl) (by rw [if_pos he])
      · rw [if_neg hs] at hu
        exact fin _ _ _ hu rfl (by rfl) (by rw [if_pos he])
    · rw [if_neg he] at hu
      by_cases hs : skip > 0 ∧ c > 0
      · rw [if_pos hs] at hu
        exact fin _ _ _ hu rfl (by rfl) (by rw [if_neg he, if_pos hs])
      · rw [if_neg hs] at hu
        exact fin _ _ _ hu rfl (by rfl) (by rw [if_neg he, if_neg hs])

theorem trim_errors_unit_result (fuel : Nat) (rb : Rescuebook) (b : Block) (r : Int)
    (rb1 : Rescuebook) (hu : trim_errors_unit fuel rb b = some (r, rb1)) :
    ∃ c e rb2, copy_and_update fuel { rb with current_status := .trimming } b .bad_sector =
        some (r, c, e, rb2) ∧
      rb1.world = rb2.world ∧ same_config rb2 rb1 := by
  cases hcu : copy_and_update fuel { rb with current_status := .trimming } b .bad_sector with
  | none => simp only [trim_errors_unit, hcu] at hu; cases hu
  | some x =>
    obtain ⟨r0, c, e, rb2⟩ := x
    simp only [trim_errors_unit, hcu] at hu
    split at hu
    · split at hu
      · simp only [Option.some.injEq, Prod.mk.injEq] at hu
        obtain ⟨rfl, rfl⟩ := hu
        exact ⟨c, e, rb2, rfl, rfl, by rfl⟩
      · split at hu <;>
        · simp only [Option.some.injEq, Prod.mk.injEq] at hu
          obtain ⟨rfl, rfl⟩ := hu
          exact ⟨c, e, rb2, rfl, rfl, by rfl⟩
    · simp only [Option.some.injEq, Prod.mk.injEq] at hu
      obtain ⟨rfl, rfl⟩ := hu
      exact ⟨c, e, rb2, rfl, rfl, by rfl⟩

theorem split_errors_unit_result (fuel : Nat) (rb : Rescuebook) (b : Block)
    (pos ec r pos1 ec1 : Int) (rb1 : Rescuebook)
    (hu : split_errors_unit fuel rb b pos ec = some (r, rb1, pos1, ec1)) :
    ∃ c e rb2, copy_and_update fuel { rb with current_status := .splitting } b .bad_sector =
        some (r, c, e, rb2) ∧
      rb1 = { rb2 with errsize := if c > 0 then rb2.errsize - c else rb2.errsize } := by
  cases hcu : copy_and_update fuel { rb with current_status := .splitting } b .bad_sector with
  | none => simp only [split_errors_unit, hcu] at hu; cases hu
  | some x =>
    obtain ⟨r0, c, e, rb2⟩ := x
    simp only [split_errors_unit, hcu] at hu
    have fin : ∀ (p k : Int), some (r0, ({ rb2 with errsize := if c > 0 then rb2.errsize - c
          else rb2.errsize } : Rescuebook), p, k) = some (r, rb1, pos1, ec1) →
        ∃ c9 e9 rb9, some (r0, c, e, rb2) = some (r, c9, e9, rb9) ∧
          rb1 = { rb9 with errsize := if c9 > 0 then rb9.errsize - c9 else rb9.errsize } := by
      intro p k hx
      simp only [Option.some.injEq, Prod.mk.injEq] at hx
      obtain ⟨rfl, rfl, rfl, rfl⟩ := hx
      exact ⟨c, e, rb2, rfl, rfl⟩
    split at hu
    · exact fin _ _ hu
    · split at hu
      · split at hu
        · exact fin _ _ hu
        · split at hu
          · split at hu
            · exact fin _ _ hu
            · exact fin _ _ hu
          · exact fin _ _ hu
      · exact fin _ _ hu

theorem copy_errors_unit_result (fuel : Nat) (rb : Rescuebook) (b : Block) (r : Int)
    (rb1 : Rescuebook) (hu : copy_errors_unit fuel rb b = some (r, rb1)) :
    ∃ c e rb2, copy_and_update fuel { rb with current_status := .retrying } b .bad_sector =
        some (r, c, e, rb2) ∧
      rb1 = { rb2 with errsize := if c > 0 then rb2.errsize - c else rb2.errsize } := by
  cases hcu : copy_and_update fuel { rb with current_status := .retrying } b .bad_sector with
  | none => simp only [copy_errors_unit, hcu] at hu; cases hu
  | some x =>
    obtain ⟨r0, c, e, rb2⟩ := x
    simp only [copy_errors_unit, hcu, Option.some.injEq, Prod.mk.injEq] at hu
    obtain ⟨rfl, rfl⟩ := hu
    exact ⟨c, e, rb2, rfl, rfl⟩

theorem copy_and_update_retval (fuel : Nat) (rb : Rescuebook) (b : Block) (st : Status)
    (r c e : Int) (rb2 : Rescuebook)
    (h : copy_and_update fuel rb b st = some (r, c, e, rb2)) : r = 0 ∨ r = 1 := by
  obtain ⟨r9, rb9, hcb9, -, -, -, hres⟩ := copy_and_update_result _ _ _ _ _ _ _ _ h
  rcases hres with ⟨-, h1, -⟩ | ⟨-, h1, -⟩
  · exact h1
  · rcases (copy_block_result _ _ _ _ _ _ _ hcb9).2.2 with ⟨h2, -⟩ | ⟨h2, -⟩
    · left; rw [h1, h2]
    · right; rw [h1, h2]

theorem copy_non_tried_loop_inv (I : Rescuebook → Prop)
    (hu : ∀ fuel rb b pos skip r rb1 pos1 skip1, I rb →
      chunk_in rb.sblock_vector rb.domain .non_tried b → 0 < b.size →
      copy_non_tried_unit fuel rb b pos skip = some (r, rb1, pos1, skip1) →
      I rb1 ∧ (r = 0 ∨ r = 1))
    (hl : ∀ rb, I rb → I (update_logfile rb).2) :
    ∀ fuel rb pos skip r rb1, I rb → copy_non_tried_loop fuel rb pos skip = some (r, rb1) →
      I rb1 ∧ (r = 0 ∨ r = 1 ∨ r = -2) := by
  intro fuel
  induction fuel with
  | zero => intro rb pos skip r rb1 _ h; simp [copy_non_tried_loop] at h
  | succ n ih =>
    intro rb pos skip r rb1 hI h
    rw [copy_non_tried_loop] at h
    simp only [] at h
    by_cases hpos : pos ≥ 0
    · rw [if_pos hpos] at h
      generalize hB : find_chunk rb.sblock_vector rb.domain
        ⟨pos, if skip ≠ 0 then rb.hardbs else rb.softbs⟩ .non_tried = B at h
      by_cases hb : B.end_ < 0 ∨ B.size ≤ 0
      · rw [if_pos hb] at h
        cases h
        exact ⟨hI, Or.inl rfl⟩
      · rw [if_neg hb] at h
        have hsz : 0 < B.size := by omega
        have hch : chunk_in rb.sblock_vector rb.domain .non_tried B := by
          rw [← hB]; exact find_chunk_spec _ _ _ _ (by rw [hB]; exact hsz)
        cases hun : copy_non_tried_unit n rb B B.end_ (if pos ≠ B.pos then 0 else skip) with
        | none => rw [hun] at h; cases h
        | some x =>
          obtain ⟨r0, rb2, pos1, skip1⟩ := x
          rw [hun] at h
          simp only [] at h
          obtain ⟨hI2, hr0⟩ := hu _ _ _ _ _ _ _ _ _ hI hch hsz hun
          by_cases ht : r0 ≠ 0 ∨ too_many_errors rb2 = true
          · rw [if_pos ht] at h
            cases h
            exact ⟨hI2, by omega⟩
          · rw [if_neg ht] at h
            have hI3 := hl rb2 hI2
            generalize update_logfile rb2 = ul at h hI3
            obtain ⟨ok, rb3⟩ := ul
            cases ok
            · simp only [] at h
              cases h
              exact ⟨hI3, Or.inr (Or.inr rfl)⟩
            · simp only [] at h
              exact ih _ _ _ _ _ hI3 h
    · rw [if_neg hpos] at h
      cases h
      exact ⟨hI, Or.inl rfl⟩

theorem trim_errors_loop_inv (I : Rescuebook → Prop)
    (hu : ∀ fuel rb b r rb1, I rb →
      chunk_in rb.sblock_vector rb.domain .non_trimmed b → 0 < b.size →
      trim_errors_unit fuel rb b = some (r, rb1) → I rb1 ∧ (r = 0 ∨ r = 1))
    (hl : ∀ rb, I rb → I (update_logfile rb).2) :
    ∀ fuel rb pos r rb1, I rb → trim_errors_loop fuel rb pos = some (r, rb1) →
      I rb1 ∧ (r = 0 ∨ r = 1 ∨ r = -2) := by
  intro fuel
  induction fuel with
  | zero => intro rb pos r rb1 _ h; simp [trim_errors_loop] at h
  | succ n ih =>
    intro rb pos r rb1 hI h
    rw [trim_errors_loop] at h
    simp only [] at h
    by_cases hpos : pos ≥ 0
    · rw [if_pos hpos] at h
      generalize hB : rfind_chunk rb.sblock_vector rb.domain ⟨pos, rb.hardbs⟩ .non_trimmed = B at h
      by_cases hb : B.size ≤ 0
      · rw [if_pos hb] at h
        cases h
        exact ⟨hI, Or.inl rfl⟩
      · rw [if_neg hb] at h
        have hsz : 0 < B.size := by omega
        have hch : chunk_in rb.sblock_vector rb.domain .non_trimmed B := by
          rw [← hB]; exact rfind_chunk_spec _ _ _ _ (by rw [hB]; exact hsz)
        cases hun : trim_errors_unit n rb B with
        | none => rw [hun] at h; cases h
        | some x =>
          obtain ⟨r0, rb2⟩ := x
          rw [hun] at h
          simp only [] at h
          obtain ⟨hI2, hr0⟩ := hu _ _ _ _ _ hI hch hsz hun
          by_cases ht : r0 ≠ 0 ∨ too_many_errors rb2 = true
          · rw [if_pos ht] at h
            cases h
            exact ⟨hI2, by omega⟩
          · rw [if_neg ht] at h
            have hI3 := hl rb2 hI2
            generalize update_logfile rb2 = ul at h hI3
            obtain ⟨ok, rb3⟩ := ul
            cases ok
            · simp only [] at h
              cases h
              exact ⟨hI3, Or.inr (Or.inr rfl)⟩
            · simp only [] at h
              exact ih _ _ _ _ hI3 h
    · rw [if_neg hpos] at h
      cases h
      exact ⟨hI, Or.inl rfl⟩

theorem split_errors_sweep_inv (I : Rescuebook → Prop)
    (hu : ∀ fuel rb b pos ec r rb1 pos1 ec1, I rb →
      chunk_in rb.sblock_vector rb.domain .non_split b → 0 < b.size →
      split_errors_unit fuel rb b pos ec = some (r, rb1, pos1, ec1) → I rb1 ∧ (r = 0 ∨ r = 1))
    (hl : ∀ rb, I rb → I (update_logfile rb).2) :
    ∀ fuel rb pos ec bf res bf1 rb1, I rb →
      split_errors_sweep fuel rb pos ec bf = some (res, bf1, rb1) →
      I rb1 ∧ (res = none ∨ res = some 0 ∨ res = some 1 ∨ res = some (-2)) := by
  intro fuel
  induction fuel with
  | zero => intro rb pos ec bf res bf1 rb1 _ h; simp [split_errors_sweep] at h
  | succ n ih =>
    intro rb pos ec bf res bf1 rb1 hI h
    rw [split_errors_sweep] at h
    simp only [] at h
    by_cases hpos : pos ≥ 0
    · rw [if_pos hpos] at h
      generalize hB : find_chunk rb.sblock_vector rb.domain ⟨pos, rb.hardbs⟩ .non_split = B at h
      by_cases hb : B.size ≤ 0
      · rw [if_pos hb] at h
        cases h
        exact ⟨hI, Or.inl rfl⟩
      · rw [if_neg hb] at h
        have hsz : 0 < B.size := by omega
        have hch : chunk_in rb.sblock_vector rb.domain .non_split B := by
          rw [← hB]; exact find_chunk_spec _ _ _ _ (by rw [hB]; exact hsz)
        cases hun : split_errors_unit n rb B B.end_ ec with
        | none => rw [hun] at h; cases h
        | some x =>
          obtain ⟨r0, rb2, pos1, ec1⟩ := x
          rw [hun] at h
          simp only [] at h
          obtain ⟨hI2, hr0⟩ := hu _ _ _ _ _ _ _ _ _ hI hch hsz hun
          by_cases ht : r0 ≠ 0 ∨ too_many_errors rb2 = true
          · rw [if_pos ht] at h
            cases h
            refine ⟨hI2, ?_⟩
            rcases hr0 with rfl | rfl
            · exact Or.inr (Or.inl rfl)
            · exact Or.inr (Or.inr (Or.inl rfl))
          · rw [if_neg ht] at h
            have hI3 := hl rb2 hI2
            generalize update_logfile rb2 = ul at h hI3
            obtain ⟨ok, rb3⟩ := ul
            cases ok
            · simp only [] at h
              cases h
              exact ⟨hI3, Or.inr (Or.inr (Or.inr rfl))⟩
            · simp only [] at h
              exact ih _ _ _ _ _ _ _ hI3 h
    · rw [if_neg hpos] at h
      cases h
      exact ⟨hI, Or.inl rfl⟩

theorem split_errors_outer_inv (I : Rescuebook → Prop)
    (hu : ∀ fuel rb b pos ec r rb1 pos1 ec1, I rb →
      chunk_in rb.sblock_vector rb.domain .non_split b → 0 < b.size →
      split_errors_unit fuel rb b pos ec = some (r, rb1, pos1, ec1) → I rb1 ∧ (r = 0 ∨ r = 1))
    (hl : ∀ rb, I rb → I (update_logfile rb).2) :
    ∀ fuel rb resume r rb1, I rb → split_errors_outer fuel rb resume = some (r, rb1) →
      I rb1 ∧ (r = 0 ∨ r = 1 ∨ r = -2) := by
  intro fuel
  induction fuel with
  | zero => intro rb resume r rb1 _ h; simp [split_errors_outer] at h
  | succ n ih =>
    intro rb resume r rb1 hI h
    rw [split_errors_outer] at h
    cases hsw : split_errors_sweep n rb (if resume = true then rb.current_pos else 0) 0 false with
    | none => rw [hsw] at h; cases h
    | some x =>
      obtain ⟨res, bf, rb2⟩ := x
      rw [hsw] at h
      obtain ⟨hI2, hres⟩ := split_errors_sweep_inv I hu hl _ _ _ _ _ _ _ _ hI hsw
      cases res with
      | some k =>
        simp only [] at h
        cases h
        refine ⟨hI2, ?_⟩
        rcases hres with h0 | h0 | h0 | h0
        · cases h0
        · cases h0; exact Or.inl rfl
        · cases h0; exact Or.inr (Or.inl rfl)
        · cases h0; exact Or.inr (Or.inr rfl)
      | none =>
        simp only [] at h
        by_cases hbf : bf = false
        · rw [if_pos hbf] at h
          cases h
          exact ⟨hI2, Or.inl rfl⟩
        · rw [if_neg hbf] at h
          exact ih _ _ _ _ hI2 h

theorem copy_errors_sweep_inv (I : Rescuebook → Prop)
    (hu : ∀ fuel rb b r rb1, I rb →
      chunk_in rb.sblock_vector rb.domain .bad_sector b → 0 < b.size →
      copy_errors_unit fuel rb b = some (r, rb1) → I rb1 ∧ (r = 0 ∨ r = 1))
    (hl : ∀ rb, I rb → I (update_logfile rb).2) :
    ∀ fuel rb pos bf res bf1 rb1, I rb →
      copy_errors_sweep fuel rb pos bf = some (res, bf1, rb1) →
      I rb1 ∧ (res = none ∨ res = some 0 ∨ res = some 1 ∨ res = some (-2)) := by
  intro fuel
  induction fuel with
  | zero => intro rb pos bf res bf1 rb1 _ h; simp [copy_errors_sweep] at h
  | succ n ih =>
    intro rb pos bf res bf1 rb1 hI h
    rw [copy_errors_sweep] at h
    simp only [] at h
    by_cases hpos : pos ≥ 0
    · rw [if_pos hpos] at h
      generalize hB : find_chunk rb.sblock_vector rb.domain ⟨pos, rb.hardbs⟩ .bad_sector = B at h
      by_cases hb : B.size ≤ 0
      · rw [if_pos hb] at h
        cases h
        exact ⟨hI, Or.inl rfl⟩
      · rw [if_neg hb] at h
        have hsz : 0 < B.size := by omega
        have hch : chunk_in rb.sblock_vector rb.domain .bad_sector B := by
          rw [← hB]; exact find_chunk_spec _ _ _ _ (by rw [hB]; exact hsz)
        cases hun : copy_errors_unit n rb B with
        | none => rw [hun] at h; cases h
        | some x =>
          obtain ⟨r0, rb2⟩ := x
          rw [hun] at h
          simp only [] at h
          obtain ⟨hI2, hr0⟩ := hu _ _ _ _ _ hI hch hsz hun
          by_cases ht : r0 ≠ 0 ∨ too_many_errors rb2 = true
          · rw [if_pos ht] at h
            cases h
            refine ⟨hI2, ?_⟩
            rcases hr0 with rfl | rfl
            · exact Or.inr (Or.inl rfl)
            · exact Or.inr (Or.inr (Or.inl rfl))
          · rw [if_neg ht] at h
            have hI3 := hl rb2 hI2
            generalize update_logfile rb2 = ul at h hI3
            obtain ⟨ok, rb3⟩ := ul
            cases ok
            · simp only [] at h
              cases h
              exact ⟨hI3, Or.inr (Or.inr (Or.inr rfl))⟩
            · simp only [] at h
              exact ih _ _ _ _ _ _ hI3 h
    · rw [if_neg hpos] at h
      cases h
      exact ⟨hI, Or.inl rfl⟩

theorem copy_errors_retries_inv (I : Rescuebook → Prop)
    (hu : ∀ fuel rb b r rb1, I rb →
      chunk_in rb.sblock_vector rb.domain .bad_sector b → 0 < b.size →
      copy_errors_unit fuel rb b = some (r, rb1) → I rb1 ∧ (r = 0 ∨ r = 1))
    (hl : ∀ rb, I rb → I (update_logfile rb).2) :
    ∀ fuel rb retry resume r rb1, I rb →
      copy_errors_retries fuel rb retry resume = some (r, rb1) →
      I rb1 ∧ (r = 0 ∨ r = 1 ∨ r = -2) := by
  intro fuel
  induction fuel with
  | zero => intro rb retry resume r rb1 _ h; simp [copy_errors_retries] at h
  | succ n ih =>
    intro rb retry resume r rb1 hI h
    rw [copy_errors_retries] at h
    by_cases hr : rb.max_retries_ < 0 ∨ retry ≤ rb.max_retries_
    · rw [if_pos hr] at h
      cases hsw : copy_errors_sweep n rb (if resume = true then rb.current_pos else 0) false with
      | none => rw [hsw] at h; cases h
      | some x =>
        obtain ⟨res, bf, rb2⟩ := x
        rw [hsw] at h
        obtain ⟨hI2, hres⟩ := copy_errors_sweep_inv I hu hl _ _ _ _ _ _ _ hI hsw
        cases res with
        | some k =>
          simp only [] at h
          cases h
          refine ⟨hI2, ?_⟩
          rcases hres with h0 | h0 | h0 | h0
          · cases h0
          · cases h0; exact Or.inl rfl
          · cases h0; exact Or.inr (Or.inl rfl)
          · cases h0; exact Or.inr (Or.inr rfl)
        | none =>
          simp only [] at h
          by_cases hbf : bf = false
          · rw [if_pos hbf] at h
            cases h
            exact ⟨hI2, Or.inl rfl⟩
          · rw [if_neg hbf] at h
            exact ih _ _ _ _ _ hI2 h
    · rw [if_neg hr] at h
      cases h
      exact ⟨hI, Or.inl rfl⟩

theorem copy_non_tried_loop_step (n : Nat) (rb : Rescuebook) (pos skip r : Int)
    (rb1 : Rescuebook) (B : Block)
    (hB : find_chunk rb.sblock_vector rb.domain
      ⟨pos, if skip ≠ 0 then rb.hardbs else rb.softbs⟩ .non_tried = B)
    (hpos : pos ≥ 0) (hb : ¬ (B.end_ < 0 ∨ B.size ≤ 0))
    (h : copy_non_tried_loop (n + 1) rb pos skip = some (r, rb1)) :
    ∃ r0 rbu pos1 skip1,
      copy_non_tried_unit n rb B B.end_ (if pos ≠ B.pos then 0 else skip) =
        some (r0, rbu, pos1, skip1) ∧
      (((r0 ≠ 0 ∨ too_many_errors rbu = true) ∧ r = r0 ∧ rb1 = rbu) ∨
       (¬ (r0 ≠ 0 ∨ too_many_errors rbu = true) ∧ (update_logfile rbu).1 = false ∧ r = -2 ∧
          rb1 = (update_logfile rbu).2) ∨
       (¬ (r0 ≠ 0 ∨ too_many_errors rbu = true) ∧ (update_logfile rbu).1 = true ∧
          copy_non_tried_loop n (update_logfile rbu).2 pos1 skip1 = some (r, rb1))) := by
  rw [copy_non_tried_loop] at h
  simp only [] at h
  rw [if_pos hpos, hB, if_neg hb] at h
  cases hun : copy_non_tried_unit n rb B B.end_ (if pos ≠ B.pos then 0 else skip) with
  | none => rw [hun] at h; cases h
  | some x =>
    obtain ⟨r0, rb2, pos1, skip1⟩ := x
    rw [hun] at h
    simp only [] at h
    refine ⟨r0, rb2, pos1, skip1, rfl, ?_⟩
    by_cases ht : r0 ≠ 0 ∨ too_many_errors rb2 = true
    · rw [if_pos ht] at h
      cases h
      exact Or.inl ⟨ht, rfl, rfl⟩
    · rw [if_neg ht] at h
      generalize update_logfile rb2 = ul at h ⊢
      obtain ⟨ok, rb3⟩ := ul
      cases ok
      · simp only [] at h
        cases h
        exact Or.inr (Or.inl ⟨ht, rfl, rfl, rfl⟩)
      · simp only [] at h
        exact Or.inr (Or.inr ⟨ht, rfl, h⟩)

theorem trim_errors_loop_step (n : Nat) (rb : Rescuebook) (pos r : Int)
    (rb1 : Rescuebook) (B : Block)
    (hB : rfind_chunk rb.sblock_vector rb.domain ⟨pos, rb.hardbs⟩ .non_trimmed = B)
    (hpos : pos ≥ 0) (hb : ¬ B.size ≤ 0)
    (h : trim_errors_loop (n + 1) rb pos = some (r, rb1)) :
    ∃ r0 rbu,
      trim_errors_unit n rb B = some (r0, rbu) ∧
      (((r0 ≠ 0 ∨ too_many_errors rbu = true) ∧ r = r0 ∧ rb1 = rbu) ∨
       (¬ (r0 ≠ 0 ∨ too_many_errors rbu = true) ∧ (update_logfile rbu).1 = false ∧ r = -2 ∧
          rb1 = (update_logfile rbu).2) ∨
       (¬ (r0 ≠ 0 ∨ too_many_errors rbu = true) ∧ (update_logfile rbu).1 = true ∧
          trim_errors_loop n (update_logfile rbu).2 (B.pos - rb.hardbs) = some (r, rb1))) := by
  rw [trim_errors_loop] at h
  simp only [] at h
  rw [if_pos hpos, hB, if_neg hb] at h
  cases hun : trim_errors_unit n rb B with
  | none => rw [hun] at h; cases h
  | some x =>
    obtain ⟨r0, rb2⟩ := x
    rw [hun] at h
    simp only [] at h
    refine ⟨r0, rb2, rfl, ?_⟩
    by_cases ht : r0 ≠ 0 ∨ too_many_errors rb2 = true
    · rw [if_pos ht] at h
      cases h
      exact Or.inl ⟨ht, rfl, rfl⟩
    · rw [if_neg ht] at h
      generalize update_logfile rb2 = ul at h ⊢
      obtain ⟨ok, rb3⟩ := ul
      cases ok
      · simp only [] at h
        cases h
        exact Or.inr (Or.inl ⟨ht, rfl, rfl, rfl⟩)
      · simp only [] at h
        exact Or.inr (Or.inr ⟨ht, rfl, h⟩)

theorem split_errors_sweep_step (n : Nat) (rb : Rescuebook) (pos ec : Int) (bf : Bool)
    (res : Option Int) (bf1 : Bool) (rb1 : Rescuebook) (B : Block)
    (hB : find_chunk rb.sblock_vector rb.domain ⟨pos, rb.hardbs⟩ .non_split = B)
    (hpos : pos ≥ 0) (hb : ¬ B.size ≤ 0)
    (h : split_errors_sweep (n + 1) rb pos ec bf = some (res, bf1, rb1)) :
    ∃ r0 rbu pos1 ec1,
      split_errors_unit n rb B B.end_ ec = some (r0, rbu, pos1, ec1) ∧
      (((r0 ≠ 0 ∨ too_many_errors rbu = true) ∧ res = some r0 ∧ bf1 = true ∧ rb1 = rbu) ∨
       (¬ (r0 ≠ 0 ∨ too_many_errors rbu = true) ∧ (update_logfile rbu).1 = false ∧
          res = some (-2) ∧ bf1 = true ∧ rb1 = (update_logfile rbu).2) ∨
       (¬ (r0 ≠ 0 ∨ too_many_errors rbu = true) ∧ (update_logfile rbu).1 = true ∧
          split_errors_sweep n (update_logfile rbu).2 pos1 ec1 true = some (res, bf1, rb1))) := by
  rw [split_errors_sweep] at h
  simp only [] at h
  rw [if_pos hpos, hB, if_neg hb] at h
  cases hun : split_errors_unit n rb B B.end_ ec with
  | none => rw [hun] at h; cases h
  | some x =>
    obtain ⟨r0, rb2, pos1, ec1⟩ := x
    rw [hun] at h
    simp only [] at h
    refine ⟨r0, rb2, pos1, ec1, rfl, ?_⟩
    by_cases ht : r0 ≠ 0 ∨ too_many_errors rb2 = true
    · rw [if_pos ht] at h
      cases h
      exact Or.inl ⟨ht, rfl, rfl, rfl⟩
    · rw [if_neg ht] at h
      generalize update_logfile rb2 = ul at h ⊢
      obtain ⟨ok, rb3⟩ := ul
      cases ok
      · simp only [] at h
        cases h
        exact Or.inr (Or.inl ⟨ht, rfl, rfl, rfl, rfl⟩)
      · simp only [] at h
        exact Or.inr (Or.inr ⟨ht, rfl, h⟩)

theorem copy_errors_sweep_step (n : Nat) (rb : Rescuebook) (pos : Int) (bf : Bool)
    (res : Option Int) (bf1 : Bool) (rb1 : Rescuebook) (B : Block)
    (hB : find_chunk rb.sblock_vector rb.domain ⟨pos, rb.hardbs⟩ .bad_sector = B)
    (hpos : pos ≥ 0) (hb : ¬ B.size ≤ 0)
    (h : copy_errors_sweep (n + 1) rb pos bf = some (res, bf1, rb1)) :
    ∃ r0 rbu,
      copy_errors_unit n rb B = some (r0, rbu) ∧
      (((r0 ≠ 0 ∨ too_many_errors rbu = true) ∧ res = some r0 ∧ bf1 = true ∧ rb1 = rbu) ∨
       (¬ (r0 ≠ 0 ∨ too_many_errors rbu = true) ∧ (update_logfile rbu).1 = false ∧
          res = some (-2) ∧ bf1 = true ∧ rb1 = (update_logfile rbu).2) ∨
       (¬ (r0 ≠ 0 ∨ too_many_errors rbu = true) ∧ (update_logfile rbu).1 = true ∧
          copy_errors_sweep n (update_logfile rbu).2 B.end_ true = some (res, bf1, rb1))) := by
  rw [copy_errors_sweep] at h
  simp only [] at h
  rw [if_pos hpos, hB, if_neg hb] at h
  cases hun : copy_errors_unit n rb B with
  | none => rw [hun] at h; cases h
  | some x =>
    obtain ⟨r0, rb2⟩ := x
    rw [hun] at h
    simp only [] at h
    refine ⟨r0, rb2, rfl, ?_⟩
    by_cases ht : r0 ≠ 0 ∨ too_many_errors rb2 = true
    · rw [if_pos ht] at h
      cases h
      exact Or.inl ⟨ht, rfl, rfl, rfl⟩
    · rw [if_neg ht] at h
      generalize update_logfile rb2 = ul at h ⊢
      obtain ⟨ok, rb3⟩ := ul
      cases ok
      · simp only [] at h
        cases h
        exact Or.inr (Or.inl ⟨ht, rfl, rfl, rfl, rfl⟩)
      · simp only [] at h
        exact Or.inr (Or.inr ⟨ht, rfl, h⟩)

theorem split_errors_sweep_none (n : Nat) (rb : Rescuebook) (pos ec : Int) (bf : Bool)
    (h : ¬ (pos ≥ 0 ∧
      0 < (find_chunk rb.sblock_vector rb.domain ⟨pos, rb.hardbs⟩ .non_split).size)) :
    split_errors_sweep (n + 1) rb pos ec bf = some (none, bf, rb) := by
  rw [split_errors_sweep]
  simp only []
  by_cases hpos : pos ≥ 0
  · rw [if_pos hpos, if_pos (by have := fun h2 => h ⟨hpos, h2⟩; omega)]
  · rw [if_neg hpos]

theorem copy_errors_sweep_none (n : Nat) (rb : Rescuebook) (pos : Int) (bf : Bool)
    (h : ¬ (pos ≥ 0 ∧
      0 < (find_chunk rb.sblock_vector rb.domain ⟨pos, rb.hardbs⟩ .bad_sector).size)) :
    copy_errors_sweep (n + 1) rb pos bf = some (none, bf, rb) := by
  rw [copy_errors_sweep]
  simp only []
  by_cases hpos : pos ≥ 0
  · rw [if_pos hpos, if_pos (by have := fun h2 => h ⟨hpos, h2⟩; omega)]
  · rw [if_neg hpos]

theorem first_call_none (t0 t1 : List Event)
    (h : copy_block_calls t1 = copy_block_calls t0) : first_call t0 t1 = none := by
  unfold first_call
  rw [h]
  simp

theorem first_call_some (t0 t1 : List Event) (l : List Block) (b : Block)
    (h : copy_block_calls t1 = l ++ b :: copy_block_calls t0) : first_call t0 t1 = some b := by
  unfold first_call
  rw [h, List.reverse_append, List.reverse_cons, List.append_assoc,
    List.getElem?_append_right (by rw [List.length_reverse])]
  simp

theorem calls_note_pass (w : World) (p : LStatus) :
    copy_block_calls (w.note (.pass p)).trace = copy_block_calls w.trace := rfl

theorem calls_copy_non_tried_unit (fuel : Nat) (rb : Rescuebook) (b : Block)
    (pos skip r pos1 skip1 : Int) (rb1 : Rescuebook)
    (hu : copy_non_tried_unit fuel rb b pos skip = some (r, rb1, pos1, skip1)) :
    copy_block_calls rb1.world.trace = b :: copy_block_calls rb.world.trace := by
  obtain ⟨c, e, rb2, hcu, hw, -⟩ := copy_non_tried_unit_result _ _ _ _ _ _ _ _ _ hu
  rw [hw]
  have h1 := calls_copy_and_update _ _ _ _ _ _ _ _ hcu
  exact h1

theorem calls_trim_errors_unit (fuel : Nat) (rb : Rescuebook) (b : Block) (r : Int)
    (rb1 : Rescuebook) (hu : trim_errors_unit fuel rb b = some (r, rb1)) :
    copy_block_calls rb1.world.trace = b :: copy_block_calls rb.world.trace := by
  obtain ⟨c, e, rb2, hcu, hw, -⟩ := trim_errors_unit_result _ _ _ _ _ hu
  rw [hw]
  have h1 := calls_copy_and_update _ _ _ _ _ _ _ _ hcu
  exact h1

theorem calls_split_errors_unit (fuel : Nat) (rb : Rescuebook) (b : Block)
    (pos ec r pos1 ec1 : Int) (rb1 : Rescuebook)
    (hu : split_errors_unit fuel rb b pos ec = some (r, rb1, pos1, ec1)) :
    copy_block_calls rb1.world.trace = b :: copy_block_calls rb.world.trace := by
  obtain ⟨c, e, rb2, hcu, hw⟩ := split_errors_unit_result _ _ _ _ _ _ _ _ _ hu
  rw [hw]
  have h1 := calls_copy_and_update _ _ _ _ _ _ _ _ hcu
  exact h1

theorem calls_copy_errors_unit (fuel : Nat) (rb : Rescuebook) (b : Block) (r : Int)
    (rb1 : Rescuebook) (hu : copy_errors_unit fuel rb b = some (r, rb1)) :
    copy_block_calls rb1.world.trace = b :: copy_block_calls rb.world.trace := by
  obtain ⟨c, e, rb2, hcu, hw⟩ := copy_errors_unit_result _ _ _ _ _ hu
  rw [hw]
  have h1 := calls_copy_and_update _ _ _ _ _ _ _ _ hcu
  exact h1

theorem calls_prefix_unit {x y : List Block} (b : Block) (t : List Block)
    (h1 : ∃ l, x = l ++ t) (h2 : y = b :: x) : ∃ l, y = l ++ t := by
  obtain ⟨l, rfl⟩ := h1
  exact ⟨b :: l, by rw [h2]; rfl⟩

theorem calls_copy_non_tried_loop (t : List Block) (fuel : Nat) (rb : Rescuebook)
    (pos skip r : Int) (rb1 : Rescuebook)
    (h0 : ∃ l, copy_block_calls rb.world.trace = l ++ t)
    (h : copy_non_tried_loop fuel rb pos skip = some (r, rb1)) :
    ∃ l, copy_block_calls rb1.world.trace = l ++ t :=
  (copy_non_tried_loop_inv (fun x => ∃ l, copy_block_calls x.world.trace = l ++ t)
    (fun _ _ b _ _ _ _ _ _ hI _ _ hu =>
      ⟨calls_prefix_unit b t hI (calls_copy_non_tried_unit _ _ _ _ _ _ _ _ _ hu),
       copy_and_update_retval _ _ _ _ _ _ _ _
        (copy_non_tried_unit_result _ _ _ _ _ _ _ _ _ hu).choose_spec.choose_spec.choose_spec.1⟩)
    (fun x hI => by show ∃ l, _ = l ++ t; rw [calls_update_logfile]; exact hI) fuel rb pos skip r rb1 h0 h).1

theorem calls_trim_errors_loop (t : List Block) (fuel : Nat) (rb : Rescuebook)
    (pos r : Int) (rb1 : Rescuebook)
    (h0 : ∃ l, copy_block_calls rb.world.trace = l ++ t)
    (h : trim_errors_loop fuel rb pos = some (r, rb1)) :
    ∃ l, copy_block_calls rb1.world.trace = l ++ t :=
  (trim_errors_loop_inv (fun x => ∃ l, copy_block_calls x.world.trace = l ++ t)
    (fun _ _ b _ _ hI _ _ hu =>
      ⟨calls_prefix_unit b t hI (calls_trim_errors_unit _ _ _ _ _ hu),
       copy_and_update_retval _ _ _ _ _ _ _ _
        (trim_errors_unit_result _ _ _ _ _ hu).choose_spec.choose_spec.choose_spec.1⟩)
    (fun x hI => by show ∃ l, _ = l ++ t; rw [calls_update_logfile]; exact hI) fuel rb pos r rb1 h0 h).1

theorem calls_split_errors_sweep (t : List Block) (fuel : Nat) (rb : Rescuebook)
    (pos ec : Int) (bf : Bool) (res : Option Int) (bf1 : Bool) (rb1 : Rescuebook)
    (h0 : ∃ l, copy_block_calls rb.world.trace = l ++ t)
    (h : split_errors_sweep fuel rb pos ec bf = some (res, bf1, rb1)) :
    ∃ l, copy_block_calls rb1.world.trace = l ++ t :=
  (split_errors_sweep_inv (fun x => ∃ l, copy_block_calls x.world.trace = l ++ t)
    (fun _ _ b _ _ _ _ _ _ hI _ _ hu =>
      ⟨calls_prefix_unit b t hI (calls_split_errors_unit _ _ _ _ _ _ _ _ _ hu),
       copy_and_update_retval _ _ _ _ _ _ _ _
        (split_errors_unit_result _ _ _ _ _ _ _ _ _ hu).choose_spec.choose_spec.choose_spec.1⟩)
    (fun x hI => by show ∃ l, _ = l ++ t; rw [calls_update_logfile]; exact hI) fuel rb pos ec bf res bf1 rb1 h0 h).1

theorem calls_split_errors_outer (t : List Block) (fuel : Nat) (rb : Rescuebook)
    (resume : Bool) (r : Int) (rb1 : Rescuebook)
    (h0 : ∃ l, copy_block_calls rb.world.trace = l ++ t)
    (h : split_errors_outer fuel rb resume = some (r, rb1)) :
    ∃ l, copy_block_calls rb1.world.trace = l ++ t :=
  (split_errors_outer_inv (fun x => ∃ l, copy_block_calls x.world.trace = l ++ t)
    (fun _ _ b _ _ _ _ _ _ hI _ _ hu =>
      ⟨calls_prefix_unit b t hI (calls_split_errors_unit _ _ _ _ _ _ _ _ _ hu),
       copy_and_update_retval _ _ _ _ _ _ _ _
        (split_errors_unit_result _ _ _ _ _ _ _ _ _ hu).choose_spec.choose_spec.choose_spec.1⟩)
    (fun x hI => by show ∃ l, _ = l ++ t; rw [calls_update_logfile]; exact hI) fuel rb resume r rb1 h0 h).1

theorem calls_copy_errors_sweep (t : List Block) (fuel : Nat) (rb : Rescuebook)
    (pos : Int) (bf : Bool) (res : Option Int) (bf1 : Bool) (rb1 : Rescuebook)
    (h0 : ∃ l, copy_block_calls rb.world.trace = l ++ t)
    (h : copy_errors_sweep fuel rb pos bf = some (res, bf1, rb1)) :
    ∃ l, copy_block_calls rb1.world.trace = l ++ t :=
  (copy_errors_sweep_inv (fun x => ∃ l, copy_block_calls x.world.trace = l ++ t)
    (fun _ _ b _ _ hI _ _ hu =>
      ⟨calls_prefix_unit b t hI (calls_copy_errors_unit _ _ _ _ _ hu),
       copy_and_update_retval _ _ _ _ _ _ _ _
        (copy_errors_unit_result _ _ _ _ _ hu).choose_spec.choose_spec.choose_spec.1⟩)
    (fun x hI => by show ∃ l, _ = l ++ t; rw [calls_update_logfile]; exact hI) fuel rb pos bf res bf1 rb1 h0 h).1

theorem calls_copy_errors_retries (t : List Block) (fuel : Nat) (rb : Rescuebook)
    (retry : Int) (resume : Bool) (r : Int) (rb1 : Rescuebook)
    (h0 : ∃ l, copy_block_calls rb.world.trace = l ++ t)
    (h : copy_errors_retries fuel rb retry resume = some (r, rb1)) :
    ∃ l, copy_block_calls rb1.world.trace = l ++ t :=
  (copy_errors_retries_inv (fun x => ∃ l, copy_block_calls x.world.trace = l ++ t)
    (fun _ _ b _ _ hI _ _ hu =>
      ⟨calls_prefix_unit b t hI (calls_copy_errors_unit _ _ _ _ _ hu),
       copy_and_update_retval _ _ _ _ _ _ _ _
        (copy_errors_unit_result _ _ _ _ _ hu).choose_spec.choose_spec.choose_spec.1⟩)
    (fun x hI => by show ∃ l, _ = l ++ t; rw [calls_update_logfile]; exact hI) fuel rb retry resume r rb1 h0 h).1

theorem first_call_copy_non_tried_loop (n : Nat) (rb : Rescuebook) (pos skip r : Int)
    (rb1 : Rescuebook) (hpos : pos ≥ 0)
    (h : copy_non_tried_loop n rb pos skip = some (r, rb1)) :
    first_call rb.world.trace rb1.world.trace =
      (if (find_chunk rb.sblock_vector rb.domain
            ⟨pos, if skip ≠ 0 then rb.hardbs else rb.softbs⟩ .non_tried).end_ < 0 ∨
          (find_chunk rb.sblock_vector rb.domain
            ⟨pos, if skip ≠ 0 then rb.hardbs else rb.softbs⟩ .non_tried).size ≤ 0 then none
       else some (find_chunk rb.sblock_vector rb.domain
            ⟨pos, if skip ≠ 0 then rb.hardbs else rb.softbs⟩ .non_tried)) := by
  cases n with
  | zero => simp [copy_non_tried_loop] at h
  | succ n =>
    generalize hB : find_chunk rb.sblock_vector rb.domain
      ⟨pos, if skip ≠ 0 then rb.hardbs else rb.softbs⟩ .non_tried = B
    by_cases hb : B.end_ < 0 ∨ B.size ≤ 0
    · rw [if_pos hb]
      rw [copy_non_tried_loop] at h
      simp only [] at h
      rw [if_pos hpos, hB, if_pos hb] at h
      cases h
      exact first_call_none _ _ rfl
    · rw [if_neg hb]
      obtain ⟨r0, rbu, pos1, skip1, hun, hcase⟩ :=
        copy_non_tried_loop_step n rb pos skip r rb1 B hB hpos hb h
      have hc := calls_copy_non_tried_unit _ _ _ _ _ _ _ _ _ hun
      rcases hcase with ⟨-, -, rfl⟩ | ⟨-, -, -, rfl⟩ | ⟨-, -, hl⟩
      · exact first_call_some _ _ [] B hc
      · exact first_call_some _ _ [] B (by rw [calls_update_logfile]; exact hc)
      · obtain ⟨l, hl2⟩ := calls_copy_non_tried_loop (B :: copy_block_calls rb.world.trace)
          _ _ _ _ _ _ ⟨[], by rw [calls_update_logfile]; exact hc⟩ hl
        exact first_call_some _ _ l B hl2

theorem first_call_trim_errors_loop (n : Nat) (rb : Rescuebook) (pos r : Int)
    (rb1 : Rescuebook) (h : trim_errors_loop n rb pos = some (r, rb1)) :
    first_call rb.world.trace rb1.world.trace =
      (if pos ≥ 0 ∧
          0 < (rfind_chunk rb.sblock_vector rb.domain ⟨pos, rb.hardbs⟩ .non_trimmed).size then
        some (rfind_chunk rb.sblock_vector rb.domain ⟨pos, rb.hardbs⟩ .non_trimmed)
       else none) := by
  cases n with
  | zero => simp [trim_errors_loop] at h
  | succ n =>
    generalize hB : rfind_chunk rb.sblock_vector rb.domain ⟨pos, rb.hardbs⟩ .non_trimmed = B
    by_cases hb : pos ≥ 0 ∧ 0 < B.size
    · rw [if_pos hb]
      obtain ⟨r0, rbu, hun, hcase⟩ :=
        trim_errors_loop_step n rb pos r rb1 B hB hb.1 (by omega) h
      have hc := calls_trim_errors_unit _ _ _ _ _ hun
      rcases hcase with ⟨-, -, rfl⟩ | ⟨-, -, -, rfl⟩ | ⟨-, -, hl⟩
      · exact first_call_some _ _ [] B hc
      · exact first_call_some _ _ [] B (by rw [calls_update_logfile]; exact hc)
      · obtain ⟨l, hl2⟩ := calls_trim_errors_loop (B :: copy_block_calls rb.world.trace)
          _ _ _ _ _ ⟨[], by rw [calls_update_logfile]; exact hc⟩ hl
        exact first_call_some _ _ l B hl2
    · rw [if_neg hb]
      rw [trim_errors_loop] at h
      simp only [] at h
      by_cases hpos : pos ≥ 0
      · rw [if_pos hpos, hB, if_pos (by have := fun h2 => hb ⟨hpos, h2⟩; omega)] at h
        cases h
        exact first_call_none _ _ rfl
      · rw [if_neg hpos] at h
        cases h
        exact first_call_none _ _ rfl

theorem split_errors_sweep_found (n : Nat) :
    ∀ (rb : Rescuebook) (pos ec : Int) (res : Option Int) (bf1 : Bool) (rb1 : Rescuebook),
      split_errors_sweep n rb pos ec true = some (res, bf1, rb1) → bf1 = true := by
  induction n with
  | zero => intro rb pos ec res bf1 rb1 h; simp [split_errors_sweep] at h
  | succ n ih =>
    intro rb pos ec res bf1 rb1 h
    by_cases hb : pos ≥ 0 ∧
        0 < (find_chunk rb.sblock_vector rb.domain ⟨pos, rb.hardbs⟩ .non_split).size
    · obtain ⟨r0, rbu, pos1, ec1, -, hcase⟩ :=
        split_errors_sweep_step n rb pos ec true res bf1 rb1 _ rfl hb.1 (by omega) h
      rcases hcase with ⟨-, -, h1, -⟩ | ⟨-, -, -, h1, -⟩ | ⟨-, -, hl⟩
      · exact h1
      · exact h1
      · exact ih _ _ _ _ _ _ hl
    · rw [split_errors_sweep_none n rb pos ec true hb] at h
      cases h
      rfl

theorem copy_errors_sweep_found (n : Nat) :
    ∀ (rb : Rescuebook) (pos : Int) (res : Option Int) (bf1 : Bool) (rb1 : Rescuebook),
      copy_errors_sweep n rb pos true = some (res, bf1, rb1) → bf1 = true := by
  induction n with
  | zero => intro rb pos res bf1 rb1 h; simp [copy_errors_sweep] at h
  | succ n ih =>
    intro rb pos res bf1 rb1 h
    by_cases hb : pos ≥ 0 ∧
        0 < (find_chunk rb.sblock_vector rb.domain ⟨pos, rb.hardbs⟩ .bad_sector).size
    · obtain ⟨r0, rbu, -, hcase⟩ :=
        copy_errors_sweep_step n rb pos true res bf1 rb1 _ rfl hb.1 (by omega) h
      rcases hcase with ⟨-, -, h1, -⟩ | ⟨-, -, -, h1, -⟩ | ⟨-, -, hl⟩
      · exact h1
      · exact h1
      · exact ih _ _ _ _ _ hl
    · rw [copy_errors_sweep_none n rb pos true hb] at h
      cases h
      rfl

theorem first_call_copy_errors_sweep (n : Nat) (rb : Rescuebook) (pos : Int) (bf : Bool)
    (res : Option Int) (bf1 : Bool) (rb1 : Rescuebook)
    (h : copy_errors_sweep n rb pos bf = some (res, bf1, rb1)) :
    (pos ≥ 0 ∧ 0 < (find_chunk rb.sblock_vector rb.domain ⟨pos, rb.hardbs⟩ .bad_sector).size ∧
      (∃ l, copy_block_calls rb1.world.trace =
        l ++ (find_chunk rb.sblock_vector rb.domain ⟨pos, rb.hardbs⟩ .bad_sector) ::
          copy_block_calls rb.world.trace) ∧ (res = none → bf1 = true)) ∨
    (¬ (pos ≥ 0 ∧
        0 < (find_chunk rb.sblock_vector rb.domain ⟨pos, rb.hardbs⟩ .bad_sector).size) ∧
      res = none ∧ bf1 = bf ∧ rb1 = rb) := by
  cases n with
  | zero => simp [copy_errors_sweep] at h
  | succ n =>
    generalize hB : find_chunk rb.sblock_vector rb.domain ⟨pos, rb.hardbs⟩ .bad_sector = B
    by_cases hb : pos ≥ 0 ∧ 0 < B.size
    · left
      refine ⟨hb.1, hb.2, ?_⟩
      obtain ⟨r0, rbu, hun, hcase⟩ :=
        copy_errors_sweep_step n rb pos bf res bf1 rb1 B hB hb.1 (by omega) h
      have hc := calls_copy_errors_unit _ _ _ _ _ hun
      rcases hcase with ⟨-, rfl, -, rfl⟩ | ⟨-, -, rfl, -, rfl⟩ | ⟨-, -, hl⟩
      · exact ⟨⟨[], hc⟩, fun h0 => by cases h0⟩
      · exact ⟨⟨[], by rw [calls_update_logfile]; exact hc⟩, fun h0 => by cases h0⟩
      · refine ⟨calls_copy_errors_sweep (B :: copy_block_calls rb.world.trace)
          _ _ _ _ _ _ _ ⟨[], by rw [calls_update_logfile]; exact hc⟩ hl, ?_⟩
        exact fun _ => copy_errors_sweep_found _ _ _ _ _ _ hl
    · right
      subst hB
      rw [copy_errors_sweep_none n rb pos bf hb] at h
      cases h
      exact ⟨hb, rfl, rfl, rfl⟩

theorem first_call_split_errors_sweep (n : Nat) (rb : Rescuebook) (pos ec : Int) (bf : Bool)
    (res : Option Int) (bf1 : Bool) (rb1 : Rescuebook)
    (h : split_errors_sweep n rb pos ec bf = some (res, bf1, rb1)) :
    (pos ≥ 0 ∧ 0 < (find_chunk rb.sblock_vector rb.domain ⟨pos, rb.hardbs⟩ .non_split).size ∧
      (∃ l, copy_block_calls rb1.world.trace =
        l ++ (find_chunk rb.sblock_vector rb.domain ⟨pos, rb.hardbs⟩ .non_split) ::
          copy_block_calls rb.world.trace) ∧ (res = none → bf1 = true)) ∨
    (¬ (pos ≥ 0 ∧
        0 < (find_chunk rb.sblock_vector rb.domain ⟨pos, rb.hardbs⟩ .non_split).size) ∧
      res = none ∧ bf1 = bf ∧ rb1 = rb) := by
  cases n with
  | zero => simp [split_errors_sweep] at h
  | succ n =>
    generalize hB : find_chunk rb.sblock_vector rb.domain ⟨pos, rb.hardbs⟩ .non_split = B
    by_cases hb : pos ≥ 0 ∧ 0 < B.size
    · left
      refine ⟨hb.1, hb.2, ?_⟩
      obtain ⟨r0, rbu, pos1, ec1, hun, hcase⟩ :=
        split_errors_sweep_step n rb pos ec bf res bf1 rb1 B hB hb.1 (by omega) h
      have hc := calls_split_errors_unit _ _ _ _ _ _ _ _ _ hun
      rcases hcase with ⟨-, rfl, -, rfl⟩ | ⟨-, -, rfl, -, rfl⟩ | ⟨-, -, hl⟩
      · exact ⟨⟨[], hc⟩, fun h0 => by cases h0⟩
      · exact ⟨⟨[], by rw [calls_update_logfile]; exact hc⟩, fun h0 => by cases h0⟩
      · refine ⟨calls_split_errors_sweep (B :: copy_block_calls rb.world.trace)
          _ _ _ _ _ _ _ _ ⟨[], by rw [calls_update_logfile]; exact hc⟩ hl, ?_⟩
        exact fun _ => split_errors_sweep_found _ _ _ _ _ _ _ hl
    · right
      subst hB
      rw [split_errors_sweep_none n rb pos ec bf hb] at h
      cases h
      exact ⟨hb, rfl, rfl, rfl⟩

theorem first_call_split_errors_outer (n : Nat) (rb : Rescuebook) (resume : Bool) (r : Int)
    (rb1 : Rescuebook) (h : split_errors_outer n rb resume = some (r, rb1)) :
    first_call rb.world.trace rb1.world.trace =
      (if (if resume = true then rb.current_pos else 0) ≥ 0 ∧
          0 < (find_chunk rb.sblock_vector rb.domain
            ⟨if resume = true then rb.current_pos else 0, rb.hardbs⟩ .non_split).size then
        some (find_chunk rb.sblock_vector rb.domain
            ⟨if resume = true then rb.current_pos else 0, rb.hardbs⟩ .non_split)
       else none) := by
  cases n with
  | zero => simp [split_errors_outer] at h
  | succ n =>
    rw [split_errors_outer] at h
    cases hsw : split_errors_sweep n rb (if resume = true then rb.current_pos else 0) 0 false with
    | none => rw [hsw] at h; cases h
    | some x =>
      obtain ⟨res, bf, rb2⟩ := x
      rw [hsw] at h
      rcases first_call_split_errors_sweep _ _ _ _ _ _ _ _ hsw with
        ⟨h1, h2, ⟨l, hl⟩, hbf⟩ | ⟨h1, rfl, rfl, rfl⟩
      · rw [if_pos ⟨h1, h2⟩]
        cases res with
        | some k =>
          simp only [] at h
          cases h
          exact first_call_some _ _ l _ hl
        | none =>
          simp only [] at h
          rw [if_neg (by rw [hbf rfl]; decide)] at h
          obtain ⟨l2, hl2⟩ := calls_split_errors_outer _ _ _ _ _ _ ⟨l, hl⟩ h
          exact first_call_some _ _ l2 _ hl2
      · rw [if_neg h1]
        simp only [] at h
        rw [if_pos trivial] at h
        cases h
        exact first_call_none _ _ rfl

theorem first_call_copy_errors_retries (n : Nat) (rb : Rescuebook) (retry : Int)
    (resume : Bool) (r : Int) (rb1 : Rescuebook)
    (h : copy_errors_retries n rb retry resume = some (r, rb1)) :
    first_call rb.world.trace rb1.world.trace =
      (if (rb.max_retries_ < 0 ∨ retry ≤ rb.max_retries_) ∧
          (if resume = true then rb.current_pos else 0) ≥ 0 ∧
          0 < (find_chunk rb.sblock_vector rb.domain
            ⟨if resume = true then rb.current_pos else 0, rb.hardbs⟩ .bad_sector).size then
        some (find_chunk rb.sblock_vector rb.domain
            ⟨if resume = true then rb.current_pos else 0, rb.hardbs⟩ .bad_sector)
       else none) := by
  cases n with
  | zero => simp [copy_errors_retries] at h
  | succ n =>
    rw [copy_errors_retries] at h
    by_cases hr : rb.max_retries_ < 0 ∨ retry ≤ rb.max_retries_
    · rw [if_pos hr] at h
      cases hsw : copy_errors_sweep n rb (if resume = true then rb.current_pos else 0) false with
      | none => rw [hsw] at h; cases h
      | some x =>
        obtain ⟨res, bf, rb2⟩ := x
        rw [hsw] at h
        rcases first_call_copy_errors_sweep _ _ _ _ _ _ _ hsw with
          ⟨h1, h2, ⟨l, hl⟩, hbf⟩ | ⟨h1, rfl, rfl, rfl⟩
        · rw [if_pos ⟨hr, h1, h2⟩]
          cases res with
          | some k =>
            simp only [] at h
            cases h
            exact first_call_some _ _ l _ hl
          | none =>
            simp only [] at h
            rw [if_neg (by rw [hbf rfl]; decide)] at h
            obtain ⟨l2, hl2⟩ := calls_copy_errors_retries _ _ _ _ _ _ _ ⟨l, hl⟩ h
            exact first_call_some _ _ l2 _ hl2
        · rw [if_neg (fun hx => h1 hx.2)]
          simp only [] at h
          rw [if_pos trivial] at h
          cases h
          exact first_call_none _ _ rfl
    · rw [if_neg hr] at h
      cases h
      rw [if_neg (fun hx => hr hx.1)]
      exact first_call_none _ _ rfl

/-- C11 (the claim as stated fails): `copy_non_tried` and `trim_errors` do not look at the
cursor.  With the loaded cursor `(copying, 4)` inside the domain, the first block that
`copy_non_tried` hands to `copy_block` is `[0,2)`, not the chunk `[4,6)` found from the
cursor; with the cursor `(trimming, 2)`, the first block of `trim_errors` is `[6,8)`, at the
high end, not the chunk `[2,4)` found from the cursor. -/
theorem cursor_ignored_by_copy_and_trim :
    (cursor_copy_book.current_status = .copying ∧
      cursor_copy_book.domain.includes_pos cursor_copy_book.current_pos = true ∧
      find_chunk cursor_copy_book.sblock_vector cursor_copy_book.domain
        ⟨cursor_copy_book.current_pos, cursor_copy_book.hardbs⟩ .non_tried = ⟨4, 2⟩ ∧
      (copy_non_tried 9 cursor_copy_book).isSome = true ∧
      first_call cursor_copy_book.world.trace
        (pair_state_of (copy_non_tried 9 cursor_copy_book) cursor_copy_book).world.trace =
        some ⟨0, 2⟩) ∧
    (cursor_trim_book.current_status = .trimming ∧
      cursor_trim_book.domain.includes_pos cursor_trim_book.current_pos = true ∧
      rfind_chunk cursor_trim_book.sblock_vector cursor_trim_book.domain
        ⟨cursor_trim_book.current_pos, cursor_trim_book.hardbs⟩ .non_trimmed = ⟨2, 2⟩ ∧
      (trim_errors 9 cursor_trim_book).isSome = true ∧
      first_call cursor_trim_book.world.trace
        (pair_state_of (trim_errors 9 cursor_trim_book) cursor_trim_book).world.trace =
        some ⟨6, 2⟩) := by
  decide

/-- C11 (amended): the first block a pass hands to `copy_block` is the first chunk found from
its start position, if there is one.  `split_errors` and `copy_errors` start at `current_pos`
when the cursor status is that of the pass and `current_pos` lies in the domain, otherwise at
0; `copy_non_tried` starts at 0 and `trim_errors` at `LLONG_MAX - hardbs`, whatever the
cursor. -/
theorem pass_start_positions (fuel : Nat) (rb : Rescuebook) (r : Int) (rb1 : Rescuebook) :
    (copy_non_tried fuel rb = some (r, rb1) →
      first_call rb.world.trace rb1.world.trace =
        (if (find_chunk rb.sblock_vector rb.domain
              ⟨0, if rb.hardbs ≠ 0 then rb.hardbs else rb.softbs⟩ .non_tried).end_ < 0 ∨
            (find_chunk rb.sblock_vector rb.domain
              ⟨0, if rb.hardbs ≠ 0 then rb.hardbs else rb.softbs⟩ .non_tried).size ≤ 0 then none
         else some (find_chunk rb.sblock_vector rb.domain
              ⟨0, if rb.hardbs ≠ 0 then rb.hardbs else rb.softbs⟩ .non_tried))) ∧
    (trim_errors fuel rb = some (r, rb1) →
      first_call rb.world.trace rb1.world.trace =
        (if LLONG_MAX - rb.hardbs ≥ 0 ∧
            0 < (rfind_chunk rb.sblock_vector rb.domain
              ⟨LLONG_MAX - rb.hardbs, rb.hardbs⟩ .non_trimmed).size then
          some (rfind_chunk rb.sblock_vector rb.domain
              ⟨LLONG_MAX - rb.hardbs, rb.hardbs⟩ .non_trimmed)
         else none)) ∧
    (split_errors fuel rb = some (r, rb1) →
      first_call rb.world.trace rb1.world.trace =
        (if resume_pos rb .splitting ≥ 0 ∧
            0 < (find_chunk rb.sblock_vector rb.domain
              ⟨resume_pos rb .splitting, rb.hardbs⟩ .non_split).size then
          some (find_chunk rb.sblock_vector rb.domain
              ⟨resume_pos rb .splitting, rb.hardbs⟩ .non_split)
         else none)) ∧
    (copy_errors fuel rb = some (r, rb1) →
      first_call rb.world.trace rb1.world.trace =
        (if (rb.max_retries_ < 0 ∨ 1 ≤ rb.max_retries_) ∧ resume_pos rb .retrying ≥ 0 ∧
            0 < (find_chunk rb.sblock_vector rb.domain
              ⟨resume_pos rb .retrying, rb.hardbs⟩ .bad_sector).size then
          some (find_chunk rb.sblock_vector rb.domain
              ⟨resume_pos rb .retrying, rb.hardbs⟩ .bad_sector)
         else none)) := by
  refine ⟨fun h => ?_, fun h => ?_, fun h => ?_, fun h => ?_⟩
  · have := first_call_copy_non_tried_loop _ _ _ _ _ _ (le_refl 0) h
    exact this
  · have := first_call_trim_errors_loop _ _ _ _ _ h
    exact this
  · have := first_call_split_errors_outer _ _ _ _ _ h
    exact this
  · have := first_call_copy_errors_retries _ _ _ _ _ _ h
    exact this

theorem pass_start_positions_witness :
    (split_errors 9 cursor_split_book).isSome = true ∧
      first_call cursor_split_book.world.trace
        (pair_state_of (split_errors 9 cursor_split_book) cursor_split_book).world.trace =
        some ⟨4, 2⟩ :=
  ⟨by decide,
   ((pass_start_positions 9 cursor_split_book 0
      (pair_state_of (split_errors 9 cursor_split_book) cursor_split_book)).2.2.1
      (by rfl)).trans (by decide)⟩

theorem do_rescue_eq (fuel : Nat) (rb : Rescuebook) (ides odes : Int) :
    do_rescue fuel rb ides odes =
      (rescue_passes fuel (rescue_start rb ides odes).2.2.2 (rescue_start rb ides odes).1
        (rescue_start rb ides odes).2.1 (rescue_start rb ides odes).2.2.1).bind
        (fun x => rescue_finish fuel x.1 x.2) := by
  unfold do_rescue rescue_start
  generalize rescue_scan rb.domain rb.sblock_vector false false false 0 0 = s
  obtain ⟨cp, tp, sp, rs, es⟩ := s
  simp only []
  cases rescue_passes fuel _ cp tp sp with
  | none => rfl
  | some x => rfl

theorem run_passes_skip_retval (fuel : Nat) (tp sp : Bool) (x : Int × Rescuebook)
    (h : x.1 ≠ 0) :
    run_trim_errors fuel tp x = some x ∧ run_split_errors fuel sp x = some x ∧
      run_copy_errors fuel x = some x := by
  refine ⟨?_, ?_, ?_⟩
  · unfold run_trim_errors
    rw [if_neg (fun hx => h hx.1)]
  · unfold run_split_errors
    rw [if_neg (fun hx => h hx.1)]
  · unfold run_copy_errors
    rw [if_neg (fun hx => h hx.1)]

/-- C12: when `update_logfile` fails after a work unit (one that returned 0 without too many
errors), the pass returns -2 at once, in the state left by the failed update; a pass result of
-2 makes `do_rescue` skip every later pass; and `do_rescue` then returns 1 in that very state:
no further call of `copy_block`, no sync of the sparse file, no write and no other system
call. -/
theorem logfile_error_aborts (fuel : Nat) :
    (∀ (rb : Rescuebook) (pos skip pos1 skip1 : Int) (rbu : Rescuebook) (B : Block),
      find_chunk rb.sblock_vector rb.domain
        ⟨pos, if skip ≠ 0 then rb.hardbs else rb.softbs⟩ .non_tried = B →
      pos ≥ 0 → ¬ (B.end_ < 0 ∨ B.size ≤ 0) →
      copy_non_tried_unit fuel rb B B.end_ (if pos ≠ B.pos then 0 else skip) =
        some (0, rbu, pos1, skip1) →
      too_many_errors rbu = false → (update_logfile rbu).1 = false →
      copy_non_tried_loop (fuel + 1) rb pos skip = some (-2, (update_logfile rbu).2)) ∧
    (∀ (rb : Rescuebook) (pos : Int) (rbu : Rescuebook) (B : Block),
      rfind_chunk rb.sblock_vector rb.domain ⟨pos, rb.hardbs⟩ .non_trimmed = B →
      pos ≥ 0 → ¬ B.size ≤ 0 →
      trim_errors_unit fuel rb B = some (0, rbu) →
      too_many_errors rbu = false → (update_logfile rbu).1 = false →
      trim_errors_loop (fuel + 1) rb pos = some (-2, (update_logfile rbu).2)) ∧
    (∀ (rb : Rescuebook) (pos ec pos1 ec1 : Int) (bf resume : Bool) (rbu : Rescuebook)
        (B : Block),
      find_chunk rb.sblock_vector rb.domain ⟨pos, rb.hardbs⟩ .non_split = B →
      pos ≥ 0 → ¬ B.size ≤ 0 →
      split_errors_unit fuel rb B B.end_ ec = some (0, rbu, pos1, ec1) →
      too_many_errors rbu = false → (update_logfile rbu).1 = false →
      split_errors_sweep (fuel + 1) rb pos ec bf =
          some (some (-2), true, (update_logfile rbu).2) ∧
        (pos = (if resume = true then rb.current_pos else 0) → ec = 0 → bf = false →
          split_errors_outer (fuel + 2) rb resume = some (-2, (update_logfile rbu).2))) ∧
    (∀ (rb : Rescuebook) (pos retry : Int) (bf resume : Bool) (rbu : Rescuebook) (B : Block),
      find_chunk rb.sblock_vector rb.domain ⟨pos, rb.hardbs⟩ .bad_sector = B →
      pos ≥ 0 → ¬ B.size ≤ 0 →
      copy_errors_unit fuel rb B = some (0, rbu) →
      too_many_errors rbu = false → (update_logfile rbu).1 = false →
      copy_errors_sweep (fuel + 1) rb pos bf =
          some (some (-2), true, (update_logfile rbu).2) ∧
        (pos = (if resume = true then rb.current_pos else 0) → bf = false →
          (rb.max_retries_ < 0 ∨ retry ≤ rb.max_retries_) →
          copy_errors_retries (fuel + 2) rb retry resume =
            some (-2, (update_logfile rbu).2))) ∧
    (∀ (tp sp : Bool) (rb : Rescuebook),
      run_trim_errors fuel tp (-2, rb) = some (-2, rb) ∧
        run_split_errors fuel sp (-2, rb) = some (-2, rb) ∧
        run_copy_errors fuel (-2, rb) = some (-2, rb)) ∧
    (∀ (rb : Rescuebook), rescue_finish fuel (-2) rb = some (1, rb)) ∧
    (∀ (rb : Rescuebook) (ides odes : Int) (rb3 : Rescuebook),
      rescue_passes fuel (rescue_start rb ides odes).2.2.2 (rescue_start rb ides odes).1
        (rescue_start rb ides odes).2.1 (rescue_start rb ides odes).2.2.1 = some (-2, rb3) →
      do_rescue fuel rb ides odes = some (1, rb3)) := by
  refine ⟨?_, ?_, ?_, ?_, ?_, ?_, ?_⟩
  · intro rb pos skip pos1 skip1 rbu B hB hpos hb hu ht hl
    rw [copy_non_tried_loop]
    simp only []
    rw [if_pos hpos, hB, if_neg hb, hu]
    simp only []
    rw [if_neg (by rw [ht]; simp)]
    generalize update_logfile rbu = ul at hl ⊢
    obtain ⟨ok, rb3⟩ := ul
    simp only at hl
    subst hl
    rfl
  · intro rb pos rbu B hB hpos hb hu ht hl
    rw [trim_errors_loop]
    simp only []
    rw [if_pos hpos, hB, if_neg hb, hu]
    simp only []
    rw [if_neg (by rw [ht]; simp)]
    generalize update_logfile rbu = ul at hl ⊢
    obtain ⟨ok, rb3⟩ := ul
    simp only at hl
    subst hl
    rfl
  · intro rb pos ec pos1 ec1 bf resume rbu B hB hpos hb hu ht hl
    have key : ∀ bf, split_errors_sweep (fuel + 1) rb pos ec bf =
        some (some (-2), true, (update_logfile rbu).2) := by
      intro bf
      rw [split_errors_sweep]
      simp only []
      rw [if_pos hpos, hB, if_neg hb, hu]
      simp only []
      rw [if_neg (by rw [ht]; simp)]
      generalize update_logfile rbu = ul at hl ⊢
      obtain ⟨ok, rb3⟩ := ul
      simp only at hl
      subst hl
      rfl
    refine ⟨key bf, fun h1 h2 _ => ?_⟩
    subst h1 h2
    rw [split_errors_outer, key false]
  · intro rb pos retry bf resume rbu B hB hpos hb hu ht hl
    have key : ∀ bf, copy_errors_sweep (fuel + 1) rb pos bf =
        some (some (-2), true, (update_logfile rbu).2) := by
      intro bf
      rw [copy_errors_sweep]
      simp only []
      rw [if_pos hpos, hB, if_neg hb, hu]
      simp only []
      rw [if_neg (by rw [ht]; simp)]
      generalize update_logfile rbu = ul at hl ⊢
      obtain ⟨ok, rb3⟩ := ul
      simp only at hl
      subst hl
      rfl
    refine ⟨key bf, fun h1 _ hr => ?_⟩
    subst h1
    rw [copy_errors_retries, if_pos hr, key false]
  · intro tp sp rb
    exact run_passes_skip_retval fuel tp sp (-2, rb) (by show (-2 : Int) ≠ 0; decide)
  · intro rb
    unfold rescue_finish
    rw [if_pos rfl]
  · intro rb ides odes rb3 h
    rw [do_rescue_eq, h]
    show rescue_finish fuel (-2) rb3 = _
    unfold rescue_finish
    rw [if_pos rfl]

theorem logfile_error_aborts_witness :
    (rescue_start logfile_error_book 3 4).1 = true ∧
      outcome_of (do_rescue 9 logfile_error_book 3 4) =
        some (1, [⟨0, 2, .finished⟩, ⟨2, 6, .non_tried⟩], [⟨0, 2⟩]) ∧
      (pair_state_of (do_rescue 9 logfile_error_book 3 4) logfile_error_book).world.trace.head? =
        some .logfile ∧
      do_rescue 9 logfile_error_book 3 4 =
        some (1, pair_state_of (copy_non_tried 9 (rescue_start logfile_error_book 3 4).2.2.2)
          logfile_error_book) :=
  ⟨by decide, by decide, by decide,
   (logfile_error_aborts 9).2.2.2.2.2.2 logfile_error_book 3 4
     (pair_state_of (copy_non_tried 9 (rescue_start logfile_error_book 3 4).2.2.2)
       logfile_error_book) (by rfl)⟩

theorem copy_non_tried_retval (fuel : Nat) (rb : Rescuebook) (r : Int) (rb1 : Rescuebook)
    (h : copy_non_tried fuel rb = some (r, rb1)) : r = 0 ∨ r = 1 ∨ r = -2 :=
  (copy_non_tried_loop_inv (fun _ => True)
    (fun _ _ _ _ _ _ _ _ _ _ _ _ hu =>
      ⟨trivial, copy_and_update_retval _ _ _ _ _ _ _ _
        (copy_non_tried_unit_result _ _ _ _ _ _ _ _ _ hu).choose_spec.choose_spec.choose_spec.1⟩)
    (fun _ _ => trivial) fuel _ _ _ r rb1 trivial h).2

theorem trim_errors_retval (fuel : Nat) (rb : Rescuebook) (r : Int) (rb1 : Rescuebook)
    (h : trim_errors fuel rb = some (r, rb1)) : r = 0 ∨ r = 1 ∨ r = -2 :=
  (trim_errors_loop_inv (fun _ => True)
    (fun _ _ _ _ _ _ _ _ hu =>
      ⟨trivial, copy_and_update_retval _ _ _ _ _ _ _ _
        (trim_errors_unit_result _ _ _ _ _ hu).choose_spec.choose_spec.choose_spec.1⟩)
    (fun _ _ => trivial) fuel _ _ r rb1 trivial h).2

theorem split_errors_retval (fuel : Nat) (rb : Rescuebook) (r : Int) (rb1 : Rescuebook)
    (h : split_errors fuel rb = some (r, rb1)) : r = 0 ∨ r = 1 ∨ r = -2 :=
  (split_errors_outer_inv (fun _ => True)
    (fun _ _ _ _ _ _ _ _ _ _ _ _ hu =>
      ⟨trivial, copy_and_update_retval _ _ _ _ _ _ _ _
        (split_errors_unit_result _ _ _ _ _ _ _ _ _ hu).choose_spec.choose_spec.choose_spec.1⟩)
    (fun _ _ => trivial) fuel _ _ r rb1 trivial h).2

theorem copy_errors_retval (fuel : Nat) (rb : Rescuebook) (r : Int) (rb1 : Rescuebook)
    (h : copy_errors fuel rb = some (r, rb1)) : r = 0 ∨ r = 1 ∨ r = -2 :=
  (copy_errors_retries_inv (fun _ => True)
    (fun _ _ _ _ _ _ _ _ hu =>
      ⟨trivial, copy_and_update_retval _ _ _ _ _ _ _ _
        (copy_errors_unit_result _ _ _ _ _ hu).choose_spec.choose_spec.choose_spec.1⟩)
    (fun _ _ => trivial) fuel _ _ _ r rb1 trivial h).2

theorem rescue_passes_retval (fuel : Nat) (rb : Rescuebook) (cp tp sp : Bool) (r : Int)
    (rb1 : Rescuebook) (h : rescue_passes fuel rb cp tp sp = some (r, rb1)) :
    r = 0 ∨ r = 1 ∨ r = -2 := by
  unfold rescue_passes at h
  cases h1 : run_copy_non_tried fuel cp (0, rb) with
  | none => rw [h1] at h; cases h
  | some x1 =>
    rw [h1] at h
    simp only [Option.some_bind] at h
    have e1 : x1.1 = 0 ∨ x1.1 = 1 ∨ x1.1 = -2 := by
      unfold run_copy_non_tried at h1
      split at h1
      · exact copy_non_tried_retval _ _ _ _ h1
      · cases h1; exact Or.inl rfl
    cases h2 : run_trim_errors fuel tp x1 with
    | none => rw [h2] at h; cases h
    | some x2 =>
      rw [h2] at h
      simp only [Option.some_bind] at h
      have e2 : x2.1 = 0 ∨ x2.1 = 1 ∨ x2.1 = -2 := by
        unfold run_trim_errors at h2
        split at h2
        · exact trim_errors_retval _ _ _ _ h2
        · cases h2; exact e1
      cases h3 : run_split_errors fuel sp x2 with
      | none => rw [h3] at h; cases h
      | some x3 =>
        rw [h3] at h
        simp only [Option.some_bind] at h
        have e3 : x3.1 = 0 ∨ x3.1 = 1 ∨ x3.1 = -2 := by
          unfold run_split_errors at h3
          split at h3
          · exact split_errors_retval _ _ _ _ h3
          · cases h3; exact e2
        unfold run_copy_errors at h
        split at h
        · exact copy_errors_retval _ _ _ _ h
        · cases h; exact e3

theorem rescue_finish_value (fuel : Nat) (retval : Int) (rb : Rescuebook) (synced : Bool)
    (rb5 : Rescuebook) (hv : retval ≠ -2)
    (hs : sync_sparse_file fuel
      { rb with current_status := if retval = 0 then .finished else rb.current_status } =
      some (synced, rb5)) :
    ∃ r, rescue_finish fuel retval rb = some (r, (update_logfile
        { rb5 with sblock_vector := compact_sblock_vector rb5.sblock_vector }).2) ∧
      ((retval = 0 ∨ retval = 1 ∨ retval = -1) → (r = 0 ∨ r = 1) ∧
        (r = 1 ↔ retval = 1 ∨ synced = false ∨ (update_logfile
          { rb5 with sblock_vector := compact_sblock_vector rb5.sblock_vector }).1 = false)) := by
  unfold rescue_finish
  rw [if_neg hv]
  simp only [hs]
  generalize update_logfile
    { rb5 with sblock_vector := compact_sblock_vector rb5.sblock_vector } = ul
  obtain ⟨ok, rb6⟩ := ul
  refine ⟨_, rfl, ?_⟩
  intro h
  rcases h with rfl | rfl | rfl <;> cases synced <;> cases ok <;> simp

/-- C13: `do_rescue` returns only 0 or 1.  The sequence of passes ends with 0, 1 or -2; after
-2 (logfile error) `do_rescue` returns 1; otherwise it returns as soon as the sync of the
sparse file returns, and its value is 1 exactly when the passes ended with 1 (write error or
input file disappeared), or the sync failed, or the final update of the logfile failed, and 0
in every other case, which includes a run stopped by too many errors (the passes end with 0)
and, in the mapping of lines 437-449, a pass result of -1. -/
theorem do_rescue_exit_value (fuel : Nat) (rb : Rescuebook) (ides odes pr : Int)
    (rb3 : Rescuebook)
    (hp : rescue_passes fuel (rescue_start rb ides odes).2.2.2 (rescue_start rb ides odes).1
      (rescue_start rb ides odes).2.1 (rescue_start rb ides odes).2.2.1 = some (pr, rb3)) :
    (pr = 0 ∨ pr = 1 ∨ pr = -2) ∧
    (∀ r rb4, do_rescue fuel rb ides odes = some (r, rb4) → r = 0 ∨ r = 1) ∧
    (pr = -2 → do_rescue fuel rb ides odes = some (1, rb3)) ∧
    (∀ synced rb5,
      sync_sparse_file fuel
        { rb3 with current_status := if pr = 0 then .finished else rb3.current_status } =
        some (synced, rb5) → pr ≠ -2 →
      ∃ r rb4, do_rescue fuel rb ides odes = some (r, rb4) ∧ (r = 0 ∨ r = 1) ∧
        (r = 1 ↔ pr = 1 ∨ synced = false ∨ (update_logfile
          { rb5 with sblock_vector := compact_sblock_vector rb5.sblock_vector }).1 = false)) ∧
    (∀ retval rbx synced rb5, retval = 0 ∨ retval = 1 ∨ retval = -1 →
      sync_sparse_file fuel
        { rbx with current_status := if retval = 0 then .finished else rbx.current_status } =
        some (synced, rb5) →
      ∃ r rb4, rescue_finish fuel retval rbx = some (r, rb4) ∧ (r = 0 ∨ r = 1) ∧
        (r = 1 ↔ retval = 1 ∨ synced = false ∨ (update_logfile
          { rb5 with sblock_vector := compact_sblock_vector rb5.sblock_vector }).1 = false)) := by
  have hpr := rescue_passes_retval _ _ _ _ _ _ _ hp
  have hdo : do_rescue fuel rb ides odes = rescue_finish fuel pr rb3 := by
    rw [do_rescue_eq, hp]; rfl
  have hm2 : rescue_finish fuel (-2) rb3 = some (1, rb3) := by
    unfold rescue_finish
    rw [if_pos rfl]
  refine ⟨hpr, ?_, ?_, ?_, ?_⟩
  · intro r rb4 h
    rw [hdo] at h
    by_cases h2 : pr = -2
    · subst h2
      rw [hm2] at h
      cases h
      exact Or.inr rfl
    · cases hs : sync_sparse_file fuel
        { rb3 with current_status := if pr = 0 then .finished else rb3.current_status } with
      | none =>
        unfold rescue_finish at h
        rw [if_neg h2] at h
        simp only [hs] at h
        cases h
      | some x =>
        obtain ⟨synced, rb5⟩ := x
        obtain ⟨r9, h9, hval⟩ := rescue_finish_value fuel pr rb3 synced rb5 h2 hs
        rw [h9] at h
        cases h
        exact (hval (by omega)).1
  · intro h2
    subst h2
    rw [hdo, hm2]
  · intro synced rb5 hs h2
    obtain ⟨r9, h9, hval⟩ := rescue_finish_value fuel pr rb3 synced rb5 h2 hs
    exact ⟨r9, _, by rw [hdo, h9], hval (by omega)⟩
  · intro retval rbx synced rb5 hv hs
    obtain ⟨r9, h9, hval⟩ := rescue_finish_value fuel retval rbx synced rb5 (by omega) hs
    exact ⟨r9, _, h9, hval hv⟩

theorem do_rescue_exit_value_witness :
    too_many_errors (pair_state_of (do_rescue 9 first_error_book 3 4) first_error_book) = true ∧
    (do_rescue 9 first_error_book 3 4).map (fun x => x.1) = some 0 ∧
    ∃ r rb4, do_rescue 9 first_error_book 3 4 = some (r, rb4) ∧ (r = 0 ∨ r = 1) :=
  ⟨by decide, by decide,
   match (do_rescue_exit_value 9 first_error_book 3 4 0
      (pair_state_of (rescue_passes 9 (rescue_start first_error_book 3 4).2.2.2
        true true true) first_error_book) (by rfl)).2.2.2.1 true
      { pair_state_of (rescue_passes 9 (rescue_start first_error_book 3 4).2.2.2
          true true true) first_error_book with current_status := .finished }
      (by rfl) (by decide) with
   | ⟨r, rb4, h1, h2, _⟩ => ⟨r, rb4, h1, h2⟩⟩

theorem change_sblock_status_append (pre : List Sblock) (sb : Sblock) (r : List Sblock)
    (st : Status) :
    change_sblock_status (pre ++ sb :: r) pre.length st = pre ++ ⟨sb.pos, sb.size, st⟩ :: r := by
  induction pre with
  | nil => rfl
  | cons x p ih =>
    exact congrArg (List.cons x) ih

theorem retrim_loop_eq (dom : Domain) (n : Nat) :
    ∀ (pre suf : List Sblock), suf.length ≤ n →
      retrim_loop dom n pre.length (pre ++ suf) =
        pre ++ rewrite_list dom [.non_split, .bad_sector] .non_trimmed suf := by
  induction n with
  | zero =>
    intro pre suf h
    have : suf = [] := List.length_eq_zero.mp (by omega)
    subst this
    simp [retrim_loop, rewrite_list]
  | succ n ih =>
    intro pre suf h
    cases suf with
    | nil => simp [retrim_loop, rewrite_list]
    | cons sb r =>
      have hget : (pre ++ sb :: r)[pre.length]? = some sb := by
        rw [List.getElem?_append_right (le_refl _)]
        simp
      have hlen : r.length ≤ n := by simpa using h
      rw [retrim_loop]
      simp only [hget]
      by_cases hin : dom.includes sb.block = true
      · simp only [hin, Bool.not_true, Bool.false_eq_true, if_false, rewrite_list, if_true]
        by_cases hs : sb.status = .non_split ∨ sb.status = .bad_sector
        · rw [if_pos hs, change_sblock_status_append]
          have := ih (pre ++ [⟨sb.pos, sb.size, .non_trimmed⟩]) r hlen
          simp only [List.length_append, List.length_singleton, List.append_assoc,
            List.singleton_append] at this
          rw [this, if_pos (by simpa using hs)]
        · rw [if_neg hs]
          have := ih (pre ++ [sb]) r hlen
          simp only [List.length_append, List.length_singleton, List.append_assoc,
            List.singleton_append] at this
          rw [this, if_neg (by simpa using hs)]
      · have hin2 : dom.includes sb.block = false := by simpa using hin
        simp only [hin2, Bool.not_false, if_true, rewrite_list, Bool.false_eq_true, if_false]
        by_cases hlt : dom.lt sb.block = true
        · rw [if_pos hlt, if_pos hlt]
        · rw [if_neg hlt, if_neg hlt]
          have := ih (pre ++ [sb]) r hlen
          simp only [List.length_append, List.length_singleton, List.append_assoc,
            List.singleton_append] at this
          rw [this]

theorem try_again_loop_eq (dom : Domain) (n : Nat) :
    ∀ (pre suf : List Sblock), suf.length ≤ n →
      try_again_loop dom n pre.length (pre ++ suf) =
        pre ++ rewrite_list dom [.non_split, .non_trimmed] .non_tried suf := by
  induction n with
  | zero =>
    intro pre suf h
    have : suf = [] := List.length_eq_zero.mp (by omega)
    subst this
    simp [try_again_loop, rewrite_list]
  | succ n ih =>
    intro pre suf h
    cases suf with
    | nil => simp [try_again_loop, rewrite_list]
    | cons sb r =>
      have hget : (pre ++ sb :: r)[pre.length]? = some sb := by
        rw [List.getElem?_append_right (le_refl _)]
        simp
      have hlen : r.length ≤ n := by simpa using h
      rw [try_again_loop]
      simp only [hget]
      by_cases hin : dom.includes sb.block = true
      · simp only [hin, Bool.not_true, Bool.false_eq_true, if_false, rewrite_list, if_true]
        by_cases hs : sb.status = .non_split ∨ sb.status = .non_trimmed
        · rw [if_pos hs, change_sblock_status_append]
          have := ih (pre ++ [⟨sb.pos, sb.size, .non_tried⟩]) r hlen
          simp only [List.length_append, List.length_singleton, List.append_assoc,
            List.singleton_append] at this
          rw [this, if_pos (by simpa using hs)]
        · rw [if_neg hs]
          have := ih (pre ++ [sb]) r hlen
          simp only [List.length_append, List.length_singleton, List.append_assoc,
            List.singleton_append] at this
          rw [this, if_neg (by simpa using hs)]
      · have hin2 : dom.includes sb.block = false := by simpa using hin
        simp only [hin2, Bool.not_false, if_true, rewrite_list, Bool.false_eq_true, if_false]
        by_cases hlt : dom.lt sb.block = true
        · rw [if_pos hlt, if_pos hlt]
        · rw [if_neg hlt, if_neg hlt]
          have := ih (pre ++ [sb]) r hlen
          simp only [List.length_append, List.length_singleton, List.append_assoc,
            List.singleton_append] at this
          rw [this]

theorem wf_from_sizes_pos (v : List Sblock) :
    ∀ q, wf_from q v = true → ∀ sb ∈ v, 0 < sb.size := by
  induction v with
  | nil => intro q _ sb h; cases h
  | cons x r ih =>
    intro q hw sb hm
    simp only [wf_from, Bool.and_eq_true, decide_eq_true_eq] at hw
    rcases List.mem_cons.mp hm with rfl | hm
    · exact hw.1.2
    · exact ih _ hw.2 sb hm

theorem not_included_after (dom : Domain) (hd : ∀ x ∈ dom.blocks, x.end_ ≤ dom.end_)
    (sb : Sblock) (hs : 0 < sb.size) (h : dom.end_ ≤ sb.pos) :
    dom.includes sb.block = false := by
  rw [Bool.eq_false_iff]
  intro hin
  unfold Domain.includes at hin
  rw [List.any_eq_true] at hin
  obtain ⟨x, hx, hxi⟩ := hin
  have := hd x hx
  simp only [Block.includes, Sblock.block, Block.end_, Bool.and_eq_true, decide_eq_true_eq] at hxi
  simp only [Block.end_] at this
  omega

theorem rewrite_list_eq (dom : Domain) (olds : List Status) (st1 : Status)
    (hd : ∀ x ∈ dom.blocks, x.end_ ≤ dom.end_) (v : List Sblock) :
    ∀ q, wf_from q v = true → rewrite_list dom olds st1 v = spec_rewrite dom olds st1 v := by
  induction v with
  | nil => intro q _; rfl
  | cons sb r ih =>
    intro q hw
    have hw2 : wf_from sb.end_ r = true := by
      simp only [wf_from, Bool.and_eq_true] at hw
      exact hw.2
    have hsz : 0 < sb.size := by
      simp only [wf_from, Bool.and_eq_true, decide_eq_true_eq] at hw
      exact hw.1.2
    have ih2 := ih _ hw2
    unfold spec_rewrite at ih2 ⊢
    simp only [rewrite_list, List.map_cons]
    by_cases hin : dom.includes sb.block = true
    · rw [if_pos hin, ih2]
      by_cases hs : sb.status ∈ olds
      · rw [if_pos hs, if_pos ⟨hin, hs⟩]
      · rw [if_neg hs, if_neg (fun hx => hs hx.2)]
    · have hin2 : dom.includes sb.block = false := by simpa using hin
      simp only [hin2, Bool.false_eq_true, false_and, if_false]
      by_cases hlt : dom.lt sb.block = true
      · rw [if_pos hlt]
        congr 1
        symm
        have hall : ∀ y ∈ r, (if dom.includes y.block = true ∧ y.status ∈ olds then
            (⟨y.pos, y.size, st1⟩ : Sblock) else y) = y := by
          intro y hy
          have hpos := (wf_from_pos_ge r _ hw2 y hy).1
          have hy0 := wf_from_sizes_pos r _ hw2 y hy
          have hle : dom.end_ ≤ sb.pos := by
            simpa [Domain.lt, Sblock.block] using hlt
          have := not_included_after dom hd y hy0 (by simp only [Sblock.end_] at hpos; omega)
          rw [if_neg (fun hx => by rw [this] at hx; exact absurd hx.1 (by decide))]
        rw [List.map_congr_left hall, List.map_id']
      · rw [if_neg hlt, ih2]

theorem wf_from_spec_rewrite (dom : Domain) (olds : List Status) (st1 : Status)
    (v : List Sblock) : ∀ q, wf_from q (spec_rewrite dom olds st1 v) = wf_from q v := by
  induction v with
  | nil => intro q; rfl
  | cons sb r ih =>
    intro q
    have ih2 := ih sb.end_
    unfold spec_rewrite at ih2 ⊢
    simp only [List.map_cons, wf_from]
    split_ifs <;> simp only [Sblock.end_] at ih2 ⊢ <;> rw [ih2]

theorem spec_rewrite_twice (dom : Domain) (v : List Sblock) :
    spec_rewrite dom [.non_split, .non_trimmed] .non_tried
        (spec_rewrite dom [.non_split, .bad_sector] .non_trimmed v) =
      spec_rewrite dom [.non_trimmed, .non_split, .bad_sector] .non_tried v := by
  unfold spec_rewrite
  rw [List.map_map]
  apply List.map_congr_left
  intro sb _
  simp only [Function.comp]
  by_cases hin : dom.includes sb.block = true
  · obtain ⟨p, n, st⟩ := sb
    have hin2 : dom.includes (Sblock.block ⟨p, n, .non_trimmed⟩) = true := hin
    cases st <;> simp [hin, hin2]
  · have hin2 : dom.includes sb.block = false := by simpa using hin
    simp [hin2]

/-- C14: for a gap-free vector and a domain whose last extent ends last, the constructor
leaves the vector that the two rewrites of the spec give, `retrim` first (every Sblock included
in the domain with status `non_split` or `bad_sector` becomes `non_trimmed`), then `try_again`
(every such Sblock with status `non_split` or `non_trimmed` becomes `non_tried`).  With both
set, every Sblock included in the domain that was `non_trimmed`, `non_split` or `bad_sector`
ends as `non_tried` and every other Sblock is unchanged.  Positions and sizes never change. -/
theorem retrim_try_again_rewrites (lb : Rescuebook) (iname_ok : Bool)
    (hardbs max_errors max_retries : Int) (nosplit retrim sparse synchronous try_again : Bool)
    (hw : vector_wf lb.sblock_vector = true)
    (hd : ∀ x ∈ lb.domain.blocks, x.end_ ≤ lb.domain.end_) :
    (Rescuebook.create lb iname_ok hardbs max_errors max_retries nosplit retrim sparse
        synchronous try_again).sblock_vector =
      (if try_again = true then
        spec_rewrite lb.domain [.non_split, .non_trimmed] .non_tried
          (if retrim = true then
            spec_rewrite lb.domain [.non_split, .bad_sector] .non_trimmed lb.sblock_vector
           else lb.sblock_vector)
       else if retrim = true then
         spec_rewrite lb.domain [.non_split, .bad_sector] .non_trimmed lb.sblock_vector
       else lb.sblock_vector) ∧
    (retrim = true → try_again = true →
      (Rescuebook.create lb iname_ok hardbs max_errors max_retries nosplit retrim sparse
        synchronous try_again).sblock_vector =
      spec_rewrite lb.domain [.non_trimmed, .non_split, .bad_sector] .non_tried
        lb.sblock_vector) ∧
    (Rescuebook.create lb iname_ok hardbs max_errors max_retries nosplit retrim sparse
        synchronous try_again).sblock_vector.map Sblock.block =
      lb.sblock_vector.map Sblock.block := by
  obtain ⟨q, hq⟩ := (vector_wf_iff _).mp hw
  have h1 : ∀ v : List Sblock, wf_from q v = true →
      retrim_loop lb.domain v.length 0 v =
        spec_rewrite lb.domain [.non_split, .bad_sector] .non_trimmed v := by
    intro v hv
    have := retrim_loop_eq lb.domain v.length [] v (le_refl _)
    simp only [List.length_nil, List.nil_append] at this
    rw [this, rewrite_list_eq lb.domain _ _ hd v q hv]
  have h2 : ∀ v : List Sblock, wf_from q v = true →
      try_again_loop lb.domain v.length 0 v =
        spec_rewrite lb.domain [.non_split, .non_trimmed] .non_tried v := by
    intro v hv
    have := try_again_loop_eq lb.domain v.length [] v (le_refl _)
    simp only [List.length_nil, List.nil_append] at this
    rw [this, rewrite_list_eq lb.domain _ _ hd v q hv]
  have hblk : ∀ (olds : List Status) (st1 : Status) (v : List Sblock),
      (spec_rewrite lb.domain olds st1 v).map Sblock.block = v.map Sblock.block := by
    intro olds st1 v
    unfold spec_rewrite
    rw [List.map_map]
    apply List.map_congr_left
    intro sb _
    simp only [Function.comp]
    split_ifs <;> rfl
  have key : (Rescuebook.create lb iname_ok hardbs max_errors max_retries nosplit retrim sparse
        synchronous try_again).sblock_vector =
      (if try_again = true then
        spec_rewrite lb.domain [.non_split, .non_trimmed] .non_tried
          (if retrim = true then
            spec_rewrite lb.domain [.non_split, .bad_sector] .non_trimmed lb.sblock_vector
           else lb.sblock_vector)
       else if retrim = true then
         spec_rewrite lb.domain [.non_split, .bad_sector] .non_trimmed lb.sblock_vector
       else lb.sblock_vector) := by
    unfold Rescuebook.create
    simp only []
    cases retrim <;> cases try_again
    · rfl
    · simp only [Bool.false_eq_true, if_false, if_true]
      exact h2 _ hq
    · simp only [Bool.false_eq_true, if_false, if_true]
      exact h1 _ hq
    · simp only [if_true]
      rw [h1 _ hq]
      exact h2 _ (by rw [wf_from_spec_rewrite]; exact hq)
  refine ⟨key, ?_, ?_⟩
  · intro hr ht
    rw [key, if_pos ht, if_pos hr, spec_rewrite_twice]
  · rw [key]
    split_ifs <;> simp only [hblk]

theorem retrim_try_again_rewrites_witness :
    (Rescuebook.create demote_book false 2 (-1) 0 false true false false true).sblock_vector =
      [⟨0, 2, .finished⟩, ⟨2, 2, .non_tried⟩, ⟨4, 2, .non_tried⟩, ⟨6, 2, .non_tried⟩,
        ⟨8, 2, .non_tried⟩, ⟨10, 2, .bad_sector⟩] :=
  ((retrim_try_again_rewrites demote_book false 2 (-1) 0 false true false false true
    (by decide) (by decide)).2.1 rfl rfl).trans (by decide)

/-- Scenario S2 on the engine without its status display: pass 1 and the whole run, without a
limit on the errors, with `max_errors = 1` and with `max_errors = 0`. -/
theorem s2_run_without_display :
    summary_of (do_rescue 40 (s2_book (-1)) 3 4) =
      some (0, [⟨0, 1024, .finished⟩, ⟨1024, 512, .bad_sector⟩, ⟨1536, 2560, .finished⟩],
        3584, 512, 0) ∧
    summary_of (copy_non_tried 40 (rescue_start (s2_book (-1)) 3 4).2.2.2) =
      some (0, [⟨0, 1024, .finished⟩, ⟨1024, 512, .bad_sector⟩, ⟨1536, 2560, .non_trimmed⟩],
        1024, 3072, 0) ∧
    summary_of (copy_non_tried 40 (rescue_start (s2_book 1) 3 4).2.2.2) =
      some (0, [⟨0, 1024, .finished⟩, ⟨1024, 512, .bad_sector⟩, ⟨1536, 2560, .non_trimmed⟩],
        1024, 3072, 1) ∧
    summary_of (do_rescue 40 (s2_book 1) 3 4) =
      some (0, [⟨0, 1024, .finished⟩, ⟨1024, 512, .bad_sector⟩, ⟨1536, 2560, .finished⟩],
        3584, 512, 1) ∧
    (outcome_of (do_rescue 40 (s2_book 1) 3 4)).map (fun x => x.2.2) =
      some [⟨0, 512⟩, ⟨512, 3584⟩, ⟨3584, 512⟩, ⟨3072, 512⟩, ⟨2560, 512⟩, ⟨2048, 512⟩,
        ⟨1536, 512⟩] ∧
    summary_of (do_rescue 40 (s2_book 0) 3 4) =
      some (0, [⟨0, 1024, .finished⟩, ⟨1024, 512, .bad_sector⟩, ⟨1536, 2560, .non_trimmed⟩],
        1024, 3072, 1) := by
  refine ⟨?_, ?_, ?_, ?_, ?_, ?_⟩ <;> decide!

theorem sys_read_fields (w : World) (fd count : Int) :
    (sys_read w fd count).2.2.oracle = w.oracle ∧
    (sys_read w fd count).2.2.clock = w.clock + 1 ∧
    (sys_read w fd count).1 =
      (if (w.oracle w.clock).ret < 0 then -1 else min (w.oracle w.clock).ret count) ∧
    (sys_read w fd count).2.2.errno =
      (if (w.oracle w.clock).ret < 0 then (w.oracle w.clock).err else w.errno) := by
  unfold sys_read World.sys
  dsimp only
  split_ifs <;> exact ⟨rfl, rfl, rfl, rfl⟩

theorem sys_lseek_fields (w : World) (fd pos : Int) :
    (sys_lseek w fd pos).2.oracle = w.oracle ∧
    (sys_lseek w fd pos).2.clock = w.clock + 1 ∧
    (sys_lseek w fd pos).1 =
      (if (w.oracle w.clock).ret < 0 then -1 else (w.oracle w.clock).ret) ∧
    (sys_lseek w fd pos).2.errno =
      (if (w.oracle w.clock).ret < 0 then (w.oracle w.clock).err else w.errno) := by
  unfold sys_lseek World.sys
  dsimp only
  split_ifs <;> exact ⟨rfl, rfl, rfl, rfl⟩

theorem positive_total_succ (o : Nat → SysResult) (a n : Nat) :
    positive_total o a (n + 1) = max 0 (o a).ret + positive_total o (a + 1) n := rfl

theorem readblock_loop_clock (fuel : Nat) :
    ∀ (w : World) (fd : Int) (buf : List Nat) (size sz r : Int) (buf1 : List Nat) (w1 : World),
      readblock_loop fuel w fd buf size sz = some (r, buf1, w1) → w.clock ≤ w1.clock := by
  induction fuel with
  | zero => intro w fd buf size sz r buf1 w1 h; simp [readblock_loop] at h
  | succ n ih =>
    intro w fd buf size sz r buf1 w1 h
    rw [readblock_loop] at h
    by_cases hlt : sz < size
    · rw [if_pos hlt] at h
      simp only [] at h
      obtain ⟨-, hc, -, -⟩ := sys_read_fields { w with errno := 0 } fd (size - sz)
      generalize sys_read { w with errno := 0 } fd (size - sz) = x at hc h
      obtain ⟨k, data, w2⟩ := x
      simp only at hc h
      have hc2 : w.clock ≤ w2.clock := by rw [hc]; exact Nat.le_succ _
      split_ifs at h
      · exact le_trans hc2 (ih _ _ _ _ _ _ _ _ h)
      · cases h; exact hc2
      · cases h; exact hc2
      · exact le_trans hc2 (ih _ _ _ _ _ _ _ _ h)
    · rw [if_neg hlt] at h
      cases h
      exact le_refl _

theorem readblock_loop_total (fd size : Int) (fuel : Nat) :
    ∀ (w : World) (buf : List Nat) (sz r : Int) (buf1 : List Nat) (w1 : World),
      readblock_loop fuel w fd buf size sz = some (r, buf1, w1) →
      (∀ j, w.clock + j < w1.clock →
        (w.oracle (w.clock + j)).ret ≤ size - sz - positive_total w.oracle w.clock j) →
      w1.oracle = w.oracle ∧ w.clock ≤ w1.clock ∧
      r = sz + positive_total w.oracle w.clock (w1.clock - w.clock) ∧
      (sz < size → r < size → w.clock < w1.clock ∧
        (((w.oracle (w1.clock - 1)).ret = 0 ∧ w1.errno = 0) ∨
         ((w.oracle (w1.clock - 1)).ret < 0 ∧ (w.oracle (w1.clock - 1)).err ≠ EINTR ∧
            w1.errno = (w.oracle (w1.clock - 1)).err))) ∧
      (¬ sz < size → w1 = w ∧ r = sz) := by
  induction fuel with
  | zero => intro w buf sz r buf1 w1 h; simp [readblock_loop] at h
  | succ n ih =>
    intro w buf sz r buf1 w1 h hreq
    rw [readblock_loop] at h
    by_cases hlt : sz < size
    · rw [if_pos hlt] at h
      simp only [] at h
      obtain ⟨ho, hc, hr, he⟩ := sys_read_fields { w with errno := 0 } fd (size - sz)
      generalize sys_read { w with errno := 0 } fd (size - sz) = x at ho hc hr he h
      obtain ⟨k, data, w2⟩ := x
      simp only at ho hc hr he h
      have one : ∀ m : Nat, w.clock + 1 ≤ m → m - w.clock = (m - (w.clock + 1)) + 1 := by
        intro m hm; omega
      by_cases hk : k > 0
      · rw [if_pos hk] at h
        have hc1 : w.clock < w1.clock := by
          have := (readblock_loop_clock n _ _ _ _ _ _ _ _ h)
          rw [hc] at this; omega
        have h0 := hreq 0 (by omega)
        simp only [Nat.add_zero, positive_total, sub_zero] at h0
        have hnn : ¬ (w.oracle w.clock).ret < 0 := by
          intro hneg; rw [if_pos hneg] at hr; omega
        rw [if_neg hnn, min_eq_left h0] at hr
        have hmax : max 0 (w.oracle w.clock).ret = k := by rw [hr]; exact max_eq_right (by omega)
        have ih2 := ih w2 _ (sz + k) r buf1 w1 h (by
          intro j hj
          rw [ho, hc] at *
          have := hreq (j + 1) (by omega)
          rw [positive_total_succ, hmax] at this
          have e : w.clock + (j + 1) = w.clock + 1 + j := by omega
          rw [e] at this
          omega)
        rw [ho, hc] at ih2
        obtain ⟨i1, i2, i3, i4, i5⟩ := ih2
        refine ⟨i1, by omega, ?_, ?_, fun hx => absurd hlt hx⟩
        · rw [one _ hc1, positive_total_succ, hmax, i3]; ring
        · intro _ hrs
          by_cases hlt2 : sz + k < size
          · exact ⟨hc1, (i4 hlt2 hrs).2⟩
          · have := (i5 hlt2).2
            omega
      · rw [if_neg hk] at h
        have fin : some (sz, buf, w2) = some (r, buf1, w1) →
            ((w.oracle w.clock).ret = 0 ∧ w2.errno = 0) ∨
            ((w.oracle w.clock).ret < 0 ∧ (w.oracle w.clock).err ≠ EINTR ∧
              w2.errno = (w.oracle w.clock).err) →
            max 0 (w.oracle w.clock).ret = 0 →
            w1.oracle = w.oracle ∧ w.clock ≤ w1.clock ∧
            r = sz + positive_total w.oracle w.clock (w1.clock - w.clock) ∧
            (sz < size → r < size → w.clock < w1.clock ∧
              (((w.oracle (w1.clock - 1)).ret = 0 ∧ w1.errno = 0) ∨
               ((w.oracle (w1.clock - 1)).ret < 0 ∧ (w.oracle (w1.clock - 1)).err ≠ EINTR ∧
                  w1.errno = (w.oracle (w1.clock - 1)).err))) ∧
            (¬ sz < size → w1 = w ∧ r = sz) := by
          intro hx hcase hmax
          simp only [Option.some.injEq, Prod.mk.injEq] at hx
          obtain ⟨rfl, rfl, rfl⟩ := hx
          have e1 : w2.clock - w.clock = 0 + 1 := by rw [hc]; omega
          have e2 : w2.clock - 1 = w.clock := by rw [hc]; omega
          refine ⟨ho, by rw [hc]; omega, ?_, ?_, fun hx => absurd hlt hx⟩
          · rw [e1, positive_total_succ, hmax]; simp [positive_total]
          · intro _ _
            rw [e2]
            exact ⟨by rw [hc]; omega, hcase⟩
        by_cases hk0 : k = 0
        · rw [if_pos hk0] at h
          have hnn : ¬ (w.oracle w.clock).ret < 0 := by
            intro hneg; rw [if_pos hneg] at hr; omega
          rw [if_neg hnn] at hr he
          have h0 : (w.oracle w.clock).ret = 0 := by
            have : min (w.oracle w.clock).ret (size - sz) = 0 := by omega
            rcases min_choice (w.oracle w.clock).ret (size - sz) with hm | hm
            · omega
            · omega
          exact fin h (Or.inl ⟨h0, he⟩) (by rw [h0]; rfl)
        · rw [if_neg hk0] at h
          have hneg : (w.oracle w.clock).ret < 0 := by
            by_contra hc2
            rw [if_neg hc2] at hr
            have : min (w.oracle w.clock).ret (size - sz) ≥ 0 := by
              apply le_min <;> omega
            omega
          rw [if_pos hneg] at he
          by_cases hei : w2.errno ≠ EINTR
          · rw [if_pos hei] at h
            exact fin h (Or.inr ⟨hneg, by rw [← he]; exact hei, he⟩)
              (max_eq_left (by omega))
          · rw [if_neg hei] at h
            have hc1 : w.clock < w1.clock := by
              have := (readblock_loop_clock n _ _ _ _ _ _ _ _ h)
              rw [hc] at this; omega
            have hmax : max 0 (w.oracle w.clock).ret = 0 := max_eq_left (by omega)
            have ih2 := ih w2 _ sz r buf1 w1 h (by
              intro j hj
              rw [ho, hc] at *
              have := hreq (j + 1) (by omega)
              rw [positive_total_succ, hmax] at this
              have e : w.clock + (j + 1) = w.clock + 1 + j := by omega
              rw [e] at this
              omega)
            rw [ho, hc] at ih2
            obtain ⟨i1, i2, i3, i4, i5⟩ := ih2
            refine ⟨i1, by omega, ?_, ?_, fun hx => absurd hlt hx⟩
            · rw [one _ hc1, positive_total_succ, hmax, i3]; ring
            · intro _ hrs
              exact ⟨hc1, (i4 hlt hrs).2⟩
    · rw [if_neg hlt] at h
      simp only [Option.some.injEq, Prod.mk.injEq] at h
      obtain ⟨rfl, rfl, rfl⟩ := h
      refine ⟨rfl, le_refl _, ?_, fun hx => absurd hx hlt, fun _ => ⟨rfl, rfl⟩⟩
      simp [positive_total]

theorem readblock_loop_some (N : Nat) (fd size : Int) (fuel : Nat) :
    ∀ (w : World) (buf : List Nat) (sz : Int),
      (∀ k, N ≤ k → ¬ ((w.oracle k).ret < 0 ∧ (w.oracle k).err = EINTR)) →
      (N - w.clock) + (size - sz).toNat + 1 ≤ fuel →
      (readblock_loop fuel w fd buf size sz).isSome = true := by
  induction fuel with
  | zero => intro w buf sz _ h; omega
  | succ n ih =>
    intro w buf sz hN hf
    rw [readblock_loop]
    by_cases hlt : sz < size
    · rw [if_pos hlt]
      simp only []
      obtain ⟨ho, hc, hr, he⟩ := sys_read_fields { w with errno := 0 } fd (size - sz)
      generalize sys_read { w with errno := 0 } fd (size - sz) = x at ho hc hr he
      obtain ⟨k, data, w1⟩ := x
      simp only at ho hc hr he ⊢
      by_cases hk : k > 0
      · rw [if_pos hk]
        apply ih
        · rw [ho]; exact hN
        · rw [hc]
          have : (size - (sz + k)).toNat + 1 ≤ (size - sz).toNat := by omega
          omega
      · rw [if_neg hk]
        by_cases hk0 : k = 0
        · rw [if_pos hk0]; rfl
        · rw [if_neg hk0]
          by_cases hei : w1.errno ≠ EINTR
          · rw [if_pos hei]; rfl
          · rw [if_neg hei]
            have hneg : (w.oracle w.clock).ret < 0 := by
              by_contra hc2
              rw [if_neg hc2] at hr
              have : min (w.oracle w.clock).ret (size - sz) ≥ 0 := by
                apply le_min <;> omega
              omega
            rw [if_pos hneg] at he
            have hclk : w.clock < N := by
              by_contra hc2
              exact hN w.clock (by omega) ⟨hneg, by rw [← he]; exact not_not.mp hei⟩
            apply ih
            · rw [ho]; exact hN
            · rw [hc]; omega
    · rw [if_neg hlt]; rfl

/-- C16: for `size ≥ 0`, `readblock` returns as soon as the fuel covers `size` reads and the
reads that fail with `EINTR` (here: none of the answers from index `N` on is such a failure).
When it returns, and every read returned at most the bytes still requested, the result is the
total of the positive results of the reads made (the answers after the one to the seek), and
`0 ≤ result ≤ size`; so a read that fails with `EINTR` adds nothing and takes nothing away,
and it is never the last read of a short result.  When `result < size`, `errno` is 0 exactly
when the seek succeeded and the last read returned 0; otherwise `errno` is the error of the
last call, the failed seek or read, which is not 0. -/
theorem readblock_total (fuel : Nat) (w : World) (fd : Int) (buf : List Nat) (size pos : Int)
    (hs : 0 ≤ size) :
    (∀ N, (∀ k, N ≤ k → ¬ ((w.oracle k).ret < 0 ∧ (w.oracle k).err = EINTR)) →
      (N - w.clock) + size.toNat + 1 ≤ fuel →
      (readblock fuel w fd buf size pos).isSome = true) ∧
    (∀ r buf1 w1, readblock fuel w fd buf size pos = some (r, buf1, w1) →
      (∀ k, k < w1.clock → (w.oracle k).ret < 0 → (w.oracle k).err ≠ 0) →
      (∀ j, j < w1.clock - (w.clock + 1) →
        (w.oracle (w.clock + 1 + j)).ret ≤ size - positive_total w.oracle (w.clock + 1) j) →
      0 ≤ r ∧ r ≤ size ∧ w.clock < w1.clock ∧
      r = positive_total w.oracle (w.clock + 1) (w1.clock - (w.clock + 1)) ∧
      (r < size →
        (w1.errno = 0 ↔
          (0 ≤ (w.oracle w.clock).ret ∧ (w.oracle (w1.clock - 1)).ret = 0)) ∧
        (w1.errno ≠ 0 →
          (w.oracle (w1.clock - 1)).ret < 0 ∧ w1.errno = (w.oracle (w1.clock - 1)).err ∧
            (0 ≤ (w.oracle w.clock).ret → (w.oracle (w1.clock - 1)).err ≠ EINTR)))) := by
  obtain ⟨ho, hc, hr, he⟩ := sys_lseek_fields { w with errno := 0 } fd pos
  refine ⟨?_, ?_⟩
  · intro N hN hf
    unfold readblock
    simp only []
    generalize sys_lseek { w with errno := 0 } fd pos = x at ho hc hr he
    obtain ⟨k, w2⟩ := x
    simp only at ho hc hr he ⊢
    by_cases hk : k ≥ 0
    · rw [if_pos hk]
      apply readblock_loop_some N
      · rw [ho]; exact hN
      · rw [hc]
        simp only [sub_zero]
        omega
    · rw [if_neg hk]; rfl
  · intro r buf1 w1 h herr hreq
    have hb := readblock_bounds _ _ _ _ _ _ _ _ _ h hs
    unfold readblock at h
    simp only [] at h
    generalize sys_lseek { w with errno := 0 } fd pos = x at ho hc hr he h
    obtain ⟨k, w2⟩ := x
    simp only at ho hc hr he h
    by_cases hk : k ≥ 0
    · rw [if_pos hk] at h
      have hnn : ¬ (w.oracle w.clock).ret < 0 := by
        intro hneg; rw [if_pos hneg] at hr; omega
      have hcl := readblock_loop_clock _ _ _ _ _ _ _ _ _ h
      obtain ⟨i1, i2, i3, i4, i5⟩ := readblock_loop_total fd size fuel w2 buf 0 r buf1 w1 h (by
        intro j hj
        rw [ho, hc] at *
        have := hreq j (by omega)
        omega)
      rw [ho, hc] at *
      refine ⟨hb.1, hb.2, by omega, by rw [i3]; ring, ?_⟩
      intro hrs
      have hsz : (0 : Int) < size := by omega
      obtain ⟨j1, j2⟩ := i4 hsz hrs
      rcases j2 with ⟨a1, a2⟩ | ⟨a1, a2, a3⟩
      · exact ⟨⟨fun _ => ⟨by omega, a1⟩, fun _ => a2⟩, fun hx => absurd a2 hx⟩
      · have hne : w1.errno ≠ 0 := by
          rw [a3]; exact herr _ (by omega) a1
        exact ⟨⟨fun hx => absurd hx hne, fun hx => by omega⟩, fun _ => ⟨a1, a3, fun _ => a2⟩⟩
    · rw [if_neg hk] at h
      simp only [Option.some.injEq, Prod.mk.injEq] at h
      obtain ⟨rfl, rfl, rfl⟩ := h
      have hneg : (w.oracle w.clock).ret < 0 := by
        by_contra hc2
        rw [if_neg hc2] at hr
        omega
      rw [if_pos hneg] at he
      have e1 : w2.clock - (w.clock + 1) = 0 := by rw [hc]; omega
      have e2 : w2.clock - 1 = w.clock := by rw [hc]; omega
      have hne : w2.errno ≠ 0 := by
        rw [he]; exact herr _ (by rw [hc]; omega) hneg
      refine ⟨le_refl _, hs, by rw [hc]; omega, by rw [e1]; rfl, fun _ => ?_⟩
      rw [e2]
      exact ⟨⟨fun hx => absurd hx hne, fun hx => by omega⟩,
        fun _ => ⟨hneg, he, fun hx => by omega⟩⟩

theorem readblock_total_witness :
    (readblock 10 (script_world eintr_script 0) 3 [0, 0, 0, 0] 4 0).isSome = true ∧
    read_outcome (readblock 10 (script_world eintr_script 0) 3 [0, 0, 0, 0] 4 0) =
      some (3, [7, 8, 9, 0], 5, 5) ∧
    positive_total (script_world eintr_script 0).oracle 1 4 = 3 ∧
    ((3 : Int) < 4 → ((5 : Int) = 0 ↔
        (0 ≤ ((script_world eintr_script 0).oracle 0).ret ∧
          ((script_world eintr_script 0).oracle 4).ret = 0)) ∧
      ((5 : Int) ≠ 0 → ((script_world eintr_script 0).oracle 4).ret < 0 ∧
        (5 : Int) = ((script_world eintr_script 0).oracle 4).err ∧
        (0 ≤ ((script_world eintr_script 0).oracle 0).ret →
          ((script_world eintr_script 0).oracle 4).err ≠ EINTR))) :=
  ⟨(readblock_total 10 (script_world eintr_script 0) 3 [0, 0, 0, 0] 4 0 (by decide)).1 5
      (fun k hk h => by
        have e : (script_world eintr_script 0).oracle k = ⟨0, 0, []⟩ :=
          List.getD_eq_default _ _ (by simpa [eintr_script] using hk)
        rw [e] at h
        exact absurd h.1 (by decide))
      (by decide),
   by decide, by decide,
   ((readblock_total 10 (script_world eintr_script 0) 3 [0, 0, 0, 0] 4 0 (by decide)).2 3
      [7, 8, 9, 0] (world_of3 (readblock 10 (script_world eintr_script 0) 3 [0, 0, 0, 0] 4 0)
        (script_world eintr_script 0)) (by rfl) (by decide) (by decide)).2.2.2.2⟩

theorem copy_non_tried_loop_unfold (n : Nat) (rb : Rescuebook) (pos skip : Int) :
    copy_non_tried_loop (n + 1) rb pos skip =
      match copy_non_tried_step n rb pos skip with
      | none => none
      | some (.inl res) => some res
      | some (.inr (rb2, pos1, skip1)) => copy_non_tried_loop n rb2 pos1 skip1 := by
  rw [copy_non_tried_loop, copy_non_tried_step]
  simp only []
  by_cases hpos : pos ≥ 0
  · rw [if_pos hpos, if_pos hpos]
    generalize find_chunk rb.sblock_vector rb.domain
      ⟨pos, if skip ≠ 0 then rb.hardbs else rb.softbs⟩ .non_tried = B
    by_cases hb : B.end_ < 0 ∨ B.size ≤ 0
    · rw [if_pos hb, if_pos hb]
    · rw [if_neg hb, if_neg hb]
      cases copy_non_tried_unit n rb B B.end_ (if pos ≠ B.pos then 0 else skip) with
      | none => rfl
      | some x =>
        obtain ⟨r0, rb1, pos1, skip1⟩ := x
        simp only []
        by_cases ht : r0 ≠ 0 ∨ too_many_errors rb1 = true
        · rw [if_pos ht, if_pos ht]
        · rw [if_neg ht, if_neg ht]
          generalize update_logfile rb1 = ul
          obtain ⟨ok, rb2⟩ := ul
          cases ok <;> rfl
  · rw [if_neg hpos, if_neg hpos]

theorem copy_non_tried_step_skip (fuel : Nat) (rb : Rescuebook) (pos skip : Int)
    (rb2 : Rescuebook) (pos1 skip1 : Int) (h0 : 0 ≤ skip) (h1 : skip < LLONG_MAX / 2)
    (hs : rb.skipbs_ < LLONG_MAX / 2)
    (h : copy_non_tried_step fuel rb pos skip = some (.inr (rb2, pos1, skip1))) :
    0 ≤ skip1 ∧ skip1 < LLONG_MAX / 2 ∧ rb2.skipbs_ = rb.skipbs_ := by
  unfold copy_non_tried_step at h
  simp only [] at h
  by_cases hpos : pos ≥ 0
  · rw [if_pos hpos] at h
    generalize find_chunk rb.sblock_vector rb.domain
      ⟨pos, if skip ≠ 0 then rb.hardbs else rb.softbs⟩ .non_tried = B at h
    by_cases hb : B.end_ < 0 ∨ B.size ≤ 0
    · rw [if_pos hb] at h; cases h
    · rw [if_neg hb] at h
      cases hun : copy_non_tried_unit fuel rb B B.end_ (if pos ≠ B.pos then 0 else skip) with
      | none => rw [hun] at h; cases h
      | some x =>
        obtain ⟨r0, rb1, p1, s1⟩ := x
        rw [hun] at h
        simp only [] at h
        obtain ⟨c, e, rbc, hcu, -, hsc, hsk⟩ := copy_non_tried_unit_result _ _ _ _ _ _ _ _ _ hun
        obtain ⟨-, -, -, hsc0, -⟩ := copy_and_update_result _ _ _ _ _ _ _ _ hcu
        have hk1 : rbc.skipbs_ = rb.skipbs_ := (same_config_fields hsc0).2.2.2.1
        have hk2 : rb1.skipbs_ = rbc.skipbs_ := (same_config_fields hsc).2.2.2.1
        have hres : 0 ≤ s1 ∧ s1 < LLONG_MAX / 2 := by
          rw [hsk, hk1]
          have hq : LLONG_MAX / 4 = 2305843009213693951 := by decide
          have hh : LLONG_MAX / 2 = 4611686018427387903 := by decide
          rw [hq]
          rw [hh] at h1 hs ⊢
          have hk : 0 ≤ (if pos ≠ B.pos then 0 else skip) ∧
              (if pos ≠ B.pos then 0 else skip) < 4611686018427387903 := by
            split_ifs <;> constructor <;> omega
          generalize (if pos ≠ B.pos then 0 else skip) = k at hk ⊢
          split_ifs <;> omega
        by_cases ht : r0 ≠ 0 ∨ too_many_errors rb1 = true
        · rw [if_pos ht] at h; cases h
        · rw [if_neg ht] at h
          have hlk : (update_logfile rb1).2.skipbs_ = rb1.skipbs_ := rfl
          generalize update_logfile rb1 = ul at h hlk
          obtain ⟨ok, rb3⟩ := ul
          cases ok
          · simp only [] at h; cases h
          · simp only [Option.some.injEq, Sum.inr.injEq, Prod.mk.injEq] at h
            obtain ⟨rfl, rfl, rfl⟩ := h
            exact ⟨hres.1, hres.2, by rw [hlk, hk2, hk1]⟩
  · rw [if_neg hpos] at h; cases h

theorem copy_non_tried_head_skip (fuel n : Nat) :
    ∀ (rb : Rescuebook) (pos skip : Int) (rb2 : Rescuebook) (pos1 skip1 : Int),
      0 ≤ skip → skip < LLONG_MAX / 2 → rb.skipbs_ < LLONG_MAX / 2 →
      copy_non_tried_head fuel n rb pos skip = some (rb2, pos1, skip1) →
      0 ≤ skip1 ∧ skip1 < LLONG_MAX / 2 ∧ rb2.skipbs_ = rb.skipbs_ := by
  induction n generalizing fuel with
  | zero =>
    intro rb pos skip rb2 pos1 skip1 h0 h1 _ h
    cases fuel <;>
    · simp only [copy_non_tried_head, Option.some.injEq, Prod.mk.injEq] at h
      obtain ⟨rfl, rfl, rfl⟩ := h
      exact ⟨h0, h1, rfl⟩
  | succ n ih =>
    intro rb pos skip rb2 pos1 skip1 h0 h1 hs h
    cases fuel with
    | zero => simp [copy_non_tried_head] at h
    | succ fuel =>
      rw [copy_non_tried_head] at h
      cases hst : copy_non_tried_step fuel rb pos skip with
      | none => rw [hst] at h; cases h
      | some x =>
        rw [hst] at h
        cases x with
        | inl res => cases h
        | inr y =>
          obtain ⟨rb3, p3, s3⟩ := y
          simp only [] at h
          obtain ⟨a1, a2, a3⟩ := copy_non_tried_step_skip _ _ _ _ _ _ _ h0 h1 hs hst
          obtain ⟨b1, b2, b3⟩ := ih fuel rb3 p3 s3 rb2 pos1 skip1 a1 a2 (by rw [a3]; exact hs) h
          exact ⟨b1, b2, by rw [b3, a3]⟩

theorem copy_non_tried_loop_head (n : Nat) :
    ∀ (fuel : Nat) (rb : Rescuebook) (pos skip : Int) (rb2 : Rescuebook) (pos1 skip1 : Int),
      copy_non_tried_head fuel n rb pos skip = some (rb2, pos1, skip1) →
      n ≤ fuel ∧ copy_non_tried_loop fuel rb pos skip =
        copy_non_tried_loop (fuel - n) rb2 pos1 skip1 := by
  induction n with
  | zero =>
    intro fuel rb pos skip rb2 pos1 skip1 h
    cases fuel <;>
    · simp only [copy_non_tried_head, Option.some.injEq, Prod.mk.injEq] at h
      obtain ⟨rfl, rfl, rfl⟩ := h
      exact ⟨Nat.zero_le _, rfl⟩
  | succ n ih =>
    intro fuel rb pos skip rb2 pos1 skip1 h
    cases fuel with
    | zero => simp [copy_non_tried_head] at h
    | succ fuel =>
      rw [copy_non_tried_head] at h
      rw [copy_non_tried_loop_unfold]
      cases hst : copy_non_tried_step fuel rb pos skip with
      | none => rw [hst] at h; cases h
      | some x =>
        rw [hst] at h
        cases x with
        | inl res => cases h
        | inr y =>
          obtain ⟨rb3, p3, s3⟩ := y
          simp only [] at h ⊢
          obtain ⟨b1, b2⟩ := ih fuel rb3 p3 s3 rb2 pos1 skip1 h
          exact ⟨by omega, by rw [b2]; congr 1; omega⟩

theorem head_eq (x : Option (Rescuebook × Int × Int)) (d : Rescuebook)
    (h : x.isSome = true) :
    x = some (head_state_of x d, head_pos_of x, (skip_of x).getD 0) := by
  cases x with
  | none => cases h
  | some y => rfl

/-- C17 (the claim as stated fails): `skip_size` is doubled whenever it is below
`LLONG_MAX / 4`, so it can reach a value that is not below `LLONG_MAX / 4`.  With
`hardbs = 512`, `skipbs = 65536`, a non-tried Sblock `[0, LLONG_MAX)` and every read failing,
`skip_size` is `2^60` at the head of iteration 45 of the loop of `copy_non_tried` and
`2^61 = 2305843009213693952 > LLONG_MAX / 4` at the head of iteration 46. -/
theorem skip_size_passes_quarter :
    skip_book.hardbs = 512 ∧ skip_book.skipbs_ = 65536 ∧
    skip_of (copy_non_tried_head 100 45
      { skip_book with world := skip_book.world.note (.pass .copying) } 0 skip_book.hardbs) =
      some 1152921504606846976 ∧
    skip_of (copy_non_tried_head 100 46
      { skip_book with world := skip_book.world.note (.pass .copying) } 0 skip_book.hardbs) =
      some 2305843009213693952 ∧
    ¬ (2305843009213693952 < LLONG_MAX / 4) := by
  refine ⟨?_, ?_, ?_, ?_, ?_⟩ <;> decide!

/-- C17 (amended): in `copy_non_tried`, a work unit with `error_size > 0` sets `skip_size` to
`skipbs` if it was below `skipbs`, doubles it if it was not below `skipbs` but below
`LLONG_MAX / 4`, and leaves it as it is otherwise.  For `0 ≤ hardbs < LLONG_MAX / 2` and
`skipbs < LLONG_MAX / 2`, at the head of every iteration of the loop of the pass, whatever the
outcomes of the reads, `0 ≤ skip_size < LLONG_MAX / 2`; the iteration heads are the states
through which the pass runs. -/
theorem skip_size_bounded (fuel n : Nat) (rb : Rescuebook) (hh0 : 0 ≤ rb.hardbs)
    (hh1 : rb.hardbs < LLONG_MAX / 2) (hs : rb.skipbs_ < LLONG_MAX / 2) :
    (∀ b pos skip r rb1 pos1 skip1,
      copy_non_tried_unit fuel rb b pos skip = some (r, rb1, pos1, skip1) →
      ∃ c e rb2, copy_and_update fuel { rb with current_status := .copying } b
          (if skip ≠ 0 then .bad_sector else .non_trimmed) = some (r, c, e, rb2) ∧
        (e > 0 → skip1 = if skip < rb.skipbs_ then rb.skipbs_
          else if skip < LLONG_MAX / 4 then skip * 2 else skip)) ∧
    (∀ rb2 pos1 skip1,
      copy_non_tried_head fuel n { rb with world := rb.world.note (.pass .copying) } 0
        rb.hardbs = some (rb2, pos1, skip1) →
      0 ≤ skip1 ∧ skip1 < LLONG_MAX / 2 ∧ n ≤ fuel ∧
        copy_non_tried fuel rb = copy_non_tried_loop (fuel - n) rb2 pos1 skip1) := by
  refine ⟨?_, ?_⟩
  · intro b pos skip r rb1 pos1 skip1 hu
    obtain ⟨c, e, rbc, hcu, -, -, hsk⟩ := copy_non_tried_unit_result _ _ _ _ _ _ _ _ _ hu
    obtain ⟨-, -, -, hsc0, -⟩ := copy_and_update_result _ _ _ _ _ _ _ _ hcu
    have hk1 : rbc.skipbs_ = rb.skipbs_ := (same_config_fields hsc0).2.2.2.1
    refine ⟨c, e, rbc, hcu, fun he => ?_⟩
    rw [hsk, if_pos he, hk1]
  · intro rb2 pos1 skip1 h
    obtain ⟨a1, a2, -⟩ := copy_non_tried_head_skip fuel n
      { rb with world := rb.world.note (.pass .copying) } 0 rb.hardbs rb2 pos1 skip1 hh0 hh1 hs h
    obtain ⟨b1, b2⟩ := copy_non_tried_loop_head n fuel _ _ _ _ _ _ h
    exact ⟨a1, a2, b1, b2⟩

theorem skip_size_bounded_witness :
    skip_of (copy_non_tried_head 100 46
      { skip_book with world := skip_book.world.note (.pass .copying) } 0 skip_book.hardbs) =
      some 2305843009213693952 ∧
    0 ≤ (skip_of (copy_non_tried_head 100 46
      { skip_book with world := skip_book.world.note (.pass .copying) } 0
        skip_book.hardbs)).getD 0 ∧
    (skip_of (copy_non_tried_head 100 46
      { skip_book with world := skip_book.world.note (.pass .copying) } 0
        skip_book.hardbs)).getD 0 < LLONG_MAX / 2 :=
  ⟨by decide!,
   let h := (skip_size_bounded 100 46 skip_book (by decide!) (by decide!) (by decide!)).2 _ _ _
     (head_eq (copy_non_tried_head 100 46
        { skip_book with world := skip_book.world.note (.pass .copying) } 0 skip_book.hardbs)
        skip_book (by decide!))
   ⟨h.1, h.2.1⟩⟩

theorem find_index_spec (v : List Sblock) (p : Int) :
    ∀ sb, sblock v (find_index v p) = some sb →
      0 ≤ find_index v p ∧ sb.pos ≤ p ∧ p < sb.end_ := by
  induction v with
  | nil => intro sb h; simp [sblock, find_index] at h
  | cons x r ih =>
    intro sb h
    unfold find_index at h ⊢
    by_cases hin : x.pos ≤ p ∧ p < x.end_
    · rw [if_pos hin] at h ⊢
      simp only [sblock, lt_self_iff_false, if_false, Int.toNat_zero, List.getElem?_cons_zero,
        Option.some.injEq] at h
      subst h
      exact ⟨le_refl _, hin.1, hin.2⟩
    · rw [if_neg hin] at h ⊢
      simp only [] at h ⊢
      by_cases hi : find_index r p < 0
      · rw [if_pos hi] at h
        simp [sblock] at h
      · rw [if_neg hi] at h ⊢
        have h2 : sblock r (find_index r p) = some sb := by
          unfold sblock at h ⊢
          rw [if_neg (by omega)] at h
          rw [if_neg hi]
          have e : (find_index r p + 1).toNat = (find_index r p).toNat + 1 := by omega
          rw [e, List.getElem?_cons_succ] at h
          exact h
        obtain ⟨a1, a2, a3⟩ := ih sb h2
        exact ⟨by omega, a2, a3⟩

theorem copy_and_update_vector (fuel : Nat) (rb : Rescuebook) (b : Block) (st : Status)
    (r c e : Int) (rb2 : Rescuebook) (q : Int) (hw : wf_from q rb.sblock_vector = true)
    (hh : 0 < rb.hardbs) (h : copy_and_update fuel rb b st = some (r, c, e, rb2)) :
    wf_from q rb2.sblock_vector = true ∧ 0 ≤ c ∧ 0 ≤ e ∧ c + e ≤ b.size ∧ 0 < b.size ∧
      same_config rb rb2 ∧
      ((rb2.sblock_vector = marked_vector rb.sblock_vector b st rb.hardbs c e ∧
          (e = 0 ∨ c + e = b.size) ∧
          ∀ p, statusAt rb2.sblock_vector p =
            marked_status (statusAt rb.sblock_vector p) b st rb.hardbs c e p) ∨
       (rb2.sblock_vector = rb.sblock_vector ∧ c = 0 ∧ e = 0 ∧ r = 1)) := by
  obtain ⟨r0, rb1, hcb, hsc, -, -, hres⟩ := copy_and_update_result _ _ _ _ _ _ _ _ h
  obtain ⟨hbs, hio, hcase⟩ := copy_block_result _ _ _ _ _ _ _ hcb
  have hv := (io_frame_fields hio).1
  rcases hres with ⟨h0, -, hmv, -⟩ | ⟨h0, h1, h2⟩
  · rcases hcase with ⟨-, hc, he, hce, hor⟩ | ⟨h01, -⟩
    · refine ⟨by rw [hmv]; exact wf_from_marked_vector _ _ _ _ _ _ _ hw, hc, he, hce, hbs, hsc,
        Or.inl ⟨hmv, hor, fun p => ?_⟩⟩
      rw [hmv]
      exact statusAt_marked_vector _ _ _ _ _ _ _ (wf_from_sizes_nonneg _ _ hw) hc he hh
    · exact absurd (h0.symm.trans h01) (by decide)
  · rcases hcase with ⟨h00, -⟩ | ⟨h01, hc, he, -⟩
    · exact absurd h00 h0
    · subst h2
      refine ⟨by rw [hv]; exact hw, by omega, by omega, by omega, hbs, hsc,
        Or.inr ⟨hv, hc, he, by rw [h1, h01]⟩⟩

/-- C18: in a work unit of `trim_errors` on block `b` (a vector without gaps that starts at a
position `≥ 0`), when `error_size > 0` and the Sblock at `find_index(b.pos - 1)` is still
`non_trimmed` and within the domain, that whole Sblock gets status `non_split` and no byte
outside it changes; in every other case the vector stays as `copy_and_update` left it; and
`copy_and_update` itself gives no byte the status `non_split`. -/
theorem trim_errors_promotion (fuel : Nat) (rb : Rescuebook) (b : Block) (r c e : Int)
    (rb2 : Rescuebook) (q : Int) (hw : wf_from q rb.sblock_vector = true) (hq : 0 ≤ q)
    (hh : 0 < rb.hardbs)
    (hcu : copy_and_update fuel { rb with current_status := .trimming } b .bad_sector =
      some (r, c, e, rb2)) :
    ∃ rb1, trim_errors_unit fuel rb b = some (r, rb1) ∧
      (∀ sb, spec_promoted rb2.sblock_vector rb2.domain b.pos e = some sb →
        rb1.sblock_vector = change_chunk_status rb2.sblock_vector sb.block .non_split ∧
        (∀ p, sb.pos ≤ p → p < sb.end_ → statusAt rb1.sblock_vector p = some .non_split) ∧
        (∀ p, ¬ (sb.pos ≤ p ∧ p < sb.end_) →
          statusAt rb1.sblock_vector p = statusAt rb2.sblock_vector p)) ∧
      (spec_promoted rb2.sblock_vector rb2.domain b.pos e = none →
        rb1.sblock_vector = rb2.sblock_vector) ∧
      (∀ p, statusAt rb2.sblock_vector p = some .non_split →
        statusAt rb.sblock_vector p = some .non_split) := by
  obtain ⟨hw2, hc, he, hce, hbs, hsc, hvec⟩ :=
    copy_and_update_vector fuel { rb with current_status := .trimming } b .bad_sector r c e rb2
      q hw hh hcu
  have hlast : ∀ p, statusAt rb2.sblock_vector p = some .non_split →
      statusAt rb.sblock_vector p = some .non_split := by
    intro p hp
    rcases hvec with ⟨-, -, hst⟩ | ⟨hv, -⟩
    · rw [hst p] at hp
      unfold marked_status at hp
      cases hold : statusAt rb.sblock_vector p with
      | none => rw [hold] at hp; simp at hp
      | some s =>
        rw [hold] at hp
        simp only [Option.map_some'] at hp
        split_ifs at hp <;> first | exact hp | (exfalso; simp at hp)
    · rw [hv] at hp; exact hp
  have hneg : ∀ sb, sblock rb2.sblock_vector (find_index rb2.sblock_vector (b.pos - 1)) =
      some sb → b.pos > 0 ∧ find_index rb2.sblock_vector (b.pos - 1) ≥ 0 := by
    intro sb hsb
    obtain ⟨a1, a2, a3⟩ := find_index_spec _ _ sb hsb
    have := (wf_from_pos_ge _ _ hw2 sb (sblock_mem _ _ _ hsb)).1
    exact ⟨by omega, a1⟩
  have nomatch_some : ∀ {α : Type} {P : α → Prop}, ∀ x : α, (none : Option α) = some x → P x :=
    fun x h => Option.noConfusion h
  unfold spec_promoted
  simp only [trim_errors_unit, hcu]
  by_cases hep : e > 0
  · rw [if_pos hep]
    cases hsb : sblock rb2.sblock_vector (find_index rb2.sblock_vector (b.pos - 1)) with
    | none =>
      by_cases hbp : e > 0 ∧ b.pos > 0
      · rw [if_pos hbp]
        simp only [hsb]
        exact ⟨_, rfl, nomatch_some, fun _ => rfl, hlast⟩
      · rw [if_neg hbp]
        exact ⟨_, rfl, nomatch_some, fun _ => rfl, hlast⟩
    | some sb =>
      obtain ⟨hbp, hidx⟩ := hneg sb hsb
      rw [if_pos ⟨hep, hbp⟩]
      simp only [hsb]
      by_cases hcond : sb.status = .non_trimmed ∧ rb2.domain.includes sb.block = true
      · rw [if_pos hcond, if_pos ⟨hidx, hcond.2, hcond.1⟩]
        refine ⟨_, rfl, ?_, fun h => Option.noConfusion h, hlast⟩
        intro sb9 h9
        simp only [Option.some.injEq] at h9
        subst h9
        have hsn := wf_from_sizes_nonneg _ _ hw2
        refine ⟨rfl, fun p h1 h2 => ?_, fun p hp => ?_⟩
        · show statusAt (change_chunk_status rb2.sblock_vector sb.block .non_split) p = _
          rw [statusAt_change_chunk_status _ _ _ _ hsn,
            if_pos (show sb.block.pos ≤ p ∧ p < sb.block.end_ from ⟨h1, h2⟩),
            statusAt_of_mem _ _ hw2 sb (sblock_mem _ _ _ hsb) p h1 h2]
          rfl
        · show statusAt (change_chunk_status rb2.sblock_vector sb.block .non_split) p = _
          rw [statusAt_change_chunk_status _ _ _ _ hsn,
            if_neg (show ¬ (sb.block.pos ≤ p ∧ p < sb.block.end_) from hp)]
      · rw [if_neg hcond, if_neg (fun hx => hcond ⟨hx.2.2, hx.2.1⟩)]
        exact ⟨_, rfl, nomatch_some, fun _ => rfl, hlast⟩
  · rw [if_neg hep, if_neg (fun hx => hep hx.1)]
    exact ⟨_, rfl, nomatch_some, fun _ => rfl, hlast⟩

theorem trim_errors_promotion_witness :
    rfind_chunk promote_book.sblock_vector promote_book.domain
      ⟨LLONG_MAX - promote_book.hardbs, promote_book.hardbs⟩ .non_trimmed = ⟨2, 2⟩ ∧
    spec_promoted (state_of (copy_and_update 5
        { promote_book with current_status := .trimming } ⟨2, 2⟩ .bad_sector)
        promote_book).sblock_vector promote_book.domain 2 2 = some ⟨0, 2, .non_trimmed⟩ ∧
    (trim_errors_unit 5 promote_book ⟨2, 2⟩).map (fun x => x.2.sblock_vector) =
      some [⟨0, 2, .non_split⟩, ⟨2, 2, .bad_sector⟩] ∧
    ∃ rb1, trim_errors_unit 5 promote_book ⟨2, 2⟩ = some (0, rb1) ∧
      rb1.sblock_vector = change_chunk_status (state_of (copy_and_update 5
        { promote_book with current_status := .trimming } ⟨2, 2⟩ .bad_sector)
        promote_book).sblock_vector ⟨0, 2⟩ .non_split :=
  ⟨by decide, by decide, by decide,
   match trim_errors_promotion 5 promote_book ⟨2, 2⟩ 0 0 2
      (state_of (copy_and_update 5 { promote_book with current_status := .trimming } ⟨2, 2⟩
        .bad_sector) promote_book) 0 (by decide) (by decide) (by decide) (by rfl) with
   | ⟨rb1, h1, h2, _, _⟩ => ⟨rb1, h1, (h2 ⟨0, 2, .non_trimmed⟩ (by decide)).1⟩⟩

/-- C19: in a work unit of `split_errors` on chunk `b` (a vector without gaps, `hardbs > 0`),
entered with `pos = b.end` and the count `error_counter` of consecutive failures: after a
clean read `pos` is unchanged and the counter is 0.  `pos` changes only if the unit failed,
the count `n = error_counter + 1` satisfies `n ≥ 2` and `n * hardbs ≥ 2 * skipbs`, and the
Sblock that contains `pos` is `non_split` with size at least `2 * skipbs` and `4 * hardbs`;
that Sblock then starts at `pos`, the new position is `pos + (size / (2 * hardbs)) * hardbs`
with the floor division, a jump of at most half of its size, so it lies inside that Sblock,
and the counter is 0.  Under those conditions the jump does occur.  A failure that reaches the
threshold resets the counter also when there is no jump; a failure that does not reach it adds
1 to the counter. -/
theorem split_errors_jump (fuel : Nat) (rb : Rescuebook) (b : Block) (ec r c e : Int)
    (rb2 : Rescuebook) (q : Int) (hw : wf_from q rb.sblock_vector = true)
    (hh : 0 < rb.hardbs)
    (hcu : copy_and_update fuel { rb with current_status := .splitting } b .bad_sector =
      some (r, c, e, rb2)) :
    ∃ rb1 pos1 ec1, split_errors_unit fuel rb b b.end_ ec = some (r, rb1, pos1, ec1) ∧
      rb1.sblock_vector = rb2.sblock_vector ∧
      (e ≤ 0 → pos1 = b.end_ ∧ ec1 = 0) ∧
      (pos1 ≠ b.end_ →
        e > 0 ∧ ec + 1 ≥ 2 ∧ (ec + 1) * rb.hardbs ≥ 2 * rb.skipbs_ ∧ ec1 = 0 ∧
        ∃ sb, sblock rb1.sblock_vector (find_index rb1.sblock_vector b.end_) = some sb ∧
          sb.status = .non_split ∧ sb.pos = b.end_ ∧
          sb.size ≥ 2 * rb.skipbs_ ∧ sb.size ≥ 4 * rb.hardbs ∧
          pos1 = b.end_ + (sb.size / (2 * rb.hardbs)) * rb.hardbs ∧
          2 * (pos1 - b.end_) ≤ sb.size ∧ sb.pos < pos1 ∧ pos1 < sb.end_) ∧
      (∀ sb, e > 0 → ec + 1 ≥ 2 → (ec + 1) * rb.hardbs ≥ 2 * rb.skipbs_ →
        sblock rb1.sblock_vector (find_index rb1.sblock_vector b.end_) = some sb →
        sb.status = .non_split → sb.size ≥ 2 * rb.skipbs_ → sb.size ≥ 4 * rb.hardbs →
        pos1 = b.end_ + (sb.size / (2 * rb.hardbs)) * rb.hardbs) ∧
      (e > 0 → ec + 1 ≥ 2 → (ec + 1) * rb.hardbs ≥ 2 * rb.skipbs_ → ec1 = 0) ∧
      (e > 0 → ¬ (ec + 1 ≥ 2 ∧ (ec + 1) * rb.hardbs ≥ 2 * rb.skipbs_) →
        pos1 = b.end_ ∧ ec1 = ec + 1) := by
  obtain ⟨hw2, hc, he, hce, hbs, hsc, hvec⟩ :=
    copy_and_update_vector fuel { rb with current_status := .splitting } b .bad_sector r c e rb2
      q hw hh hcu
  have hhb : rb2.hardbs = rb.hardbs := (same_config_fields hsc).2.1
  have hsk : rb2.skipbs_ = rb.skipbs_ := (same_config_fields hsc).2.2.2.1
  -- the Sblock that contains `pos` after a failed unit starts at `pos`
  have hstart : ∀ sb, e > 0 →
      sblock rb2.sblock_vector (find_index rb2.sblock_vector b.end_) = some sb →
      sb.status = .non_split → sb.pos = b.end_ ∧ 0 < sb.size := by
    intro sb hep hsb hst
    obtain ⟨-, a2, a3⟩ := find_index_spec _ _ sb hsb
    have hm := sblock_mem _ _ _ hsb
    have hpos := wf_from_sizes_pos _ _ hw2 sb hm
    refine ⟨?_, hpos⟩
    by_contra hne
    have hlt : sb.pos ≤ b.end_ - 1 := by omega
    have h1 := statusAt_of_mem _ _ hw2 sb hm (b.end_ - 1) hlt (by omega)
    rcases hvec with ⟨-, hor, hstat⟩ | ⟨-, -, he0, -⟩
    · have hce2 : c + e = b.size := by omega
      rw [hstat, hst] at h1
      unfold marked_status at h1
      simp only [Block.end_] at h1
      rw [if_neg (by omega), if_neg (by omega), if_pos (by omega)] at h1
      cases hold : statusAt rb.sblock_vector (b.pos + b.size - 1) with
      | none => rw [hold] at h1; simp at h1
      | some s =>
        rw [hold] at h1
        simp at h1
    · omega
  have hsame : ∀ (sb sb9 : Sblock) (x : Rescuebook), x.sblock_vector = rb2.sblock_vector →
      sblock rb2.sblock_vector (find_index rb2.sblock_vector b.end_) = some sb →
      sblock x.sblock_vector (find_index x.sblock_vector b.end_) = some sb9 → sb9 = sb := by
    intro sb sb9 x hx h1 h2
    rw [hx, h1] at h2
    simp only [Option.some.injEq] at h2
    exact h2.symm
  have hnone : ∀ (sb9 : Sblock) (x : Rescuebook), x.sblock_vector = rb2.sblock_vector →
      sblock rb2.sblock_vector (find_index rb2.sblock_vector b.end_) = none →
      sblock x.sblock_vector (find_index x.sblock_vector b.end_) = some sb9 → False := by
    intro sb9 x hx h1 h2
    rw [hx, h1] at h2
    cases h2
  simp only [split_errors_unit, hcu, hhb, hsk]
  by_cases hep : e ≤ 0
  · rw [if_pos hep]
    refine ⟨_, _, _, rfl, rfl, ?_, ?_, ?_, ?_, ?_⟩
    · intro _; exact ⟨rfl, rfl⟩
    · intro hx; exact absurd rfl hx
    · intro _ h1; exact absurd h1 (by omega)
    · intro h1; exact absurd h1 (by omega)
    · intro h1; exact absurd h1 (by omega)
  · rw [if_neg hep]
    have hep2 : e > 0 := by omega
    by_cases hth : ec + 1 ≥ 2 ∧ (ec + 1) * rb.hardbs ≥ 2 * rb.skipbs_
    · rw [if_pos hth]
      cases hsb : sblock rb2.sblock_vector (find_index rb2.sblock_vector b.end_) with
      | none =>
        simp only []
        refine ⟨_, _, _, rfl, rfl, ?_, ?_, ?_, ?_, ?_⟩
        · intro h1; exact absurd h1 hep
        · intro hx; exact absurd rfl hx
        · intro sb9 _ _ _ h9; exact (hnone sb9 _ rfl hsb h9).elim
        · intro _ _ _; rfl
        · intro _ h1; exact absurd hth h1
      | some sb =>
        simp only []
        obtain ⟨-, a2, a3⟩ := find_index_spec _ _ sb hsb
        have hidx : find_index rb2.sblock_vector b.end_ ≥ 0 := (find_index_spec _ _ sb hsb).1
        by_cases hst : sb.status = .non_split
        · rw [if_pos ⟨hidx, hst⟩]
          obtain ⟨hsp, hsz⟩ := hstart sb hep2 hsb hst
          by_cases hbig : sb.size ≥ 2 * rb.skipbs_ ∧ sb.size ≥ 4 * rb.hardbs
          · rw [if_pos hbig]
            have hdiv : Int.tdiv sb.size (2 * rb.hardbs) = sb.size / (2 * rb.hardbs) :=
              Int.tdiv_eq_ediv (by omega) (by omega)
            rw [hdiv]
            have h2h : 0 < 2 * rb.hardbs := by omega
            have hle : sb.size / (2 * rb.hardbs) * (2 * rb.hardbs) ≤ sb.size :=
              Int.ediv_mul_le _ (by omega)
            have hge : 2 ≤ sb.size / (2 * rb.hardbs) := by
              apply Int.le_ediv_of_mul_le h2h
              omega
            have hd : 2 * (sb.size / (2 * rb.hardbs) * rb.hardbs) ≤ sb.size := by
              calc 2 * (sb.size / (2 * rb.hardbs) * rb.hardbs)
                  = sb.size / (2 * rb.hardbs) * (2 * rb.hardbs) := by ring
                _ ≤ sb.size := hle
            have hpos : 0 < sb.size / (2 * rb.hardbs) * rb.hardbs :=
              Int.mul_pos (by omega) hh
            refine ⟨_, _, _, rfl, rfl, ?_, ?_, ?_, ?_, ?_⟩
            · intro h1; exact absurd h1 hep
            · intro _
              refine ⟨hep2, hth.1, hth.2, rfl, sb, hsb, hst, hsp, hbig.1, hbig.2, rfl, ?_, ?_, ?_⟩
              · omega
              · omega
              · simp only [Sblock.end_]; omega
            · intro sb9 _ _ _ h9 _ _ _
              rw [hsame sb sb9 _ rfl hsb h9]
            · intro _ _ _; rfl
            · intro _ h1; exact absurd hth h1
          · rw [if_neg hbig]
            refine ⟨_, _, _, rfl, rfl, ?_, ?_, ?_, ?_, ?_⟩
            · intro h1; exact absurd h1 hep
            · intro hx; exact absurd rfl hx
            · intro sb9 _ _ _ h9 _ h10 h11
              rw [hsame sb sb9 _ rfl hsb h9] at h10 h11
              exact absurd ⟨h10, h11⟩ hbig
            · intro _ _ _; rfl
            · intro _ h1; exact absurd hth h1
        · rw [if_neg (fun hx => hst hx.2)]
          refine ⟨_, _, _, rfl, rfl, ?_, ?_, ?_, ?_, ?_⟩
          · intro h1; exact absurd h1 hep
          · intro hx; exact absurd rfl hx
          · intro sb9 _ _ _ h9 h10 _ _
            rw [hsame sb sb9 _ rfl hsb h9] at h10
            exact absurd h10 hst
          · intro _ _ _; rfl
          · intro _ h1; exact absurd hth h1
    · rw [if_neg hth]
      refine ⟨_, _, _, rfl, rfl, ?_, ?_, ?_, ?_, ?_⟩
      · intro h1; exact absurd h1 hep
      · intro hx; exact absurd rfl hx
      · intro _ _ h1 h2; exact absurd ⟨h1, h2⟩ hth
      · intro _ h1 h2; exact absurd ⟨h1, h2⟩ hth
      · intro _ _; exact ⟨rfl, rfl⟩

theorem split_errors_jump_witness :
    find_chunk jump_book.sblock_vector jump_book.domain ⟨2, jump_book.hardbs⟩ .non_split =
      ⟨2, 2⟩ ∧
    (split_errors_unit 5 jump_book ⟨2, 2⟩ 4 1).map (fun x => x.2.1.sblock_vector) =
      some [⟨0, 4, .bad_sector⟩, ⟨4, 12, .non_split⟩] ∧
    jump_of (split_errors_unit 5 jump_book ⟨2, 2⟩ 4 1) = some (10, 0) ∧
    ∃ rb1 pos1 ec1, split_errors_unit 5 jump_book ⟨2, 2⟩ 4 1 = some (0, rb1, pos1, ec1) ∧
      (pos1 ≠ 4 → ec1 = 0 ∧
        ∃ sb, sblock rb1.sblock_vector (find_index rb1.sblock_vector 4) = some sb ∧
          sb.status = .non_split ∧ sb.pos = 4 ∧
          pos1 = 4 + (sb.size / (2 * jump_book.hardbs)) * jump_book.hardbs ∧
          2 * (pos1 - 4) ≤ sb.size ∧ sb.pos < pos1 ∧ pos1 < sb.end_) :=
  ⟨by decide, by decide, by decide,
   match split_errors_jump 5 jump_book ⟨2, 2⟩ 1 0 0 2
      (state_of (copy_and_update 5 { jump_book with current_status := .splitting } ⟨2, 2⟩
        .bad_sector) jump_book) 0 (by decide) (by decide) (by rfl) with
   | ⟨rb1, pos1, ec1, h1, _, _, h4, _⟩ =>
     ⟨rb1, pos1, ec1, h1, fun hne =>
       match h4 hne with
       | ⟨_, _, _, k4, sb, k5, k6, k7, _, _, k10, k11, k12, k13⟩ =>
         ⟨k4, sb, k5, k6, k7, k10, k11, k12, k13⟩⟩⟩

theorem oracle_sys (w : World) (e : Event) : (w.sys e).2.oracle = w.oracle := rfl

theorem oracle_sys_read (w : World) (fd count : Int) :
    (sys_read w fd count).2.2.oracle = w.oracle := by
  unfold sys_read
  have := oracle_sys w (.read fd count)
  dsimp only
  split_ifs <;> exact this

theorem oracle_sys_write (w : World) (fd count : Int) :
    (sys_write w fd count).2.oracle = w.oracle := by
  unfold sys_write
  have := oracle_sys w (.write fd count)
  dsimp only
  split_ifs <;> exact this

theorem oracle_sys_lseek (w : World) (fd pos : Int) :
    (sys_lseek w fd pos).2.oracle = w.oracle := by
  unfold sys_lseek
  have := oracle_sys w (.lseek fd pos)
  dsimp only
  split_ifs <;> exact this

theorem oracle_sys_fsync (w : World) (fd : Int) :
    (sys_fsync w fd).2.oracle = w.oracle := by
  unfold sys_fsync
  have := oracle_sys w (.fsync fd)
  dsimp only
  split_ifs <;> exact this

theorem oracle_sys_access (w : World) :
    (sys_access w).2.oracle = w.oracle := by
  unfold sys_access
  have := oracle_sys w .access
  dsimp only
  split_ifs <;> exact this

theorem oracle_update_logfile (rb : Rescuebook) :
    (update_logfile rb).2.world.oracle = rb.world.oracle := by
  unfold update_logfile
  exact oracle_sys rb.world .logfile

theorem oracle_readblock_loop (fuel : Nat) :
    ∀ (w : World) (fd : Int) (buf : List Nat) (size sz r : Int) (buf1 : List Nat) (w1 : World),
      readblock_loop fuel w fd buf size sz = some (r, buf1, w1) →
        w1.oracle = w.oracle := by
  induction fuel with
  | zero => intro w fd buf size sz r buf1 w1 h; simp [readblock_loop] at h
  | succ n ih =>
    intro w fd buf size sz r buf1 w1 h
    simp only [readblock_loop] at h
    have ht := oracle_sys_read { w with errno := 0 } fd (size - sz)
    generalize sys_read { w with errno := 0 } fd (size - sz) = x at h ht
    obtain ⟨k, data, w2⟩ := x
    dsimp only at h ht
    split_ifs at h with h1 h2 h3 h4
    · rw [ih _ _ _ _ _ _ _ _ h, ht]
    · cases h; exact ht
    · cases h; exact ht
    · rw [ih _ _ _ _ _ _ _ _ h, ht]
    · cases h; rfl

theorem oracle_readblock (fuel : Nat) (w : World) (fd : Int) (buf : List Nat) (size pos r : Int)
    (buf1 : List Nat) (w1 : World) (h : readblock fuel w fd buf size pos = some (r, buf1, w1)) :
    w1.oracle = w.oracle := by
  unfold readblock at h
  dsimp only at h
  have ht := oracle_sys_lseek { w with errno := 0 } fd pos
  generalize sys_lseek { w with errno := 0 } fd pos = x at h ht
  obtain ⟨k, w2⟩ := x
  dsimp only at h ht
  split_ifs at h
  · rw [oracle_readblock_loop fuel _ _ _ _ _ _ _ _ h, ht]
  · cases h; exact ht

theorem oracle_writeblock_loop (fuel : Nat) :
    ∀ (w : World) (fd : Int) (size sz r : Int) (w1 : World),
      writeblock_loop fuel w fd size sz = some (r, w1) →
        w1.oracle = w.oracle := by
  induction fuel with
  | zero => intro w fd size sz r w1 h; simp [writeblock_loop] at h
  | succ n ih =>
    intro w fd size sz r w1 h
    simp only [writeblock_loop] at h
    have ht := oracle_sys_write { w with errno := 0 } fd (size - sz)
    generalize sys_write { w with errno := 0 } fd (size - sz) = x at h ht
    obtain ⟨k, w2⟩ := x
    dsimp only at h ht
    split_ifs at h with h1 h2 h3
    · rw [ih _ _ _ _ _ _ h, ht]
    · cases h; exact ht
    · rw [ih _ _ _ _ _ _ h, ht]
    · cases h; rfl

theorem oracle_writeblock (fuel : Nat) (w : World) (fd : Int) (size pos r : Int)
    (w1 : World) (h : writeblock fuel w fd size pos = some (r, w1)) :
    w1.oracle = w.oracle := by
  unfold writeblock at h
  dsimp only at h
  have ht := oracle_sys_lseek { w with errno := 0 } fd pos
  generalize sys_lseek { w with errno := 0 } fd pos = x at h ht
  obtain ⟨k, w2⟩ := x
  dsimp only at h ht
  split_ifs at h
  · rw [oracle_writeblock_loop fuel _ _ _ _ _ _ h, ht]
  · cases h; exact ht

theorem oracle_copy_block_read (fuel : Nat) (rb : Rescuebook) (b : Block) (c e : Int)
    (rb1 : Rescuebook) (h : copy_block_read fuel rb b = some (c, e, rb1)) :
    rb1.world.oracle = rb.world.oracle := by
  unfold copy_block_read at h
  split_ifs at h
  · cases hr : readblock fuel rb.world rb.ides_ rb.iobuf b.size b.pos with
    | none => rw [hr] at h; simp at h
    | some x =>
      obtain ⟨r, buf, w⟩ := x
      rw [hr] at h
      cases h
      exact oracle_readblock _ _ _ _ _ _ _ _ _ hr
  · cases h; rfl

theorem oracle_copy_block_write (fuel : Nat) (rb : Rescuebook) (b : Block) (c e r c1 e1 : Int)
    (rb1 : Rescuebook) (h : copy_block_write fuel rb b c e = some (r, c1, e1, rb1)) :
    rb1.world.oracle = rb.world.oracle := by
  unfold copy_block_write at h
  dsimp only at h
  split at h
  · split at h
    · cases h; rfl
    · split at h
      · cases h
      · rename_i wsz w1 hw
        have h1 := oracle_writeblock _ _ _ _ _ _ _ hw
        have h2 := oracle_sys_fsync w1 rb.odes_
        split at h
        · cases h; exact h1
        · split at h
          · split at h <;> cases h <;> exact h2.trans h1
          · cases h; exact h1
  · cases h; rfl

theorem oracle_copy_block (fuel : Nat) (rb : Rescuebook) (b : Block) (r c e : Int)
    (rb1 : Rescuebook) (h : copy_block fuel rb b = some (r, c, e, rb1)) :
    rb1.world.oracle = rb.world.oracle := by
  unfold copy_block at h
  split_ifs at h with hb
  cases hr : copy_block_read fuel { rb with world := rb.world.note (.copy_block b) } b with
  | none => rw [hr] at h; simp at h
  | some x =>
    obtain ⟨c0, e0, rb0⟩ := x
    rw [hr] at h
    dsimp only at h
    rw [oracle_copy_block_write _ _ _ _ _ _ _ _ _ h, oracle_copy_block_read _ _ _ _ _ _ hr]
    rfl

theorem sys_write_fields (w : World) (fd count : Int) :
    (sys_write w fd count).2.oracle = w.oracle ∧
    (sys_write w fd count).1 =
      (if (w.oracle w.clock).ret < 0 then -1 else min (w.oracle w.clock).ret count) ∧
    (sys_write w fd count).2.errno =
      (if (w.oracle w.clock).ret < 0 then (w.oracle w.clock).err else w.errno) := by
  unfold sys_write World.sys
  dsimp only
  split_ifs <;> exact ⟨rfl, rfl, rfl⟩

theorem writeblock_loop_some (fd size : Int) (fuel : Nat) :
    ∀ (w : World) (sz : Int), responsive w.oracle →
      (size - sz).toNat + 1 ≤ fuel → (writeblock_loop fuel w fd size sz).isSome = true := by
  induction fuel with
  | zero => intro w sz _ h; omega
  | succ n ih =>
    intro w sz hN hf
    rw [writeblock_loop]
    by_cases hlt : sz < size
    · rw [if_pos hlt]
      simp only []
      obtain ⟨ho, hr, he⟩ := sys_write_fields { w with errno := 0 } fd (size - sz)
      generalize sys_write { w with errno := 0 } fd (size - sz) = x at ho hr he
      obtain ⟨k, w1⟩ := x
      simp only at ho hr he ⊢
      obtain ⟨hr0, hre⟩ := hN w.clock
      by_cases hk : k > 0
      · rw [if_pos hk]
        apply ih
        · rw [ho]; exact hN
        · omega
      · rw [if_neg hk]
        have hneg : (w.oracle w.clock).ret < 0 := by
          by_contra hc2
          rw [if_neg hc2] at hr
          have : min (w.oracle w.clock).ret (size - sz) > 0 := by
            apply lt_min <;> omega
          omega
        rw [if_pos hneg] at hr he
        rw [if_pos ⟨by omega, by rw [he]; exact hre hneg⟩]
        rfl
    · rw [if_neg hlt]; rfl

theorem readblock_some (fuel : Nat) (w : World) (fd : Int) (buf : List Nat) (size pos : Int)
    (hr : responsive w.oracle) (hf : size.toNat + 1 ≤ fuel) :
    (readblock fuel w fd buf size pos).isSome = true := by
  unfold readblock
  simp only []
  have hol := oracle_sys_lseek { w with errno := 0 } fd pos
  generalize sys_lseek { w with errno := 0 } fd pos = y at hol
  obtain ⟨k, w2⟩ := y
  simp only at hol ⊢
  by_cases hk : k ≥ 0
  · rw [if_pos hk]
    exact readblock_loop_some 0 fd size fuel w2 buf 0
      (fun k _ hk => (hr k).2 (by rw [← hol]; exact hk.1) (by rw [← hol]; exact hk.2))
      (by simp only [sub_zero]; omega)
  · rw [if_neg hk]; rfl

theorem copy_block_some (fuel : Nat) (rb : Rescuebook) (b : Block)
    (hr : responsive rb.world.oracle) (hb : 0 < b.size) (hf : b.size.toNat + 1 ≤ fuel) :
    (copy_block fuel rb b).isSome = true := by
  unfold copy_block
  rw [if_neg (by omega)]
  unfold copy_block_read
  simp only []
  by_cases htd : (rb.test_domain.all fun td => td.includes b) = true
  · rw [if_pos htd]
    have hrs := readblock_some fuel (rb.world.note (.copy_block b)) rb.ides_ rb.iobuf b.size
      b.pos hr (by omega)
    cases hrd : readblock fuel (rb.world.note (.copy_block b)) rb.ides_ rb.iobuf b.size b.pos with
    | none => rw [hrd] at hrs; cases hrs
    | some x =>
      obtain ⟨c, buf, w⟩ := x
      simp only []
      have hbd := readblock_bounds _ _ _ _ _ _ _ _ _ hrd (by omega)
      have how := oracle_readblock _ _ _ _ _ _ _ _ _ hrd
      unfold copy_block_write
      simp only []
      by_cases hc : c > 0
      · rw [if_pos hc]
        split
        · rfl
        · unfold writeblock
          simp only []
          have hol := oracle_sys_lseek { w with errno := 0 } rb.odes_ (b.pos + rb.offset)
          generalize sys_lseek { w with errno := 0 } rb.odes_ (b.pos + rb.offset) = y at hol
          obtain ⟨k, w2⟩ := y
          simp only at hol ⊢
          by_cases hk : k ≥ 0
          · rw [if_pos hk]
            have hws := writeblock_loop_some rb.odes_ c fuel w2 0
              (by rw [hol, how]; exact hr) (by simp only [sub_zero]; omega)
            cases hwl : writeblock_loop fuel w2 rb.odes_ c 0 with
            | none => rw [hwl] at hws; cases hws
            | some z =>
              obtain ⟨wsz, w3⟩ := z
              simp only []
              split_ifs <;> rfl
          · rw [if_neg hk]
            simp only []
            split_ifs <;> rfl
      · rw [if_neg hc]; rfl
  · rw [if_neg htd]
    unfold copy_block_write
    simp only []
    rw [if_neg (by omega)]
    rfl

theorem io_completes_of_responsive (o : Nat → SysResult) (size : Int) (h : responsive o) :
    io_completes o (size.toNat + 1) size := by
  intro f rb b hf ho hb hs
  exact copy_block_some f rb b (by rw [ho]; exact h) hb (by omega)

theorem bytes_with_le (dom : Domain) (v w : List Sblock) (s : Status)
    (hsub : ∀ p, statusAt w p = some s → statusAt v p = some s) :
    bytes_with dom w s ≤ bytes_with dom v s := by
  unfold bytes_with
  apply Finset.card_le_card
  intro p hp
  simp only [Finset.mem_filter] at hp ⊢
  exact ⟨hp.1, hsub p hp.2⟩

theorem bytes_with_lt (dom : Domain) (v w : List Sblock) (s : Status)
    (hsub : ∀ p, statusAt w p = some s → statusAt v p = some s) (p0 : Int)
    (hp0 : p0 ∈ dom.positions) (h1 : statusAt v p0 = some s) (h2 : statusAt w p0 ≠ some s) :
    bytes_with dom w s < bytes_with dom v s := by
  unfold bytes_with
  apply Finset.card_lt_card
  rw [Finset.ssubset_iff]
  refine ⟨p0, ?_, ?_⟩
  · simp only [Finset.mem_filter, not_and]
    exact fun _ => h2
  · intro p hp
    simp only [Finset.mem_insert, Finset.mem_filter] at hp ⊢
    rcases hp with rfl | hp
    · exact ⟨hp0, h1⟩
    · exact ⟨hp.1, hsub p hp.2⟩

theorem oracle_copy_and_update (fuel : Nat) (rb : Rescuebook) (b : Block) (st : Status)
    (r c e : Int) (rb2 : Rescuebook)
    (h : copy_and_update fuel rb b st = some (r, c, e, rb2)) :
    rb2.world.oracle = rb.world.oracle := by
  obtain ⟨r0, rb1, hcb, hw⟩ := copy_and_update_world _ _ _ _ _ _ _ _ h
  have h1 := oracle_copy_block _ _ _ _ _ _ _ hcb
  rcases hw with hw | hw
  · rw [hw, h1]
  · rw [hw, oracle_sys_access, h1]

theorem marked_status_bad_sector (old : Option Status) (b : Block) (hardbs c e p : Int)
    (s : Status) (hs : s ≠ .bad_sector) (hf : s ≠ .finished)
    (h : marked_status old b .bad_sector hardbs c e p = some s) : old = some s := by
  unfold marked_status at h
  cases old with
  | none => split_ifs at h <;> simp at h
  | some t =>
    simp only [Option.map_some'] at h
    split_ifs at h
    · simp only [Option.some.injEq] at h; exact absurd h.symm hf
    · simp only [Option.some.injEq] at h; exact absurd h.symm hs
    · simp only [Option.some.injEq] at h; exact absurd h.symm hs
    · exact h

theorem marked_status_start (old : Option Status) (b : Block) (hardbs c e : Int)
    (s : Status) (hs : s ≠ .bad_sector) (hf : s ≠ .finished) (hb : 0 < b.size) :
    marked_status old b .bad_sector hardbs c e b.pos ≠ some s := by
  unfold marked_status
  cases old with
  | none => split_ifs <;> simp
  | some t =>
    simp only [Option.map_some']
    split_ifs with h1 h2 h3 h4
    · simp
    · simp only [ne_eq, Option.some.injEq]; exact fun hx => hf hx.symm
    · simp only [ne_eq, Option.some.injEq]; exact fun hx => hs hx.symm
    · simp only [ne_eq, Option.some.injEq]; exact fun hx => hs hx.symm
    · exfalso; omega

theorem split_errors_unit_measure (fuel : Nat) (rb : Rescuebook) (b : Block)
    (pos ec r pos1 ec1 : Int) (rb1 : Rescuebook) (q : Int)
    (hw : wf_from q rb.sblock_vector = true) (hh : 0 < rb.hardbs)
    (hch : chunk_in rb.sblock_vector rb.domain .non_split b)
    (hu : split_errors_unit fuel rb b pos ec = some (r, rb1, pos1, ec1)) :
    wf_from q rb1.sblock_vector = true ∧ rb1.domain = rb.domain ∧ rb1.hardbs = rb.hardbs ∧
      rb1.world.oracle = rb.world.oracle ∧ (r = 0 ∨ r = 1) ∧
      (∀ p, statusAt rb1.sblock_vector p = some .non_split →
        statusAt rb.sblock_vector p = some .non_split) ∧
      bytes_with rb.domain rb1.sblock_vector .non_split ≤
        bytes_with rb.domain rb.sblock_vector .non_split ∧
      (r = 0 → bytes_with rb.domain rb1.sblock_vector .non_split <
        bytes_with rb.domain rb.sblock_vector .non_split) := by
  obtain ⟨c, e, rb2, hcu, hrb1⟩ := split_errors_unit_result _ _ _ _ _ _ _ _ _ hu
  obtain ⟨hw2, hc, he, hce, hbs, hsc, hvec⟩ :=
    copy_and_update_vector fuel { rb with current_status := .splitting } b .bad_sector r c e rb2
      q hw hh hcu
  have hor := oracle_copy_and_update _ _ _ _ _ _ _ _ hcu
  have hrv := copy_and_update_retval _ _ _ _ _ _ _ _ hcu
  have hcf := same_config_fields hsc
  subst hrb1
  obtain ⟨sb, hm, hst, hd, h1, h2⟩ := hch
  have hsub : ∀ p, statusAt rb2.sblock_vector p = some .non_split →
      statusAt rb.sblock_vector p = some .non_split := by
    intro p hp
    rcases hvec with ⟨-, -, hstat⟩ | ⟨hv, -⟩
    · rw [hstat] at hp
      exact marked_status_bad_sector _ _ _ _ _ _ _ (by decide) (by decide) hp
    · rw [hv] at hp; exact hp
  refine ⟨hw2, hcf.1, hcf.2.1, hor, hrv, hsub, bytes_with_le _ _ _ _ hsub, fun hr0 => ?_⟩
  rcases hvec with ⟨-, -, hstat⟩ | ⟨-, -, -, hr1⟩
  · apply bytes_with_lt _ _ _ _ hsub b.pos
    · have := Ico_subset_positions rb.domain sb b hd h1 h2
      apply this
      simp only [Finset.mem_Ico, Block.end_]
      omega
    · have := statusAt_of_mem _ _ hw sb hm b.pos h1 (by simp only [Block.end_] at h2; omega)
      rw [this, hst]
    · show statusAt rb2.sblock_vector b.pos ≠ _
      rw [hstat]
      exact marked_status_start _ _ _ _ _ _ (by decide) (by decide) hbs
  · omega

theorem find_chunk_size_le (v : List Sblock) (dom : Domain) (b : Block) (st : Status)
    (hb : 0 ≤ b.size) : (find_chunk v dom b st).size ≤ b.size := by
  unfold find_chunk
  split
  · exact hb
  · exact min_le_left _ _

theorem split_errors_unit_returns (fuel : Nat) (rb : Rescuebook) (b : Block) (pos ec r c e : Int)
    (rb2 : Rescuebook)
    (hcu : copy_and_update fuel { rb with current_status := .splitting } b .bad_sector =
      some (r, c, e, rb2)) :
    ∃ rb1 pos1 ec1, split_errors_unit fuel rb b pos ec = some (r, rb1, pos1, ec1) := by
  simp only [split_errors_unit, hcu]
  by_cases h1 : e ≤ 0
  · rw [if_pos h1]; exact ⟨_, _, _, rfl⟩
  · rw [if_neg h1]
    by_cases h2 : ec + 1 ≥ 2 ∧ (ec + 1) * rb2.hardbs ≥ 2 * rb2.skipbs_
    · rw [if_pos h2]
      cases sblock rb2.sblock_vector (find_index rb2.sblock_vector pos) with
      | none => exact ⟨_, _, _, rfl⟩
      | some sb =>
        simp only []
        split_ifs <;> exact ⟨_, _, _, rfl⟩
    · rw [if_neg h2]; exact ⟨_, _, _, rfl⟩

theorem split_errors_sweep_terminates (o : Nat → SysResult) (F : Nat) (q : Int) (dom : Domain)
    (h : Int) (hh : 0 < h) (hio : io_completes o F h) (fuel : Nat) :
    ∀ (rb : Rescuebook) (pos ec : Int) (bf : Bool), wf_from q rb.sblock_vector = true →
      rb.domain = dom → rb.hardbs = h → rb.world.oracle = o →
      F + bytes_with dom rb.sblock_vector .non_split + 1 ≤ fuel →
      ∃ res bf1 rb1, split_errors_sweep fuel rb pos ec bf = some (res, bf1, rb1) ∧
        wf_from q rb1.sblock_vector = true ∧ rb1.domain = dom ∧ rb1.hardbs = h ∧
        rb1.world.oracle = o ∧
        bytes_with dom rb1.sblock_vector .non_split ≤
          bytes_with dom rb.sblock_vector .non_split ∧
        (res = none → bf1 = true → bf = false →
          bytes_with dom rb1.sblock_vector .non_split <
            bytes_with dom rb.sblock_vector .non_split) ∧
        (∀ p, statusAt rb1.sblock_vector p = some .non_split →
          statusAt rb.sblock_vector p = some .non_split) := by
  induction fuel with
  | zero => intro rb pos ec bf _ _ _ _ hf; omega
  | succ n ih =>
    intro rb pos ec bf hw hd hhb ho hf
    have stay : ∃ res bf1 rb1, some ((none : Option Int), bf, rb) = some (res, bf1, rb1) ∧
        wf_from q rb1.sblock_vector = true ∧ rb1.domain = dom ∧ rb1.hardbs = h ∧
        rb1.world.oracle = o ∧
        bytes_with dom rb1.sblock_vector .non_split ≤
          bytes_with dom rb.sblock_vector .non_split ∧
        (res = none → bf1 = true → bf = false →
          bytes_with dom rb1.sblock_vector .non_split <
            bytes_with dom rb.sblock_vector .non_split) ∧
        (∀ p, statusAt rb1.sblock_vector p = some .non_split →
          statusAt rb.sblock_vector p = some .non_split) := by
      refine ⟨none, bf, rb, rfl, hw, hd, hhb, ho, le_refl _, ?_, ?_⟩
      · intro _ h1 h2; rw [h2] at h1; cases h1
      · intro _ hp; exact hp
    rw [split_errors_sweep]
    simp only []
    by_cases hpos : pos ≥ 0
    · rw [if_pos hpos]
      generalize hB : find_chunk rb.sblock_vector rb.domain ⟨pos, rb.hardbs⟩ .non_split = B
      by_cases hb : B.size ≤ 0
      · rw [if_pos hb]; exact stay
      · rw [if_neg hb]
        have hsz : 0 < B.size := by omega
        have hch : chunk_in rb.sblock_vector rb.domain .non_split B := by
          rw [← hB]; exact find_chunk_spec _ _ _ _ (by rw [hB]; exact hsz)
        have hle : B.size ≤ h := by
          rw [← hB, ← hhb]
          exact find_chunk_size_le _ _ ⟨pos, rb.hardbs⟩ _ (by show 0 ≤ rb.hardbs; omega)
        have hcb := hio n { rb with current_status := .splitting } B (by omega) ho hsz hle
        cases hcb2 : copy_block n { rb with current_status := .splitting } B with
        | none => rw [hcb2] at hcb; cases hcb
        | some x =>
          obtain ⟨r0, c, e, rbc⟩ := x
          obtain ⟨r, rb2, hcu⟩ := copy_and_update_returns n
            { rb with current_status := .splitting } B .bad_sector r0 c e rbc hcb2
          obtain ⟨rbu, pos1, ec1, hun⟩ := split_errors_unit_returns n rb B B.end_ ec r c e rb2 hcu
          obtain ⟨m1, m2, m3, m4, m5, m6, m7, m8⟩ :=
            split_errors_unit_measure n rb B B.end_ ec r pos1 ec1 rbu q hw (by omega) hch hun
          rw [hd] at m2 m7 m8
          rw [hhb] at m3
          rw [ho] at m4
          rw [hun]
          simp only []
          by_cases ht : r ≠ 0 ∨ too_many_errors rbu = true
          · rw [if_pos ht]
            refine ⟨some r, true, rbu, rfl, m1, m2, m3, m4, m7, ?_, m6⟩
            intro h1; cases h1
          · rw [if_neg ht]
            have hr0 : r = 0 := by
              by_contra hne; exact ht (Or.inl hne)
            have hlt := m8 hr0
            have l1 : (update_logfile rbu).2.sblock_vector = rbu.sblock_vector := rfl
            have l2 : (update_logfile rbu).2.domain = rbu.domain := rfl
            have l3 : (update_logfile rbu).2.hardbs = rbu.hardbs := rfl
            have l4 := oracle_update_logfile rbu
            generalize update_logfile rbu = ul at l1 l2 l3 l4
            obtain ⟨ok, rb3⟩ := ul
            simp only at l1 l2 l3 l4
            cases ok
            · simp only []
              refine ⟨some (-2), true, rb3, rfl, by rw [l1]; exact m1, by rw [l2]; exact m2,
                by rw [l3]; exact m3, by rw [l4]; exact m4, by rw [l1]; exact m7, ?_, ?_⟩
              · intro h1; cases h1
              · intro p hp; rw [l1] at hp; exact m6 p hp
            · simp only []
              obtain ⟨res, bf1, rb1, i1, i2, i3, i4, i5, i6, -, i8⟩ :=
                ih rb3 pos1 ec1 true (by rw [l1]; exact m1) (by rw [l2]; exact m2)
                  (by rw [l3]; exact m3) (by rw [l4]; exact m4) (by rw [l1]; omega)
              rw [l1] at i6
              refine ⟨res, bf1, rb1, i1, i2, i3, i4, i5, by omega, ?_, ?_⟩
              · intro _ _ _; omega
              · intro p hp
                have h8 := i8 p hp
                rw [l1] at h8
                exact m6 p h8
    · rw [if_neg hpos]; exact stay

theorem split_errors_sweep_zero (n : Nat) :
    ∀ (rb : Rescuebook) (pos ec : Int) (bf bf1 : Bool) (rb1 : Rescuebook),
      split_errors_sweep n rb pos ec bf = some (some 0, bf1, rb1) →
      too_many_errors rb1 = true := by
  induction n with
  | zero => intro rb pos ec bf bf1 rb1 h; simp [split_errors_sweep] at h
  | succ n ih =>
    intro rb pos ec bf bf1 rb1 h
    by_cases hb : pos ≥ 0 ∧
        0 < (find_chunk rb.sblock_vector rb.domain ⟨pos, rb.hardbs⟩ .non_split).size
    · obtain ⟨r0, rbu, pos1, ec1, -, hcase⟩ :=
        split_errors_sweep_step n rb pos ec bf (some 0) bf1 rb1 _ rfl hb.1 (by omega) h
      rcases hcase with ⟨h1, h2, -, h3⟩ | ⟨-, -, h2, -⟩ | ⟨-, -, hl⟩
      · have h0 : r0 = 0 := by
          have := Option.some.inj h2
          omega
        rw [h3]
        rcases h1 with h1 | h1
        · exact absurd h0 h1
        · exact h1
      · have := Option.some.inj h2
        omega
      · exact ih _ _ _ _ _ _ hl
    · rw [split_errors_sweep_none n rb pos ec bf hb] at h
      cases h

theorem split_errors_outer_terminates (o : Nat → SysResult) (F : Nat) (q : Int) (dom : Domain)
    (h : Int) (hh : 0 < h) (hio : io_completes o F h) (fuel : Nat) :
    ∀ (rb : Rescuebook) (resume : Bool), wf_from q rb.sblock_vector = true →
      rb.domain = dom → rb.hardbs = h → rb.world.oracle = o →
      F + 2 * bytes_with dom rb.sblock_vector .non_split + 2 ≤ fuel →
      ∃ r rb1, split_errors_outer fuel rb resume = some (r, rb1) ∧
        bytes_with dom rb1.sblock_vector .non_split ≤
          bytes_with dom rb.sblock_vector .non_split ∧
        (∀ p, statusAt rb1.sblock_vector p = some .non_split →
          statusAt rb.sblock_vector p = some .non_split) ∧
        (r = 0 → too_many_errors rb1 = true ∨
          ¬ 0 < (find_chunk rb1.sblock_vector dom ⟨0, h⟩ .non_split).size ∨
          (resume = true ∧ rb1 = rb ∧
            ¬ (rb.current_pos ≥ 0 ∧
              0 < (find_chunk rb.sblock_vector dom ⟨rb.current_pos, h⟩ .non_split).size))) := by
  induction fuel with
  | zero => intro rb resume _ _ _ _ hf; omega
  | succ n ih =>
    intro rb resume hw hd hhb ho hf
    obtain ⟨res, bf1, rb1, s1, s2, s3, s4, s5, s6, s7, s8⟩ :=
      split_errors_sweep_terminates o F q dom h hh hio n rb
        (if resume = true then rb.current_pos else 0) 0 false hw hd hhb ho (by omega)
    rw [split_errors_outer, s1]
    cases res with
    | some r =>
      simp only []
      refine ⟨r, rb1, rfl, s6, s8, ?_⟩
      intro hr
      rw [hr] at s1
      exact Or.inl (split_errors_sweep_zero _ _ _ _ _ _ _ s1)
    | none =>
      simp only []
      cases bf1 with
      | false =>
        rw [if_pos rfl]
        refine ⟨0, rb1, rfl, s6, s8, ?_⟩
        intro _
        rcases first_call_split_errors_sweep _ _ _ _ _ _ _ _ s1 with ⟨-, -, -, hc⟩ | ⟨hn, -, -, he⟩
        · exact absurd (hc rfl) (by decide)
        · rw [hd, hhb] at hn
          by_cases hres : resume = true
          · rw [if_pos hres] at hn
            exact Or.inr (Or.inr ⟨hres, he, hn⟩)
          · rw [if_neg hres] at hn
            rw [he]
            exact Or.inr (Or.inl (fun hc => hn ⟨le_refl _, hc⟩))
      | true =>
        rw [if_neg (by decide)]
        have hlt := s7 rfl rfl rfl
        obtain ⟨r, rb2, o1, o2, o3, o4⟩ := ih rb1 false s2 s3 s4 s5 (by omega)
        refine ⟨r, rb2, o1, by omega, fun p hp => s8 p (o3 p hp), ?_⟩
        intro hr
        rcases o4 hr with h1 | h1 | ⟨h1, -, -⟩
        · exact Or.inl h1
        · exact Or.inr (Or.inl h1)
        · cases h1

theorem responsive_failing_reads : responsive failing_reads.oracle := by
  intro k
  show (if k % 3 = 1 then (⟨-1, 5, []⟩ : SysResult) else ⟨1, 0, [7]⟩).ret ≠ 0 ∧
    ((if k % 3 = 1 then (⟨-1, 5, []⟩ : SysResult) else ⟨1, 0, [7]⟩).ret < 0 →
      (if k % 3 = 1 then (⟨-1, 5, []⟩ : SysResult) else ⟨1, 0, [7]⟩).err ≠ EINTR)
  by_cases hk : k % 3 = 1
  · rw [if_pos hk]; exact ⟨by decide, fun _ => by decide⟩
  · rw [if_neg hk]; exact ⟨by decide, fun _ => by decide⟩

/-- C20 (counterexample): `split_errors` returns 0 although a sweep from position 0 would find
a `non_split` chunk.  Resumed at the cursor `(splitting, 2)`, the only sweep starts at 2, finds
nothing and the pass returns 0 without a work unit, while the chunk `[0,2)` is still
`non_split`; with `max_errors = 0`, the pass returns 0 after its first failed work unit,
because `too_many_errors` holds, while `[2,4)` is still `non_split`. -/
theorem split_errors_zero_with_chunk_left :
    pass_summary (split_errors 4 split_resumed_book) =
      some (0, [⟨0, 2, .non_split⟩, ⟨2, 2, .finished⟩], [], false) ∧
    find_chunk split_resumed_book.sblock_vector split_resumed_book.domain
      ⟨0, split_resumed_book.hardbs⟩ .non_split = ⟨0, 2⟩ ∧
    pass_summary (split_errors 20 split_limit_book) =
      some (0, [⟨0, 2, .bad_sector⟩, ⟨2, 2, .non_split⟩], [⟨0, 2⟩], true) ∧
    find_chunk [⟨0, 2, .bad_sector⟩, ⟨2, 2, .non_split⟩] split_limit_book.domain
      ⟨0, split_limit_book.hardbs⟩ .non_split = ⟨2, 2⟩ := by
  decide!

/-- C20 (amended): `split_errors` terminates: for a well-formed vector, `hardbs > 0` and an
environment in which the I/O of every work unit completes within `F` steps, the pass returns
with fuel `F + 2 * n + 2`, where `n` is the number of `non_split` bytes in the domain.  Every
work unit leaves no more `non_split` bytes than before, creates none, and strictly decreases
their number when `copy_and_update` returns 0 (a unit that returns 1 ends the pass).  The pass
returns 0, 1 or -2; it returns 0 only if `too_many_errors` holds at the end, or a sweep from
position 0 found no `non_split` chunk, or the pass was resumed at the cursor, its first sweep
found no `non_split` chunk from the cursor on and the vector is the initial one. -/
theorem split_errors_terminates (rb : Rescuebook) (F fuel : Nat)
    (hw : vector_wf rb.sblock_vector = true) (hh : 0 < rb.hardbs)
    (hio : io_completes rb.world.oracle F rb.hardbs)
    (hf : F + 2 * bytes_with rb.domain rb.sblock_vector .non_split + 2 ≤ fuel) :
    (∃ r rb1, split_errors fuel rb = some (r, rb1) ∧ (r = 0 ∨ r = 1 ∨ r = -2) ∧
      bytes_with rb.domain rb1.sblock_vector .non_split ≤
        bytes_with rb.domain rb.sblock_vector .non_split ∧
      (∀ p, statusAt rb1.sblock_vector p = some .non_split →
        statusAt rb.sblock_vector p = some .non_split) ∧
      (r = 0 → too_many_errors rb1 = true ∨
        ¬ 0 < (find_chunk rb1.sblock_vector rb.domain ⟨0, rb.hardbs⟩ .non_split).size ∨
        (rb.current_status = .splitting ∧ rb.domain.includes_pos rb.current_pos = true ∧
          rb1.sblock_vector = rb.sblock_vector ∧
          ¬ (rb.current_pos ≥ 0 ∧
            0 < (find_chunk rb.sblock_vector rb.domain ⟨rb.current_pos, rb.hardbs⟩
              .non_split).size)))) ∧
    (∀ (f : Nat) (b : Block) (pos ec r pos1 ec1 : Int) (rb1 : Rescuebook),
      chunk_in rb.sblock_vector rb.domain .non_split b →
      split_errors_unit f rb b pos ec = some (r, rb1, pos1, ec1) →
      (r = 0 ∨ r = 1) ∧
      (∀ p, statusAt rb1.sblock_vector p = some .non_split →
        statusAt rb.sblock_vector p = some .non_split) ∧
      bytes_with rb.domain rb1.sblock_vector .non_split ≤
        bytes_with rb.domain rb.sblock_vector .non_split ∧
      (r = 0 → bytes_with rb.domain rb1.sblock_vector .non_split <
        bytes_with rb.domain rb.sblock_vector .non_split)) := by
  obtain ⟨q, hq⟩ := (vector_wf_iff _).1 hw
  constructor
  · obtain ⟨r, rb1, o1, o2, o3, o4⟩ :=
      split_errors_outer_terminates rb.world.oracle F q rb.domain rb.hardbs hh hio fuel
        { rb with world := rb.world.note (.pass .splitting) }
        (decide (rb.current_status = .splitting) && rb.domain.includes_pos rb.current_pos)
        hq rfl rfl rfl hf
    refine ⟨r, rb1, o1, split_errors_retval fuel rb r rb1 o1, o2, o3, ?_⟩
    intro hr
    rcases o4 hr with h1 | h1 | ⟨h1, h2, h3⟩
    · exact Or.inl h1
    · exact Or.inr (Or.inl h1)
    · rw [Bool.and_eq_true, decide_eq_true_eq] at h1
      exact Or.inr (Or.inr ⟨h1.1, h1.2, by rw [h2], h3⟩)
  · intro f b pos ec r pos1 ec1 rb1 hch hu
    obtain ⟨-, -, -, -, m5, m6, m7, m8⟩ :=
      split_errors_unit_measure f rb b pos ec r pos1 ec1 rb1 q hq hh hch hu
    exact ⟨m5, m6, m7, m8⟩

theorem split_errors_terminates_witness :
    ∃ r rb1, split_errors 13 split_demo_book = some (r, rb1) ∧ (r = 0 ∨ r = 1 ∨ r = -2) :=
  match (split_errors_terminates split_demo_book 3 13 (by decide) (by decide)
    (io_completes_of_responsive _ 2 responsive_failing_reads) (by decide)).1 with
  | ⟨r, rb1, h1, h2, _⟩ => ⟨r, rb1, h1, h2⟩

theorem copy_non_tried_unit_status (fuel : Nat) (rb : Rescuebook) (b : Block)
    (pos skip r pos1 skip1 : Int) (rb1 : Rescuebook)
    (hu : copy_non_tried_unit fuel rb b pos skip = some (r, rb1, pos1, skip1)) :
    rb1.current_status = .copying := by
  cases hcu : copy_and_update fuel { rb with current_status := .copying } b
      (if skip ≠ 0 then .bad_sector else .non_trimmed) with
  | none => simp only [copy_non_tried_unit, hcu] at hu; cases hu
  | some x =>
    obtain ⟨r0, c, e, rb2⟩ := x
    have hs : rb2.current_status = .copying :=
      (copy_and_update_result _ _ _ _ _ _ _ _ hcu).choose_spec.choose_spec.2.2.2.1
    simp only [copy_non_tried_unit, hcu] at hu
    have fin : ∀ (x : Rescuebook) (p k : Int), some (r0, x, p, k) = some (r, rb1, pos1, skip1) →
        x.current_status = rb2.current_status → rb1.current_status = .copying := by
      intro x p k hx h1
      simp only [Option.some.injEq, Prod.mk.injEq] at hx
      obtain ⟨-, rfl, -, -⟩ := hx
      rw [h1, hs]
    split_ifs at hu <;> exact fin _ _ _ hu rfl

theorem trim_errors_unit_status (fuel : Nat) (rb : Rescuebook) (b : Block) (r : Int)
    (rb1 : Rescuebook) (hu : trim_errors_unit fuel rb b = some (r, rb1)) :
    rb1.current_status = .trimming := by
  cases hcu : copy_and_update fuel { rb with current_status := .trimming } b .bad_sector with
  | none => simp only [trim_errors_unit, hcu] at hu; cases hu
  | some x =>
    obtain ⟨r0, c, e, rb2⟩ := x
    have hs : rb2.current_status = .trimming :=
      (copy_and_update_result _ _ _ _ _ _ _ _ hcu).choose_spec.choose_spec.2.2.2.1
    simp only [trim_errors_unit, hcu] at hu
    have fin : ∀ (x : Rescuebook), some (r0, x) = some (r, rb1) →
        x.current_status = rb2.current_status → rb1.current_status = .trimming := by
      intro x hx h1
      simp only [Option.some.injEq, Prod.mk.injEq] at hx
      obtain ⟨-, rfl⟩ := hx
      rw [h1, hs]
    split at hu
    · split at hu
      · exact fin _ hu rfl
      · split at hu
        · exact fin _ hu rfl
        · exact fin _ hu rfl
    · exact fin _ hu rfl

theorem split_errors_unit_status (fuel : Nat) (rb : Rescuebook) (b : Block)
    (pos ec r pos1 ec1 : Int) (rb1 : Rescuebook)
    (hu : split_errors_unit fuel rb b pos ec = some (r, rb1, pos1, ec1)) :
    rb1.current_status = .splitting := by
  obtain ⟨c, e, rb2, hcu, h1⟩ := split_errors_unit_result _ _ _ _ _ _ _ _ _ hu
  have hs : rb2.current_status = .splitting :=
    (copy_and_update_result _ _ _ _ _ _ _ _ hcu).choose_spec.choose_spec.2.2.2.1
  rw [h1]
  exact hs

theorem copy_errors_unit_status (fuel : Nat) (rb : Rescuebook) (b : Block) (r : Int)
    (rb1 : Rescuebook) (hu : copy_errors_unit fuel rb b = some (r, rb1)) :
    rb1.current_status = .retrying := by
  obtain ⟨c, e, rb2, hcu, h1⟩ := copy_errors_unit_result _ _ _ _ _ hu
  have hs : rb2.current_status = .retrying :=
    (copy_and_update_result _ _ _ _ _ _ _ _ hcu).choose_spec.choose_spec.2.2.2.1
  rw [h1]
  exact hs

theorem copy_non_tried_loop_status (n : Nat) (rb : Rescuebook) (pos skip r : Int)
    (rb1 : Rescuebook) (h : copy_non_tried_loop n rb pos skip = some (r, rb1)) :
    (r = 0 ∧ rb1 = rb) ∨ rb1.current_status = .copying := by
  cases n with
  | zero => simp [copy_non_tried_loop] at h
  | succ n =>
    generalize hB : find_chunk rb.sblock_vector rb.domain
      ⟨pos, if skip ≠ 0 then rb.hardbs else rb.softbs⟩ .non_tried = B
    by_cases hb : pos ≥ 0 ∧ ¬ (B.end_ < 0 ∨ B.size ≤ 0)
    · right
      obtain ⟨r0, rbu, pos1, skip1, hun, hcase⟩ :=
        copy_non_tried_loop_step n rb pos skip r rb1 B hB hb.1 hb.2 h
      have hs := copy_non_tried_unit_status _ _ _ _ _ _ _ _ _ hun
      rcases hcase with ⟨-, -, rfl⟩ | ⟨-, -, -, rfl⟩ | ⟨-, -, hl⟩
      · exact hs
      · exact hs
      · exact (copy_non_tried_loop_inv (fun x => x.current_status = .copying)
          (fun _ _ _ _ _ _ _ _ _ _ _ _ hu =>
            ⟨copy_non_tried_unit_status _ _ _ _ _ _ _ _ _ hu,
              copy_and_update_retval _ _ _ _ _ _ _ _
                (copy_non_tried_unit_result _ _ _ _ _ _ _ _ _ hu).choose_spec.choose_spec.choose_spec.1⟩)
          (fun _ hx => hx) n (update_logfile rbu).2 _ _ r rb1 hs hl).1
    · left
      rw [copy_non_tried_loop] at h
      simp only [] at h
      by_cases hpos : pos ≥ 0
      · rw [if_pos hpos, hB, if_pos (by_contra fun hc => hb ⟨hpos, hc⟩)] at h
        simp only [Option.some.injEq, Prod.mk.injEq] at h
        exact ⟨h.1.symm, h.2.symm⟩
      · rw [if_neg hpos] at h
        simp only [Option.some.injEq, Prod.mk.injEq] at h
        exact ⟨h.1.symm, h.2.symm⟩

theorem trim_errors_loop_status (n : Nat) (rb : Rescuebook) (pos r : Int)
    (rb1 : Rescuebook) (h : trim_errors_loop n rb pos = some (r, rb1)) :
    (r = 0 ∧ rb1 = rb) ∨ rb1.current_status = .trimming := by
  cases n with
  | zero => simp [trim_errors_loop] at h
  | succ n =>
    generalize hB : rfind_chunk rb.sblock_vector rb.domain ⟨pos, rb.hardbs⟩ .non_trimmed = B
    by_cases hb : pos ≥ 0 ∧ ¬ B.size ≤ 0
    · right
      obtain ⟨r0, rbu, hun, hcase⟩ := trim_errors_loop_step n rb pos r rb1 B hB hb.1 hb.2 h
      have hs := trim_errors_unit_status _ _ _ _ _ hun
      rcases hcase with ⟨-, -, rfl⟩ | ⟨-, -, -, rfl⟩ | ⟨-, -, hl⟩
      · exact hs
      · exact hs
      · exact (trim_errors_loop_inv (fun x => x.current_status = .trimming)
          (fun _ _ _ _ _ _ _ _ hu =>
            ⟨trim_errors_unit_status _ _ _ _ _ hu,
              copy_and_update_retval _ _ _ _ _ _ _ _
                (trim_errors_unit_result _ _ _ _ _ hu).choose_spec.choose_spec.choose_spec.1⟩)
          (fun _ hx => hx) n (update_logfile rbu).2 _ r rb1 hs hl).1
    · left
      rw [trim_errors_loop] at h
      simp only [] at h
      by_cases hpos : pos ≥ 0
      · rw [if_pos hpos, hB, if_pos (by_contra fun hc => hb ⟨hpos, hc⟩)] at h
        simp only [Option.some.injEq, Prod.mk.injEq] at h
        exact ⟨h.1.symm, h.2.symm⟩
      · rw [if_neg hpos] at h
        simp only [Option.some.injEq, Prod.mk.injEq] at h
        exact ⟨h.1.symm, h.2.symm⟩

theorem split_errors_sweep_status (n : Nat) (rb : Rescuebook) (pos ec : Int) (bf : Bool)
    (res : Option Int) (bf1 : Bool) (rb1 : Rescuebook)
    (h : split_errors_sweep n rb pos ec bf = some (res, bf1, rb1)) :
    (res = none ∧ bf1 = bf ∧ rb1 = rb) ∨ rb1.current_status = .splitting := by
  cases n with
  | zero => simp [split_errors_sweep] at h
  | succ n =>
    by_cases hb : pos ≥ 0 ∧
        0 < (find_chunk rb.sblock_vector rb.domain ⟨pos, rb.hardbs⟩ .non_split).size
    · right
      obtain ⟨r0, rbu, pos1, ec1, hun, hcase⟩ :=
        split_errors_sweep_step n rb pos ec bf res bf1 rb1 _ rfl hb.1 (by omega) h
      have hs := split_errors_unit_status _ _ _ _ _ _ _ _ _ hun
      rcases hcase with ⟨-, -, -, rfl⟩ | ⟨-, -, -, -, rfl⟩ | ⟨-, -, hl⟩
      · exact hs
      · exact hs
      · exact (split_errors_sweep_inv (fun x => x.current_status = .splitting)
          (fun _ _ _ _ _ _ _ _ _ _ _ _ hu =>
            ⟨split_errors_unit_status _ _ _ _ _ _ _ _ _ hu,
              copy_and_update_retval _ _ _ _ _ _ _ _
                (split_errors_unit_result _ _ _ _ _ _ _ _ _ hu).choose_spec.choose_spec.choose_spec.1⟩)
          (fun _ hx => hx) n (update_logfile rbu).2 _ _ _ res bf1 rb1 hs hl).1
    · left
      rw [split_errors_sweep_none n rb pos ec bf hb] at h
      simp only [Option.some.injEq, Prod.mk.injEq] at h
      exact ⟨h.1.symm, h.2.1.symm, h.2.2.symm⟩

theorem copy_errors_sweep_status (n : Nat) (rb : Rescuebook) (pos : Int) (bf : Bool)
    (res : Option Int) (bf1 : Bool) (rb1 : Rescuebook)
    (h : copy_errors_sweep n rb pos bf = some (res, bf1, rb1)) :
    (res = none ∧ bf1 = bf ∧ rb1 = rb) ∨ rb1.current_status = .retrying := by
  cases n with
  | zero => simp [copy_errors_sweep] at h
  | succ n =>
    by_cases hb : pos ≥ 0 ∧
        0 < (find_chunk rb.sblock_vector rb.domain ⟨pos, rb.hardbs⟩ .bad_sector).size
    · right
      obtain ⟨r0, rbu, hun, hcase⟩ :=
        copy_errors_sweep_step n rb pos bf res bf1 rb1 _ rfl hb.1 (by omega) h
      have hs := copy_errors_unit_status _ _ _ _ _ hun
      rcases hcase with ⟨-, -, -, rfl⟩ | ⟨-, -, -, -, rfl⟩ | ⟨-, -, hl⟩
      · exact hs
      · exact hs
      · exact (copy_errors_sweep_inv (fun x => x.current_status = .retrying)
          (fun _ _ _ _ _ _ _ _ hu =>
            ⟨copy_errors_unit_status _ _ _ _ _ hu,
              copy_and_update_retval _ _ _ _ _ _ _ _
                (copy_errors_unit_result _ _ _ _ _ hu).choose_spec.choose_spec.choose_spec.1⟩)
          (fun _ hx => hx) n (update_logfile rbu).2 _ _ res bf1 rb1 hs hl).1
    · left
      rw [copy_errors_sweep_none n rb pos bf hb] at h
      simp only [Option.some.injEq, Prod.mk.injEq] at h
      exact ⟨h.1.symm, h.2.1.symm, h.2.2.symm⟩

theorem split_errors_outer_status (n : Nat) (rb : Rescuebook) (resume : Bool) (r : Int)
    (rb1 : Rescuebook) (h : split_errors_outer n rb resume = some (r, rb1)) :
    (r = 0 ∧ rb1 = rb) ∨ rb1.current_status = .splitting := by
  cases n with
  | zero => simp [split_errors_outer] at h
  | succ n =>
    rw [split_errors_outer] at h
    cases hs : split_errors_sweep n rb (if resume = true then rb.current_pos else 0) 0 false with
    | none => rw [hs] at h; cases h
    | some x =>
      obtain ⟨res, bf1, rbs⟩ := x
      rw [hs] at h
      have hst := split_errors_sweep_status _ _ _ _ _ _ _ _ hs
      cases res with
      | some r0 =>
        simp only [Option.some.injEq, Prod.mk.injEq] at h
        rcases hst with ⟨h1, -⟩ | h1
        · cases h1
        · right; rw [← h.2]; exact h1
      | none =>
        simp only [] at h
        cases bf1 with
        | false =>
          rw [if_pos rfl] at h
          simp only [Option.some.injEq, Prod.mk.injEq] at h
          rcases hst with ⟨-, -, h1⟩ | h1
          · left; exact ⟨h.1.symm, by rw [← h.2, h1]⟩
          · right; rw [← h.2]; exact h1
        | true =>
          rw [if_neg (by decide)] at h
          rcases hst with ⟨-, h1, -⟩ | h1
          · cases h1
          · right
            exact (split_errors_outer_inv (fun x => x.current_status = .splitting)
              (fun _ _ _ _ _ _ _ _ _ _ _ _ hu =>
                ⟨split_errors_unit_status _ _ _ _ _ _ _ _ _ hu,
                  copy_and_update_retval _ _ _ _ _ _ _ _
                    (split_errors_unit_result _ _ _ _ _ _ _ _ _ hu).choose_spec.choose_spec.choose_spec.1⟩)
              (fun _ hx => hx) n rbs false r rb1 h1 h).1

theorem copy_errors_retries_status (n : Nat) (rb : Rescuebook) (retry : Int) (resume : Bool)
    (r : Int) (rb1 : Rescuebook) (h : copy_errors_retries n rb retry resume = some (r, rb1)) :
    (r = 0 ∧ rb1 = rb) ∨ rb1.current_status = .retrying := by
  cases n with
  | zero => simp [copy_errors_retries] at h
  | succ n =>
    rw [copy_errors_retries] at h
    by_cases hc : rb.max_retries_ < 0 ∨ retry ≤ rb.max_retries_
    · rw [if_pos hc] at h
      cases hs : copy_errors_sweep n rb (if resume = true then rb.current_pos else 0) false with
      | none => rw [hs] at h; cases h
      | some x =>
        obtain ⟨res, bf1, rbs⟩ := x
        rw [hs] at h
        have hst := copy_errors_sweep_status _ _ _ _ _ _ _ hs
        cases res with
        | some r0 =>
          simp only [Option.some.injEq, Prod.mk.injEq] at h
          rcases hst with ⟨h1, -⟩ | h1
          · cases h1
          · right; rw [← h.2]; exact h1
        | none =>
          simp only [] at h
          cases bf1 with
          | false =>
            rw [if_pos rfl] at h
            simp only [Option.some.injEq, Prod.mk.injEq] at h
            rcases hst with ⟨-, -, h1⟩ | h1
            · left; exact ⟨h.1.symm, by rw [← h.2, h1]⟩
            · right; rw [← h.2]; exact h1
          | true =>
            rw [if_neg (by decide)] at h
            rcases hst with ⟨-, h1, -⟩ | h1
            · cases h1
            · right
              exact (copy_errors_retries_inv (fun x => x.current_status = .retrying)
                (fun _ _ _ _ _ _ _ _ hu =>
                  ⟨copy_errors_unit_status _ _ _ _ _ hu,
                    copy_and_update_retval _ _ _ _ _ _ _ _
                      (copy_errors_unit_result _ _ _ _ _ hu).choose_spec.choose_spec.choose_spec.1⟩)
                (fun _ hx => hx) n rbs (retry + 1) false r rb1 h1 h).1
    · rw [if_neg hc] at h
      simp only [Option.some.injEq, Prod.mk.injEq] at h
      left; exact ⟨h.1.symm, h.2.symm⟩

theorem run_copy_non_tried_status (fuel : Nat) (cp : Bool) (x y : Int × Rescuebook)
    (hx : x.1 ≠ 0 → x.2.current_status ≠ .finished)
    (h : run_copy_non_tried fuel cp x = some y) :
    y.1 ≠ 0 → y.2.current_status ≠ .finished := by
  unfold run_copy_non_tried at h
  split_ifs at h
  · obtain ⟨r, rb1⟩ := y
    rcases copy_non_tried_loop_status _ _ _ _ _ _ h with ⟨h1, -⟩ | h1
    · intro h2; exact absurd h1 h2
    · intro _; show rb1.current_status ≠ .finished; rw [h1]; decide
  · cases h; exact hx

theorem run_trim_errors_status (fuel : Nat) (tp : Bool) (x y : Int × Rescuebook)
    (hx : x.1 ≠ 0 → x.2.current_status ≠ .finished)
    (h : run_trim_errors fuel tp x = some y) :
    y.1 ≠ 0 → y.2.current_status ≠ .finished := by
  unfold run_trim_errors at h
  split_ifs at h
  · obtain ⟨r, rb1⟩ := y
    rcases trim_errors_loop_status _ _ _ _ _ h with ⟨h1, -⟩ | h1
    · intro h2; exact absurd h1 h2
    · intro _; show rb1.current_status ≠ .finished; rw [h1]; decide
  · cases h; exact hx

theorem run_split_errors_status (fuel : Nat) (sp : Bool) (x y : Int × Rescuebook)
    (hx : x.1 ≠ 0 → x.2.current_status ≠ .finished)
    (h : run_split_errors fuel sp x = some y) :
    y.1 ≠ 0 → y.2.current_status ≠ .finished := by
  unfold run_split_errors at h
  split_ifs at h
  · obtain ⟨r, rb1⟩ := y
    rcases split_errors_outer_status _ _ _ _ _ h with ⟨h1, -⟩ | h1
    · intro h2; exact absurd h1 h2
    · intro _; show rb1.current_status ≠ .finished; rw [h1]; decide
  · cases h; exact hx

theorem run_copy_errors_status (fuel : Nat) (x y : Int × Rescuebook)
    (hx : x.1 ≠ 0 → x.2.current_status ≠ .finished)
    (h : run_copy_errors fuel x = some y) :
    y.1 ≠ 0 → y.2.current_status ≠ .finished := by
  unfold run_copy_errors at h
  split_ifs at h
  · obtain ⟨r, rb1⟩ := y
    rcases copy_errors_retries_status _ _ _ _ _ _ h with ⟨h1, -⟩ | h1
    · intro h2; exact absurd h1 h2
    · intro _; show rb1.current_status ≠ .finished; rw [h1]; decide
  · cases h; exact hx

theorem rescue_passes_status (fuel : Nat) (rb : Rescuebook) (cp tp sp : Bool) (r : Int)
    (rb1 : Rescuebook) (h : rescue_passes fuel rb cp tp sp = some (r, rb1)) (hr : r ≠ 0) :
    rb1.current_status ≠ .finished := by
  unfold rescue_passes at h
  cases h1 : run_copy_non_tried fuel cp (0, rb) with
  | none => rw [h1] at h; cases h
  | some x1 =>
    rw [h1] at h
    simp only [Option.some_bind] at h
    have s1 := run_copy_non_tried_status fuel cp (0, rb) x1 (fun hc => absurd rfl hc) h1
    cases h2 : run_trim_errors fuel tp x1 with
    | none => rw [h2] at h; cases h
    | some x2 =>
      rw [h2] at h
      simp only [Option.some_bind] at h
      have s2 := run_trim_errors_status fuel tp x1 x2 s1 h2
      cases h3 : run_split_errors fuel sp x2 with
      | none => rw [h3] at h; cases h
      | some x3 =>
        rw [h3] at h
        simp only [Option.some_bind] at h
        have s3 := run_split_errors_status fuel sp x2 x3 s2 h3
        exact run_copy_errors_status fuel x3 (r, rb1) s3 h hr

theorem extend_outfile_size_status (fuel : Nat) (rb : Rescuebook) (ok : Bool) (rb1 : Rescuebook)
    (h : extend_outfile_size fuel rb = some (ok, rb1)) :
    rb1.current_status = rb.current_status ∧ rb1.sblock_vector = rb.sblock_vector := by
  unfold extend_outfile_size at h
  have fin : ∀ (k : Bool) (x : Rescuebook), some (k, x) = some (ok, rb1) →
      x.current_status = rb.current_status → x.sblock_vector = rb.sblock_vector →
      rb1.current_status = rb.current_status ∧ rb1.sblock_vector = rb.sblock_vector := by
    intro k x hx h1 h2
    simp only [Option.some.injEq, Prod.mk.injEq] at hx
    rw [← hx.2]
    exact ⟨h1, h2⟩
  by_cases h1 : rb.min_outfile_size > 0 ∨ rb.sparse_size > 0
  · rw [if_pos h1] at h
    simp only [] at h
    by_cases h2 : (rb.world.sys (.lseek_end rb.odes_)).1.ret < 0
    · rw [if_pos h2] at h
      exact fin _ _ h rfl rfl
    · rw [if_neg h2] at h
      split_ifs at h
      · split at h
        · cases h
        · split_ifs at h
          · exact fin _ _ h rfl rfl
          · exact fin _ _ h rfl rfl
      · exact fin _ _ h rfl rfl
  · rw [if_neg h1] at h
    exact fin _ _ h rfl rfl

theorem rescue_finish_status (fuel : Nat) (retval : Int) (rb : Rescuebook) (r : Int)
    (rb1 : Rescuebook) (h : rescue_finish fuel retval rb = some (r, rb1)) :
    (retval = 0 → rb1.current_status = .finished) ∧
    (retval ≠ 0 → rb1.current_status = rb.current_status) ∧
    (retval = -2 → rb1 = rb) ∧
    (retval ≠ -2 → ∃ rbs, rb1 = (update_logfile rbs).2 ∧
      rbs.current_status = rb1.current_status) := by
  unfold rescue_finish at h
  by_cases hv : retval = -2
  · rw [if_pos hv] at h
    simp only [Option.some.injEq, Prod.mk.injEq] at h
    rw [← h.2]
    refine ⟨fun h0 => ?_, fun _ => rfl, fun _ => rfl, fun h0 => absurd hv h0⟩
    omega
  · rw [if_neg hv] at h
    simp only [] at h
    cases hs : sync_sparse_file fuel
        { rb with current_status := if retval = 0 then .finished else rb.current_status } with
    | none => rw [hs] at h; cases h
    | some x =>
      obtain ⟨synced, rb2⟩ := x
      rw [hs] at h
      simp only [Option.some.injEq, Prod.mk.injEq] at h
      have h2 := (extend_outfile_size_status _ _ _ _ hs).1
      have h3 : rb1.current_status = rb2.current_status := by rw [← h.2]; rfl
      simp only [] at h2
      refine ⟨fun h0 => ?_, fun h0 => ?_, fun h0 => absurd h0 hv, fun _ => ⟨_, h.2.symm, ?_⟩⟩
      · rw [h3, h2, if_pos h0]
      · rw [h3, h2, if_neg h0]
      · rw [h3]

theorem pair_state_eq (x : Option (Int × Rescuebook)) (d : Rescuebook) (r : Int)
    (h : x.map (fun y => y.1) = some r) : x = some (r, pair_state_of x d) := by
  cases x with
  | none => cases h
  | some y =>
    simp only [Option.map_some', Option.some.injEq] at h
    rw [← h]
    rfl

/-- C22: `do_rescue` sets the cursor status to `finished` exactly when the pass sequence ended
with result 0.  The mapping of lines 437-451 sets it when `retval` is 0 and leaves the cursor as
it is for every other result; for -2 (logfile error) the state is not touched at all, otherwise
the last action is the snapshot of a state that has the final cursor status.  For `do_rescue` as
a whole the final cursor status is `finished` if and only if the passes ended with 0, because a
pass that ends with another result has set its own status.  A run stopped by `too_many_errors`
ends with 0: with `max_errors = 1` the example run stops after the first work unit of pass 1,
exits with 0 and the cursor status `finished` while `non_tried`, `non_trimmed` and `non_split`
Sblocks remain. -/
theorem do_rescue_sets_finished :
    (∀ (fuel : Nat) (retval : Int) (rb : Rescuebook) (r : Int) (rb1 : Rescuebook),
      rescue_finish fuel retval rb = some (r, rb1) →
      (retval = 0 → rb1.current_status = .finished) ∧
      (retval ≠ 0 → rb1.current_status = rb.current_status) ∧
      (retval = -2 → rb1 = rb) ∧
      (retval ≠ -2 → ∃ rbs, rb1 = (update_logfile rbs).2 ∧
        rbs.current_status = rb1.current_status)) ∧
    (∀ (fuel : Nat) (rb : Rescuebook) (ides odes r : Int) (rb1 : Rescuebook),
      do_rescue fuel rb ides odes = some (r, rb1) →
      ∃ retval rb3,
        rescue_passes fuel (rescue_start rb ides odes).2.2.2 (rescue_start rb ides odes).1
          (rescue_start rb ides odes).2.1 (rescue_start rb ides odes).2.2.1 =
          some (retval, rb3) ∧
        rescue_finish fuel retval rb3 = some (r, rb1) ∧
        (retval = 0 ∨ retval = 1 ∨ retval = -2) ∧
        (rb1.current_status = .finished ↔ retval = 0)) ∧
    (pass_summary (rescue_passes 20 (rescue_start early_stop_book 3 4).2.2.2
        (rescue_start early_stop_book 3 4).1 (rescue_start early_stop_book 3 4).2.1
        (rescue_start early_stop_book 3 4).2.2.1) =
      some (0, [⟨0, 2, .bad_sector⟩, ⟨2, 4, .non_trimmed⟩, ⟨6, 2, .non_tried⟩,
        ⟨8, 4, .non_split⟩], [⟨0, 2⟩], true) ∧
     finish_summary (do_rescue 20 early_stop_book 3 4) =
      some (0, .finished, [⟨0, 2, .bad_sector⟩, ⟨2, 4, .non_trimmed⟩, ⟨6, 2, .non_tried⟩,
        ⟨8, 4, .non_split⟩], true)) := by
  refine ⟨rescue_finish_status, ?_, by decide!⟩
  intro fuel rb ides odes r rb1 h
  rw [do_rescue_eq] at h
  cases hp : rescue_passes fuel (rescue_start rb ides odes).2.2.2 (rescue_start rb ides odes).1
      (rescue_start rb ides odes).2.1 (rescue_start rb ides odes).2.2.1 with
  | none => rw [hp] at h; cases h
  | some x =>
    obtain ⟨retval, rb3⟩ := x
    rw [hp] at h
    simp only [Option.some_bind] at h
    obtain ⟨f1, f2, -, -⟩ := rescue_finish_status _ _ _ _ _ h
    refine ⟨retval, rb3, rfl, h, rescue_passes_retval _ _ _ _ _ _ _ hp, f1 |> fun g => ⟨?_, g⟩⟩
    intro hfin
    by_contra h0
    rw [f2 h0] at hfin
    exact rescue_passes_status _ _ _ _ _ _ _ hp h0 hfin

theorem do_rescue_sets_finished_witness :
    ∃ retval rb3,
      rescue_passes 20 (rescue_start early_stop_book 3 4).2.2.2
        (rescue_start early_stop_book 3 4).1 (rescue_start early_stop_book 3 4).2.1
        (rescue_start early_stop_book 3 4).2.2.1 = some (retval, rb3) ∧
      rescue_finish 20 retval rb3 =
        some (0, pair_state_of (do_rescue 20 early_stop_book 3 4) early_stop_book) ∧
      (retval = 0 ∨ retval = 1 ∨ retval = -2) ∧
      ((pair_state_of (do_rescue 20 early_stop_book 3 4) early_stop_book).current_status =
        .finished ↔ retval = 0) :=
  do_rescue_sets_finished.2.1 20 early_stop_book 3 4 0
    (pair_state_of (do_rescue 20 early_stop_book 3 4) early_stop_book)
    (pair_state_eq _ _ 0 (by decide!))

theorem buf_store_getElem (buf data : List Nat) (off n j : Nat) (h : off + n ≤ buf.length) :
    (buf_store buf off n data)[j]? =
      if j < off then buf[j]? else if j < off + n then some (data.getD (j - off) 0)
      else buf[j]? := by
  unfold buf_store
  have h1 : (List.take off buf).length = off := by rw [List.length_take]; omega
  have h2 : (List.take off buf ++ List.map (fun i => data.getD i 0) (List.range n)).length =
      off + n := by
    rw [List.length_append, h1, List.length_map, List.length_range]
  by_cases hj : j < off
  · rw [if_pos hj, List.getElem?_append_left (by rw [h2]; omega),
      List.getElem?_append_left (by rw [h1]; exact hj), List.getElem?_take_of_lt hj]
  · rw [if_neg hj]
    by_cases hj2 : j < off + n
    · rw [if_pos hj2, List.getElem?_append_left (by rw [h2]; exact hj2),
        List.getElem?_append_right (by rw [h1]; omega), h1, List.getElem?_map,
        List.getElem?_range (by omega)]
      rfl
    · rw [if_neg hj2, List.getElem?_append_right (by rw [h2]; omega), h2, List.getElem?_drop]
      congr 1
      omega

theorem buf_store_length (buf data : List Nat) (off n : Nat) (h : off + n ≤ buf.length) :
    (buf_store buf off n data).length = buf.length := by
  unfold buf_store
  rw [List.length_append, List.length_append, List.length_take, List.length_map,
    List.length_range, List.length_drop]
  omega

theorem int_result_some (x d : Int) (h : int_result x = some d) :
    d = x ∧ -INT_MAX - 1 ≤ x ∧ x ≤ INT_MAX := by
  unfold int_result at h
  split_ifs at h with hc
  simp only [Option.some.injEq] at h
  exact ⟨h.symm, hc.1, hc.2⟩

theorem memcpy_self_some (buf buf1 : List Nat) (i size : Int)
    (h : memcpy_self buf i size = some buf1) :
    0 ≤ size ∧ size ≤ i ∧ i + size ≤ buf.length ∧
      buf1 = buf_store buf i.toNat size.toNat buf := by
  unfold memcpy_self at h
  split_ifs at h with hc
  simp only [Option.some.injEq] at h
  exact ⟨by omega, by omega, by omega, h.symm⟩

theorem read_buffer_loop_periodic (base : List Nat) (r : Nat) (softbs : Int) (fuel : Nat) :
    ∀ (buf out : List Nat) (k : Nat), 0 < r * k →
      (∀ j : Nat, j < r * k → (j : Int) < softbs → buf.getD j 0 = base.getD (j % r) 0) →
      read_buffer_loop fuel buf softbs ((r * k : Nat) : Int) = some out →
      out.length = buf.length ∧
        ∀ j : Nat, (j : Int) < softbs → out.getD j 0 = base.getD (j % r) 0 := by
  induction fuel with
  | zero => intro buf out k _ _ h; simp [read_buffer_loop] at h
  | succ n ih =>
    intro buf out k hk hP h
    rw [read_buffer_loop] at h
    by_cases hi : ((r * k : Nat) : Int) < softbs
    · rw [if_pos hi] at h
      cases hd : int_result (softbs - ((r * k : Nat) : Int)) with
      | none => rw [hd] at h; cases h
      | some d =>
        rw [hd] at h
        simp only [] at h
        obtain ⟨rfl, -, -⟩ := int_result_some _ _ hd
        cases hm : memcpy_self buf ((r * k : Nat) : Int)
            (min ((r * k : Nat) : Int) (softbs - ((r * k : Nat) : Int))) with
        | none => rw [hm] at h; cases h
        | some buf1 =>
          rw [hm] at h
          simp only [] at h
          obtain ⟨m1, m2, m3, m4⟩ := memcpy_self_some _ _ _ _ hm
          cases h2 : int_result (((r * k : Nat) : Int) * 2) with
          | none => rw [h2] at h; cases h
          | some i2 =>
            rw [h2] at h
            simp only [] at h
            obtain ⟨rfl, -, -⟩ := int_result_some _ _ h2
            have hcast : ((r * k : Nat) : Int) * 2 = ((r * (k * 2) : Nat) : Int) := by
              push_cast; ring
            rw [hcast] at h
            generalize hsz : (min ((r * k : Nat) : Int) (softbs - ((r * k : Nat) : Int))).toNat =
              sz at m4
            have hsz1 : (sz : Int) = min ((r * k : Nat) : Int) (softbs - ((r * k : Nat) : Int)) := by
              rw [← hsz]; exact Int.toNat_of_nonneg m1
            have hoff : (((r * k : Nat) : Int)).toNat = r * k := Int.toNat_natCast _
            rw [hoff] at m4
            have hle : r * k + sz ≤ buf.length := by omega
            have hszle : sz ≤ r * k := by omega
            have hlen : buf1.length = buf.length := by
              rw [m4]; exact buf_store_length _ _ _ _ hle
            have hP1 : ∀ j : Nat, j < r * (k * 2) → (j : Int) < softbs →
                buf1.getD j 0 = base.getD (j % r) 0 := by
              intro j hj1 hj2
              rw [List.getD_eq_getElem?_getD, m4, buf_store_getElem _ _ _ _ _ hle]
              by_cases hj : j < r * k
              · rw [if_pos hj, ← List.getD_eq_getElem?_getD]
                exact hP j hj hj2
              · rw [if_neg hj]
                have hj3 : j < r * k + sz := by
                  rcases min_choice ((r * k : Nat) : Int) (softbs - ((r * k : Nat) : Int)) with
                    hc | hc
                  · rw [hc] at hsz1
                    have : sz = r * k := by omega
                    rw [this, ← Nat.mul_two, Nat.mul_assoc]
                    exact hj1
                  · rw [hc] at hsz1
                    omega
                rw [if_pos hj3, Option.getD_some, hP (j - r * k) (by omega) (by omega),
                  Nat.sub_mul_mod (by omega)]
            obtain ⟨o1, o2⟩ := ih buf1 out (k * 2)
              (by rw [← Nat.mul_assoc]; omega) hP1 h
            exact ⟨by rw [o1, hlen], o2⟩
    · rw [if_neg hi] at h
      simp only [Option.some.injEq] at h
      rw [← h]
      exact ⟨rfl, fun j hj => hP j (by omega) hj⟩

theorem read_buffer_loop_some (softbs : Int) (hs : softbs ≤ 1073741824) (fuel : Nat) :
    ∀ (buf : List Nat) (i : Int), 0 < i → softbs ≤ buf.length →
      (softbs - i).toNat + 1 ≤ fuel →
      ∃ out, read_buffer_loop fuel buf softbs i = some out := by
  induction fuel with
  | zero => intro buf i _ _ h; omega
  | succ n ih =>
    intro buf i hi hlen hf
    rw [read_buffer_loop]
    by_cases hc : i < softbs
    · rw [if_pos hc]
      have h1 : int_result (softbs - i) = some (softbs - i) := by
        unfold int_result INT_MAX
        rw [if_pos (by omega)]
      have h2 : int_result (i * 2) = some (i * 2) := by
        unfold int_result INT_MAX
        rw [if_pos (by omega)]
      have hmin : 0 ≤ min i (softbs - i) ∧ min i (softbs - i) ≤ i ∧
          i + min i (softbs - i) ≤ softbs := by
        rcases min_choice i (softbs - i) with hm | hm <;> rw [hm] <;> omega
      have h3 : memcpy_self buf i (min i (softbs - i)) =
          some (buf_store buf i.toNat (min i (softbs - i)).toNat buf) := by
        unfold memcpy_self
        rw [if_neg (by omega)]
      rw [h1]
      simp only []
      rw [h3]
      simp only []
      rw [h2]
      simp only []
      refine ih _ (i * 2) (by omega) ?_ (by omega)
      rw [buf_store_length _ _ _ _ (by omega)]
      exact hlen
    · rw [if_neg hc]
      exact ⟨buf, rfl⟩

theorem readblock_loop_length (fuel : Nat) :
    ∀ (w : World) (fd : Int) (buf : List Nat) (size sz r : Int) (buf1 : List Nat) (w1 : World),
      readblock_loop fuel w fd buf size sz = some (r, buf1, w1) → 0 ≤ sz →
        size ≤ buf.length → buf1.length = buf.length := by
  induction fuel with
  | zero => intro w fd buf size sz r buf1 w1 h; simp [readblock_loop] at h
  | succ n ih =>
    intro w fd buf size sz r buf1 w1 h hs hl
    simp only [readblock_loop] at h
    have hle := sys_read_le { w with errno := 0 } fd (size - sz)
    generalize sys_read { w with errno := 0 } fd (size - sz) = x at h hle
    obtain ⟨k, data, w2⟩ := x
    dsimp only at h hle
    split_ifs at h with h1 h2 h3 h4
    · have hb : (buf_store buf sz.toNat k.toNat data).length = buf.length :=
        buf_store_length _ _ _ _ (by omega)
      rw [← hb]
      exact ih _ _ _ _ _ _ _ _ h (by omega) (by rw [hb]; exact hl)
    · simp only [Option.some.injEq, Prod.mk.injEq] at h; rw [← h.2.1]
    · simp only [Option.some.injEq, Prod.mk.injEq] at h; rw [← h.2.1]
    · exact ih _ _ _ _ _ _ _ _ h hs hl
    · simp only [Option.some.injEq, Prod.mk.injEq] at h; rw [← h.2.1]

theorem readblock_length (fuel : Nat) (w : World) (fd : Int) (buf : List Nat) (size pos r : Int)
    (buf1 : List Nat) (w1 : World) (h : readblock fuel w fd buf size pos = some (r, buf1, w1))
    (hl : size ≤ buf.length) : buf1.length = buf.length := by
  unfold readblock at h
  generalize sys_lseek { w with errno := 0 } fd pos = x at h
  obtain ⟨k, w2⟩ := x
  dsimp only at h
  split_ifs at h
  · exact readblock_loop_length fuel _ _ _ _ _ _ _ _ h (le_refl _) hl
  · simp only [Option.some.injEq, Prod.mk.injEq] at h; rw [← h.2.1]

/-- C23: `Fillbook::read_buffer` returns `false`, with the buffer as `readblock` left it,
exactly when `readblock` read `rd ≤ 0` bytes.  When it returns `true`, `rd > 0` and every byte
`j < softbs` of the buffer equals byte `j mod rd` of what `readblock` read; the buffer keeps its
length.  For `softbs ≤ 2^30`, where the doubling `i *= 2` cannot overflow an `int`, a buffer of
`softbs` bytes and `rd > 0`, the function does return `true` (with fuel `softbs + 1`). -/
theorem read_buffer_periodic (fuel : Nat) (w : World) (ides : Int) (iobuf : List Nat)
    (softbs rd : Int) (buf : List Nat) (w1 : World)
    (hr : readblock fuel w ides iobuf softbs 0 = some (rd, buf, w1)) :
    (rd ≤ 0 → read_buffer fuel w ides iobuf softbs = some (false, buf, w1)) ∧
    (∀ (ok : Bool) (buf1 : List Nat) (w2 : World),
      read_buffer fuel w ides iobuf softbs = some (ok, buf1, w2) →
      w2 = w1 ∧ (ok = false ↔ rd ≤ 0) ∧ (ok = false → buf1 = buf) ∧
      (ok = true → buf1.length = buf.length ∧
        ∀ j : Nat, (j : Int) < softbs → buf1.getD j 0 = buf.getD (j % rd.toNat) 0)) ∧
    (0 < rd → softbs ≤ 1073741824 → softbs ≤ iobuf.length → softbs.toNat + 1 ≤ fuel →
      ∃ buf1, read_buffer fuel w ides iobuf softbs = some (true, buf1, w1)) := by
  unfold read_buffer
  rw [hr]
  simp only []
  refine ⟨fun h0 => by rw [if_pos h0], ?_, ?_⟩
  · intro ok buf1 w2 h
    by_cases h0 : rd ≤ 0
    · rw [if_pos h0] at h
      simp only [Option.some.injEq, Prod.mk.injEq] at h
      obtain ⟨rfl, rfl, rfl⟩ := h
      exact ⟨rfl, ⟨fun _ => h0, fun _ => rfl⟩, fun _ => rfl, fun hc => (by cases hc)⟩
    · rw [if_neg h0] at h
      cases hl : read_buffer_loop fuel buf softbs rd with
      | none => rw [hl] at h; cases h
      | some out =>
        rw [hl] at h
        simp only [Option.some.injEq, Prod.mk.injEq] at h
        obtain ⟨rfl, rfl, rfl⟩ := h
        refine ⟨rfl, ⟨fun hc => (by cases hc), fun hc => absurd hc h0⟩,
          fun hc => (by cases hc), fun _ => ?_⟩
        have hrd : rd = ((rd.toNat * 1 : Nat) : Int) := by
          rw [Nat.mul_one, Int.toNat_of_nonneg (by omega)]
        rw [hrd] at hl
        exact read_buffer_loop_periodic buf rd.toNat softbs fuel buf out 1 (by omega)
          (fun j hj _ => by rw [Nat.mod_eq_of_lt (by omega)]) hl
  · intro h0 hs hlen hf
    rw [if_neg (by omega)]
    obtain ⟨out, ho⟩ := read_buffer_loop_some softbs hs fuel buf rd h0
      (by rw [readblock_length _ _ _ _ _ _ _ _ _ hr hlen]; exact hlen) (by omega)
    rw [ho]
    exact ⟨out, rfl⟩

theorem read_buffer_periodic_witness :
    buffer_of (read_buffer 12 (script_world pattern_script 0) 3 (List.replicate 11 0) 11) =
      some (true, [5, 6, 7, 5, 6, 7, 5, 6, 7, 5, 6]) ∧
    ∃ buf1, read_buffer 12 (script_world pattern_script 0) 3 (List.replicate 11 0) 11 =
      some (true, buf1, world_of3 (readblock 12 (script_world pattern_script 0) 3
        (List.replicate 11 0) 11 0) (script_world pattern_script 0)) :=
  ⟨by decide,
   (read_buffer_periodic 12 (script_world pattern_script 0) 3 (List.replicate 11 0) 11 3
      [5, 6, 7, 0, 0, 0, 0, 0, 0, 0, 0]
      (world_of3 (readblock 12 (script_world pattern_script 0) 3 (List.replicate 11 0) 11 0)
        (script_world pattern_script 0)) (by rfl)).2.2
      (by decide) (by decide) (by decide) (by decide)⟩

/-- C21 (what the code does): `trim_errors` can return 0, with `too_many_errors` false, while
a `non_trimmed` Sblock within the domain remains.  Whenever the chunk that `rfind_chunk`
delivers starts below `hardbs`, the pass performs that work unit and then ends, because
`pos = b.pos() - hardbs()` is negative: the vector it returns is the one that work unit left,
whatever lies before the chunk.  With `hardbs = 2`, the vector `[0,3) non_trimmed` and every
read succeeding, the only work unit is `[1,3)`; the pass returns 0 and `[0,1)` is still
`non_trimmed`, and `do_rescue` exits with 0 and the cursor status `finished`.  With
`hardbs = 512` and `[0,700) non_trimmed` the only work unit is `[188,700)` and `[0,188)` is
left.  With `[0,4) non_trimmed` and `hardbs = 2` both chunks are read. -/
theorem trim_errors_leaves_head :
    (∀ (n : Nat) (rb : Rescuebook) (pos r : Int) (rb1 : Rescuebook), pos ≥ 0 →
      0 < (rfind_chunk rb.sblock_vector rb.domain ⟨pos, rb.hardbs⟩ .non_trimmed).size →
      (rfind_chunk rb.sblock_vector rb.domain ⟨pos, rb.hardbs⟩ .non_trimmed).pos < rb.hardbs →
      trim_errors_loop (n + 1) rb pos = some (r, rb1) →
      ∃ r0 rbu,
        trim_errors_unit n rb
          (rfind_chunk rb.sblock_vector rb.domain ⟨pos, rb.hardbs⟩ .non_trimmed) =
          some (r0, rbu) ∧
        rb1.sblock_vector = rbu.sblock_vector ∧ (r = r0 ∨ r = -2 ∨ r = 0)) ∧
    rfind_chunk trim_head_book.sblock_vector trim_head_book.domain
      ⟨LLONG_MAX - trim_head_book.hardbs, trim_head_book.hardbs⟩ .non_trimmed = ⟨1, 2⟩ ∧
    pass_summary (trim_errors 10 trim_head_book) =
      some (0, [⟨0, 1, .non_trimmed⟩, ⟨1, 2, .finished⟩], [⟨1, 2⟩], false) ∧
    trim_head_book.domain.includes (⟨0, 1, .non_trimmed⟩ : Sblock).block = true ∧
    finish_summary (do_rescue 10 trim_head_book 3 4) =
      some (0, .finished, [⟨0, 1, .non_trimmed⟩, ⟨1, 2, .finished⟩], false) ∧
    pass_summary (trim_errors 10 trim_sector_book) =
      some (0, [⟨0, 188, .non_trimmed⟩, ⟨188, 512, .finished⟩], [⟨188, 512⟩], false) ∧
    pass_summary (trim_errors 10 trim_aligned_book) =
      some (0, [⟨0, 4, .finished⟩], [⟨2, 2⟩, ⟨0, 2⟩], false) := by
  refine ⟨?_, by decide!, by decide!, by decide!, by decide!, by decide!, by decide!⟩
  intro n rb pos r rb1 hpos hsz hlow h
  obtain ⟨r0, rbu, hun, hcase⟩ :=
    trim_errors_loop_step n rb pos r rb1 _ rfl hpos (by omega) h
  refine ⟨r0, rbu, hun, ?_⟩
  rcases hcase with ⟨-, h1, h2⟩ | ⟨-, -, h1, h2⟩ | ⟨-, -, hl⟩
  · exact ⟨by rw [h2], Or.inl h1⟩
  · exact ⟨by rw [h2]; rfl, Or.inr (Or.inl h1)⟩
  · cases n with
    | zero => simp [trim_errors_loop] at hl
    | succ m =>
      rw [trim_errors_loop, if_neg (by omega)] at hl
      simp only [Option.some.injEq, Prod.mk.injEq] at hl
      exact ⟨by rw [← hl.2]; rfl, Or.inr (Or.inr hl.1.symm)⟩

theorem trim_errors_leaves_head_witness :
    ∃ r0 rbu,
      trim_errors_unit 9 { trim_head_book with world := trim_head_book.world.note (.pass .trimming) }
        ⟨1, 2⟩ = some (r0, rbu) ∧
      (pair_state_of (trim_errors 10 trim_head_book) trim_head_book).sblock_vector =
        rbu.sblock_vector ∧ ((0 : Int) = r0 ∨ (0 : Int) = -2 ∨ (0 : Int) = 0) :=
  trim_errors_leaves_head.1 9
    { trim_head_book with world := trim_head_book.world.note (.pass .trimming) }
    (LLONG_MAX - 2) 0 (pair_state_of (trim_errors 10 trim_head_book) trim_head_book)
    (by decide) (by decide) (by decide) (pair_state_eq _ _ 0 (by decide!))

theorem readblock_loop_no_eof (fuel : Nat) :
    ∀ (w : World) (fd : Int) (buf : List Nat) (size sz r : Int) (buf1 : List Nat) (w1 : World),
      eof_free w.oracle → readblock_loop fuel w fd buf size sz = some (r, buf1, w1) →
        r < size → w1.errno ≠ 0 := by
  induction fuel with
  | zero => intro w fd buf size sz r buf1 w1 _ h; simp [readblock_loop] at h
  | succ n ih =>
    intro w fd buf size sz r buf1 w1 ho h hr
    simp only [readblock_loop] at h
    obtain ⟨f1, -, f3, f4⟩ := sys_read_fields { w with errno := 0 } fd (size - sz)
    have hk := ho w.clock
    generalize sys_read { w with errno := 0 } fd (size - sz) = x at h f1 f3 f4
    obtain ⟨k, data, w2⟩ := x
    simp only at h f1 f3 f4
    have ho2 : eof_free w2.oracle := by rw [f1]; exact ho
    by_cases hs : sz < size
    · rw [if_pos hs] at h
      by_cases h1 : k > 0
      · rw [if_pos h1] at h
        exact ih _ _ _ _ _ _ _ _ ho2 h hr
      · rw [if_neg h1] at h
        by_cases hneg : (w.oracle w.clock).ret < 0
        · rw [if_pos hneg] at f3 f4
          rw [if_neg (by omega)] at h
          by_cases h3 : w2.errno ≠ EINTR
          · rw [if_pos h3] at h
            simp only [Option.some.injEq, Prod.mk.injEq] at h
            rw [← h.2.2, f4]
            exact hk.2 hneg
          · rw [if_neg h3] at h
            exact ih _ _ _ _ _ _ _ _ ho2 h hr
        · rw [if_neg hneg] at f3
          exfalso
          have := hk.1
          rcases min_choice (w.oracle w.clock).ret (size - sz) with hm | hm <;>
            rw [hm] at f3 <;> omega
    · rw [if_neg hs] at h
      simp only [Option.some.injEq, Prod.mk.injEq] at h
      omega

theorem readblock_no_eof (fuel : Nat) (w : World) (fd : Int) (buf : List Nat) (size pos r : Int)
    (buf1 : List Nat) (w1 : World) (ho : eof_free w.oracle)
    (h : readblock fuel w fd buf size pos = some (r, buf1, w1)) (hr : r < size) :
    w1.errno ≠ 0 := by
  unfold readblock at h
  dsimp only at h
  obtain ⟨f1, -, f3, f4⟩ := sys_lseek_fields { w with errno := 0 } fd pos
  have hk := ho w.clock
  generalize sys_lseek { w with errno := 0 } fd pos = x at h f1 f3 f4
  obtain ⟨k, w2⟩ := x
  simp only at h f1 f3 f4
  by_cases hk0 : k ≥ 0
  · rw [if_pos hk0] at h
    exact readblock_loop_no_eof fuel _ _ _ _ _ _ _ _ (by rw [f1]; exact ho) h hr
  · rw [if_neg hk0] at h
    simp only [Option.some.injEq, Prod.mk.injEq] at h
    by_cases hneg : (w.oracle w.clock).ret < 0
    · rw [if_pos hneg] at f4
      rw [← h.2.2, f4]
      exact hk.2 hneg
    · rw [if_neg hneg] at f3
      omega

theorem copy_block_no_eof (fuel : Nat) (rb : Rescuebook) (b : Block)
    (ho : eof_free rb.world.oracle) : ¬ hits_eof fuel rb b := by
  rintro ⟨c, e, rb1, h, hlt⟩
  unfold copy_block at h
  split_ifs at h with hb
  cases hr : copy_block_read fuel { rb with world := rb.world.note (.copy_block b) } b with
  | none => rw [hr] at h; simp at h
  | some x =>
    obtain ⟨c0, e0, rb0⟩ := x
    rw [hr] at h
    dsimp only at h
    have h2 := (copy_block_write_result _ _ _ _ _ _ _ _ _ h).2
    rcases h2 with ⟨-, rfl, rfl⟩ | ⟨h3, -⟩
    · unfold copy_block_read at hr
      split_ifs at hr with htd
      · cases hrb : readblock fuel (rb.world.note (.copy_block b)) rb.ides_ rb.iobuf b.size
            b.pos with
        | none => simp only [hrb] at hr; cases hr
        | some y =>
          obtain ⟨c1, buf, w⟩ := y
          simp only [hrb, Option.some.injEq, Prod.mk.injEq] at hr
          obtain ⟨rfl, rfl, -⟩ := hr
          have hb1 := readblock_bounds _ _ _ _ _ _ _ _ _ hrb (by omega)
          by_cases hc : c1 < b.size
          · have := readblock_no_eof _ (rb.world.note (.copy_block b)) _ _ _ _ _ _ _ ho hrb hc
            rw [if_pos this] at hlt
            omega
          · omega
      · simp only [Option.some.injEq, Prod.mk.injEq] at hr
        omega
    · omega

theorem copy_and_update_env (fuel : Nat) (rb : Rescuebook) (b : Block) (st : Status)
    (r c e : Int) (rb2 : Rescuebook)
    (h : copy_and_update fuel rb b st = some (r, c, e, rb2)) :
    rb2.hardbs = rb.hardbs ∧ rb2.world.oracle = rb.world.oracle ∧ (r = 0 ∨ r = 1) :=
  ⟨(same_config_fields
      (copy_and_update_result _ _ _ _ _ _ _ _ h).choose_spec.choose_spec.2.1).2.1,
    oracle_copy_and_update _ _ _ _ _ _ _ _ h, copy_and_update_retval _ _ _ _ _ _ _ _ h⟩

theorem copy_non_tried_unit_conserving (fuel : Nat) (rb : Rescuebook) (b : Block)
    (pos skip r pos1 skip1 : Int) (rb1 : Rescuebook) (q : Int) (hI : conserving q rb)
    (hch : chunk_in rb.sblock_vector rb.domain .non_tried b)
    (hu : copy_non_tried_unit fuel rb b pos skip = some (r, rb1, pos1, skip1)) :
    conserving q rb1 ∧ (r = 0 ∨ r = 1) := by
  obtain ⟨h1, h2, h3, h4⟩ := hI
  obtain ⟨c1, c2⟩ := copy_non_tried_unit_conserves fuel rb b pos skip r pos1 skip1 rb1 q h2 h3
    hch (copy_block_no_eof _ _ _ h4) h1 hu
  obtain ⟨c, e, rb2, hcu, hw, hsc⟩ := copy_non_tried_unit_result _ _ _ _ _ _ _ _ _ hu
  obtain ⟨e1, e2, e3⟩ := copy_and_update_env _ _ _ _ _ _ _ _ hcu
  refine ⟨⟨c1, c2, ?_, ?_⟩, e3⟩
  · rw [(same_config_fields hsc.1).2.1, e1]; exact h3
  · rw [hw, e2]; exact h4

theorem trim_errors_unit_conserving (fuel : Nat) (rb : Rescuebook) (b : Block) (r : Int)
    (rb1 : Rescuebook) (q : Int) (hI : conserving q rb)
    (hch : chunk_in rb.sblock_vector rb.domain .non_trimmed b)
    (hu : trim_errors_unit fuel rb b = some (r, rb1)) :
    conserving q rb1 ∧ (r = 0 ∨ r = 1) := by
  obtain ⟨h1, h2, h3, h4⟩ := hI
  obtain ⟨c1, c2⟩ := trim_errors_unit_conserves fuel rb b r rb1 q h2 h3
    hch (copy_block_no_eof _ _ _ h4) h1 hu
  obtain ⟨c, e, rb2, hcu, hw, hsc⟩ := trim_errors_unit_result _ _ _ _ _ hu
  obtain ⟨e1, e2, e3⟩ := copy_and_update_env _ _ _ _ _ _ _ _ hcu
  refine ⟨⟨c1, c2, ?_, ?_⟩, e3⟩
  · rw [(same_config_fields hsc).2.1, e1]; exact h3
  · rw [hw, e2]; exact h4

theorem split_errors_unit_conserving (fuel : Nat) (rb : Rescuebook) (b : Block)
    (pos ec r pos1 ec1 : Int) (rb1 : Rescuebook) (q : Int) (hI : conserving q rb)
    (hch : chunk_in rb.sblock_vector rb.domain .non_split b)
    (hu : split_errors_unit fuel rb b pos ec = some (r, rb1, pos1, ec1)) :
    conserving q rb1 ∧ (r = 0 ∨ r = 1) := by
  obtain ⟨h1, h2, h3, h4⟩ := hI
  obtain ⟨c1, c2⟩ := split_errors_unit_conserves fuel rb b pos ec r pos1 ec1 rb1 q h2 h3
    hch (copy_block_no_eof _ _ _ h4) h1 hu
  obtain ⟨c, e, rb2, hcu, hrb⟩ := split_errors_unit_result _ _ _ _ _ _ _ _ _ hu
  obtain ⟨e1, e2, e3⟩ := copy_and_update_env _ _ _ _ _ _ _ _ hcu
  refine ⟨⟨c1, c2, ?_, ?_⟩, e3⟩
  · rw [hrb]; show 0 < rb2.hardbs; rw [e1]; exact h3
  · rw [hrb]; show eof_free rb2.world.oracle; rw [e2]; exact h4

theorem copy_errors_unit_conserving (fuel : Nat) (rb : Rescuebook) (b : Block) (r : Int)
    (rb1 : Rescuebook) (q : Int) (hI : conserving q rb)
    (hch : chunk_in rb.sblock_vector rb.domain .bad_sector b)
    (hu : copy_errors_unit fuel rb b = some (r, rb1)) :
    conserving q rb1 ∧ (r = 0 ∨ r = 1) := by
  obtain ⟨h1, h2, h3, h4⟩ := hI
  obtain ⟨c1, c2⟩ := copy_errors_unit_conserves fuel rb b r rb1 q h2 h3
    hch (copy_block_no_eof _ _ _ h4) h1 hu
  obtain ⟨c, e, rb2, hcu, hrb⟩ := copy_errors_unit_result _ _ _ _ _ hu
  obtain ⟨e1, e2, e3⟩ := copy_and_update_env _ _ _ _ _ _ _ _ hcu
  refine ⟨⟨c1, c2, ?_, ?_⟩, e3⟩
  · rw [hrb]; show 0 < rb2.hardbs; rw [e1]; exact h3
  · rw [hrb]; show eof_free rb2.world.oracle; rw [e2]; exact h4

theorem conserving_update_logfile (q : Int) (rb : Rescuebook) (hI : conserving q rb) :
    conserving q (update_logfile rb).2 := by
  obtain ⟨h1, h2, h3, h4⟩ := hI
  exact ⟨h1, h2, h3, by rw [oracle_update_logfile]; exact h4⟩

theorem conserving_note (q : Int) (rb : Rescuebook) (e : Event) (hI : conserving q rb) :
    conserving q { rb with world := rb.world.note e } := hI

theorem copy_non_tried_conserving (fuel : Nat) (rb : Rescuebook) (r : Int) (rb1 : Rescuebook)
    (q : Int) (hI : conserving q rb) (h : copy_non_tried fuel rb = some (r, rb1)) :
    conserving q rb1 :=
  (copy_non_tried_loop_inv (conserving q)
    (fun _ _ _ _ _ _ _ _ _ hx hch _ hu =>
      copy_non_tried_unit_conserving _ _ _ _ _ _ _ _ _ q hx hch hu)
    (conserving_update_logfile q) fuel _ _ _ r rb1
    (conserving_note q rb (.pass .copying) hI) h).1

theorem trim_errors_conserving (fuel : Nat) (rb : Rescuebook) (r : Int) (rb1 : Rescuebook)
    (q : Int) (hI : conserving q rb) (h : trim_errors fuel rb = some (r, rb1)) :
    conserving q rb1 :=
  (trim_errors_loop_inv (conserving q)
    (fun _ _ _ _ _ hx hch _ hu => trim_errors_unit_conserving _ _ _ _ _ q hx hch hu)
    (conserving_update_logfile q) fuel _ _ r rb1
    (conserving_note q rb (.pass .trimming) hI) h).1

theorem split_errors_conserving (fuel : Nat) (rb : Rescuebook) (r : Int) (rb1 : Rescuebook)
    (q : Int) (hI : conserving q rb) (h : split_errors fuel rb = some (r, rb1)) :
    conserving q rb1 :=
  (split_errors_outer_inv (conserving q)
    (fun _ _ _ _ _ _ _ _ _ hx hch _ hu =>
      split_errors_unit_conserving _ _ _ _ _ _ _ _ _ q hx hch hu)
    (conserving_update_logfile q) fuel _ _ r rb1
    (conserving_note q rb (.pass .splitting) hI) h).1

theorem copy_errors_conserving (fuel : Nat) (rb : Rescuebook) (r : Int) (rb1 : Rescuebook)
    (q : Int) (hI : conserving q rb) (h : copy_errors fuel rb = some (r, rb1)) :
    conserving q rb1 :=
  (copy_errors_retries_inv (conserving q)
    (fun _ _ _ _ _ hx hch _ hu => copy_errors_unit_conserving _ _ _ _ _ q hx hch hu)
    (conserving_update_logfile q) fuel _ _ _ r rb1
    (conserving_note q rb (.pass .retrying) hI) h).1

theorem rescue_passes_conserving (fuel : Nat) (rb : Rescuebook) (cp tp sp : Bool) (r : Int)
    (rb1 : Rescuebook) (q : Int) (hI : conserving q rb)
    (h : rescue_passes fuel rb cp tp sp = some (r, rb1)) : conserving q rb1 := by
  unfold rescue_passes at h
  cases h1 : run_copy_non_tried fuel cp (0, rb) with
  | none => rw [h1] at h; cases h
  | some x1 =>
    rw [h1] at h
    simp only [Option.some_bind] at h
    have e1 : conserving q x1.2 := by
      unfold run_copy_non_tried at h1
      split at h1
      · exact copy_non_tried_conserving _ _ _ _ q hI h1
      · cases h1; exact hI
    cases h2 : run_trim_errors fuel tp x1 with
    | none => rw [h2] at h; cases h
    | some x2 =>
      rw [h2] at h
      simp only [Option.some_bind] at h
      have e2 : conserving q x2.2 := by
        unfold run_trim_errors at h2
        split at h2
        · exact trim_errors_conserving _ _ _ _ q e1 h2
        · cases h2; exact e1
      cases h3 : run_split_errors fuel sp x2 with
      | none => rw [h3] at h; cases h
      | some x3 =>
        rw [h3] at h
        simp only [Option.some_bind] at h
        have e3 : conserving q x3.2 := by
          unfold run_split_errors at h3
          split at h3
          · exact split_errors_conserving _ _ _ _ q e2 h3
          · cases h3; exact e2
        unfold run_copy_errors at h
        split at h
        · exact copy_errors_conserving _ _ _ _ q e3 h
        · cases h; exact e3

theorem counts_cons_inside (dom : Domain) (sb : Sblock) (r : List Sblock) (q : Int)
    (hw : wf_from q (sb :: r) = true) (hd : dom.includes sb.block = true) (s : Status) :
    (bytes_with dom (sb :: r) s : Int) =
        bytes_with dom r s + (if sb.status = s then sb.size else 0) ∧
      (covered_bytes dom (sb :: r) : Int) = covered_bytes dom r + sb.size := by
  rw [wf_from_cons] at hw
  obtain ⟨-, hsz, hr⟩ := hw
  have hI : Finset.Ico sb.pos (sb.pos + sb.size) ⊆ dom.positions :=
    Ico_subset_positions dom sb sb.block hd (le_refl _) (le_refl _)
  have hnone : ∀ p, p < sb.pos + sb.size → statusAt r p = none := fun p hp =>
    statusAt_none_of_lt r _ hr p (Or.inl hp)
  have hin : ∀ p, sb.pos ≤ p → p < sb.pos + sb.size →
      statusAt (sb :: r) p = some sb.status := fun p h1 h2 => by
    simp only [statusAt, Sblock.end_]
    rw [if_pos ⟨h1, h2⟩]
  have hout : ∀ p, ¬ (sb.pos ≤ p ∧ p < sb.pos + sb.size) →
      statusAt (sb :: r) p = statusAt r p := fun p hp => by
    simp only [statusAt, Sblock.end_]
    rw [if_neg hp]
  constructor
  · unfold bytes_with
    by_cases hs : sb.status = s
    · rw [if_pos hs]
      exact (card_filter_block dom.positions (fun p => statusAt (sb :: r) p = some s)
        (fun p => statusAt r p = some s) sb.pos sb.size (by omega) hI
        (fun p h1 h2 => ⟨by beta_reduce; rw [hin p h1 h2, hs],
          by beta_reduce; rw [hnone p h2]; simp⟩)
        (fun p hp => by beta_reduce; rw [hout p hp])).symm
    · rw [if_neg hs, add_zero]
      congr 1
      apply card_filter_same
      intro p
      beta_reduce
      by_cases hp : sb.pos ≤ p ∧ p < sb.pos + sb.size
      · rw [hin p hp.1 hp.2, hnone p hp.2]
        simp only [Option.some.injEq]
        constructor <;> intro h <;> first | exact absurd h hs | cases h
      · rw [hout p hp]
  · unfold covered_bytes
    exact (card_filter_block dom.positions (fun p => (statusAt (sb :: r) p).isSome = true)
      (fun p => (statusAt r p).isSome = true) sb.pos sb.size (by omega) hI
      (fun p h1 h2 => ⟨by beta_reduce; rw [hin p h1 h2]; rfl,
        by beta_reduce; rw [hnone p h2]; simp⟩)
      (fun p hp => by beta_reduce; rw [hout p hp])).symm

theorem counts_cons_outside (dom : Domain) (sb : Sblock) (r : List Sblock)
    (hd : ∀ p, sb.pos ≤ p → p < sb.end_ → p ∉ dom.positions) (s : Status) :
    bytes_with dom (sb :: r) s = bytes_with dom r s ∧
      covered_bytes dom (sb :: r) = covered_bytes dom r := by
  have hout : ∀ p ∈ dom.positions, statusAt (sb :: r) p = statusAt r p := fun p hp => by
    simp only [statusAt]
    rw [if_neg (fun h => hd p h.1 h.2 hp)]
  constructor
  · unfold bytes_with
    congr 1
    apply Finset.filter_congr
    intro p hp
    rw [hout p hp]
  · unfold covered_bytes
    congr 1
    apply Finset.filter_congr
    intro p hp
    rw [hout p hp]

theorem counts_beyond_domain (dom : Domain) (hdom : ∀ x ∈ dom.blocks, x.end_ ≤ dom.end_)
    (v : List Sblock) (q : Int) (hw : wf_from q v = true) (hq : dom.end_ ≤ q) (s : Status) :
    bytes_with dom v s = 0 ∧ covered_bytes dom v = 0 := by
  have hnone : ∀ p ∈ dom.positions, statusAt v p = none := fun p hp => by
    rw [mem_positions] at hp
    obtain ⟨x, hx, -, h2⟩ := hp
    have := hdom x hx
    exact statusAt_none_of_lt v q hw p (Or.inl (by omega))
  constructor
  · unfold bytes_with
    rw [Finset.card_eq_zero, Finset.filter_eq_empty_iff]
    intro p hp
    rw [hnone p hp]
    simp
  · unfold covered_bytes
    rw [Finset.card_eq_zero, Finset.filter_eq_empty_iff]
    intro p hp
    rw [hnone p hp]
    simp

theorem rescue_scan_counts (dom : Domain) (hdom : ∀ x ∈ dom.blocks, x.end_ ≤ dom.end_)
    (v : List Sblock) :
    ∀ (q : Int) (cp tp sp : Bool) (rs es : Int), wf_from q v = true → domain_split dom v →
      (rescue_scan dom v cp tp sp rs es).2.2.2.1 + (rescue_scan dom v cp tp sp rs es).2.2.2.2 +
          (bytes_with dom v .non_tried : Int) =
        rs + es + covered_bytes dom v := by
  induction v with
  | nil =>
    intro q cp tp sp rs es _ _
    simp [rescue_scan, bytes_with, covered_bytes, statusAt]
  | cons sb r ih =>
    intro q cp tp sp rs es hw hal
    have hw2 := (wf_from_cons q sb r).1 hw
    have hal2 : domain_split dom r := fun x hx => hal x (List.mem_cons_of_mem _ hx)
    rw [rescue_scan]
    by_cases hin : dom.includes sb.block = true
    · rw [hin]
      simp only [Bool.not_true, Bool.false_eq_true, if_false]
      obtain ⟨c1, c2⟩ := counts_cons_inside dom sb r q hw hin .non_tried
      rw [c1, c2]
      cases hs : sb.status <;> simp only [] <;>
        have := ih sb.end_ <;> simp only [reduceCtorEq, if_false, if_true] <;>
        first
        | (have h9 := this true true true rs es hw2.2.2 hal2; omega)
        | (have h9 := this cp true true rs (es + sb.size) hw2.2.2 hal2; omega)
        | (have h9 := this cp tp true rs (es + sb.size) hw2.2.2 hal2; omega)
        | (have h9 := this cp tp sp rs (es + sb.size) hw2.2.2 hal2; omega)
        | (have h9 := this cp tp sp (rs + sb.size) es hw2.2.2 hal2; omega)
    · have hout : ∀ p, sb.pos ≤ p → p < sb.end_ → p ∉ dom.positions := by
        rcases hal sb (List.mem_cons_self _ _) with h | h
        · exact absurd h hin
        · exact h
      rw [Bool.not_eq_true] at hin
      rw [hin]
      simp only [Bool.not_false, if_true]
      by_cases hlt : dom.lt sb.block = true
      · rw [if_pos hlt]
        simp only []
        unfold Domain.lt at hlt
        simp only [decide_eq_true_eq, Sblock.block] at hlt
        obtain ⟨z1, z2⟩ := counts_beyond_domain dom hdom (sb :: r) q hw (by omega) .non_tried
        rw [z1, z2]
      · rw [if_neg hlt]
        obtain ⟨c1, c2⟩ := counts_cons_outside dom sb r hout .non_tried
        rw [c1, c2]
        exact ih sb.end_ cp tp sp rs es hw2.2.2 hal2

theorem rescue_start_conserved (rb : Rescuebook) (ides odes : Int) (q : Int)
    (hw : wf_from q rb.sblock_vector = true)
    (hdom : ∀ x ∈ rb.domain.blocks, x.end_ ≤ rb.domain.end_)
    (hal : domain_split rb.domain rb.sblock_vector) :
    conserved (rescue_start rb ides odes).2.2.2 := by
  have h := rescue_scan_counts rb.domain hdom rb.sblock_vector q false false false 0 0 hw hal
  unfold conserved rescue_start
  generalize rescue_scan rb.domain rb.sblock_vector false false false 0 0 = x at h
  obtain ⟨cp, tp, sp, rs, es⟩ := x
  simp only [] at h ⊢
  show rs + es + _ = _
  simp only [count_errors]
  omega

theorem rescue_start_fields (rb : Rescuebook) (ides odes : Int) :
    (rescue_start rb ides odes).2.2.2.sblock_vector = rb.sblock_vector ∧
    (rescue_start rb ides odes).2.2.2.domain = rb.domain ∧
    (rescue_start rb ides odes).2.2.2.hardbs = rb.hardbs ∧
    (rescue_start rb ides odes).2.2.2.world.oracle = rb.world.oracle := by
  unfold rescue_start
  generalize rescue_scan rb.domain rb.sblock_vector false false false 0 0 = x
  obtain ⟨cp, tp, sp, rs, es⟩ := x
  exact ⟨rfl, rfl, rfl, rfl⟩

theorem eof_free_failing_reads : eof_free failing_reads.oracle := by
  intro k
  show (if k % 3 = 1 then (⟨-1, 5, []⟩ : SysResult) else ⟨1, 0, [7]⟩).ret ≠ 0 ∧
    ((if k % 3 = 1 then (⟨-1, 5, []⟩ : SysResult) else ⟨1, 0, [7]⟩).ret < 0 →
      (if k % 3 = 1 then (⟨-1, 5, []⟩ : SysResult) else ⟨1, 0, [7]⟩).err ≠ 0)
  by_cases hk : k % 3 = 1
  · rw [if_pos hk]; exact ⟨by decide, fun _ => by decide⟩
  · rw [if_neg hk]; exact ⟨by decide, fun h => absurd h (by decide)⟩


theorem copy_and_update_shown_quiet (d : Display) (hq : d.verbosity < 0) (fuel : Nat)
    (rb : Rescuebook) (b : Block) (st : Status) (msg : String) (fp : Bool) :
    copy_and_update_shown d fuel rb b st msg fp =
      (copy_and_update fuel rb b st).map (fun x => (x.1, x.2.1, x.2.2.1, x.2.2.2, fp)) := by
  unfold copy_and_update_shown
  simp only []
  rw [if_neg (by omega), if_neg (by omega)]
  cases copy_and_update fuel rb b st with
  | none => rfl
  | some x => rfl

theorem copy_non_tried_unit_shown_quiet (d : Display) (hq : d.verbosity < 0) (fuel : Nat)
    (rb : Rescuebook) (b : Block) (pos skip : Int) (fp : Bool) :
    copy_non_tried_unit_shown d fuel rb b pos skip fp =
      (copy_non_tried_unit fuel rb b pos skip).map
        (fun x => (x.1, x.2.1, x.2.2.1, x.2.2.2, fp)) := by
  unfold copy_non_tried_unit_shown copy_non_tried_unit
  simp only []
  rw [copy_and_update_shown_quiet d hq]
  cases copy_and_update fuel { rb with current_status := .copying } b
      (if skip ≠ 0 then .bad_sector else .non_trimmed) with
  | none => rfl
  | some x =>
    obtain ⟨r, c, e, rb1⟩ := x
    simp only [Option.map_some']
    split_ifs <;> rfl

theorem trim_errors_unit_shown_quiet (d : Display) (hq : d.verbosity < 0) (fuel : Nat)
    (rb : Rescuebook) (b : Block) (fp : Bool) :
    trim_errors_unit_shown d fuel rb b fp =
      (trim_errors_unit fuel rb b).map (fun x => (x.1, x.2, fp)) := by
  unfold trim_errors_unit_shown trim_errors_unit
  simp only []
  rw [copy_and_update_shown_quiet d hq]
  cases copy_and_update fuel { rb with current_status := .trimming } b .bad_sector with
  | none => rfl
  | some x =>
    obtain ⟨r, c, e, rb1⟩ := x
    simp only [Option.map_some']
    split_ifs <;>
      first
      | rfl
      | (cases sblock rb1.sblock_vector (find_index rb1.sblock_vector (b.pos - 1)) with
         | none => rfl
         | some sb => simp only []; split_ifs <;> rfl)

theorem split_errors_unit_shown_quiet (d : Display) (hq : d.verbosity < 0) (fuel : Nat)
    (rb : Rescuebook) (b : Block) (pos ec : Int) (fp : Bool) :
    split_errors_unit_shown d fuel rb b pos ec fp =
      (split_errors_unit fuel rb b pos ec).map
        (fun x => (x.1, x.2.1, x.2.2.1, x.2.2.2, fp)) := by
  unfold split_errors_unit_shown split_errors_unit
  simp only []
  rw [copy_and_update_shown_quiet d hq]
  cases copy_and_update fuel { rb with current_status := .splitting } b .bad_sector with
  | none => rfl
  | some x =>
    obtain ⟨r, c, e, rb1⟩ := x
    simp only [Option.map_some']
    split_ifs <;>
      first
      | rfl
      | (cases sblock rb1.sblock_vector (find_index rb1.sblock_vector pos) with
         | none => rfl
         | some sb => simp only []; split_ifs <;> rfl)

theorem copy_errors_unit_shown_quiet (d : Display) (hq : d.verbosity < 0) (fuel : Nat)
    (rb : Rescuebook) (b : Block) (retry : Int) (fp : Bool) :
    copy_errors_unit_shown d fuel rb b retry fp =
      (copy_errors_unit fuel rb b).map (fun x => (x.1, x.2, fp)) := by
  unfold copy_errors_unit_shown copy_errors_unit
  simp only []
  rw [copy_and_update_shown_quiet d hq]
  cases copy_and_update fuel { rb with current_status := .retrying } b .bad_sector with
  | none => rfl
  | some x => rfl

theorem copy_non_tried_loop_shown_quiet (d : Display) (hq : d.verbosity < 0) (fuel : Nat) :
    ∀ (rb : Rescuebook) (pos skip : Int) (fp : Bool),
      copy_non_tried_loop_shown d fuel rb pos skip fp = copy_non_tried_loop fuel rb pos skip := by
  induction fuel with
  | zero => intro rb pos skip fp; rfl
  | succ n ih =>
    intro rb pos skip fp
    rw [copy_non_tried_loop_shown, copy_non_tried_loop]
    simp only []
    generalize find_chunk rb.sblock_vector rb.domain
      ⟨pos, if skip ≠ 0 then rb.hardbs else rb.softbs⟩ .non_tried = B
    rw [copy_non_tried_unit_shown_quiet d hq]
    cases copy_non_tried_unit n rb B B.end_ (if pos ≠ B.pos then 0 else skip) with
    | none => rfl
    | some x =>
      obtain ⟨r, rb1, pos1, skip1⟩ := x
      simp only [Option.map_some']
      split_ifs <;> try rfl
      generalize update_logfile rb1 = u
      obtain ⟨ok, rb2⟩ := u
      cases ok
      · rfl
      · exact ih rb2 pos1 skip1 fp

theorem trim_errors_loop_shown_quiet (d : Display) (hq : d.verbosity < 0) (fuel : Nat) :
    ∀ (rb : Rescuebook) (pos : Int) (fp : Bool),
      trim_errors_loop_shown d fuel rb pos fp = trim_errors_loop fuel rb pos := by
  induction fuel with
  | zero => intro rb pos fp; rfl
  | succ n ih =>
    intro rb pos fp
    rw [trim_errors_loop_shown, trim_errors_loop]
    simp only []
    generalize rfind_chunk rb.sblock_vector rb.domain ⟨pos, rb.hardbs⟩ .non_trimmed = B
    rw [trim_errors_unit_shown_quiet d hq]
    cases trim_errors_unit n rb B with
    | none => rfl
    | some x =>
      obtain ⟨r, rb1⟩ := x
      simp only [Option.map_some']
      split_ifs <;> try rfl
      generalize update_logfile rb1 = u
      obtain ⟨ok, rb2⟩ := u
      cases ok
      · rfl
      · exact ih rb2 _ fp

theorem split_errors_sweep_shown_quiet (d : Display) (hq : d.verbosity < 0) (fuel : Nat) :
    ∀ (rb : Rescuebook) (pos ec : Int) (bf fp : Bool),
      split_errors_sweep_shown d fuel rb pos ec bf fp =
        (split_errors_sweep fuel rb pos ec bf).map (fun x => (x.1, x.2.1, x.2.2, fp)) := by
  induction fuel with
  | zero => intro rb pos ec bf fp; rfl
  | succ n ih =>
    intro rb pos ec bf fp
    rw [split_errors_sweep_shown, split_errors_sweep]
    simp only []
    generalize find_chunk rb.sblock_vector rb.domain ⟨pos, rb.hardbs⟩ .non_split = B
    rw [split_errors_unit_shown_quiet d hq]
    cases split_errors_unit n rb B B.end_ ec with
    | none => split_ifs <;> rfl
    | some x =>
      obtain ⟨r, rb1, pos1, ec1⟩ := x
      simp only [Option.map_some']
      split_ifs <;> try rfl
      generalize update_logfile rb1 = u
      obtain ⟨ok, rb2⟩ := u
      cases ok
      · rfl
      · exact ih rb2 pos1 ec1 true fp

theorem split_errors_outer_shown_quiet (d : Display) (hq : d.verbosity < 0) (fuel : Nat) :
    ∀ (rb : Rescuebook) (resume fp : Bool),
      split_errors_outer_shown d fuel rb resume fp = split_errors_outer fuel rb resume := by
  induction fuel with
  | zero => intro rb resume fp; rfl
  | succ n ih =>
    intro rb resume fp
    rw [split_errors_outer_shown, split_errors_outer, split_errors_sweep_shown_quiet d hq]
    cases split_errors_sweep n rb (if resume = true then rb.current_pos else 0) 0 false with
    | none => rfl
    | some x =>
      obtain ⟨res, bf1, rb1⟩ := x
      simp only [Option.map_some']
      cases res with
      | some r => rfl
      | none =>
        simp only []
        split_ifs
        · rfl
        · exact ih rb1 false fp

theorem copy_errors_sweep_shown_quiet (d : Display) (hq : d.verbosity < 0) (fuel : Nat) :
    ∀ (rb : Rescuebook) (retry pos : Int) (bf fp : Bool),
      copy_errors_sweep_shown d fuel rb retry pos bf fp = copy_errors_sweep fuel rb pos bf := by
  induction fuel with
  | zero => intro rb retry pos bf fp; rfl
  | succ n ih =>
    intro rb retry pos bf fp
    rw [copy_errors_sweep_shown, copy_errors_sweep]
    simp only []
    generalize find_chunk rb.sblock_vector rb.domain ⟨pos, rb.hardbs⟩ .bad_sector = B
    rw [copy_errors_unit_shown_quiet d hq]
    cases copy_errors_unit n rb B with
    | none => rfl
    | some x =>
      obtain ⟨r, rb1⟩ := x
      simp only [Option.map_some']
      split_ifs <;> try rfl
      generalize update_logfile rb1 = u
      obtain ⟨ok, rb2⟩ := u
      cases ok
      · rfl
      · exact ih rb2 retry _ true fp

theorem copy_errors_retries_shown_quiet (d : Display) (hq : d.verbosity < 0) (fuel : Nat) :
    ∀ (rb : Rescuebook) (retry : Int) (resume : Bool),
      copy_errors_retries_shown d fuel rb retry resume =
        copy_errors_retries fuel rb retry resume := by
  induction fuel with
  | zero => intro rb retry resume; rfl
  | succ n ih =>
    intro rb retry resume
    rw [copy_errors_retries_shown, copy_errors_retries, copy_errors_sweep_shown_quiet d hq]
    by_cases hc : rb.max_retries_ < 0 ∨ retry ≤ rb.max_retries_
    · rw [if_pos hc, if_pos hc]
      cases copy_errors_sweep n rb (if resume = true then rb.current_pos else 0) false with
      | none => rfl
      | some x =>
        obtain ⟨res, bf1, rb1⟩ := x
        cases res with
        | some r => rfl
        | none =>
          simp only []
          split_ifs
          · rfl
          · exact ih rb1 (retry + 1) false
    · rw [if_neg hc, if_neg hc]

theorem rescue_passes_shown_quiet (d : Display) (hq : d.verbosity < 0) (fuel : Nat)
    (rb : Rescuebook) (cp tp sp : Bool) :
    rescue_passes_shown d fuel rb cp tp sp = rescue_passes fuel rb cp tp sp := by
  have h1 : ∀ x, copy_non_tried_shown d fuel x = copy_non_tried fuel x := fun x =>
    copy_non_tried_loop_shown_quiet d hq fuel _ _ _ _
  have h2 : ∀ x, trim_errors_shown d fuel x = trim_errors fuel x := fun x =>
    trim_errors_loop_shown_quiet d hq fuel _ _ _
  have h3 : ∀ x, split_errors_shown d fuel x = split_errors fuel x := fun x =>
    split_errors_outer_shown_quiet d hq fuel _ _ _
  have h4 : ∀ x, copy_errors_shown d fuel x = copy_errors fuel x := fun x =>
    copy_errors_retries_shown_quiet d hq fuel _ _ _
  unfold rescue_passes_shown rescue_passes run_copy_non_tried run_trim_errors
    run_split_errors run_copy_errors
  simp only [h1, h2, h3, h4]

theorem do_rescue_shown_quiet (d : Display) (hq : d.verbosity < 0) (fuel : Nat)
    (rb : Rescuebook) (ides odes : Int) :
    do_rescue_shown d fuel rb ides odes = do_rescue fuel rb ides odes := by
  rw [do_rescue_eq]
  unfold do_rescue_shown
  rw [rescue_passes_shown_quiet d hq]
  cases rescue_passes fuel (rescue_start rb ides odes).2.2.2 (rescue_start rb ides odes).1
      (rescue_start rb ides odes).2.1 (rescue_start rb ides odes).2.2.1 with
  | none => rfl
  | some x =>
    obtain ⟨r, rb3⟩ := x
    simp only [Option.some_bind]
    rw [if_neg (by omega)]

/-- C15 (the claim as stated fails): in scenario S2 run with the status display off
(`verbosity = -1`) and `max_errors = -1` (no limit, the default), `do_rescue` ends with the
vector, `recsize` and `errsize` of the claim, but with `errors = 0`: `show_status` is not
called, and `copy_and_update` calls `count_errors` only when `max_errors >= 0`, so `errors`
keeps the value computed at start-up from the untried vector. -/
theorem s2_errors_not_counted :
    quiet_display.verbosity = -1 ∧
    summary_of (do_rescue_shown quiet_display 40 (s2_book (-1)) 3 4) =
      some (0, [⟨0, 1024, .finished⟩, ⟨1024, 512, .bad_sector⟩, ⟨1536, 2560, .finished⟩],
        3584, 512, 0) := by
  decide!

/-- C15 (amended): scenario S2 with `max_retries = 0`.  With the status display off
(`verbosity < 0`, whatever `show_status` is): pass 1 leaves `[0,1024)` finished, `[1024,1536)`
bad_sector and `[1536,4096)` non_trimmed, both without a limit on the errors and with
`max_errors = 1`; `do_rescue` returns 0 and ends with `[0,1024)` finished, `[1024,1536)`
bad_sector, `[1536,4096)` finished, `recsize = 3584` and `errsize = 512` in both cases, with
`errors = 1` when `max_errors = 1` (a limit that makes `copy_and_update` count the errors and
that the run does not exceed) and with `errors = 0` without a limit; with `max_errors = 0` the
limit is exceeded in pass 1 and the run ends with the vector of pass 1.  With the status
display on (`verbosity = 0`) and no limit, the final value of `errors` is what `show_status`
leaves: 1 with a `show_status` that recounts as `count_errors` does, 0 with one that changes
nothing; vector, `recsize` and `errsize` are the same in both. -/
theorem s2_single_bad_sector :
    (∀ d : Display, d.verbosity < 0 →
      summary_of (copy_non_tried_shown d 40 (rescue_start (s2_book (-1)) 3 4).2.2.2) =
        some (0, [⟨0, 1024, .finished⟩, ⟨1024, 512, .bad_sector⟩, ⟨1536, 2560, .non_trimmed⟩],
          1024, 3072, 0) ∧
      summary_of (copy_non_tried_shown d 40 (rescue_start (s2_book 1) 3 4).2.2.2) =
        some (0, [⟨0, 1024, .finished⟩, ⟨1024, 512, .bad_sector⟩, ⟨1536, 2560, .non_trimmed⟩],
          1024, 3072, 1) ∧
      summary_of (do_rescue_shown d 40 (s2_book (-1)) 3 4) =
        some (0, [⟨0, 1024, .finished⟩, ⟨1024, 512, .bad_sector⟩, ⟨1536, 2560, .finished⟩],
          3584, 512, 0) ∧
      summary_of (do_rescue_shown d 40 (s2_book 1) 3 4) =
        some (0, [⟨0, 1024, .finished⟩, ⟨1024, 512, .bad_sector⟩, ⟨1536, 2560, .finished⟩],
          3584, 512, 1) ∧
      (outcome_of (do_rescue_shown d 40 (s2_book 1) 3 4)).map (fun x => x.2.2) =
        some [⟨0, 512⟩, ⟨512, 3584⟩, ⟨3584, 512⟩, ⟨3072, 512⟩, ⟨2560, 512⟩, ⟨2048, 512⟩,
          ⟨1536, 512⟩] ∧
      summary_of (do_rescue_shown d 40 (s2_book 0) 3 4) =
        some (0, [⟨0, 1024, .finished⟩, ⟨1024, 512, .bad_sector⟩, ⟨1536, 2560, .non_trimmed⟩],
          1024, 3072, 1)) ∧
    (recounting_display.verbosity = 0 ∧
      summary_of (copy_non_tried_shown recounting_display 40
          (rescue_start (s2_book (-1)) 3 4).2.2.2) =
        some (0, [⟨0, 1024, .finished⟩, ⟨1024, 512, .bad_sector⟩, ⟨1536, 2560, .non_trimmed⟩],
          1024, 3072, 0) ∧
      summary_of (do_rescue_shown recounting_display 40 (s2_book (-1)) 3 4) =
        some (0, [⟨0, 1024, .finished⟩, ⟨1024, 512, .bad_sector⟩, ⟨1536, 2560, .finished⟩],
          3584, 512, 1)) ∧
    (printing_display.verbosity = 0 ∧
      summary_of (do_rescue_shown printing_display 40 (s2_book (-1)) 3 4) =
        some (0, [⟨0, 1024, .finished⟩, ⟨1024, 512, .bad_sector⟩, ⟨1536, 2560, .finished⟩],
          3584, 512, 0)) := by
  refine ⟨?_, ⟨rfl, by decide!, by decide!⟩, ⟨rfl, by decide!⟩⟩
  intro d hq
  have hc : ∀ x, copy_non_tried_shown d 40 x = copy_non_tried 40 x := fun x =>
    copy_non_tried_loop_shown_quiet d hq 40 _ _ _ _
  rw [hc, hc, do_rescue_shown_quiet d hq, do_rescue_shown_quiet d hq,
    do_rescue_shown_quiet d hq]
  obtain ⟨h1, h2, h3, h4, h5, h6⟩ := s2_run_without_display
  exact ⟨h2, h3, h1, h4, h5, h6⟩

theorem s2_single_bad_sector_witness :
    summary_of (do_rescue_shown quiet_display 40 (s2_book 1) 3 4) =
      some (0, [⟨0, 1024, .finished⟩, ⟨1024, 512, .bad_sector⟩, ⟨1536, 2560, .finished⟩],
        3584, 512, 1) :=
  (s2_single_bad_sector.1 quiet_display (by decide)).2.2.2.1

theorem copy_non_tried_unit_hardbs (fuel : Nat) (rb : Rescuebook) (b : Block)
    (pos skip r pos1 skip1 : Int) (rb1 : Rescuebook)
    (hu : copy_non_tried_unit fuel rb b pos skip = some (r, rb1, pos1, skip1)) :
    rb1.hardbs = rb.hardbs := by
  obtain ⟨c, e, rb2, hcu, -, hsc⟩ := copy_non_tried_unit_result _ _ _ _ _ _ _ _ _ hu
  rw [(same_config_fields hsc.1).2.1, (copy_and_update_env _ _ _ _ _ _ _ _ hcu).1]

theorem trim_errors_unit_hardbs (fuel : Nat) (rb : Rescuebook) (b : Block) (r : Int)
    (rb1 : Rescuebook) (hu : trim_errors_unit fuel rb b = some (r, rb1)) :
    rb1.hardbs = rb.hardbs := by
  obtain ⟨c, e, rb2, hcu, -, hsc⟩ := trim_errors_unit_result _ _ _ _ _ hu
  rw [(same_config_fields hsc).2.1, (copy_and_update_env _ _ _ _ _ _ _ _ hcu).1]

theorem split_errors_unit_hardbs (fuel : Nat) (rb : Rescuebook) (b : Block)
    (pos ec r pos1 ec1 : Int) (rb1 : Rescuebook)
    (hu : split_errors_unit fuel rb b pos ec = some (r, rb1, pos1, ec1)) :
    rb1.hardbs = rb.hardbs := by
  obtain ⟨c, e, rb2, hcu, hrb⟩ := split_errors_unit_result _ _ _ _ _ _ _ _ _ hu
  rw [hrb]
  exact (copy_and_update_env _ _ _ _ _ _ _ _ hcu).1

theorem copy_errors_unit_hardbs (fuel : Nat) (rb : Rescuebook) (b : Block) (r : Int)
    (rb1 : Rescuebook) (hu : copy_errors_unit fuel rb b = some (r, rb1)) :
    rb1.hardbs = rb.hardbs := by
  obtain ⟨c, e, rb2, hcu, hrb⟩ := copy_errors_unit_result _ _ _ _ _ hu
  rw [hrb]
  exact (copy_and_update_env _ _ _ _ _ _ _ _ hcu).1

theorem reached_without_eof_conserved (rb0 rb : Rescuebook) (q : Int)
    (hw : wf_from q rb0.sblock_vector = true) (hh : 0 < rb0.hardbs) (hc : conserved rb0)
    (hr : reached_without_eof rb0 rb) :
    conserved rb ∧ wf_from q rb.sblock_vector = true ∧ 0 < rb.hardbs := by
  induction hr with
  | start => exact ⟨hc, hw, hh⟩
  | copy_unit fuel rb b pos skip r pos1 skip1 rb1 _ hch _ hne hu ih =>
    obtain ⟨i1, i2, i3⟩ := ih
    obtain ⟨c1, c2⟩ := copy_non_tried_unit_conserves fuel rb b pos skip r pos1 skip1 rb1 q
      i2 i3 hch hne i1 hu
    exact ⟨c1, c2, by rw [copy_non_tried_unit_hardbs _ _ _ _ _ _ _ _ _ hu]; exact i3⟩
  | trim_unit fuel rb b r rb1 _ hch _ hne hu ih =>
    obtain ⟨i1, i2, i3⟩ := ih
    obtain ⟨c1, c2⟩ := trim_errors_unit_conserves fuel rb b r rb1 q i2 i3 hch hne i1 hu
    exact ⟨c1, c2, by rw [trim_errors_unit_hardbs _ _ _ _ _ hu]; exact i3⟩
  | split_unit fuel rb b pos ec r pos1 ec1 rb1 _ hch _ hne hu ih =>
    obtain ⟨i1, i2, i3⟩ := ih
    obtain ⟨c1, c2⟩ := split_errors_unit_conserves fuel rb b pos ec r pos1 ec1 rb1 q
      i2 i3 hch hne i1 hu
    exact ⟨c1, c2, by rw [split_errors_unit_hardbs _ _ _ _ _ _ _ _ _ hu]; exact i3⟩
  | retry_unit fuel rb b r rb1 _ hch _ hne hu ih =>
    obtain ⟨i1, i2, i3⟩ := ih
    obtain ⟨c1, c2⟩ := copy_errors_unit_conserves fuel rb b r rb1 q i2 i3 hch hne i1 hu
    exact ⟨c1, c2, by rw [copy_errors_unit_hardbs _ _ _ _ _ hu]; exact i3⟩
  | logfile rb _ ih => exact ih
  | pass_start rb p _ ih => exact ih

theorem passes_reach (rb0 : Rescuebook) (fuel : Nat) (rb : Rescuebook) (r : Int)
    (rb1 : Rescuebook) (hI : reached_eof_free rb0 rb)
    (h : copy_non_tried fuel rb = some (r, rb1) ∨ trim_errors fuel rb = some (r, rb1) ∨
      split_errors fuel rb = some (r, rb1) ∨ copy_errors fuel rb = some (r, rb1)) :
    reached_eof_free rb0 rb1 := by
  have hl : ∀ x, reached_eof_free rb0 x → reached_eof_free rb0 (update_logfile x).2 :=
    fun x hx => ⟨.logfile x hx.1, by rw [oracle_update_logfile]; exact hx.2⟩
  have hs : ∀ p, reached_eof_free rb0 { rb with world := rb.world.note (.pass p) } :=
    fun p => ⟨.pass_start rb p hI.1, hI.2⟩
  rcases h with h | h | h | h
  · exact (copy_non_tried_loop_inv (reached_eof_free rb0)
      (fun f x b pos skip r9 x1 pos1 skip1 hx hch hb hu => by
        obtain ⟨c, e, rb2, hcu, hw, -⟩ := copy_non_tried_unit_result _ _ _ _ _ _ _ _ _ hu
        obtain ⟨-, e2, e3⟩ := copy_and_update_env _ _ _ _ _ _ _ _ hcu
        exact ⟨⟨.copy_unit f x b pos skip r9 pos1 skip1 x1 hx.1 hch hb
          (copy_block_no_eof _ _ _ hx.2) hu, by rw [hw, e2]; exact hx.2⟩, e3⟩)
      hl fuel _ _ _ r rb1 (hs .copying) h).1
  · exact (trim_errors_loop_inv (reached_eof_free rb0)
      (fun f x b r9 x1 hx hch hb hu => by
        obtain ⟨c, e, rb2, hcu, hw, -⟩ := trim_errors_unit_result _ _ _ _ _ hu
        obtain ⟨-, e2, e3⟩ := copy_and_update_env _ _ _ _ _ _ _ _ hcu
        exact ⟨⟨.trim_unit f x b r9 x1 hx.1 hch hb
          (copy_block_no_eof _ _ _ hx.2) hu, by rw [hw, e2]; exact hx.2⟩, e3⟩)
      hl fuel _ _ r rb1 (hs .trimming) h).1
  · exact (split_errors_outer_inv (reached_eof_free rb0)
      (fun f x b pos ec r9 x1 pos1 ec1 hx hch hb hu => by
        obtain ⟨c, e, rb2, hcu, hrb⟩ := split_errors_unit_result _ _ _ _ _ _ _ _ _ hu
        obtain ⟨-, e2, e3⟩ := copy_and_update_env _ _ _ _ _ _ _ _ hcu
        refine ⟨⟨.split_unit f x b pos ec r9 pos1 ec1 x1 hx.1 hch hb
          (copy_block_no_eof _ _ _ hx.2) hu, ?_⟩, e3⟩
        rw [hrb]
        show eof_free rb2.world.oracle
        rw [e2]
        exact hx.2)
      hl fuel _ _ r rb1 (hs .splitting) h).1
  · exact (copy_errors_retries_inv (reached_eof_free rb0)
      (fun f x b r9 x1 hx hch hb hu => by
        obtain ⟨c, e, rb2, hcu, hrb⟩ := copy_errors_unit_result _ _ _ _ _ hu
        obtain ⟨-, e2, e3⟩ := copy_and_update_env _ _ _ _ _ _ _ _ hcu
        refine ⟨⟨.retry_unit f x b r9 x1 hx.1 hch hb
          (copy_block_no_eof _ _ _ hx.2) hu, ?_⟩, e3⟩
        rw [hrb]
        show eof_free rb2.world.oracle
        rw [e2]
        exact hx.2)
      hl fuel _ _ _ r rb1 (hs .retrying) h).1

theorem rescue_passes_reach (rb0 : Rescuebook) (fuel : Nat) (rb : Rescuebook) (cp tp sp : Bool)
    (r : Int) (rb1 : Rescuebook) (hI : reached_eof_free rb0 rb)
    (h : rescue_passes fuel rb cp tp sp = some (r, rb1)) : reached_eof_free rb0 rb1 := by
  unfold rescue_passes at h
  cases h1 : run_copy_non_tried fuel cp (0, rb) with
  | none => rw [h1] at h; cases h
  | some x1 =>
    rw [h1] at h
    simp only [Option.some_bind] at h
    have e1 : reached_eof_free rb0 x1.2 := by
      unfold run_copy_non_tried at h1
      split at h1
      · exact passes_reach rb0 fuel _ _ _ hI (Or.inl h1)
      · cases h1; exact hI
    cases h2 : run_trim_errors fuel tp x1 with
    | none => rw [h2] at h; cases h
    | some x2 =>
      rw [h2] at h
      simp only [Option.some_bind] at h
      have e2 : reached_eof_free rb0 x2.2 := by
        unfold run_trim_errors at h2
        split at h2
        · exact passes_reach rb0 fuel _ _ _ e1 (Or.inr (Or.inl h2))
        · cases h2; exact e1
      cases h3 : run_split_errors fuel sp x2 with
      | none => rw [h3] at h; cases h
      | some x3 =>
        rw [h3] at h
        simp only [Option.some_bind] at h
        have e3 : reached_eof_free rb0 x3.2 := by
          unfold run_split_errors at h3
          split at h3
          · exact passes_reach rb0 fuel _ _ _ e2 (Or.inr (Or.inr (Or.inl h3)))
          · cases h3; exact e2
        unfold run_copy_errors at h
        split at h
        · exact passes_reach rb0 fuel _ _ _ e3 (Or.inr (Or.inr (Or.inr h)))
        · cases h; exact e3

/-- C4 (amended): the conservation `recsize + errsize +` non-tried bytes of the domain `=`
covered bytes of the domain holds when the passes start, after the scan of `do_rescue`, for a
gap-free vector whose Sblocks are split at the borders of the domain.  Every engine step that
does not hit EOF (one work unit of any of the four passes, including the skip-stamping of
pass 1), started in a state where the equality holds on a chunk that the chunk search of the
pass found, ends in a state where it holds, and keeps the vector invariants.  Hence it holds
in every state reached from such a state by engine steps none of which hits EOF.  In an
environment that never signals EOF the result of every pass, and of the pass sequence of
`do_rescue` from its start state, is reached by such steps, so the equality holds there.  After
a step that hits EOF the equality is lost for the rest of the run: the trim pass of the
example performs the EOF unit `[4,6)` and then the unit `[0,2)`, and ends with
`recsize + errsize = 5 + 1` on 5 covered bytes. -/
theorem conservation_until_eof :
    (∀ (rb : Rescuebook) (ides odes : Int), vector_wf rb.sblock_vector = true →
      (∀ x ∈ rb.domain.blocks, x.end_ ≤ rb.domain.end_) →
      domain_split rb.domain rb.sblock_vector →
      conserved (rescue_start rb ides odes).2.2.2) ∧
    (∀ (fuel : Nat) (rb : Rescuebook), vector_wf rb.sblock_vector = true → 0 < rb.hardbs →
      conserved rb →
      (∀ (b0 : Block) (pos skip retval pos1 skip1 : Int) (rb1 : Rescuebook),
        0 < (find_chunk rb.sblock_vector rb.domain b0 .non_tried).size →
        ¬ hits_eof fuel { rb with current_status := .copying }
          (find_chunk rb.sblock_vector rb.domain b0 .non_tried) →
        copy_non_tried_unit fuel rb (find_chunk rb.sblock_vector rb.domain b0 .non_tried)
          pos skip = some (retval, rb1, pos1, skip1) →
        conserved rb1 ∧ vector_wf rb1.sblock_vector = true) ∧
      (∀ (b0 : Block) (retval : Int) (rb1 : Rescuebook),
        0 < (rfind_chunk rb.sblock_vector rb.domain b0 .non_trimmed).size →
        ¬ hits_eof fuel { rb with current_status := .trimming }
          (rfind_chunk rb.sblock_vector rb.domain b0 .non_trimmed) →
        trim_errors_unit fuel rb (rfind_chunk rb.sblock_vector rb.domain b0 .non_trimmed) =
          some (retval, rb1) →
        conserved rb1 ∧ vector_wf rb1.sblock_vector = true) ∧
      (∀ (b0 : Block) (pos ec retval pos1 ec1 : Int) (rb1 : Rescuebook),
        0 < (find_chunk rb.sblock_vector rb.domain b0 .non_split).size →
        ¬ hits_eof fuel { rb with current_status := .splitting }
          (find_chunk rb.sblock_vector rb.domain b0 .non_split) →
        split_errors_unit fuel rb (find_chunk rb.sblock_vector rb.domain b0 .non_split)
          pos ec = some (retval, rb1, pos1, ec1) →
        conserved rb1 ∧ vector_wf rb1.sblock_vector = true) ∧
      (∀ (b0 : Block) (retval : Int) (rb1 : Rescuebook),
        0 < (find_chunk rb.sblock_vector rb.domain b0 .bad_sector).size →
        ¬ hits_eof fuel { rb with current_status := .retrying }
          (find_chunk rb.sblock_vector rb.domain b0 .bad_sector) →
        copy_errors_unit fuel rb (find_chunk rb.sblock_vector rb.domain b0 .bad_sector) =
          some (retval, rb1) →
        conserved rb1 ∧ vector_wf rb1.sblock_vector = true)) ∧
    (∀ (rb0 rb : Rescuebook), vector_wf rb0.sblock_vector = true → 0 < rb0.hardbs →
      conserved rb0 → reached_without_eof rb0 rb →
      conserved rb ∧ vector_wf rb.sblock_vector = true) ∧
    (∀ (fuel : Nat) (rb : Rescuebook) (r : Int) (rb1 : Rescuebook),
      vector_wf rb.sblock_vector = true → 0 < rb.hardbs → conserved rb →
      eof_free rb.world.oracle →
      (copy_non_tried fuel rb = some (r, rb1) ∨ trim_errors fuel rb = some (r, rb1) ∨
        split_errors fuel rb = some (r, rb1) ∨ copy_errors fuel rb = some (r, rb1)) →
      reached_without_eof rb rb1 ∧ conserved rb1 ∧ vector_wf rb1.sblock_vector = true) ∧
    (∀ (fuel : Nat) (rb : Rescuebook) (ides odes r : Int) (rb1 : Rescuebook),
      vector_wf rb.sblock_vector = true → 0 < rb.hardbs →
      (∀ x ∈ rb.domain.blocks, x.end_ ≤ rb.domain.end_) →
      domain_split rb.domain rb.sblock_vector → eof_free rb.world.oracle →
      rescue_passes fuel (rescue_start rb ides odes).2.2.2 (rescue_start rb ides odes).1
        (rescue_start rb ides odes).2.1 (rescue_start rb ides odes).2.2.1 = some (r, rb1) →
      reached_without_eof (rescue_start rb ides odes).2.2.2 rb1 ∧
        conserved rb1 ∧ vector_wf rb1.sblock_vector = true) ∧
    (conserved eof_trim_counted ∧
      pass_summary (trim_errors 20 eof_trim_counted) =
        some (0, [⟨0, 5, .finished⟩], [⟨4, 2⟩, ⟨0, 2⟩], false) ∧
      ¬ conserved (pair_state_of (trim_errors 20 eof_trim_counted) eof_trim_counted)) := by
  refine ⟨?_, ?_, ?_, ?_, ?_, by decide!⟩
  · intro rb ides odes hw hdom hal
    obtain ⟨q, hq⟩ := (vector_wf_iff _).1 hw
    exact rescue_start_conserved rb ides odes q hq hdom hal
  · intro fuel rb hw hh hcons
    obtain ⟨q, hq⟩ := (vector_wf_iff _).1 hw
    refine ⟨?_, ?_, ?_, ?_⟩
    · intro b0 pos skip retval pos1 skip1 rb1 hsz hne hu
      have := copy_non_tried_unit_conserves fuel rb _ pos skip retval pos1 skip1 rb1 q hq hh
        (find_chunk_spec _ _ _ _ hsz) hne hcons hu
      exact ⟨this.1, (vector_wf_iff _).2 ⟨q, this.2⟩⟩
    · intro b0 retval rb1 hsz hne hu
      have := trim_errors_unit_conserves fuel rb _ retval rb1 q hq hh
        (rfind_chunk_spec _ _ _ _ hsz) hne hcons hu
      exact ⟨this.1, (vector_wf_iff _).2 ⟨q, this.2⟩⟩
    · intro b0 pos ec retval pos1 ec1 rb1 hsz hne hu
      have := split_errors_unit_conserves fuel rb _ pos ec retval pos1 ec1 rb1 q hq hh
        (find_chunk_spec _ _ _ _ hsz) hne hcons hu
      exact ⟨this.1, (vector_wf_iff _).2 ⟨q, this.2⟩⟩
    · intro b0 retval rb1 hsz hne hu
      have := copy_errors_unit_conserves fuel rb _ retval rb1 q hq hh
        (find_chunk_spec _ _ _ _ hsz) hne hcons hu
      exact ⟨this.1, (vector_wf_iff _).2 ⟨q, this.2⟩⟩
  · intro rb0 rb hw hh hcons hr
    obtain ⟨q, hq⟩ := (vector_wf_iff _).1 hw
    have key := reached_without_eof_conserved rb0 rb q hq hh hcons hr
    exact ⟨key.1, (vector_wf_iff _).2 ⟨q, key.2.1⟩⟩
  · intro fuel rb r rb1 hw hh hcons ho h
    obtain ⟨q, hq⟩ := (vector_wf_iff _).1 hw
    have hr := (passes_reach rb fuel rb r rb1 ⟨.start, ho⟩ h).1
    have key := reached_without_eof_conserved rb rb1 q hq hh hcons hr
    exact ⟨hr, key.1, (vector_wf_iff _).2 ⟨q, key.2.1⟩⟩
  · intro fuel rb ides odes r rb1 hw hh hdom hal ho h
    obtain ⟨q, hq⟩ := (vector_wf_iff _).1 hw
    obtain ⟨f1, -, f3, f4⟩ := rescue_start_fields rb ides odes
    have hr := (rescue_passes_reach _ fuel _ _ _ _ r rb1 ⟨.start, by rw [f4]; exact ho⟩ h).1
    have key := reached_without_eof_conserved _ rb1 q (by rw [f1]; exact hq)
      (by rw [f3]; exact hh) (rescue_start_conserved rb ides odes q hq hdom hal) hr
    exact ⟨hr, key.1, (vector_wf_iff _).2 ⟨q, key.2.1⟩⟩

theorem conservation_until_eof_witness :
    (conserved (unit_state_of (copy_non_tried_unit 5 short_read_counted ⟨0, 2⟩ 2 2)
        short_read_counted) ∧
      vector_wf (unit_state_of (copy_non_tried_unit 5 short_read_counted ⟨0, 2⟩ 2 2)
        short_read_counted).sblock_vector = true) ∧
    (conserved (pair_state_of (rescue_passes 40 (rescue_start all_fail_book 3 4).2.2.2
        true true true) all_fail_book) ∧
      vector_wf (pair_state_of (rescue_passes 40 (rescue_start all_fail_book 3 4).2.2.2
        true true true) all_fail_book).sblock_vector = true) :=
  ⟨(conservation_until_eof.2.1 5 short_read_counted (by decide) (by decide) (by decide)).1
    ⟨0, 2⟩ 2 2 0 8 65536 _ (by decide)
    (by
      rintro ⟨c, e, rb1, h, hlt⟩
      have h2 : sizes_of (copy_block 5 { short_read_counted with current_status := .copying }
          (find_chunk short_read_counted.sblock_vector short_read_counted.domain ⟨0, 2⟩
            .non_tried)) = some (0, 1, 1) := by decide
      rw [h] at h2
      simp only [sizes_of, Option.map_some', Option.some.injEq, Prod.mk.injEq, true_and] at h2
      have h3 : (find_chunk short_read_counted.sblock_vector short_read_counted.domain ⟨0, 2⟩
          .non_tried).size = 2 := by decide
      omega)
    (by rfl),
   (conservation_until_eof.2.2.2.2.1 40 all_fail_book 3 4 0
    (pair_state_of (rescue_passes 40 (rescue_start all_fail_book 3 4).2.2.2
      true true true) all_fail_book)
    (by decide) (by decide) (by decide)
    (fun sb h => Or.inl ((by decide :
      ∀ sb ∈ all_fail_book.sblock_vector, all_fail_book.domain.includes sb.block = true) sb h))
    eof_free_failing_reads (pair_state_eq _ _ 0 (by decide!))).2⟩

end Ddrescue
